import Mathlib

/-!
# TDAP moving averages with error-mitigating decay

A shallow embedding of `tdap/average.hpp`, `tdap/impl/average-helper.hpp`,
`tdap/impl/average-impl.hpp` and the parts of `tdap/boundaries.hpp` they use,
and of the powers of two of `tdap/bounds.hpp` with their reference in
`test/TestPower2.cpp`.

* `size_t` values are natural numbers. Every history is built by the validated
  constructor, which forces `64 ≤ historySamples ≤ MAX_MAX_WINDOW_SAMPLES` (at
  most `2 ^ 48` for `double`), so none of the index computations of the embedded
  functions can wrap around.
* The sample type `S` of the C++ templates is a linearly ordered field: all
  arithmetic is exact. The library function `exp` is a parameter `exp : S → S`
  of the functions that call it; the predicate `ExactExp` states the laws of the
  exponential function that the proofs use.
* An object is a record; a method takes the record and returns the new record.
  A method that throws returns `Except.error`; unless stated otherwise a throw
  happens before the first assignment, so that the object is left as it was.
  The configuration methods are also given with the object at the throw
  (`setWindowSizeTraced` and the others), to show that this is so.
* A C array (`new S[n]`) is a function from indices to values.
-/

set_option linter.unusedSectionVars false

namespace tdap

/-- Kinds of exception thrown by the embedded code. -/
inductive Error where
  | invalid_argument
  | out_of_range
  | runtime_error
  deriving DecidableEq, Repr

/-- Largest value of a 64 bit `size_t`. -/
def SIZE_MAX : ℕ := 2 ^ 64 - 1

/-- An address of a history object (the value of a `History *`). -/
abbrev Addr := ℕ

/-- The loop `for (size_t i = 0; i < n; i++) body`, on the state `s`. -/
def forLoop {σ : Type} (n : ℕ) (body : ℕ → σ → σ) (s : σ) : σ :=
  (List.range n).foldl (fun acc i => body i acc) s

/-- The loop `for (size_t i = 0; i < n; i++) body` whose body may throw. -/
def forLoopM {σ : Type} (n : ℕ) (body : ℕ → σ → Except Error σ) (s : σ) : Except Error σ :=
  (List.range n).foldlM (fun acc i => body i acc) s

/-- Function `std::max(a, b)`, which is `(a < b) ? b : a`. -/
def stdMax {α : Type} [LT α] [DecidableRel (fun (a b : α) => a < b)] (a b : α) : α :=
  if a < b then b else a

namespace boundaries

/-- Function `is_between` of `boundaries.hpp` for `size_t` arguments. -/
def is_between (value minimum maximum : ℕ) : Bool :=
  decide (value ≥ minimum) && decide (value ≤ maximum)

/-- Function `force_between` of `boundaries.hpp` for `size_t` arguments. -/
def force_between (value minimum maximum : ℕ) : ℕ :=
  if value < minimum then minimum else if value > maximum then maximum else value

/-- Function `minimum` of `boundaries.hpp` for `size_t` arguments. -/
def minimum (value1 value2 : ℕ) : ℕ :=
  if value1 ≤ value2 then value1 else value2

/-- Checked index policy `IndexPolicy::NotGreater::method` (the default build has
`defaultMethodIndexPolicy = true`). -/
def IndexPolicy.NotGreater.method (index high_value : ℕ) : Except Error ℕ :=
  if index ≤ high_value then pure index else throw Error.out_of_range

end boundaries

open boundaries

/-! ## Powers of two (`tdap/bounds.hpp`)

`SIZE_T` is the 64 bit `size_t`: a value is a natural number below `2 ^ 64`,
`value - 1` and `value + 1` wrap around, and `|` and `>>` cannot overflow. -/

namespace Count

/-- Function `__Sized_Count<SIZEOF>::max()`; `Count<T>` is
`__Sized_Count<sizeof(T)>`. -/
def max (SIZEOF : ℕ) : ℕ := SIZE_MAX / SIZEOF

/-- Function `__Sized_Count<SIZEOF>::product(cnt1, cnt2)`:
`cnt1 * cnt1 > 0 && max() / cnt1 >= cnt2 ? cnt1 * cnt2 : 0`, with the products
in `size_t`. The division is made only when `cnt1 * cnt1 > 0`, so `cnt1` is not
zero there. -/
def product (SIZEOF : ℕ) (cnt1 cnt2 : ℕ) : ℕ :=
  if cnt1 * cnt1 % 2 ^ 64 > 0 ∧ max SIZEOF / cnt1 ≥ cnt2 then cnt1 * cnt2 % 2 ^ 64 else 0

end Count

namespace Power2

namespace constant

/-- The compile-time `fillN<N>(n)` of `__PowerOf2__Helper_FillBitsToRight<SIZE_T, true>`. -/
def fillN (N : ℕ) (n : ℕ) : ℕ :=
  if N < 2 then n else fillN (N / 2) n ||| (fillN (N / 2) n >>> (N / 2))
termination_by N
decreasing_by all_goals omega

/-- The compile-time `fill`: `fillN<8 * sizeof(SIZE_T)>(n)`. -/
def fill (n : ℕ) : ℕ := fillN (8 * 8) n

/-- Function `Power2::constant::next`: `fill(value - 1) + 1` in `size_t`. -/
def next (value : ℕ) : ℕ := (fill ((value + 2 ^ 64 - 1) % 2 ^ 64) + 1) % 2 ^ 64

/-- Function `unchecked_aligned`: `(value | (alignment - 1)) + 1` in `size_t`. -/
def unchecked_aligned (value alignment : ℕ) : ℕ :=
  ((value ||| ((alignment + 2 ^ 64 - 1) % 2 ^ 64)) + 1) % 2 ^ 64

/-- Function `minus_one`: `fill(value) == value`. -/
def minus_one (value : ℕ) : Bool := decide (fill value = value)

/-- Function `is`: `value >= 2 ? minus_one(value - 1) : false`. -/
def is (value : ℕ) : Bool := if value ≥ 2 then minus_one (value - 1) else false

/-- Function `previous`: `next(value / 2 + 1)`. -/
def previous (value : ℕ) : ℕ := next (value / 2 + 1)

/-- Function `within`:
`(fill(value & ((powerOfTwo - 1) ^ -1)) | value) & (powerOfTwo - 1)`, where the
`int` constant `-1` is converted to the `size_t` value `2 ^ 64 - 1`. -/
def within (value powerOfTwo : ℕ) : ℕ :=
  (fill (value &&& (((powerOfTwo + 2 ^ 64 - 1) % 2 ^ 64) ^^^ (2 ^ 64 - 1))) ||| value) &&&
    ((powerOfTwo + 2 ^ 64 - 1) % 2 ^ 64)

/-- Function `aligned_with`:
`is(power_of_two) ? unchecked_aligned(value, power_of_two) : 0`. -/
def aligned_with (value power_of_two : ℕ) : ℕ :=
  if is power_of_two then unchecked_aligned value power_of_two else 0

end constant

/-- The loop `for (int N = 1; N < BITS; N *= 2) n |= (n >> N)` of the branchless
`fill`, from the counter `N` on. The counter starts at one and is doubled, so it
is positive throughout; the definition uses this for its termination. -/
def fillFrom (BITS : ℕ) (N n : ℕ) : ℕ :=
  if N < BITS ∧ 0 < N then fillFrom BITS (N * 2) (n ||| (n >>> N)) else n
termination_by BITS - N
decreasing_by all_goals omega

/-- The branchless `fill` of `__PowerOf2__Helper_FillBitsToRight<SIZE_T, false>`,
with `BITS = sizeof(SIZE_T) * 8`. -/
def fill (x : ℕ) : ℕ := fillFrom (8 * 8) 1 x

/-- Function `Power2::next`: `fill(value - 1) + 1` in `size_t`. -/
def next (value : ℕ) : ℕ := (fill ((value + 2 ^ 64 - 1) % 2 ^ 64) + 1) % 2 ^ 64

/-- Function `unchecked_aligned`: `(value | (alignment - 1)) + 1` in `size_t`. -/
def unchecked_aligned (value alignment : ℕ) : ℕ :=
  ((value ||| ((alignment + 2 ^ 64 - 1) % 2 ^ 64)) + 1) % 2 ^ 64

/-- Function `minus_one`: `fill(value) == value`. -/
def minus_one (value : ℕ) : Bool := decide (fill value = value)

/-- Function `is`: `value >= 2 ? minus_one(value - 1) : false`. -/
def is (value : ℕ) : Bool := if value ≥ 2 then minus_one (value - 1) else false

/-- Function `previous`: `next(value / 2 + 1)`. -/
def previous (value : ℕ) : ℕ := next (value / 2 + 1)

/-- Function `within`:
`(fill(value & ((powerOfTwo - 1) ^ -1)) | value) & (powerOfTwo - 1)`, where the
`int` constant `-1` is converted to the `size_t` value `2 ^ 64 - 1`. -/
def within (value powerOfTwo : ℕ) : ℕ :=
  (fill (value &&& (((powerOfTwo + 2 ^ 64 - 1) % 2 ^ 64) ^^^ (2 ^ 64 - 1))) ||| value) &&&
    ((powerOfTwo + 2 ^ 64 - 1) % 2 ^ 64)

/-- Function `aligned_with`:
`is(power_of_two) ? unchecked_aligned(value, power_of_two) : 0`. -/
def aligned_with (value power_of_two : ℕ) : ℕ :=
  if is power_of_two then unchecked_aligned value power_of_two else 0

end Power2

/-- The loop of `nextPowerOfTwoReference` (`test/TestPower2.cpp`), from the
state `previousTest`, `test` on: `while (test < maximumSize && test < size &&
test > previousTest) { previousTest = test; test *= 2; }`, returning `test`.
The loop gets `fuel` tests of its condition; `none` stands for a loop that has
not ended by then. -/
def nextPowerOfTwoReference.loop (maximumSize size : ℕ) : ℕ → ℕ → ℕ → Option ℕ
  | 0, _, _ => none
  | fuel + 1, previousTest, test =>
    if test < maximumSize ∧ test < size ∧ test > previousTest then
      nextPowerOfTwoReference.loop maximumSize size fuel test (test * 2 % 2 ^ 64)
    else some test

/-- Function `nextPowerOfTwoReference` of `test/TestPower2.cpp`, whose loop gets
`fuel` tests of its condition. -/
def nextPowerOfTwoReference (fuel : ℕ) (size : ℕ) : Option ℕ :=
  let maximumSize := Count.max 1
  if size = 0 ∨ size > maximumSize then some 0
  else nextPowerOfTwoReference.loop maximumSize size fuel 0 1

/-- The loop `while (test > size) { test /= 2; }` of
`previousPowerOfTwoReference`, returning `test`. -/
def previousPowerOfTwoReference.loop (size test : ℕ) : ℕ :=
  if test > size then previousPowerOfTwoReference.loop size (test / 2) else test
termination_by test
decreasing_by all_goals omega

/-- Function `previousPowerOfTwoReference` of `test/TestPower2.cpp`; `fuel` is
the fuel of the loop of `nextPowerOfTwoReference`, which it calls. -/
def previousPowerOfTwoReference (fuel : ℕ) (size : ℕ) : Option ℕ :=
  let maximumSize := Count.max 1
  if size = 0 ∨ size > maximumSize then some 0
  else
    match nextPowerOfTwoReference fuel (maximumSize / 2) with
    | none => none
    | some test => some (previousPowerOfTwoReference.loop size test)

namespace average

/-- Template parameters of `HelperForMovingAverageMetricsForInaccurateTypes`.
`epsilonInv` is `1 / numeric_limits<S>::epsilon()`, which is `2 ^ 52` for
`double` and `2 ^ 23` for `float`; the static constants derived from it are
computed exactly and truncated to `size_t`. -/
structure HelperForMovingAverageMetricsForInaccurateTypes where
  SNR_BITS : ℕ
  MIN_ERROR_DECAY_TO_WINDOW_RATIO : ℕ
  epsilonInv : ℕ
  deriving DecidableEq, Repr

namespace HelperForMovingAverageMetricsForInaccurateTypes

def MIN_SNR_BITS : ℕ := 4
def MAX_SNR_BITS : ℕ := 44
def MIN_MIN_ERROR_DECAY_TO_WINDOW_RATIO : ℕ := 1
def MAX_MIN_ERROR_DECAY_TO_WINDOW_RATIO : ℕ := 1000


/-- Static constant `MAX_ERR_MITIGATING_DECAY_SAMPLES`:
`minimum(0.01 / epsilon, SIZE_MAX)` converted to `size_t`. -/
def MAX_ERR_MITIGATING_DECAY_SAMPLES
    (m : HelperForMovingAverageMetricsForInaccurateTypes) : ℕ :=
  minimum (m.epsilonInv / 100) SIZE_MAX

/-- Static constant `MAX_WINDOWS_SIZE_BOUNDARY`. -/
def MAX_WINDOWS_SIZE_BOUNDARY
    (m : HelperForMovingAverageMetricsForInaccurateTypes) : ℕ :=
  m.MAX_ERR_MITIGATING_DECAY_SAMPLES / m.MIN_ERROR_DECAY_TO_WINDOW_RATIO

/-- Static constant `MIN_MAX_WINDOW_SAMPLES`. -/
def MIN_MAX_WINDOW_SAMPLES : ℕ := 64

/-- Static constant `MAX_MAX_WINDOW_SAMPLES`:
`minimum(1.0 / ((1 << SNR_BITS) * epsilon), MAX_WINDOWS_SIZE_BOUNDARY)`. -/
def MAX_MAX_WINDOW_SAMPLES
    (m : HelperForMovingAverageMetricsForInaccurateTypes) : ℕ :=
  minimum (m.epsilonInv / 2 ^ m.SNR_BITS) m.MAX_WINDOWS_SIZE_BOUNDARY

/-- Static constant `MIN_ERR_MITIGATING_DECAY_SAMPLES`. -/
def MIN_ERR_MITIGATING_DECAY_SAMPLES
    (m : HelperForMovingAverageMetricsForInaccurateTypes) : ℕ :=
  m.MIN_ERROR_DECAY_TO_WINDOW_RATIO * MIN_MAX_WINDOW_SAMPLES

/-- The two `static_assert`s on the template parameters. -/
def staticAsserts (m : HelperForMovingAverageMetricsForInaccurateTypes) : Prop :=
  (m.SNR_BITS ≥ MIN_SNR_BITS ∧ m.SNR_BITS ≤ MAX_SNR_BITS) ∧
    is_between m.MIN_ERROR_DECAY_TO_WINDOW_RATIO MIN_MIN_ERROR_DECAY_TO_WINDOW_RATIO
      MAX_MIN_ERROR_DECAY_TO_WINDOW_RATIO = true

def isValidWindowSizeInSamples
    (m : HelperForMovingAverageMetricsForInaccurateTypes) (samples : ℕ) : Bool :=
  is_between samples MIN_MAX_WINDOW_SAMPLES m.MAX_MAX_WINDOW_SAMPLES

def validWindowSizeInSamples
    (m : HelperForMovingAverageMetricsForInaccurateTypes) (samples : ℕ) : Except Error ℕ :=
  if m.isValidWindowSizeInSamples samples then pure samples
  else throw Error.invalid_argument

def isValidErrorMitigatingDecaySamples
    (m : HelperForMovingAverageMetricsForInaccurateTypes) (samples : ℕ) : Bool :=
  is_between samples m.MIN_ERR_MITIGATING_DECAY_SAMPLES m.MAX_ERR_MITIGATING_DECAY_SAMPLES

def validErrorMitigatingDecaySamples
    (m : HelperForMovingAverageMetricsForInaccurateTypes) (samples : ℕ) : Except Error ℕ :=
  if m.isValidErrorMitigatingDecaySamples samples then pure samples
  else throw Error.invalid_argument

end HelperForMovingAverageMetricsForInaccurateTypes

/-- The default template arguments for `S = double`: `SNR_BITS = 20`,
`MIN_ERROR_DECAY_TO_WINDOW_RATIO = 10`, `epsilon = 2 ^ (-52)`. -/
def doubleMetrics : HelperForMovingAverageMetricsForInaccurateTypes :=
  { SNR_BITS := 20, MIN_ERROR_DECAY_TO_WINDOW_RATIO := 10, epsilonInv := 2 ^ 52 }

/-- Data members of class `BaseHistoryAndEmdForTrueFloatingPointMovingAverage`.
`history_` is the array allocated with `new S[historySamples]`: only the
indices below `historySamples_` are allocated. -/
structure BaseHistoryAndEmdForTrueFloatingPointMovingAverage (S : Type) where
  historySamples_ : ℕ
  history_ : ℕ → S
  emdSamples_ : ℕ
  emdFactor_ : S
  historyEndPtr_ : ℕ
  writePtr_ : ℕ

namespace BaseHistoryAndEmdForTrueFloatingPointMovingAverage

variable {S : Type} [LinearOrderedField S]

/-- The protected constructor. `memory` is the content of the freshly
allocated, uninitialised array. -/
def construct (exp : S → S) (memory : ℕ → S) (historySamples emdSamples : ℕ) :
    BaseHistoryAndEmdForTrueFloatingPointMovingAverage S :=
  { historySamples_ := historySamples
    history_ := memory
    emdSamples_ := emdSamples
    emdFactor_ := exp (-1 / (emdSamples : S))
    historyEndPtr_ := historySamples - 1
    writePtr_ := 0 }

def historySize (h : BaseHistoryAndEmdForTrueFloatingPointMovingAverage S) : ℕ :=
  h.historySamples_

def emdSamples (h : BaseHistoryAndEmdForTrueFloatingPointMovingAverage S) : ℕ :=
  h.emdSamples_

def writePtr (h : BaseHistoryAndEmdForTrueFloatingPointMovingAverage S) : ℕ :=
  h.writePtr_

def maxWindowSamples (h : BaseHistoryAndEmdForTrueFloatingPointMovingAverage S) : ℕ :=
  h.historyEndPtr_ + 1

def emdFactor (h : BaseHistoryAndEmdForTrueFloatingPointMovingAverage S) : S :=
  h.emdFactor_

/-- Method `setNextPtr`, returning the new value of the referenced pointer. -/
def setNextPtr (h : BaseHistoryAndEmdForTrueFloatingPointMovingAverage S) (ptr : ℕ) : ℕ :=
  if ptr > 0 then ptr - 1 else h.historyEndPtr_

def getRelative (h : BaseHistoryAndEmdForTrueFloatingPointMovingAverage S) (delta : ℕ) : ℕ :=
  (h.writePtr_ + delta) % (h.historyEndPtr_ + 1)

/-- Method `getHistoryValue`: the value read and the new value of `readPtr`. -/
def getHistoryValue (h : BaseHistoryAndEmdForTrueFloatingPointMovingAverage S)
    (readPtr : ℕ) : S × ℕ :=
  (h.history_ readPtr, h.setNextPtr readPtr)

/-- Method `get(size_t index)`. -/
def get (h : BaseHistoryAndEmdForTrueFloatingPointMovingAverage S) (index : ℕ) :
    Except Error S := do
  let i ← IndexPolicy.NotGreater.method index h.historyEndPtr_
  pure (h.history_ i)

/-- Method `set(size_t index, S value)`. -/
def set (h : BaseHistoryAndEmdForTrueFloatingPointMovingAverage S) (index : ℕ) (value : S) :
    Except Error (BaseHistoryAndEmdForTrueFloatingPointMovingAverage S) := do
  let i ← IndexPolicy.NotGreater.method index h.historyEndPtr_
  pure { h with history_ := Function.update h.history_ i value }

def write (h : BaseHistoryAndEmdForTrueFloatingPointMovingAverage S) (value : S) :
    BaseHistoryAndEmdForTrueFloatingPointMovingAverage S :=
  { h with
    history_ := Function.update h.history_ h.writePtr_ value
    writePtr_ := h.setNextPtr h.writePtr_ }

/-- Method `optimiseForMaximumWindowSamples`: the new object and the returned
flag. -/
def optimiseForMaximumWindowSamples (h : BaseHistoryAndEmdForTrueFloatingPointMovingAverage S)
    (samples : ℕ) : BaseHistoryAndEmdForTrueFloatingPointMovingAverage S × Bool :=
  let newHistoryEnd := force_between samples 4 h.maxWindowSamples - 1
  if newHistoryEnd ≠ h.historyEndPtr_ then
    ({ h with historyEndPtr_ := newHistoryEnd }, true)
  else (h, false)

/-- Method `fillWithAverage`: the loop `for (i = 0; i <= historyEndPtr_; i++)`
assigns `average` to `history_[i]`. -/
def fillWithAverage (h : BaseHistoryAndEmdForTrueFloatingPointMovingAverage S) (average : S) :
    BaseHistoryAndEmdForTrueFloatingPointMovingAverage S :=
  { h with
    history_ := forLoop (h.historyEndPtr_ + 1)
      (fun i mem => Function.update mem i average) h.history_ }

end BaseHistoryAndEmdForTrueFloatingPointMovingAverage

/-- Data members of class `WindowForTrueFloatingPointMovingAverage`; `history_`
is the pointer to the history (`none` is `nullptr`). The methods that
dereference the pointer take the object it points to as the argument `h`. -/
structure WindowForTrueFloatingPointMovingAverage (S : Type) where
  history_ : Option Addr
  windowSamples_ : ℕ
  inputFactor_ : S
  historyFactor_ : S
  readPtr_ : ℕ
  average_ : S

namespace WindowForTrueFloatingPointMovingAverage

variable {S : Type} [LinearOrderedField S]

/-- The constructor `WindowForTrueFloatingPointMovingAverage(history)`, with the
default member initialisers; the default constructor is `construct none`. -/
def construct (history : Option Addr) : WindowForTrueFloatingPointMovingAverage S :=
  { history_ := history
    windowSamples_ := 1
    inputFactor_ := 1
    historyFactor_ := 1
    readPtr_ := 1
    average_ := 0 }

def setOwner (w : WindowForTrueFloatingPointMovingAverage S) (history : Option Addr) :
    Except Error (WindowForTrueFloatingPointMovingAverage S) :=
  if w.history_ = none then pure { w with history_ := history }
  else throw Error.runtime_error

def isOwnedBy (w : WindowForTrueFloatingPointMovingAverage S) (owner : Option Addr) : Bool :=
  decide (owner = w.history_)

def getAverage (w : WindowForTrueFloatingPointMovingAverage S) : S := w.average_

def windowSamples (w : WindowForTrueFloatingPointMovingAverage S) : ℕ := w.windowSamples_

def getReadPtr (w : WindowForTrueFloatingPointMovingAverage S) : ℕ := w.readPtr_

def setAverage (w : WindowForTrueFloatingPointMovingAverage S) (average : S) :
    WindowForTrueFloatingPointMovingAverage S :=
  { w with average_ := average }

def setReadPtr (w : WindowForTrueFloatingPointMovingAverage S)
    (h : BaseHistoryAndEmdForTrueFloatingPointMovingAverage S) :
    Except Error (WindowForTrueFloatingPointMovingAverage S) :=
  if w.windowSamples_ ≤ h.maxWindowSamples then
    pure { w with readPtr_ := h.getRelative w.windowSamples_ }
  else throw Error.runtime_error

def setWindowSamples (exp : S → S) (w : WindowForTrueFloatingPointMovingAverage S)
    (h : BaseHistoryAndEmdForTrueFloatingPointMovingAverage S) (windowSamples : ℕ) :
    Except Error (WindowForTrueFloatingPointMovingAverage S) :=
  if w.history_ = none then throw Error.runtime_error
  else if !is_between windowSamples 1 h.maxWindowSamples then throw Error.runtime_error
  else
    let unscaledHistoryDecayFactor : S := exp (-1 * (windowSamples : S) / (h.emdSamples : S))
    let inputFactor : S := (1 - h.emdFactor) / (1 - unscaledHistoryDecayFactor)
    setReadPtr
      { w with
        windowSamples_ := windowSamples
        inputFactor_ := inputFactor
        historyFactor_ := inputFactor * unscaledHistoryDecayFactor } h

def addInput (w : WindowForTrueFloatingPointMovingAverage S)
    (h : BaseHistoryAndEmdForTrueFloatingPointMovingAverage S) (input : S) :
    WindowForTrueFloatingPointMovingAverage S :=
  let r := h.getHistoryValue w.readPtr_
  { w with
    readPtr_ := r.2
    average_ := h.emdFactor * w.average_ + w.inputFactor_ * input - w.historyFactor_ * r.1 }

end WindowForTrueFloatingPointMovingAverage

/-- Class `ScaledWindowForTrueFloatingPointMovingAverage`: the base class object
and the member `scale_`. -/
structure ScaledWindowForTrueFloatingPointMovingAverage (S : Type) extends
    WindowForTrueFloatingPointMovingAverage S where
  scale_ : S

namespace ScaledWindowForTrueFloatingPointMovingAverage

variable {S : Type} [LinearOrderedField S]

/-- The constructors: `construct none` is the default constructor. -/
def construct (history : Option Addr) : ScaledWindowForTrueFloatingPointMovingAverage S :=
  { toWindowForTrueFloatingPointMovingAverage :=
      WindowForTrueFloatingPointMovingAverage.construct history
    scale_ := 1 }

/-- Method `setScale`, returning the new object (the C++ return value is the
argument). -/
def setScale (w : ScaledWindowForTrueFloatingPointMovingAverage S) (scale : S) :
    ScaledWindowForTrueFloatingPointMovingAverage S :=
  if |scale| < 1 / 10 ^ 12 then { w with scale_ := 0 }
  else if scale > 10 ^ 12 then { w with scale_ := scale }
  else if scale < -(10 ^ 12) then { w with scale_ := -(10 ^ 12) }
  else { w with scale_ := scale }

def scale (w : ScaledWindowForTrueFloatingPointMovingAverage S) : S := w.scale_

def setWindowSamplesAndScale (exp : S → S) (w : ScaledWindowForTrueFloatingPointMovingAverage S)
    (h : BaseHistoryAndEmdForTrueFloatingPointMovingAverage S) (windowSamples : ℕ) (scale : S) :
    Except Error (ScaledWindowForTrueFloatingPointMovingAverage S) := do
  let base ← w.toWindowForTrueFloatingPointMovingAverage.setWindowSamples exp h windowSamples
  pure (setScale { w with toWindowForTrueFloatingPointMovingAverage := base } scale)

/-- The scaled `getAverage` of the derived class. -/
def getAverage (w : ScaledWindowForTrueFloatingPointMovingAverage S) : S :=
  w.scale_ * w.toWindowForTrueFloatingPointMovingAverage.getAverage

def setOutput (w : ScaledWindowForTrueFloatingPointMovingAverage S) (outputValue : S) :
    ScaledWindowForTrueFloatingPointMovingAverage S :=
  { w with
    toWindowForTrueFloatingPointMovingAverage :=
      w.toWindowForTrueFloatingPointMovingAverage.setAverage
        (if w.scale_ ≠ 0 then outputValue / w.scale_ else outputValue) }

/-- The inherited `setAverage`. -/
def setAverage (w : ScaledWindowForTrueFloatingPointMovingAverage S) (average : S) :
    ScaledWindowForTrueFloatingPointMovingAverage S :=
  { w with
    toWindowForTrueFloatingPointMovingAverage :=
      w.toWindowForTrueFloatingPointMovingAverage.setAverage average }

/-- The inherited `setOwner`. -/
def setOwner (w : ScaledWindowForTrueFloatingPointMovingAverage S) (history : Option Addr) :
    Except Error (ScaledWindowForTrueFloatingPointMovingAverage S) := do
  let base ← w.toWindowForTrueFloatingPointMovingAverage.setOwner history
  pure { w with toWindowForTrueFloatingPointMovingAverage := base }

/-- The inherited `setReadPtr`. -/
def setReadPtr (w : ScaledWindowForTrueFloatingPointMovingAverage S)
    (h : BaseHistoryAndEmdForTrueFloatingPointMovingAverage S) :
    Except Error (ScaledWindowForTrueFloatingPointMovingAverage S) := do
  let base ← w.toWindowForTrueFloatingPointMovingAverage.setReadPtr h
  pure { w with toWindowForTrueFloatingPointMovingAverage := base }

/-- The inherited `addInput`. -/
def addInput (w : ScaledWindowForTrueFloatingPointMovingAverage S)
    (h : BaseHistoryAndEmdForTrueFloatingPointMovingAverage S) (input : S) :
    ScaledWindowForTrueFloatingPointMovingAverage S :=
  { w with
    toWindowForTrueFloatingPointMovingAverage :=
      w.toWindowForTrueFloatingPointMovingAverage.addInput h input }

end ScaledWindowForTrueFloatingPointMovingAverage

namespace HistoryAndEmdForTrueFloatingPointMovingAverage

variable {S : Type} [LinearOrderedField S]

def validWindowSize (m : HelperForMovingAverageMetricsForInaccurateTypes)
    (emdSamples windowSize : ℕ) : Except Error ℕ := do
  let v ← m.validWindowSizeInSamples windowSize
  if v < emdSamples /
      HelperForMovingAverageMetricsForInaccurateTypes.MIN_MIN_ERROR_DECAY_TO_WINDOW_RATIO then
    pure windowSize
  else throw Error.invalid_argument

/-- The validating constructor of the derived history class: it evaluates
`validWindowSize(validErrorMitigatingDecaySamples(emdSamples), historySamples)`
and passes the result to the base class constructor. -/
def construct (m : HelperForMovingAverageMetricsForInaccurateTypes) (exp : S → S)
    (memory : ℕ → S) (historySamples emdSamples : ℕ) :
    Except Error (BaseHistoryAndEmdForTrueFloatingPointMovingAverage S) := do
  let e ← m.validErrorMitigatingDecaySamples emdSamples
  let n ← validWindowSize m e historySamples
  pure (BaseHistoryAndEmdForTrueFloatingPointMovingAverage.construct exp memory n emdSamples)

end HistoryAndEmdForTrueFloatingPointMovingAverage

/-- Data members of class `TrueFloatingPointWeightedMovingAverage`, the
single-window engine. -/
structure TrueFloatingPointWeightedMovingAverage (S : Type) where
  history : BaseHistoryAndEmdForTrueFloatingPointMovingAverage S
  window : WindowForTrueFloatingPointMovingAverage S

namespace TrueFloatingPointWeightedMovingAverage

variable {S : Type} [LinearOrderedField S]

/-- The constructor. `here` is the address of the member `history` and
`memory` the content of the uninitialised array that the history allocates. -/
def construct (m : HelperForMovingAverageMetricsForInaccurateTypes) (exp : S → S)
    (here : Addr) (memory : ℕ → S) (maxWindowSize emdSamples : ℕ) :
    Except Error (TrueFloatingPointWeightedMovingAverage S) := do
  let history ←
    HistoryAndEmdForTrueFloatingPointMovingAverage.construct m exp memory maxWindowSize emdSamples
  let window ←
    (WindowForTrueFloatingPointMovingAverage.construct (some here)).setWindowSamples
      exp history maxWindowSize
  pure { history := history, window := window }

/-- The private method `optimiseForMaximumSamples`. Its call of `setReadPtr`
comes after the change of the history, but it does not throw: a changed
logical length is at least the window size (`setWindowSize_ok_iff`). -/
def optimiseForMaximumSamples (e : TrueFloatingPointWeightedMovingAverage S) :
    Except Error (TrueFloatingPointWeightedMovingAverage S) :=
  let r := e.history.optimiseForMaximumWindowSamples e.window.windowSamples
  if r.2 then do
    let w ← e.window.setReadPtr r.1
    pure { history := r.1, window := w }
  else pure { e with history := r.1 }

def setAverage (e : TrueFloatingPointWeightedMovingAverage S) (average : S) :
    TrueFloatingPointWeightedMovingAverage S :=
  { history := e.history.fillWithAverage average
    window := e.window.setAverage average }

def setWindowSize (exp : S → S) (e : TrueFloatingPointWeightedMovingAverage S)
    (windowSamples : ℕ) : Except Error (TrueFloatingPointWeightedMovingAverage S) := do
  let w ← e.window.setWindowSamples exp e.history windowSamples
  optimiseForMaximumSamples { e with window := w }

def addInput (e : TrueFloatingPointWeightedMovingAverage S) (input : S) :
    TrueFloatingPointWeightedMovingAverage S :=
  { window := e.window.addInput e.history input
    history := e.history.write input }

def getAverage (e : TrueFloatingPointWeightedMovingAverage S) : S := e.window.getAverage

def getReadPtr (e : TrueFloatingPointWeightedMovingAverage S) : ℕ := e.window.getReadPtr

def getWritePtr (e : TrueFloatingPointWeightedMovingAverage S) : ℕ := e.history.writePtr

def getNextHistoryValue (e : TrueFloatingPointWeightedMovingAverage S) : S :=
  e.history.history_ e.window.getReadPtr

/-- The engine after `k` calls of `addInput`, with the inputs `x 0`, ...,
`x (k - 1)` in this order. -/
def addInputs (e : TrueFloatingPointWeightedMovingAverage S) (x : ℕ → S) :
    ℕ → TrueFloatingPointWeightedMovingAverage S
  | 0 => e
  | k + 1 => (addInputs e x k).addInput (x k)

end TrueFloatingPointWeightedMovingAverage

/-- Data members of class `TrueFloatingPointWeightedMovingAverageSet`, the
multi-window set; `entry_` is the array `new Window[entries_]`. -/
structure TrueFloatingPointWeightedMovingAverageSet (S : Type) where
  entries_ : ℕ
  entry_ : ℕ → ScaledWindowForTrueFloatingPointMovingAverage S
  usedWindows_ : ℕ
  history_ : BaseHistoryAndEmdForTrueFloatingPointMovingAverage S

namespace TrueFloatingPointWeightedMovingAverageSet

variable {S : Type} [LinearOrderedField S]

def MINIMUM_TIME_CONSTANTS : ℕ := 1
def MAXIMUM_TIME_CONSTANTS : ℕ := 32

def validMaxTimeConstants (constants : ℕ) : Except Error ℕ :=
  if is_between constants MINIMUM_TIME_CONSTANTS MAXIMUM_TIME_CONSTANTS then pure constants
  else throw Error.invalid_argument

def getMaxWindows (t : TrueFloatingPointWeightedMovingAverageSet S) : ℕ := t.entries_

def getUsedWindows (t : TrueFloatingPointWeightedMovingAverageSet S) : ℕ := t.usedWindows_

def getMaxWindowSamples (t : TrueFloatingPointWeightedMovingAverageSet S) : ℕ :=
  t.history_.historySize

def checkWindowIndex (t : TrueFloatingPointWeightedMovingAverageSet S) (index : ℕ) :
    Except Error ℕ :=
  if index < t.getUsedWindows then pure index else throw Error.out_of_range

/-- The private method `optimiseForMaximumSamples`. Its calls of `setReadPtr`
come after the change of the history, but they do not throw: a changed logical
length is at least the size of every active window. -/
def optimiseForMaximumSamples (t : TrueFloatingPointWeightedMovingAverageSet S) :
    Except Error (TrueFloatingPointWeightedMovingAverageSet S) :=
  let maximumSamples :=
    forLoop t.usedWindows_ (fun i acc => max acc (t.entry_ i).windowSamples) 0
  let r := t.history_.optimiseForMaximumWindowSamples maximumSamples
  if r.2 then do
    let entry ← forLoopM t.usedWindows_
      (fun i entry => do
        let w ← (entry i).setReadPtr r.1
        pure (Function.update entry i w)) t.entry_
    pure { t with entry_ := entry, history_ := r.1 }
  else pure { t with history_ := r.1 }

/-- The constructor. `here` is the address of the member `history_` and
`memory` the content of the uninitialised array that the history allocates. -/
def construct (m : HelperForMovingAverageMetricsForInaccurateTypes) (exp : S → S)
    (here : Addr) (memory : ℕ → S)
    (maxWindowSamples errorMitigatingTimeConstant maxTimeConstants : ℕ) (average : S) :
    Except Error (TrueFloatingPointWeightedMovingAverageSet S) := do
  let entries ← validMaxTimeConstants maxTimeConstants
  let history ← HistoryAndEmdForTrueFloatingPointMovingAverage.construct m exp memory
    maxWindowSamples errorMitigatingTimeConstant
  let history := history.fillWithAverage average
  let entry ← forLoopM entries
    (fun i entry => do
      let w ← (entry i).setOwner (some here)
      let w := w.setAverage 0
      let w ← w.setWindowSamplesAndScale exp history ((i + 1) * maxWindowSamples / entries) 1
      pure (Function.update entry i w))
    (fun _ => ScaledWindowForTrueFloatingPointMovingAverage.construct none)
  pure { entries_ := entries, entry_ := entry, usedWindows_ := entries, history_ := history }

def setUsedWindows (t : TrueFloatingPointWeightedMovingAverageSet S) (windows : ℕ) :
    Except Error (TrueFloatingPointWeightedMovingAverageSet S) :=
  if windows > 0 ∧ windows ≤ t.getMaxWindows then
    optimiseForMaximumSamples { t with usedWindows_ := windows }
  else throw Error.out_of_range

def setWindowSizeAndScale (exp : S → S) (t : TrueFloatingPointWeightedMovingAverageSet S)
    (index windowSamples : ℕ) (scale : S) :
    Except Error (TrueFloatingPointWeightedMovingAverageSet S) :=
  if windowSamples > t.getMaxWindowSamples then throw Error.out_of_range
  else do
    let i ← t.checkWindowIndex index
    let w ← (t.entry_ i).setWindowSamplesAndScale exp t.history_ windowSamples scale
    optimiseForMaximumSamples { t with entry_ := Function.update t.entry_ i w }

/-- Method `setAverages`. The second loop calls the checked `set` for every
index below `historySize()` and stops at the first call that throws; the
assignments made before that remain, so the object is returned together with
the outcome. -/
def setAverages (t : TrueFloatingPointWeightedMovingAverageSet S) (average : S) :
    TrueFloatingPointWeightedMovingAverageSet S × Except Error Unit :=
  let entry := forLoop t.entries_
    (fun i entry => Function.update entry i ((entry i).setAverage average)) t.entry_
  let r := forLoop t.history_.historySize
    (fun i (acc : BaseHistoryAndEmdForTrueFloatingPointMovingAverage S × Except Error Unit) =>
      match acc.2 with
      | Except.error _ => acc
      | Except.ok _ =>
        match acc.1.set i average with
        | Except.ok h => (h, Except.ok ())
        | Except.error err => (acc.1, Except.error err))
    (t.history_, Except.ok ())
  ({ t with entry_ := entry, history_ := r.1 }, r.2)

def getAverage (t : TrueFloatingPointWeightedMovingAverageSet S) (index : ℕ) :
    Except Error S := do
  let i ← t.checkWindowIndex index
  pure (t.entry_ i).getAverage

def getWindowSize (t : TrueFloatingPointWeightedMovingAverageSet S) (index : ℕ) :
    Except Error ℕ := do
  let i ← t.checkWindowIndex index
  pure (t.entry_ i).windowSamples

def getWindowScale (t : TrueFloatingPointWeightedMovingAverageSet S) (index : ℕ) :
    Except Error S := do
  let _ ← t.checkWindowIndex index
  pure (t.entry_ index).scale

/-- The window updates of `addInput`, made for the indices of `order` one after
the other; the loop of `addInput` is `updateWindows` with the order
`0, 1, ..., getUsedWindows() - 1`. -/
def updateWindows (h : BaseHistoryAndEmdForTrueFloatingPointMovingAverage S) (input : S)
    (order : List ℕ) (entry : ℕ → ScaledWindowForTrueFloatingPointMovingAverage S) :
    ℕ → ScaledWindowForTrueFloatingPointMovingAverage S :=
  order.foldl (fun acc i => Function.update acc i ((acc i).addInput h input)) entry

def addInput (t : TrueFloatingPointWeightedMovingAverageSet S) (input : S) :
    TrueFloatingPointWeightedMovingAverageSet S :=
  let entry := forLoop t.getUsedWindows
    (fun i entry => Function.update entry i ((entry i).addInput t.history_ input)) t.entry_
  { t with entry_ := entry, history_ := t.history_.write input }

/-- Method `addInputGetMax`: the new object and the returned value. -/
def addInputGetMax (t : TrueFloatingPointWeightedMovingAverageSet S) (input minimumValue : S) :
    TrueFloatingPointWeightedMovingAverageSet S × S :=
  let r := forLoop t.getUsedWindows
    (fun i (acc : (ℕ → ScaledWindowForTrueFloatingPointMovingAverage S) × S) =>
      let entry := (acc.1 i).addInput t.history_ input
      let v1 := entry.getAverage
      (Function.update acc.1 i entry, stdMax v1 acc.2))
    (t.entry_, minimumValue)
  ({ t with entry_ := r.1, history_ := t.history_.write input }, r.2)

/-- The set after `k` calls of `addInput`, with the inputs `x 0`, ...,
`x (k - 1)` in this order. -/
def addInputs (t : TrueFloatingPointWeightedMovingAverageSet S) (x : ℕ → S) :
    ℕ → TrueFloatingPointWeightedMovingAverageSet S
  | 0 => t
  | k + 1 => (addInputs t x k).addInput (x k)

end TrueFloatingPointWeightedMovingAverageSet

/-! ## The configuration methods, with the object at a throw

The configuration methods once more, assignment by assignment: each of the
functions below returns the object as it is when the method returns or throws,
together with the outcome. -/

section AtThrow

variable {S : Type} [LinearOrderedField S]

/-- The outcome of a method that returns the object together with the outcome,
as a value of `Except`: the object is dropped at a throw. -/
def dropAtThrow {σ : Type} (r : σ × Except Error Unit) : Except Error σ :=
  match r.2 with
  | Except.ok _ => Except.ok r.1
  | Except.error err => Except.error err

namespace WindowForTrueFloatingPointMovingAverage

/-- Method `setReadPtr`, with the object at the throw. -/
def setReadPtrTraced (w : WindowForTrueFloatingPointMovingAverage S)
    (h : BaseHistoryAndEmdForTrueFloatingPointMovingAverage S) :
    WindowForTrueFloatingPointMovingAverage S × Except Error Unit :=
  if w.windowSamples_ ≤ h.maxWindowSamples then
    ({ w with readPtr_ := h.getRelative w.windowSamples_ }, Except.ok ())
  else (w, Except.error Error.runtime_error)

/-- Method `setWindowSamples`, with the object at the throw: the two checks
come before the assignments, the call of `setReadPtr` comes after them. -/
def setWindowSamplesTraced (exp : S → S) (w : WindowForTrueFloatingPointMovingAverage S)
    (h : BaseHistoryAndEmdForTrueFloatingPointMovingAverage S) (windowSamples : ℕ) :
    WindowForTrueFloatingPointMovingAverage S × Except Error Unit :=
  if w.history_ = none then (w, Except.error Error.runtime_error)
  else if !is_between windowSamples 1 h.maxWindowSamples then
    (w, Except.error Error.runtime_error)
  else
    let unscaledHistoryDecayFactor : S := exp (-1 * (windowSamples : S) / (h.emdSamples : S))
    let inputFactor : S := (1 - h.emdFactor) / (1 - unscaledHistoryDecayFactor)
    setReadPtrTraced
      { w with
        windowSamples_ := windowSamples
        inputFactor_ := inputFactor
        historyFactor_ := inputFactor * unscaledHistoryDecayFactor } h

/-- Method `setOwner`, with the object at the throw. -/
def setOwnerTraced (w : WindowForTrueFloatingPointMovingAverage S) (history : Option Addr) :
    WindowForTrueFloatingPointMovingAverage S × Except Error Unit :=
  if w.history_ = none then ({ w with history_ := history }, Except.ok ())
  else (w, Except.error Error.runtime_error)

end WindowForTrueFloatingPointMovingAverage

namespace ScaledWindowForTrueFloatingPointMovingAverage

/-- The inherited `setReadPtr`, with the object at the throw. -/
def setReadPtrTraced (w : ScaledWindowForTrueFloatingPointMovingAverage S)
    (h : BaseHistoryAndEmdForTrueFloatingPointMovingAverage S) :
    ScaledWindowForTrueFloatingPointMovingAverage S × Except Error Unit :=
  let r := w.toWindowForTrueFloatingPointMovingAverage.setReadPtrTraced h
  ({ w with toWindowForTrueFloatingPointMovingAverage := r.1 }, r.2)

/-- Method `setWindowSamplesAndScale`, with the object at the throw. -/
def setWindowSamplesAndScaleTraced (exp : S → S)
    (w : ScaledWindowForTrueFloatingPointMovingAverage S)
    (h : BaseHistoryAndEmdForTrueFloatingPointMovingAverage S) (windowSamples : ℕ) (scale : S) :
    ScaledWindowForTrueFloatingPointMovingAverage S × Except Error Unit :=
  let r := w.toWindowForTrueFloatingPointMovingAverage.setWindowSamplesTraced exp h windowSamples
  match r.2 with
  | Except.ok _ =>
    (setScale { w with toWindowForTrueFloatingPointMovingAverage := r.1 } scale, Except.ok ())
  | Except.error err =>
    ({ w with toWindowForTrueFloatingPointMovingAverage := r.1 }, Except.error err)

end ScaledWindowForTrueFloatingPointMovingAverage

namespace TrueFloatingPointWeightedMovingAverage

/-- The private method `optimiseForMaximumSamples` of the single-window engine,
with the object at the throw. -/
def optimiseForMaximumSamplesTraced (e : TrueFloatingPointWeightedMovingAverage S) :
    TrueFloatingPointWeightedMovingAverage S × Except Error Unit :=
  let r := e.history.optimiseForMaximumWindowSamples e.window.windowSamples
  if r.2 then
    let w := e.window.setReadPtrTraced r.1
    ({ history := r.1, window := w.1 }, w.2)
  else ({ e with history := r.1 }, Except.ok ())

/-- Method `setWindowSize` of the single-window engine, with the object at the
throw. -/
def setWindowSizeTraced (exp : S → S) (e : TrueFloatingPointWeightedMovingAverage S)
    (windowSamples : ℕ) : TrueFloatingPointWeightedMovingAverage S × Except Error Unit :=
  let w := e.window.setWindowSamplesTraced exp e.history windowSamples
  match w.2 with
  | Except.ok _ => optimiseForMaximumSamplesTraced { e with window := w.1 }
  | Except.error err => ({ e with window := w.1 }, Except.error err)

end TrueFloatingPointWeightedMovingAverage

namespace TrueFloatingPointWeightedMovingAverageSet

/-- The private method `optimiseForMaximumSamples` of the multi-window set, with
the object at the throw: the second loop stops at the first call of
`setReadPtr` that throws. -/
def optimiseForMaximumSamplesTraced (t : TrueFloatingPointWeightedMovingAverageSet S) :
    TrueFloatingPointWeightedMovingAverageSet S × Except Error Unit :=
  let maximumSamples :=
    forLoop t.usedWindows_ (fun i acc => max acc (t.entry_ i).windowSamples) 0
  let r := t.history_.optimiseForMaximumWindowSamples maximumSamples
  if r.2 then
    let l := forLoop t.usedWindows_
      (fun i (acc : (ℕ → ScaledWindowForTrueFloatingPointMovingAverage S) × Except Error Unit) =>
        match acc.2 with
        | Except.error _ => acc
        | Except.ok _ =>
          let w := (acc.1 i).setReadPtrTraced r.1
          (Function.update acc.1 i w.1, w.2))
      (t.entry_, Except.ok ())
    ({ t with entry_ := l.1, history_ := r.1 }, l.2)
  else ({ t with history_ := r.1 }, Except.ok ())

/-- Method `setUsedWindows`, with the object at the throw. -/
def setUsedWindowsTraced (t : TrueFloatingPointWeightedMovingAverageSet S) (windows : ℕ) :
    TrueFloatingPointWeightedMovingAverageSet S × Except Error Unit :=
  if windows > 0 ∧ windows ≤ t.getMaxWindows then
    optimiseForMaximumSamplesTraced { t with usedWindows_ := windows }
  else (t, Except.error Error.out_of_range)

/-- Method `setWindowSizeAndScale`, with the object at the throw. -/
def setWindowSizeAndScaleTraced (exp : S → S) (t : TrueFloatingPointWeightedMovingAverageSet S)
    (index windowSamples : ℕ) (scale : S) :
    TrueFloatingPointWeightedMovingAverageSet S × Except Error Unit :=
  if windowSamples > t.getMaxWindowSamples then (t, Except.error Error.out_of_range)
  else
    match t.checkWindowIndex index with
    | Except.error err => (t, Except.error err)
    | Except.ok i =>
      let w := (t.entry_ i).setWindowSamplesAndScaleTraced exp t.history_ windowSamples scale
      match w.2 with
      | Except.ok _ =>
        optimiseForMaximumSamplesTraced { t with entry_ := Function.update t.entry_ i w.1 }
      | Except.error err =>
        ({ t with entry_ := Function.update t.entry_ i w.1 }, Except.error err)

/-- The largest size among the active windows, as the first loop of
`optimiseForMaximumSamples` computes it. -/
def maximumSamples (t : TrueFloatingPointWeightedMovingAverageSet S) : ℕ :=
  forLoop t.usedWindows_ (fun i acc => max acc (t.entry_ i).windowSamples) 0

/-- The state that `optimiseForMaximumSamples` leaves, in closed form
(`optimiseForMaximumSamples_eq` shows that it is): the logical length is
`maximumSamples` forced between four and the logical length before, and the
read cursors of the active windows are set anew when, and only when, the
logical length has changed. -/
def reoptimised (t : TrueFloatingPointWeightedMovingAverageSet S) :
    TrueFloatingPointWeightedMovingAverageSet S :=
  { t with
    history_ :=
      { t.history_ with
        historyEndPtr_ := force_between t.maximumSamples 4 (t.history_.historyEndPtr_ + 1) - 1 }
    entry_ := fun j =>
      if force_between t.maximumSamples 4 (t.history_.historyEndPtr_ + 1) - 1 ≠
          t.history_.historyEndPtr_ ∧ j < t.usedWindows_ then
        { t.entry_ j with
          toWindowForTrueFloatingPointMovingAverage :=
            { (t.entry_ j).toWindowForTrueFloatingPointMovingAverage with
              readPtr_ := (t.history_.writePtr_ + (t.entry_ j).windowSamples_) %
                (force_between t.maximumSamples 4 (t.history_.historyEndPtr_ + 1) - 1 + 1) } }
      else t.entry_ j }

end TrueFloatingPointWeightedMovingAverageSet

end AtThrow

/-! ## Notions used to state the properties -/

section Notions

variable {S : Type} [LinearOrderedField S]

/-- Exact arithmetic: `exp` obeys the laws of the real exponential function. -/
structure ExactExp (exp : S → S) : Prop where
  add : ∀ x y : S, exp (x + y) = exp x * exp y
  pos : ∀ x : S, 0 < exp x
  lt_one : ∀ x : S, x < 0 → exp x < 1
  one_add_le : ∀ x : S, 1 + x ≤ exp x

/-- One sample for a window `hw.2` that reads the history `hw.1`: the window
takes the input, then the input is written to the history. This is the body of
`addInput` of the single-window engine, and what `addInput` of the multi-window
set does for each of its active windows. -/
def sampleStep (hw : BaseHistoryAndEmdForTrueFloatingPointMovingAverage S ×
    WindowForTrueFloatingPointMovingAverage S) (input : S) :
    BaseHistoryAndEmdForTrueFloatingPointMovingAverage S ×
      WindowForTrueFloatingPointMovingAverage S :=
  (hw.1.write input, hw.2.addInput hw.1 input)

/-- The history and window after the samples `x 0`, ..., `x (k - 1)`. -/
def sampleRun (hw : BaseHistoryAndEmdForTrueFloatingPointMovingAverage S ×
    WindowForTrueFloatingPointMovingAverage S) (x : ℕ → S) :
    ℕ → BaseHistoryAndEmdForTrueFloatingPointMovingAverage S ×
      WindowForTrueFloatingPointMovingAverage S
  | 0 => hw
  | k + 1 => sampleStep (sampleRun hw x k) (x k)

/-- The sample that was given `j` calls before the latest one, when `k` samples
`x 0`, ..., `x (k - 1)` were given to a history that held `a` in every slot
before: `lastSample a x k 0` is the latest sample. -/
def lastSample (a : S) (x : ℕ → S) (k j : ℕ) : S :=
  if j < k then x (k - 1 - j) else a

/-- The weighted sum that the window maintains: the sample given `j` calls
before the latest one has the weight `inputFactor * emdFactor ^ j`. -/
def decayingAverage (inputFactor emdFactor a : S) (x : ℕ → S) (k n : ℕ) : S :=
  inputFactor * ∑ j in Finset.range n, emdFactor ^ j * lastSample a x k j

/-- The window `w` is bound and its coefficients are those that
`setWindowSamples` computes for its `windowSamples_` from the history `h`. -/
def Configured (exp : S → S) (h : BaseHistoryAndEmdForTrueFloatingPointMovingAverage S)
    (w : WindowForTrueFloatingPointMovingAverage S) : Prop :=
  w.history_ ≠ none ∧ 0 < h.emdSamples_ ∧ h.emdFactor_ = exp (-1 / (h.emdSamples_ : S)) ∧
    1 ≤ w.windowSamples_ ∧
    w.inputFactor_ = (1 - h.emdFactor_) /
      (1 - exp (-1 * (w.windowSamples_ : S) / (h.emdSamples_ : S))) ∧
    w.historyFactor_ = w.inputFactor_ * exp (-1 * (w.windowSamples_ : S) / (h.emdSamples_ : S))

/-- The window `w` is configured and in step with the history `h`: the write
cursor is inside the live ring, the window fits, and the read cursor is
`windowSamples_` positions behind the write cursor. -/
def InStep (exp : S → S) (h : BaseHistoryAndEmdForTrueFloatingPointMovingAverage S)
    (w : WindowForTrueFloatingPointMovingAverage S) : Prop :=
  Configured exp h w ∧ h.writePtr_ ≤ h.historyEndPtr_ ∧
    w.windowSamples_ ≤ h.historyEndPtr_ + 1 ∧ w.readPtr_ = h.getRelative w.windowSamples_

/-- The live ring of `h` holds the latest samples of the sequence `v`, of which
`T` were given: the slot `d` positions behind the write cursor holds `v (T - d)`. -/
def Holds (h : BaseHistoryAndEmdForTrueFloatingPointMovingAverage S) (v : ℕ → S) (T : ℕ) :
    Prop :=
  h.historyEndPtr_ + 1 ≤ T ∧
    ∀ d, 1 ≤ d → d ≤ h.historyEndPtr_ + 1 → h.history_ (h.getRelative d) = v (T - d)

/-- The average of the window `w` is the weighted sum of the latest
`windowSamples_` samples of the sequence `v`, of which `T` were given. -/
def AverageIs (h : BaseHistoryAndEmdForTrueFloatingPointMovingAverage S)
    (w : WindowForTrueFloatingPointMovingAverage S) (v : ℕ → S) (T : ℕ) : Prop :=
  w.average_ = w.inputFactor_ *
    ∑ j in Finset.range w.windowSamples_, h.emdFactor_ ^ j * v (T - 1 - j)

/-- The window `w` follows the sequence `v` through the history `h`. -/
def Tracks (exp : S → S) (h : BaseHistoryAndEmdForTrueFloatingPointMovingAverage S)
    (w : WindowForTrueFloatingPointMovingAverage S) (v : ℕ → S) (T : ℕ) : Prop :=
  InStep exp h w ∧ Holds h v T ∧ AverageIs h w v T

/-- The sequence that has `a` at its first `L` places and the samples `x`
after them. -/
def seededWith (a : S) (L : ℕ) (x : ℕ → S) (i : ℕ) : S :=
  if i < L then a else x (i - L)

namespace TrueFloatingPointWeightedMovingAverage

/-- What holds in every state of a single-window engine: the window is
configured for its size and fits in the live ring, the read cursor is where
`getRelative` puts it, and the live ring has at least four slots and at most
the allocated ones, fewer than `emdSamples`. -/
def Invariant (exp : S → S) (e : TrueFloatingPointWeightedMovingAverage S) : Prop :=
  Configured exp e.history e.window ∧
    e.window.windowSamples_ ≤ e.history.historyEndPtr_ + 1 ∧
    e.window.readPtr_ = e.history.getRelative e.window.windowSamples_ ∧
    4 ≤ e.history.historyEndPtr_ + 1 ∧
    e.history.historyEndPtr_ + 1 ≤ e.history.historySamples_ ∧
    e.history.historySamples_ < e.history.emdSamples_

/-- The states that a single-window engine can be in: the states that its
constructor returns and the states that its public methods lead to. A call of
`setWindowSize` that throws leaves the state as it was. -/
inductive Reachable (m : HelperForMovingAverageMetricsForInaccurateTypes) (exp : S → S) :
    TrueFloatingPointWeightedMovingAverage S → Prop where
  | construct (here : Addr) (memory : ℕ → S) (maxWindowSize emdSamples : ℕ)
      (e : TrueFloatingPointWeightedMovingAverage S)
      (h : construct m exp here memory maxWindowSize emdSamples = Except.ok e) : Reachable m exp e
  | setAverage (e : TrueFloatingPointWeightedMovingAverage S) (average : S)
      (h : Reachable m exp e) : Reachable m exp (e.setAverage average)
  | setWindowSize (e e' : TrueFloatingPointWeightedMovingAverage S) (windowSamples : ℕ)
      (h : Reachable m exp e) (h' : setWindowSize exp e windowSamples = Except.ok e') :
      Reachable m exp e'
  | addInput (e : TrueFloatingPointWeightedMovingAverage S) (input : S)
      (h : Reachable m exp e) : Reachable m exp (e.addInput input)

end TrueFloatingPointWeightedMovingAverage

namespace TrueFloatingPointWeightedMovingAverageSet

/-- The multi-window set before the first input, with all its windows active:
the write cursor is at zero, the live ring has at least four slots and at most
the allocated ones, and every window is in step with the shared history. -/
def Sized (exp : S → S) (t : TrueFloatingPointWeightedMovingAverageSet S) : Prop :=
  t.history_.writePtr_ = 0 ∧ 4 ≤ t.history_.historyEndPtr_ + 1 ∧
    t.history_.historyEndPtr_ + 1 ≤ t.history_.historySamples_ ∧
    t.usedWindows_ = t.entries_ ∧
    ∀ i, i < t.usedWindows_ →
      InStep exp t.history_ (t.entry_ i).toWindowForTrueFloatingPointMovingAverage

/-- The states of a multi-window set that was built with the error-mitigating
decay `emdSamples` and whose window sizes and scales were then set by calls of
`setWindowSizeAndScale`, before any input. A call that throws leaves the state
as it was. -/
inductive ConfiguredBeforeInput (m : HelperForMovingAverageMetricsForInaccurateTypes)
    (exp : S → S) (emdSamples : ℕ) : TrueFloatingPointWeightedMovingAverageSet S → Prop where
  | construct (here : Addr) (memory : ℕ → S) (maxWindowSamples maxTimeConstants : ℕ)
      (average : S) (t : TrueFloatingPointWeightedMovingAverageSet S)
      (h : construct m exp here memory maxWindowSamples emdSamples maxTimeConstants average =
        Except.ok t) : ConfiguredBeforeInput m exp emdSamples t
  | setWindowSizeAndScale (t t' : TrueFloatingPointWeightedMovingAverageSet S)
      (index windowSamples : ℕ) (scale : S) (h : ConfiguredBeforeInput m exp emdSamples t)
      (h' : setWindowSizeAndScale exp t index windowSamples scale = Except.ok t') :
      ConfiguredBeforeInput m exp emdSamples t'

/-- What holds in every state of a multi-window set: between one and
`entries_` windows are active, the live ring has at least four slots and at
most the allocated ones, the write cursor is below the allocated size, and
every window of the array is bound, has a size between one and the allocated
size and a read cursor below the allocated size. -/
def Invariant (t : TrueFloatingPointWeightedMovingAverageSet S) : Prop :=
  1 ≤ t.usedWindows_ ∧ t.usedWindows_ ≤ t.entries_ ∧
    4 ≤ t.history_.historyEndPtr_ + 1 ∧
    t.history_.historyEndPtr_ + 1 ≤ t.history_.historySamples_ ∧
    t.history_.writePtr_ < t.history_.historySamples_ ∧
    ∀ j, j < t.entries_ →
      (t.entry_ j).history_ ≠ none ∧ 1 ≤ (t.entry_ j).windowSamples_ ∧
        (t.entry_ j).windowSamples_ ≤ t.history_.historySamples_ ∧
        (t.entry_ j).readPtr_ < t.history_.historySamples_

/-- The states that a multi-window set can be in: the states that its
constructor returns and the states that its public methods lead to. A call of
`setUsedWindows` or `setWindowSizeAndScale` that throws leaves the state as it
was; a call of `setAverages` that throws leaves the state it has reached. -/
inductive Reachable (m : HelperForMovingAverageMetricsForInaccurateTypes) (exp : S → S) :
    TrueFloatingPointWeightedMovingAverageSet S → Prop where
  | construct (here : Addr) (memory : ℕ → S)
      (maxWindowSamples errorMitigatingTimeConstant maxTimeConstants : ℕ)
      (average : S) (t : TrueFloatingPointWeightedMovingAverageSet S)
      (h : construct m exp here memory maxWindowSamples errorMitigatingTimeConstant
        maxTimeConstants average = Except.ok t) : Reachable m exp t
  | setUsedWindows (t t' : TrueFloatingPointWeightedMovingAverageSet S) (windows : ℕ)
      (h : Reachable m exp t) (h' : setUsedWindows t windows = Except.ok t') :
      Reachable m exp t'
  | setWindowSizeAndScale (t t' : TrueFloatingPointWeightedMovingAverageSet S)
      (index windowSamples : ℕ) (scale : S) (h : Reachable m exp t)
      (h' : setWindowSizeAndScale exp t index windowSamples scale = Except.ok t') :
      Reachable m exp t'
  | setAverages (t : TrueFloatingPointWeightedMovingAverageSet S) (average : S)
      (h : Reachable m exp t) : Reachable m exp (t.setAverages average).1
  | addInput (t : TrueFloatingPointWeightedMovingAverageSet S) (input : S)
      (h : Reachable m exp t) : Reachable m exp (t.addInput input)
  | addInputGetMax (t : TrueFloatingPointWeightedMovingAverageSet S) (input minimumValue : S)
      (h : Reachable m exp t) : Reachable m exp (t.addInputGetMax input minimumValue).1

end TrueFloatingPointWeightedMovingAverageSet

namespace BaseHistoryAndEmdForTrueFloatingPointMovingAverage

/-- One operation on a history: `write`, `fillWithAverage`, a `set` that
returns, or `optimiseForMaximumWindowSamples`. A `set` that throws leaves the
history as it was. -/
def Step (h h' : BaseHistoryAndEmdForTrueFloatingPointMovingAverage S) : Prop :=
  (∃ v, h' = h.write v) ∨ (∃ a, h' = h.fillWithAverage a) ∨
    (∃ i v, h.set i v = Except.ok h') ∨ (∃ n, h' = (h.optimiseForMaximumWindowSamples n).1)

end BaseHistoryAndEmdForTrueFloatingPointMovingAverage

namespace TrueFloatingPointWeightedMovingAverage

/-- One operation on a single-window engine: `setAverage`, `setWindowSize`
(whether it returns or throws: `e'` is the engine after the call) or
`addInput`. -/
def Step (exp : S → S) (e e' : TrueFloatingPointWeightedMovingAverage S) : Prop :=
  (∃ a, e' = e.setAverage a) ∨ (∃ n, e' = (setWindowSizeTraced exp e n).1) ∨
    (∃ x, e' = e.addInput x)

end TrueFloatingPointWeightedMovingAverage

namespace TrueFloatingPointWeightedMovingAverageSet

/-- One operation on a multi-window set: `setUsedWindows`,
`setWindowSizeAndScale`, `setAverages` (each whether it returns or throws: `t'`
is the set after the call), `addInput` or `addInputGetMax`. -/
def Step (exp : S → S) (t t' : TrueFloatingPointWeightedMovingAverageSet S) : Prop :=
  (∃ k, t' = (t.setUsedWindowsTraced k).1) ∨
    (∃ i n s, t' = (setWindowSizeAndScaleTraced exp t i n s).1) ∨
    (∃ a, t' = (t.setAverages a).1) ∨ (∃ x, t' = t.addInput x) ∨
    (∃ x floor, t' = (t.addInputGetMax x floor).1)

end TrueFloatingPointWeightedMovingAverageSet

end Notions

/-! ## Arithmetic of the coefficients -/

section Coefficients

variable {S : Type} [LinearOrderedField S]

theorem ExactExp.zero {exp : S → S} (hexp : ExactExp exp) : exp 0 = 1 := by
  have h := hexp.add 0 0
  have hp := hexp.pos 0
  rw [add_zero] at h
  have : exp 0 * (exp 0 - 1) = 0 := by linear_combination -h
  rcases mul_eq_zero.mp this with h0 | h1
  · exact absurd h0 hp.ne'
  · linarith

theorem ExactExp.nat_mul {exp : S → S} (hexp : ExactExp exp) (x : S) (n : ℕ) :
    exp ((n : S) * x) = exp x ^ n := by
  induction n with
  | zero => simp [hexp.zero]
  | succ k ih =>
    have : ((k + 1 : ℕ) : S) * x = (k : S) * x + x := by push_cast; ring
    rw [this, hexp.add, ih, pow_succ]

/-- The decay over a window, `exp(-windowSamples / emdSamples)`, is the
`windowSamples`-th power of `emdFactor = exp(-1 / emdSamples)`. -/
theorem ExactExp.decay_eq_pow {exp : S → S} (hexp : ExactExp exp) (n E : ℕ) :
    exp (-1 * (n : S) / (E : S)) = exp (-1 / (E : S)) ^ n := by
  rw [← hexp.nat_mul]
  congr 1
  ring

theorem ExactExp.emd_lt_one {exp : S → S} (hexp : ExactExp exp) {E : ℕ} (hE : 0 < E) :
    exp (-1 / (E : S)) < 1 := by
  apply hexp.lt_one
  have : (0 : S) < (E : S) := by exact_mod_cast hE
  exact div_neg_of_neg_of_pos (by norm_num) this

theorem ExactExp.one_sub_emdFactor_le {exp : S → S} (hexp : ExactExp exp) (E : ℕ) :
    1 - exp (-1 / (E : S)) ≤ 1 / (E : S) := by
  have h := hexp.one_add_le (-1 / (E : S))
  have : -1 / (E : S) = -(1 / (E : S)) := by ring
  rw [this] at h ⊢
  linarith

/-- The real exponential function is exact. -/
theorem realExp_exact : ExactExp Real.exp where
  add := Real.exp_add
  pos := Real.exp_pos
  lt_one := fun _ hx => Real.exp_lt_one_iff.mpr hx
  one_add_le := fun x => by
    have := Real.add_one_le_exp x
    linarith

end Coefficients

/-! ## The ring of the history -/

section Ring

variable {S : Type}

namespace BaseHistoryAndEmdForTrueFloatingPointMovingAverage

theorem setNextPtr_succ_mod (h : BaseHistoryAndEmdForTrueFloatingPointMovingAverage S) (a : ℕ) :
    h.setNextPtr ((a + 1) % (h.historyEndPtr_ + 1)) = a % (h.historyEndPtr_ + 1) := by
  have hr : a % (h.historyEndPtr_ + 1) < h.historyEndPtr_ + 1 := Nat.mod_lt _ (Nat.succ_pos _)
  have hm : (a + 1) % (h.historyEndPtr_ + 1) =
      (a % (h.historyEndPtr_ + 1) + 1) % (h.historyEndPtr_ + 1) := (Nat.mod_add_mod _ _ _).symm
  unfold setNextPtr
  rcases Nat.lt_or_ge (a % (h.historyEndPtr_ + 1) + 1) (h.historyEndPtr_ + 1) with hlt | hge
  · rw [hm, Nat.mod_eq_of_lt hlt]
    simp
  · have heq : a % (h.historyEndPtr_ + 1) + 1 = h.historyEndPtr_ + 1 := by omega
    rw [hm, heq, Nat.mod_self]
    simp
    omega

theorem setNextPtr_le (h : BaseHistoryAndEmdForTrueFloatingPointMovingAverage S) {p : ℕ}
    (hp : p ≤ h.historyEndPtr_) : h.setNextPtr p ≤ h.historyEndPtr_ := by
  unfold setNextPtr
  split <;> omega

theorem getRelative_le (h : BaseHistoryAndEmdForTrueFloatingPointMovingAverage S) (d : ℕ) :
    h.getRelative d ≤ h.historyEndPtr_ :=
  Nat.lt_succ_iff.mp (Nat.mod_lt _ (Nat.succ_pos _))

theorem getRelative_zero (h : BaseHistoryAndEmdForTrueFloatingPointMovingAverage S)
    (hw : h.writePtr_ ≤ h.historyEndPtr_) : h.getRelative 0 = h.writePtr_ := by
  unfold getRelative
  rw [Nat.add_zero]
  exact Nat.mod_eq_of_lt (by omega)

theorem getRelative_ne_writePtr (h : BaseHistoryAndEmdForTrueFloatingPointMovingAverage S)
    (hw : h.writePtr_ ≤ h.historyEndPtr_) {d : ℕ} (h1 : 1 ≤ d) (h2 : d ≤ h.historyEndPtr_) :
    h.getRelative d ≠ h.writePtr_ := by
  unfold getRelative
  rcases Nat.lt_or_ge (h.writePtr_ + d) (h.historyEndPtr_ + 1) with hlt | hge
  · rw [Nat.mod_eq_of_lt hlt]
    omega
  · rw [Nat.mod_eq_sub_mod hge, Nat.mod_eq_of_lt (by omega)]
    omega

theorem write_historyEndPtr (h : BaseHistoryAndEmdForTrueFloatingPointMovingAverage S) (x : S) :
    (h.write x).historyEndPtr_ = h.historyEndPtr_ := rfl

theorem write_writePtr (h : BaseHistoryAndEmdForTrueFloatingPointMovingAverage S) (x : S) :
    (h.write x).writePtr_ = h.setNextPtr h.writePtr_ := rfl

theorem write_history (h : BaseHistoryAndEmdForTrueFloatingPointMovingAverage S) (x : S) :
    (h.write x).history_ = Function.update h.history_ h.writePtr_ x := rfl

/-- After a write the slot `d` positions behind the write cursor is the slot
that was `d - 1` positions behind it before. -/
theorem write_getRelative (h : BaseHistoryAndEmdForTrueFloatingPointMovingAverage S) (x : S)
    {d : ℕ} (hd : 1 ≤ d) : (h.write x).getRelative d = h.getRelative (d - 1) := by
  unfold getRelative
  rw [write_writePtr, write_historyEndPtr]
  unfold setNextPtr
  split
  · congr 1
    omega
  · have hz : h.writePtr_ = 0 := by omega
    rw [hz, Nat.zero_add,
      show h.historyEndPtr_ + d = d - 1 + (h.historyEndPtr_ + 1) from by omega, Nat.add_mod_right]

end BaseHistoryAndEmdForTrueFloatingPointMovingAverage

open BaseHistoryAndEmdForTrueFloatingPointMovingAverage in
theorem Holds.write {h : BaseHistoryAndEmdForTrueFloatingPointMovingAverage S} {v : ℕ → S}
    {T : ℕ} (hh : Holds h v T) (hw : h.writePtr_ ≤ h.historyEndPtr_) :
    Holds (h.write (v T)) v (T + 1) := by
  obtain ⟨hT, hv⟩ := hh
  refine ⟨by rw [write_historyEndPtr]; omega, ?_⟩
  intro d h1 h2
  rw [write_historyEndPtr] at h2
  rw [write_getRelative h _ h1, write_history]
  rcases Nat.eq_or_lt_of_le h1 with heq | hlt
  · subst heq
    rw [Nat.sub_self, getRelative_zero h hw, Function.update_same, Nat.add_sub_cancel]
  · rw [Function.update_noteq (getRelative_ne_writePtr h hw (by omega) (by omega)),
      hv (d - 1) (by omega) (by omega)]
    congr 1
    omega

end Ring

/-! ## A window that follows the history -/

section Tracking

variable {S : Type} [LinearOrderedField S]

open BaseHistoryAndEmdForTrueFloatingPointMovingAverage

theorem Configured.emdFactor_pos {exp : S → S} (hexp : ExactExp exp)
    {h : BaseHistoryAndEmdForTrueFloatingPointMovingAverage S}
    {w : WindowForTrueFloatingPointMovingAverage S} (hc : Configured exp h w) :
    0 < h.emdFactor_ := by
  rw [hc.2.2.1]
  exact hexp.pos _

theorem Configured.emdFactor_lt_one {exp : S → S} (hexp : ExactExp exp)
    {h : BaseHistoryAndEmdForTrueFloatingPointMovingAverage S}
    {w : WindowForTrueFloatingPointMovingAverage S} (hc : Configured exp h w) :
    h.emdFactor_ < 1 := by
  rw [hc.2.2.1]
  exact hexp.emd_lt_one hc.2.1

theorem Configured.inputFactor_eq {exp : S → S} (hexp : ExactExp exp)
    {h : BaseHistoryAndEmdForTrueFloatingPointMovingAverage S}
    {w : WindowForTrueFloatingPointMovingAverage S} (hc : Configured exp h w) :
    w.inputFactor_ = (1 - h.emdFactor_) / (1 - h.emdFactor_ ^ w.windowSamples_) := by
  rw [hc.2.2.2.2.1, hexp.decay_eq_pow, ← hc.2.2.1]

theorem Configured.historyFactor_eq {exp : S → S} (hexp : ExactExp exp)
    {h : BaseHistoryAndEmdForTrueFloatingPointMovingAverage S}
    {w : WindowForTrueFloatingPointMovingAverage S} (hc : Configured exp h w) :
    w.historyFactor_ = w.inputFactor_ * h.emdFactor_ ^ w.windowSamples_ := by
  rw [hc.2.2.2.2.2, hexp.decay_eq_pow, ← hc.2.2.1]

theorem Configured.decay_lt_one {exp : S → S} (hexp : ExactExp exp)
    {h : BaseHistoryAndEmdForTrueFloatingPointMovingAverage S}
    {w : WindowForTrueFloatingPointMovingAverage S} (hc : Configured exp h w) :
    h.emdFactor_ ^ w.windowSamples_ < 1 :=
  pow_lt_one₀ (hc.emdFactor_pos hexp).le (hc.emdFactor_lt_one hexp)
    (Nat.pos_iff_ne_zero.mp hc.2.2.2.1)

theorem Configured.inputFactor_pos {exp : S → S} (hexp : ExactExp exp)
    {h : BaseHistoryAndEmdForTrueFloatingPointMovingAverage S}
    {w : WindowForTrueFloatingPointMovingAverage S} (hc : Configured exp h w) :
    0 < w.inputFactor_ := by
  rw [hc.inputFactor_eq hexp]
  exact div_pos (sub_pos.mpr (hc.emdFactor_lt_one hexp)) (sub_pos.mpr (hc.decay_lt_one hexp))

/-- The weights `inputFactor * emdFactor ^ j` of a window add up to one. -/
theorem Configured.weights_sum {exp : S → S} (hexp : ExactExp exp)
    {h : BaseHistoryAndEmdForTrueFloatingPointMovingAverage S}
    {w : WindowForTrueFloatingPointMovingAverage S} (hc : Configured exp h w) :
    w.inputFactor_ * ∑ j in Finset.range w.windowSamples_, h.emdFactor_ ^ j = 1 := by
  have hq := hc.emdFactor_lt_one hexp
  have hp := hc.decay_lt_one hexp
  rw [hc.inputFactor_eq hexp, geom_sum_eq hq.ne]
  have h1 : (1 : S) - h.emdFactor_ ^ w.windowSamples_ ≠ 0 := (sub_pos.mpr hp).ne'
  have h2 : h.emdFactor_ - 1 ≠ 0 := (sub_neg.mpr hq).ne
  field_simp
  ring

/-- The identity behind the steady state:
`inputFactor - historyFactor = 1 - emdFactor`. -/
theorem Configured.inputFactor_sub_historyFactor {exp : S → S} (hexp : ExactExp exp)
    {h : BaseHistoryAndEmdForTrueFloatingPointMovingAverage S}
    {w : WindowForTrueFloatingPointMovingAverage S} (hc : Configured exp h w) :
    w.inputFactor_ - w.historyFactor_ = 1 - h.emdFactor_ := by
  have hp := hc.decay_lt_one hexp
  have h1 : (1 : S) - h.emdFactor_ ^ w.windowSamples_ ≠ 0 := (sub_pos.mpr hp).ne'
  rw [hc.historyFactor_eq hexp, hc.inputFactor_eq hexp]
  field_simp
  ring

theorem InStep.step_inStep {exp : S → S} {h : BaseHistoryAndEmdForTrueFloatingPointMovingAverage S}
    {w : WindowForTrueFloatingPointMovingAverage S} (hs : InStep exp h w) (x : S) :
    InStep exp (h.write x) (w.addInput h x) := by
  obtain ⟨hc, hw, hn, hr⟩ := hs
  have hn1 : 1 ≤ w.windowSamples_ := hc.2.2.2.1
  refine ⟨hc, setNextPtr_le h hw, hn, ?_⟩
  show h.setNextPtr w.readPtr_ = (h.write x).getRelative w.windowSamples_
  rw [write_getRelative h x hn1, hr]
  unfold getRelative
  have := setNextPtr_succ_mod h (h.writePtr_ + (w.windowSamples_ - 1))
  rwa [show h.writePtr_ + (w.windowSamples_ - 1) + 1 = h.writePtr_ + w.windowSamples_ from by
    omega] at this

theorem AverageIs.step_average {exp : S → S} (hexp : ExactExp exp)
    {h : BaseHistoryAndEmdForTrueFloatingPointMovingAverage S}
    {w : WindowForTrueFloatingPointMovingAverage S} {v : ℕ → S} {T : ℕ}
    (hs : InStep exp h w) (hh : Holds h v T) (ha : AverageIs h w v T) :
    AverageIs (h.write (v T)) (w.addInput h (v T)) v (T + 1) := by
  obtain ⟨hc, hw, hn, hr⟩ := hs
  have hn1 : 1 ≤ w.windowSamples_ := hc.2.2.2.1
  have hread : h.history_ w.readPtr_ = v (T - w.windowSamples_) := by
    rw [hr]
    exact hh.2 _ hn1 hn
  have e1 := Finset.sum_range_succ (fun j => h.emdFactor_ ^ j * v (T - j)) w.windowSamples_
  have e2 := Finset.sum_range_succ' (fun j => h.emdFactor_ ^ j * v (T - j)) w.windowSamples_
  have e3 : ∑ j in Finset.range w.windowSamples_, h.emdFactor_ ^ (j + 1) * v (T - (j + 1)) =
      h.emdFactor_ * ∑ j in Finset.range w.windowSamples_, h.emdFactor_ ^ j * v (T - 1 - j) := by
    rw [Finset.mul_sum]
    refine Finset.sum_congr rfl fun j _ => ?_
    rw [show T - (j + 1) = T - 1 - j from by omega, pow_succ]
    ring
  simp only [pow_zero, one_mul, Nat.sub_zero] at e2
  rw [e3] at e2
  have key : h.emdFactor_ * ∑ j in Finset.range w.windowSamples_, h.emdFactor_ ^ j * v (T - 1 - j)
      + v T = ∑ j in Finset.range w.windowSamples_, h.emdFactor_ ^ j * v (T - j)
        + h.emdFactor_ ^ w.windowSamples_ * v (T - w.windowSamples_) := by
    rw [← e1, e2]
  unfold AverageIs at ha ⊢
  show h.emdFactor_ * w.average_ + w.inputFactor_ * v T - w.historyFactor_ * h.history_ w.readPtr_
    = w.inputFactor_ * ∑ j in Finset.range w.windowSamples_, h.emdFactor_ ^ j * v (T + 1 - 1 - j)
  rw [hread, hc.historyFactor_eq hexp, ha]
  simp only [Nat.add_sub_cancel]
  linear_combination w.inputFactor_ * key

theorem Tracks.step_tracks {exp : S → S} (hexp : ExactExp exp)
    {h : BaseHistoryAndEmdForTrueFloatingPointMovingAverage S}
    {w : WindowForTrueFloatingPointMovingAverage S} {v : ℕ → S} {T : ℕ}
    (ht : Tracks exp h w v T) : Tracks exp (h.write (v T)) (w.addInput h (v T)) v (T + 1) :=
  ⟨ht.1.step_inStep _, ht.2.1.write ht.1.2.1, AverageIs.step_average hexp ht.1 ht.2.1 ht.2.2⟩

theorem InStep.run_inStep {exp : S → S}
    {hw : BaseHistoryAndEmdForTrueFloatingPointMovingAverage S ×
      WindowForTrueFloatingPointMovingAverage S} (hs : InStep exp hw.1 hw.2) (x : ℕ → S)
    (k : ℕ) : InStep exp (sampleRun hw x k).1 (sampleRun hw x k).2 := by
  induction k with
  | zero => exact hs
  | succ k ih => exact ih.step_inStep _

theorem Tracks.run_tracks {exp : S → S} (hexp : ExactExp exp)
    {hw : BaseHistoryAndEmdForTrueFloatingPointMovingAverage S ×
      WindowForTrueFloatingPointMovingAverage S} {v : ℕ → S} {T : ℕ}
    (ht : Tracks exp hw.1 hw.2 v T) (x : ℕ → S) (hx : ∀ i, v (T + i) = x i) (k : ℕ) :
    Tracks exp (sampleRun hw x k).1 (sampleRun hw x k).2 v (T + k) := by
  induction k with
  | zero => exact ht
  | succ k ih =>
    have := ih.step_tracks hexp
    rw [hx k] at this
    exact this

end Tracking

/-! ## The outcome of the configuration calls -/

section Outcome

variable {S : Type} [LinearOrderedField S]
open BaseHistoryAndEmdForTrueFloatingPointMovingAverage

theorem forLoop_succ {σ : Type} (n : ℕ) (body : ℕ → σ → σ) (s : σ) :
    forLoop (n + 1) body s = body n (forLoop n body s) := by
  simp [forLoop, List.range_succ]

theorem forLoop_zero {σ : Type} (body : ℕ → σ → σ) (s : σ) : forLoop 0 body s = s := rfl

theorem forLoop_update_const {α : Type} (n : ℕ) (a : α) (mem : ℕ → α) (j : ℕ) :
    forLoop n (fun i f => Function.update f i a) mem j = if j < n then a else mem j := by
  induction n with
  | zero => simp [forLoop_zero]
  | succ n ih =>
    rw [forLoop_succ]
    by_cases hj : j = n
    · subst hj
      simp
    · rw [Function.update_noteq hj, ih]
      have : (j < n + 1) ↔ (j < n) := by omega
      simp [this]

theorem construct_ok_iff (m : HelperForMovingAverageMetricsForInaccurateTypes) (exp : S → S)
    (memory : ℕ → S) (historySamples emdSamples : ℕ)
    (h : BaseHistoryAndEmdForTrueFloatingPointMovingAverage S) :
    HistoryAndEmdForTrueFloatingPointMovingAverage.construct m exp memory historySamples emdSamples
      = Except.ok h ↔
    m.isValidErrorMitigatingDecaySamples emdSamples = true ∧
      m.isValidWindowSizeInSamples historySamples = true ∧ historySamples < emdSamples ∧
      h = BaseHistoryAndEmdForTrueFloatingPointMovingAverage.construct exp memory historySamples
        emdSamples := by
  unfold HistoryAndEmdForTrueFloatingPointMovingAverage.construct
    HistoryAndEmdForTrueFloatingPointMovingAverage.validWindowSize
    HelperForMovingAverageMetricsForInaccurateTypes.validErrorMitigatingDecaySamples
    HelperForMovingAverageMetricsForInaccurateTypes.validWindowSizeInSamples
    HelperForMovingAverageMetricsForInaccurateTypes.MIN_MIN_ERROR_DECAY_TO_WINDOW_RATIO
  by_cases h1 : m.isValidErrorMitigatingDecaySamples emdSamples = true
  · by_cases h2 : m.isValidWindowSizeInSamples historySamples = true
    · by_cases h3 : historySamples < emdSamples
      · simp [h1, h2, h3, bind, Except.bind, pure, Except.pure, eq_comm]
      · simp [h1, h2, h3, bind, Except.bind, pure, Except.pure, throw, throwThe, MonadExceptOf.throw]
    · simp [h1, h2, bind, Except.bind, pure, Except.pure, throw, throwThe, MonadExceptOf.throw]
  · simp [h1, bind, Except.bind, pure, Except.pure, throw, throwThe, MonadExceptOf.throw]

namespace WindowForTrueFloatingPointMovingAverage

theorem setReadPtr_ok_iff (w w' : WindowForTrueFloatingPointMovingAverage S)
    (h : BaseHistoryAndEmdForTrueFloatingPointMovingAverage S) :
    w.setReadPtr h = Except.ok w' ↔
      w.windowSamples_ ≤ h.historyEndPtr_ + 1 ∧
        w' = { w with readPtr_ := h.getRelative w.windowSamples_ } := by
  unfold setReadPtr maxWindowSamples
  by_cases h1 : w.windowSamples_ ≤ h.historyEndPtr_ + 1
  · simp [h1, pure, Except.pure, eq_comm]
  · simp [h1, throw, throwThe, MonadExceptOf.throw]

theorem setWindowSamples_ok_iff (exp : S → S) (w w' : WindowForTrueFloatingPointMovingAverage S)
    (h : BaseHistoryAndEmdForTrueFloatingPointMovingAverage S) (n : ℕ) :
    w.setWindowSamples exp h n = Except.ok w' ↔
      w.history_ ≠ none ∧ 1 ≤ n ∧ n ≤ h.historyEndPtr_ + 1 ∧
        w' = { w with
          windowSamples_ := n
          inputFactor_ := (1 - h.emdFactor_) / (1 - exp (-1 * (n : S) / (h.emdSamples_ : S)))
          historyFactor_ := (1 - h.emdFactor_) / (1 - exp (-1 * (n : S) / (h.emdSamples_ : S))) *
            exp (-1 * (n : S) / (h.emdSamples_ : S))
          readPtr_ := h.getRelative n } := by
  unfold setWindowSamples maxWindowSamples emdFactor emdSamples
  by_cases h0 : w.history_ = none
  · simp [h0, throw, throwThe, MonadExceptOf.throw]
  · by_cases h1 : 1 ≤ n ∧ n ≤ h.historyEndPtr_ + 1
    · have hb : is_between n 1 (h.historyEndPtr_ + 1) = true := by
        simp [is_between, h1.1, h1.2]
      simp [h0, hb, setReadPtr_ok_iff, h1.1, h1.2]
    · have hb : is_between n 1 (h.historyEndPtr_ + 1) = false := by
        simp only [is_between, Bool.and_eq_false_imp, decide_eq_true_eq,
          decide_eq_false_iff_not]
        intro hn
        exact fun hle => h1 ⟨hn, hle⟩
      simp only [h0, hb]
      simp [throw, throwThe, MonadExceptOf.throw]
      intro a b c
      exact absurd ⟨b, c⟩ h1

end WindowForTrueFloatingPointMovingAverage

theorem force_between_ge {n L : ℕ} (hn : n ≤ L) : n ≤ force_between n 4 L := by
  unfold force_between
  split
  · omega
  · split <;> omega

theorem force_between_pos (n : ℕ) {L : ℕ} (hL : 1 ≤ L) : 1 ≤ force_between n 4 L := by
  unfold force_between
  split
  · omega
  · split <;> omega

namespace TrueFloatingPointWeightedMovingAverage

/-- The state after a successful `setWindowSize`. -/
theorem setWindowSize_ok_iff (exp : S → S) (e e' : TrueFloatingPointWeightedMovingAverage S)
    (n : ℕ) :
    setWindowSize exp e n = Except.ok e' ↔
      e.window.history_ ≠ none ∧ 1 ≤ n ∧ n ≤ e.history.historyEndPtr_ + 1 ∧
        e' =
          { history :=
              { e.history with
                historyEndPtr_ := force_between n 4 (e.history.historyEndPtr_ + 1) - 1 }
            window :=
              { e.window with
                windowSamples_ := n
                inputFactor_ := (1 - e.history.emdFactor_) /
                  (1 - exp (-1 * (n : S) / (e.history.emdSamples_ : S)))
                historyFactor_ := (1 - e.history.emdFactor_) /
                  (1 - exp (-1 * (n : S) / (e.history.emdSamples_ : S))) *
                    exp (-1 * (n : S) / (e.history.emdSamples_ : S))
                readPtr_ := (e.history.writePtr_ + n) %
                  (force_between n 4 (e.history.historyEndPtr_ + 1) - 1 + 1) } } := by
  unfold setWindowSize
  cases hsw : e.window.setWindowSamples exp e.history n with
  | error err =>
    simp only [bind, Except.bind]
    constructor
    · intro hcontra
      cases hcontra
    · rintro ⟨a, b, c, -⟩
      have := (WindowForTrueFloatingPointMovingAverage.setWindowSamples_ok_iff exp e.window _
        e.history n).mpr ⟨a, b, c, rfl⟩
      rw [hsw] at this
      cases this
  | ok w1 =>
    obtain ⟨a, b, c, rfl⟩ :=
      (WindowForTrueFloatingPointMovingAverage.setWindowSamples_ok_iff exp e.window _
        e.history n).mp hsw
    have hge := force_between_ge c
    simp only [bind, Except.bind, optimiseForMaximumSamples, optimiseForMaximumWindowSamples,
      maxWindowSamples, WindowForTrueFloatingPointMovingAverage.windowSamples]
    by_cases hchg : force_between n 4 (e.history.historyEndPtr_ + 1) - 1 = e.history.historyEndPtr_
    · simp [hchg, a, b, c, pure, Except.pure, getRelative, eq_comm]
    · have hle : n ≤ force_between n 4 (e.history.historyEndPtr_ + 1) - 1 + 1 := by omega
      simp [hchg, a, b, c, pure, Except.pure, getRelative, eq_comm, bind, Except.bind,
        WindowForTrueFloatingPointMovingAverage.setReadPtr, maxWindowSamples, hle]

end TrueFloatingPointWeightedMovingAverage

/-- What a successful construction of the single-window engine returns. -/
theorem construct_ok_iff_engine (m : HelperForMovingAverageMetricsForInaccurateTypes)
    (exp : S → S) (here : Addr) (memory : ℕ → S) (M E : ℕ)
    (e : TrueFloatingPointWeightedMovingAverage S) :
    TrueFloatingPointWeightedMovingAverage.construct m exp here memory M E = Except.ok e ↔
      m.isValidErrorMitigatingDecaySamples E = true ∧
        m.isValidWindowSizeInSamples M = true ∧ M < E ∧
        e =
          { history := BaseHistoryAndEmdForTrueFloatingPointMovingAverage.construct exp memory M E
            window :=
              { history_ := some here
                windowSamples_ := M
                inputFactor_ := (1 - exp (-1 / (E : S))) / (1 - exp (-1 * (M : S) / (E : S)))
                historyFactor_ := (1 - exp (-1 / (E : S))) / (1 - exp (-1 * (M : S) / (E : S))) *
                  exp (-1 * (M : S) / (E : S))
                readPtr_ := (0 + M) % (M - 1 + 1)
                average_ := 0 } } := by
  unfold TrueFloatingPointWeightedMovingAverage.construct
  cases hc : HistoryAndEmdForTrueFloatingPointMovingAverage.construct m exp memory M E with
  | error err =>
    simp only [bind, Except.bind]
    constructor
    · intro hcontra
      cases hcontra
    · rintro ⟨a, b, c, -⟩
      have := (construct_ok_iff m exp memory M E _).mpr ⟨a, b, c, rfl⟩
      rw [hc] at this
      cases this
  | ok h =>
    obtain ⟨a, b, c, rfl⟩ := (construct_ok_iff m exp memory M E h).mp hc
    have hM : 64 ≤ M := by
      simp [HelperForMovingAverageMetricsForInaccurateTypes.isValidWindowSizeInSamples,
        is_between, HelperForMovingAverageMetricsForInaccurateTypes.MIN_MAX_WINDOW_SAMPLES] at b
      exact b.1
    have hsw := (WindowForTrueFloatingPointMovingAverage.setWindowSamples_ok_iff exp
      (WindowForTrueFloatingPointMovingAverage.construct (some here)) _
      (BaseHistoryAndEmdForTrueFloatingPointMovingAverage.construct exp memory M E) M).mpr
      ⟨by simp [WindowForTrueFloatingPointMovingAverage.construct], by omega,
        by simp only [BaseHistoryAndEmdForTrueFloatingPointMovingAverage.construct]; omega, rfl⟩
    simp only [bind, Except.bind]
    rw [hsw]
    simp [pure, Except.pure, a, b, c, eq_comm,
      BaseHistoryAndEmdForTrueFloatingPointMovingAverage.construct,
      WindowForTrueFloatingPointMovingAverage.construct, getRelative]

end Outcome

/-! ## Runs of a seeded window -/

section Seeded

variable {S : Type} [LinearOrderedField S]

open BaseHistoryAndEmdForTrueFloatingPointMovingAverage

theorem fillWithAverage_history (h : BaseHistoryAndEmdForTrueFloatingPointMovingAverage S)
    (a : S) (i : ℕ) :
    (h.fillWithAverage a).history_ i = if i ≤ h.historyEndPtr_ then a else h.history_ i := by
  unfold fillWithAverage
  simp only [forLoop_update_const, Nat.lt_succ_iff]

theorem sampleRun_fields
    (hw : BaseHistoryAndEmdForTrueFloatingPointMovingAverage S ×
      WindowForTrueFloatingPointMovingAverage S) (x : ℕ → S) (k : ℕ) :
    (sampleRun hw x k).1.emdFactor_ = hw.1.emdFactor_ ∧
      (sampleRun hw x k).1.emdSamples_ = hw.1.emdSamples_ ∧
      (sampleRun hw x k).1.historyEndPtr_ = hw.1.historyEndPtr_ ∧
      (sampleRun hw x k).1.historySamples_ = hw.1.historySamples_ ∧
      (sampleRun hw x k).2.inputFactor_ = hw.2.inputFactor_ ∧
      (sampleRun hw x k).2.historyFactor_ = hw.2.historyFactor_ ∧
      (sampleRun hw x k).2.windowSamples_ = hw.2.windowSamples_ ∧
      (sampleRun hw x k).2.history_ = hw.2.history_ := by
  induction k with
  | zero => exact ⟨rfl, rfl, rfl, rfl, rfl, rfl, rfl, rfl⟩
  | succ k ih => exact ih

theorem seededWith_eq_lastSample (a : S) (x : ℕ → S) {L k j : ℕ} (hj : j < L) :
    seededWith a L x (L + k - 1 - j) = lastSample a x k j := by
  unfold seededWith lastSample
  by_cases hk : j < k
  · rw [if_neg (by omega), if_pos hk]
    congr 1
    omega
  · rw [if_pos (by omega), if_neg hk]

/-- A window in step with a history whose live ring holds `a` everywhere, and
whose average is `a`, follows the sequence that starts with a ring of `a`. -/
theorem Tracks.of_seeded {exp : S → S} (hexp : ExactExp exp)
    {h : BaseHistoryAndEmdForTrueFloatingPointMovingAverage S}
    {w : WindowForTrueFloatingPointMovingAverage S} {a : S} (hs : InStep exp h w)
    (hfill : ∀ i, i ≤ h.historyEndPtr_ → h.history_ i = a) (havg : w.average_ = a)
    (x : ℕ → S) :
    Tracks exp h w (seededWith a (h.historyEndPtr_ + 1) x) (h.historyEndPtr_ + 1) := by
  refine ⟨hs, ⟨le_rfl, ?_⟩, ?_⟩
  · intro d h1 h2
    rw [hfill _ (getRelative_le h d)]
    unfold seededWith
    rw [if_pos (by omega)]
  · unfold AverageIs
    have hsum : ∑ j in Finset.range w.windowSamples_,
        h.emdFactor_ ^ j * seededWith a (h.historyEndPtr_ + 1) x (h.historyEndPtr_ + 1 - 1 - j) =
        (∑ j in Finset.range w.windowSamples_, h.emdFactor_ ^ j) * a := by
      rw [Finset.sum_mul]
      refine Finset.sum_congr rfl fun j _ => ?_
      unfold seededWith
      rw [if_pos (by omega)]
    rw [hsum, ← mul_assoc, hs.1.weights_sum hexp, one_mul, havg]

/-- The average of a seeded window after `k` samples is the weighted sum of
the latest `windowSamples_` samples. -/
theorem seeded_run_average {exp : S → S} (hexp : ExactExp exp)
    {h : BaseHistoryAndEmdForTrueFloatingPointMovingAverage S}
    {w : WindowForTrueFloatingPointMovingAverage S} {a : S} (hs : InStep exp h w)
    (hfill : ∀ i, i ≤ h.historyEndPtr_ → h.history_ i = a) (havg : w.average_ = a)
    (x : ℕ → S) (k : ℕ) :
    (sampleRun (h, w) x k).2.average_ =
      decayingAverage w.inputFactor_ h.emdFactor_ a x k w.windowSamples_ := by
  have ht := @Tracks.run_tracks S _ exp hexp (h, w) _ _ (Tracks.of_seeded hexp hs hfill havg x) x
    (fun i => by
      unfold seededWith
      rw [if_neg (by omega)]
      congr 1
      omega) k
  have ha := ht.2.2
  obtain ⟨f1, -, -, -, f5, -, f7, -⟩ := sampleRun_fields (h, w) x k
  unfold AverageIs at ha
  rw [ha, f1, f5, f7]
  unfold decayingAverage
  congr 1
  refine Finset.sum_congr rfl fun j hj => ?_
  have hj' : j < h.historyEndPtr_ + 1 := lt_of_lt_of_le (Finset.mem_range.mp hj) hs.2.2.1
  rw [seededWith_eq_lastSample a x hj']

theorem decayingAverage_zero (c q : S) (x : ℕ → S) (k n : ℕ) :
    decayingAverage c q 0 x k n = c * ∑ j in Finset.range (min k n), q ^ j * x (k - 1 - j) := by
  unfold decayingAverage
  congr 1
  symm
  have hsub : Finset.range (min k n) ⊆ Finset.range n := by
    intro j hj
    rw [Finset.mem_range] at hj ⊢
    exact lt_of_lt_of_le hj (min_le_right _ _)
  rw [← Finset.sum_subset hsub]
  · refine Finset.sum_congr rfl fun j hj => ?_
    rw [Finset.mem_range] at hj
    unfold lastSample
    rw [if_pos (lt_of_lt_of_le hj (min_le_left _ _))]
  · intro j hj hnj
    rw [Finset.mem_range] at hj hnj
    unfold lastSample
    rw [if_neg (by omega), mul_zero]

namespace TrueFloatingPointWeightedMovingAverage

theorem addInputs_eq_sampleRun (e : TrueFloatingPointWeightedMovingAverage S) (x : ℕ → S)
    (k : ℕ) :
    e.addInputs x k =
      { history := (sampleRun (e.history, e.window) x k).1
        window := (sampleRun (e.history, e.window) x k).2 } := by
  induction k with
  | zero => rfl
  | succ k ih =>
    show (e.addInputs x k).addInput (x k) = _
    rw [ih]
    rfl

/-- An engine whose window size was set directly after the construction has
its window in step with the history. -/
theorem inStep_of_configured {m : HelperForMovingAverageMetricsForInaccurateTypes} {exp : S → S}
    {here : Addr} {memory : ℕ → S} {M E n : ℕ} {e0 e1 : TrueFloatingPointWeightedMovingAverage S}
    (h0 : construct m exp here memory M E = Except.ok e0)
    (h1 : setWindowSize exp e0 n = Except.ok e1) :
    InStep exp e1.history e1.window ∧ e1.window.windowSamples_ = n ∧
      e1.history.emdSamples_ = E ∧ e1.history.historySamples_ = M ∧
      e1.history.historyEndPtr_ + 1 = force_between n 4 M ∧ e1.history.writePtr_ = 0 := by
  obtain ⟨-, vM, hME, rfl⟩ := (construct_ok_iff_engine m exp here memory M E e0).mp h0
  obtain ⟨-, hn1, hn2, rfl⟩ := (setWindowSize_ok_iff exp _ e1 n).mp h1
  have hM : 64 ≤ M := by
    simp [HelperForMovingAverageMetricsForInaccurateTypes.isValidWindowSizeInSamples,
      is_between, HelperForMovingAverageMetricsForInaccurateTypes.MIN_MAX_WINDOW_SAMPLES] at vM
    exact vM.1
  have hM1 : M - 1 + 1 = M := by omega
  have hn2' : n ≤ M := by
    simpa only [BaseHistoryAndEmdForTrueFloatingPointMovingAverage.construct, hM1] using hn2
  have hf1 := force_between_pos n (by omega : 1 ≤ M)
  have hf2 := force_between_ge hn2'
  have hend : force_between n 4 M - 1 + 1 = force_between n 4 M := by omega
  refine ⟨⟨⟨?_, ?_, rfl, hn1, rfl, rfl⟩, ?_, ?_, ?_⟩, rfl, rfl, rfl, ?_, rfl⟩
  · simp
  · show 0 < E
    omega
  · exact Nat.zero_le _
  · show n ≤ force_between n 4 (M - 1 + 1) - 1 + 1
    rw [hM1, hend]
    exact hf2
  · rfl
  · show force_between n 4 (M - 1 + 1) - 1 + 1 = force_between n 4 M
    rw [hM1, hend]

/-- The average of an engine that was configured directly after the
construction and then seeded, after `k` inputs. -/
theorem seeded_engine_average {m : HelperForMovingAverageMetricsForInaccurateTypes}
    {exp : S → S} (hexp : ExactExp exp) {here : Addr} {memory : ℕ → S} {M E n : ℕ}
    {e0 e1 : TrueFloatingPointWeightedMovingAverage S}
    (h0 : construct m exp here memory M E = Except.ok e0)
    (h1 : setWindowSize exp e0 n = Except.ok e1) (a : S) (x : ℕ → S) (k : ℕ) :
    ((e1.setAverage a).addInputs x k).getAverage =
      decayingAverage e1.window.inputFactor_ e1.history.emdFactor_ a x k n := by
  obtain ⟨hs, hn, -⟩ := inStep_of_configured h0 h1
  have hs' : InStep exp (e1.setAverage a).history (e1.setAverage a).window := hs
  have hrun := seeded_run_average hexp hs'
    (fun i hi => by
      have hi' : i ≤ e1.history.historyEndPtr_ := hi
      show (e1.history.fillWithAverage a).history_ i = a
      rw [fillWithAverage_history, if_pos hi'])
    rfl x k
  rw [addInputs_eq_sampleRun]
  show (sampleRun ((e1.setAverage a).history, (e1.setAverage a).window) x k).2.average_ = _
  rw [hrun, ← hn]
  rfl

end TrueFloatingPointWeightedMovingAverage

end Seeded

/-! ## The single-window engine after configuration and seeding -/

section SeededEngine

variable {S : Type} [LinearOrderedField S]

open BaseHistoryAndEmdForTrueFloatingPointMovingAverage TrueFloatingPointWeightedMovingAverage

/-- A construction with valid sizes succeeds, and so does a `setWindowSize`
with a size between one and the maximum, made directly after it. -/
theorem engine_exists (m : HelperForMovingAverageMetricsForInaccurateTypes) (exp : S → S)
    (here : Addr) (memory : ℕ → S) (M E n : ℕ)
    (vE : m.isValidErrorMitigatingDecaySamples E = true)
    (vM : m.isValidWindowSizeInSamples M = true) (hME : M < E) (hn1 : 1 ≤ n) (hn : n ≤ M) :
    ∃ e0 e1 : TrueFloatingPointWeightedMovingAverage S,
      construct m exp here memory M E = Except.ok e0 ∧
        setWindowSize exp e0 n = Except.ok e1 := by
  have h0 := (construct_ok_iff_engine m exp here memory M E _).mpr ⟨vE, vM, hME, rfl⟩
  refine ⟨_, _, h0, (setWindowSize_ok_iff exp _ _ n).mpr ⟨by simp, hn1, ?_, rfl⟩⟩
  show n ≤ M - 1 + 1
  omega

/-- C1: in exact arithmetic, for a single-window engine whose window size `n` is
set directly after the construction and which is then seeded with
`setAverage(0)`, the average after the inputs `x 0`, ..., `x (k - 1)` is
`inputFactor * ∑ j < min k n, emdFactor ^ j * x (k - 1 - j)`, a decaying
weighted sum of the latest `n` inputs only, and once `k ≥ n` its weights add
up to exactly one. The coefficients are `emdFactor = exp(-1 / emdSamples)`,
which lies strictly between zero and one, and
`inputFactor = (1 - emdFactor) / (1 - emdFactor ^ n)`. -/
theorem average_is_decaying_sum_of_last_inputs
    {m : HelperForMovingAverageMetricsForInaccurateTypes}
    {exp : S → S} (hexp : ExactExp exp) {here : Addr} {memory : ℕ → S} {M E n : ℕ}
    {e0 e1 : TrueFloatingPointWeightedMovingAverage S}
    (h0 : construct m exp here memory M E = Except.ok e0)
    (h1 : setWindowSize exp e0 n = Except.ok e1) (x : ℕ → S) (k : ℕ) :
    ((e1.setAverage 0).addInputs x k).getAverage =
        e1.window.inputFactor_ *
          ∑ j in Finset.range (min k n), e1.history.emdFactor_ ^ j * x (k - 1 - j) ∧
      (n ≤ k → e1.window.inputFactor_ *
          ∑ j in Finset.range (min k n), e1.history.emdFactor_ ^ j = 1) ∧
      e1.history.emdFactor_ = exp (-1 / (E : S)) ∧
      (0 < e1.history.emdFactor_ ∧ e1.history.emdFactor_ < 1) ∧
      e1.window.inputFactor_ = (1 - e1.history.emdFactor_) / (1 - e1.history.emdFactor_ ^ n) := by
  obtain ⟨hs, hn, hE, -⟩ := inStep_of_configured h0 h1
  have hc := hs.1
  refine ⟨?_, ?_, ?_, ⟨hc.emdFactor_pos hexp, hc.emdFactor_lt_one hexp⟩, ?_⟩
  · rw [seeded_engine_average hexp h0 h1, decayingAverage_zero]
  · intro hk
    rw [min_eq_right hk, ← hn]
    exact hc.weights_sum hexp
  · rw [hc.2.2.1, hE]
  · rw [hc.inputFactor_eq hexp, hn]

theorem average_is_decaying_sum_of_last_inputs_witness :
    ∃ e0 e1 : TrueFloatingPointWeightedMovingAverage ℝ,
      construct doubleMetrics Real.exp 0 (fun _ => 0) 1024 10240 = Except.ok e0 ∧
        setWindowSize Real.exp e0 256 = Except.ok e1 ∧
        ((e1.setAverage 0).addInputs (fun i => (i : ℝ)) 300).getAverage =
          e1.window.inputFactor_ *
            ∑ j in Finset.range (min 300 256), e1.history.emdFactor_ ^ j * ((300 - 1 - j : ℕ) : ℝ) := by
  obtain ⟨e0, e1, h0, h1⟩ := engine_exists doubleMetrics Real.exp 0 (fun _ => (0 : ℝ))
    1024 10240 256 (by decide) (by decide) (by norm_num) (by norm_num) (by norm_num)
  exact ⟨e0, e1, h0, h1,
    (average_is_decaying_sum_of_last_inputs realExp_exact h0 h1 (fun i => (i : ℝ)) 300).1⟩

end SeededEngine

/-! ## Every state of the single-window engine -/

section EveryState

variable {S : Type} [LinearOrderedField S]

open BaseHistoryAndEmdForTrueFloatingPointMovingAverage TrueFloatingPointWeightedMovingAverage

namespace TrueFloatingPointWeightedMovingAverage

theorem Invariant.readPtr_le {exp : S → S} {e : TrueFloatingPointWeightedMovingAverage S}
    (hi : Invariant exp e) : e.window.readPtr_ ≤ e.history.historyEndPtr_ := by
  rw [hi.2.2.1]
  exact getRelative_le _ _

theorem Invariant.addInput {exp : S → S} {e : TrueFloatingPointWeightedMovingAverage S}
    (hi : Invariant exp e) (x : S) : Invariant exp (e.addInput x) := by
  refine ⟨hi.1, hi.2.1, ?_, hi.2.2.2⟩
  show e.history.setNextPtr e.window.readPtr_ = (e.history.write x).getRelative e.window.windowSamples_
  have hn1 : 1 ≤ e.window.windowSamples_ := hi.1.2.2.2.1
  rw [write_getRelative _ _ hn1, hi.2.2.1]
  unfold getRelative
  have := setNextPtr_succ_mod e.history (e.history.writePtr_ + (e.window.windowSamples_ - 1))
  rwa [show e.history.writePtr_ + (e.window.windowSamples_ - 1) + 1 =
    e.history.writePtr_ + e.window.windowSamples_ from by omega] at this

theorem Invariant.setAverage {exp : S → S} {e : TrueFloatingPointWeightedMovingAverage S}
    (hi : Invariant exp e) (a : S) : Invariant exp (e.setAverage a) :=
  hi

/-- In a state whose write cursor is inside the live ring the window is in
step with the history. -/
theorem Invariant.inStep {exp : S → S} {e : TrueFloatingPointWeightedMovingAverage S}
    (hi : Invariant exp e) (hw : e.history.writePtr_ ≤ e.history.historyEndPtr_) :
    InStep exp e.history e.window :=
  ⟨hi.1, hw, hi.2.1, hi.2.2.1⟩

theorem force_between_le {n L : ℕ} (hL : 4 ≤ L) : force_between n 4 L ≤ L := by
  unfold force_between
  split
  · exact hL
  · split <;> omega

theorem four_le_force_between (n : ℕ) {L : ℕ} (hL : 4 ≤ L) : 4 ≤ force_between n 4 L := by
  unfold force_between
  split
  · exact le_rfl
  · split <;> omega

/-- The invariant holds in every state of the engine. -/
theorem Reachable.invariant {m : HelperForMovingAverageMetricsForInaccurateTypes} {exp : S → S}
    {e : TrueFloatingPointWeightedMovingAverage S} (hr : Reachable m exp e) :
    Invariant exp e := by
  induction hr with
  | construct here memory M E e h =>
    obtain ⟨-, vM, hME, rfl⟩ := (construct_ok_iff_engine m exp here memory M E e).mp h
    have hM : 64 ≤ M := by
      simp [HelperForMovingAverageMetricsForInaccurateTypes.isValidWindowSizeInSamples,
        is_between, HelperForMovingAverageMetricsForInaccurateTypes.MIN_MAX_WINDOW_SAMPLES] at vM
      exact vM.1
    refine ⟨⟨by simp, ?_, rfl, ?_, rfl, rfl⟩, ?_, rfl, ?_, ?_, hME⟩
    · show 0 < E
      omega
    · show 1 ≤ M
      omega
    · show M ≤ M - 1 + 1
      omega
    · show 4 ≤ M - 1 + 1
      omega
    · show M - 1 + 1 ≤ M
      omega
  | setAverage e a _ ih => exact ih.setAverage a
  | setWindowSize e e' n _ h' ih =>
    obtain ⟨hb, hn1, hn2, rfl⟩ := (setWindowSize_ok_iff exp e e' n).mp h'
    have f1 := force_between_ge hn2
    have f2 := force_between_le (n := n) ih.2.2.2.1
    have f3 := four_le_force_between n ih.2.2.2.1
    have f4 := ih.2.2.2.2.1
    refine ⟨⟨hb, ih.1.2.1, ih.1.2.2.1, hn1, rfl, rfl⟩, ?_, rfl, ?_, ?_, ih.2.2.2.2.2⟩
    · show n ≤ force_between n 4 (e.history.historyEndPtr_ + 1) - 1 + 1
      omega
    · show 4 ≤ force_between n 4 (e.history.historyEndPtr_ + 1) - 1 + 1
      omega
    · show force_between n 4 (e.history.historyEndPtr_ + 1) - 1 + 1 ≤ e.history.historySamples_
      omega
  | addInput e x _ ih => exact ih.addInput x

end TrueFloatingPointWeightedMovingAverage

/-- The average of a seeded engine after `k` inputs, for every state of the
engine whose write cursor is inside the live ring. -/
theorem reachable_seeded_average {m : HelperForMovingAverageMetricsForInaccurateTypes}
    {exp : S → S} (hexp : ExactExp exp) {e : TrueFloatingPointWeightedMovingAverage S}
    (hr : Reachable m exp e) (hw : e.history.writePtr_ ≤ e.history.historyEndPtr_)
    (a : S) (x : ℕ → S) (k : ℕ) :
    ((e.setAverage a).addInputs x k).getAverage =
      decayingAverage e.window.inputFactor_ e.history.emdFactor_ a x k e.window.windowSamples_ := by
  have hs : InStep exp (e.setAverage a).history (e.setAverage a).window := hr.invariant.inStep hw
  have hrun := seeded_run_average hexp hs
    (fun i hi => by
      have hi' : i ≤ e.history.historyEndPtr_ := hi
      show (e.history.fillWithAverage a).history_ i = a
      rw [fillWithAverage_history, if_pos hi'])
    rfl x k
  rw [addInputs_eq_sampleRun]
  exact hrun

/-- In exact arithmetic, for every state of the engine whose write cursor is
inside the live ring (in particular for an engine whose window size was set
directly after the construction), after `setAverage` the average is exactly `c`
after every run of `k ≥ windowSamples` inputs of which the latest
`windowSamples` are `c`. So there it is `c` after `windowSamples` or more
inputs `c`, and stays `c` while `c` is fed. A shrink after an input leaves the
write cursor above the live ring; there this does not hold. -/
theorem constant_input_average {m : HelperForMovingAverageMetricsForInaccurateTypes}
    {exp : S → S} (hexp : ExactExp exp) {e : TrueFloatingPointWeightedMovingAverage S}
    (hr : Reachable m exp e) (hw : e.history.writePtr_ ≤ e.history.historyEndPtr_)
    (a c : S) (x : ℕ → S) (k : ℕ) (hk : e.window.windowSamples_ ≤ k)
    (hc : ∀ j, j < e.window.windowSamples_ → x (k - 1 - j) = c) :
    ((e.setAverage a).addInputs x k).getAverage = c := by
  rw [reachable_seeded_average hexp hr hw]
  unfold decayingAverage
  have hsum : ∑ j in Finset.range e.window.windowSamples_,
      e.history.emdFactor_ ^ j * lastSample a x k j =
      (∑ j in Finset.range e.window.windowSamples_, e.history.emdFactor_ ^ j) * c := by
    rw [Finset.sum_mul]
    refine Finset.sum_congr rfl fun j hj => ?_
    rw [Finset.mem_range] at hj
    unfold lastSample
    rw [if_pos (by omega), hc j hj]
  rw [hsum, ← mul_assoc, hr.invariant.1.weights_sum hexp, one_mul]

/-- The scenario of the specification: an engine built with
`maxWindowSamples = 1024` and `emdSamples = 10240`, then `setWindowSize(256)`
and `setAverage(0)`. After 256 samples `1.0` the average is within `1e-6` of
`1.0`, and after 256 further samples `0.0` it is within `1e-6` of `0.0`. -/
theorem constant_input_average_witness :
    ∃ e0 e1 : TrueFloatingPointWeightedMovingAverage ℝ,
      construct doubleMetrics Real.exp 0 (fun _ => 0) 1024 10240 = Except.ok e0 ∧
        setWindowSize Real.exp e0 256 = Except.ok e1 ∧
        |((e1.setAverage 0).addInputs (fun i => if i < 256 then 1 else 0) 256).getAverage - 1|
          < 1 / 10 ^ 6 ∧
        |((e1.setAverage 0).addInputs (fun i => if i < 256 then 1 else 0) 512).getAverage - 0|
          < 1 / 10 ^ 6 := by
  obtain ⟨e0, e1, h0, h1⟩ := engine_exists doubleMetrics Real.exp 0 (fun _ => (0 : ℝ))
    1024 10240 256 (by decide) (by decide) (by norm_num) (by norm_num) (by norm_num)
  obtain ⟨hs, hn, -⟩ := inStep_of_configured h0 h1
  have hr : Reachable doubleMetrics Real.exp e1 :=
    Reachable.setWindowSize _ _ 256 (Reachable.construct 0 _ 1024 10240 e0 h0) h1
  refine ⟨e0, e1, h0, h1, ?_, ?_⟩
  · rw [constant_input_average realExp_exact hr hs.2.1 0 1 (fun i => if i < 256 then 1 else 0) 256
      (by rw [hn]) (fun j hj => by
        rw [hn] at hj
        show (if 256 - 1 - j < 256 then (1 : ℝ) else 0) = 1
        rw [if_pos (by omega)])]
    norm_num
  · rw [constant_input_average realExp_exact hr hs.2.1 0 0 (fun i => if i < 256 then 1 else 0) 512
      (by rw [hn]; norm_num) (fun j hj => by
        rw [hn] at hj
        show (if 512 - 1 - j < 256 then (1 : ℝ) else 0) = 0
        rw [if_neg (by omega)])]
    norm_num

/-- In exact arithmetic, for every state of the engine whose write cursor is
inside the live ring, after `setAverage` and inputs of magnitude at most `B`
the average after every run of `k ≥ n` inputs (`n` is `windowSamples`) differs
from the rectangular average of the latest `n` inputs by at most
`B * (n * (1 - emdFactor))`. This bound does not depend on the length `k` of
the run, and `n * (1 - emdFactor) ≤ n / emdSamples < 1`: it is small because
the error-mitigating decay is longer than the window. -/
theorem deviation_from_rectangular_average_bounded
    {m : HelperForMovingAverageMetricsForInaccurateTypes}
    {exp : S → S} (hexp : ExactExp exp) {e1 : TrueFloatingPointWeightedMovingAverage S}
    (hr : Reachable m exp e1) (hw : e1.history.writePtr_ ≤ e1.history.historyEndPtr_)
    (a : S) (x : ℕ → S) (B : S) (hB : ∀ i, |x i| ≤ B) (k : ℕ)
    (hk : e1.window.windowSamples_ ≤ k) :
    |((e1.setAverage a).addInputs x k).getAverage -
        (∑ j in Finset.range e1.window.windowSamples_, x (k - 1 - j)) /
          (e1.window.windowSamples_ : S)| ≤
        B * ((e1.window.windowSamples_ : S) * (1 - e1.history.emdFactor_)) ∧
      (e1.window.windowSamples_ : S) * (1 - e1.history.emdFactor_) ≤
        (e1.window.windowSamples_ : S) / (e1.history.emdSamples_ : S) ∧
      e1.window.windowSamples_ < e1.history.emdSamples_ := by
  have hinv := hr.invariant
  have hc := hinv.1
  obtain ⟨n, hn⟩ : ∃ n, e1.window.windowSamples_ = n := ⟨_, rfl⟩
  obtain ⟨E, hE⟩ : ∃ E, e1.history.emdSamples_ = E := ⟨_, rfl⟩
  rw [hn] at hk
  simp only [hn, hE]
  have hq0 := hc.emdFactor_pos hexp
  have hq1 := hc.emdFactor_lt_one hexp
  have hw0 := hc.inputFactor_pos hexp
  have hn1 : 1 ≤ n := hn ▸ hc.2.2.2.1
  have hnpos : (0 : S) < (n : S) := by exact_mod_cast hn1
  have hB0 : 0 ≤ B := le_trans (abs_nonneg _) (hB 0)
  -- the weights and `1 / n` lie between `inputFactor * emdFactor ^ n` and `inputFactor`
  have hsum1 := hc.weights_sum hexp
  rw [hn] at hsum1
  have hspan : e1.window.inputFactor_ * (1 - e1.history.emdFactor_ ^ n) =
      1 - e1.history.emdFactor_ := by
    have := hc.inputFactor_sub_historyFactor hexp
    rw [hc.historyFactor_eq hexp, hn] at this
    linear_combination this
  have hpow_le : ∀ j, j < n → e1.history.emdFactor_ ^ n ≤ e1.history.emdFactor_ ^ j ∧
      e1.history.emdFactor_ ^ j ≤ 1 := fun j hj =>
    ⟨pow_le_pow_of_le_one hq0.le hq1.le hj.le, pow_le_one₀ hq0.le hq1.le⟩
  have hup : ∑ j in Finset.range n, e1.history.emdFactor_ ^ j ≤ (n : S) := by
    have := Finset.sum_le_sum (fun j hj => (hpow_le j (Finset.mem_range.mp hj)).2)
    simpa using this
  have hlo : (n : S) * e1.history.emdFactor_ ^ n ≤
      ∑ j in Finset.range n, e1.history.emdFactor_ ^ j := by
    have := Finset.sum_le_sum (fun j hj => (hpow_le j (Finset.mem_range.mp hj)).1)
    simpa using this
  have hinv_le : 1 / (n : S) ≤ e1.window.inputFactor_ := by
    rw [div_le_iff₀ hnpos]
    calc (1 : S) = e1.window.inputFactor_ * ∑ j in Finset.range n, e1.history.emdFactor_ ^ j :=
          hsum1.symm
      _ ≤ e1.window.inputFactor_ * (n : S) := mul_le_mul_of_nonneg_left hup hw0.le
  have hinv_ge : e1.window.inputFactor_ * e1.history.emdFactor_ ^ n ≤ 1 / (n : S) := by
    rw [le_div_iff₀ hnpos]
    calc e1.window.inputFactor_ * e1.history.emdFactor_ ^ n * (n : S)
        = e1.window.inputFactor_ * ((n : S) * e1.history.emdFactor_ ^ n) := by ring
      _ ≤ e1.window.inputFactor_ * ∑ j in Finset.range n, e1.history.emdFactor_ ^ j :=
          mul_le_mul_of_nonneg_left hlo hw0.le
      _ = 1 := hsum1
  have hterm : ∀ j, j < n →
      |e1.window.inputFactor_ * e1.history.emdFactor_ ^ j - 1 / (n : S)| ≤
        1 - e1.history.emdFactor_ := by
    intro j hj
    obtain ⟨p1, p2⟩ := hpow_le j hj
    have u1 : e1.window.inputFactor_ * e1.history.emdFactor_ ^ n ≤
        e1.window.inputFactor_ * e1.history.emdFactor_ ^ j :=
      mul_le_mul_of_nonneg_left p1 hw0.le
    have u2 : e1.window.inputFactor_ * e1.history.emdFactor_ ^ j ≤ e1.window.inputFactor_ := by
      simpa using mul_le_mul_of_nonneg_left p2 hw0.le
    rw [abs_sub_le_iff]
    constructor <;> linarith
  refine ⟨?_, ?_, ?_⟩
  · rw [reachable_seeded_average hexp hr hw, hn]
    unfold decayingAverage
    have hlast : ∀ j ∈ Finset.range n, lastSample a x k j = x (k - 1 - j) := by
      intro j hj
      rw [Finset.mem_range] at hj
      unfold lastSample
      rw [if_pos (by omega)]
    have hdiff : e1.window.inputFactor_ *
        ∑ j in Finset.range n, e1.history.emdFactor_ ^ j * lastSample a x k j -
        (∑ j in Finset.range n, x (k - 1 - j)) / (n : S) =
        ∑ j in Finset.range n,
          (e1.window.inputFactor_ * e1.history.emdFactor_ ^ j - 1 / (n : S)) * x (k - 1 - j) := by
      rw [Finset.mul_sum, Finset.sum_div, ← Finset.sum_sub_distrib]
      refine Finset.sum_congr rfl fun j hj => ?_
      rw [hlast j hj]
      ring
    rw [hdiff]
    calc |∑ j in Finset.range n,
          (e1.window.inputFactor_ * e1.history.emdFactor_ ^ j - 1 / (n : S)) * x (k - 1 - j)|
        ≤ ∑ j in Finset.range n,
          |(e1.window.inputFactor_ * e1.history.emdFactor_ ^ j - 1 / (n : S)) * x (k - 1 - j)| :=
          Finset.abs_sum_le_sum_abs _ _
      _ ≤ ∑ _j in Finset.range n, (1 - e1.history.emdFactor_) * B := by
          refine Finset.sum_le_sum fun j hj => ?_
          rw [abs_mul]
          exact mul_le_mul (hterm j (Finset.mem_range.mp hj)) (hB _) (abs_nonneg _)
            (sub_nonneg.mpr hq1.le)
      _ = B * ((n : S) * (1 - e1.history.emdFactor_)) := by
          rw [Finset.sum_const, Finset.card_range, nsmul_eq_mul]
          ring
  · rw [hc.2.2.1, hE]
    have := mul_le_mul_of_nonneg_left (hexp.one_sub_emdFactor_le E) hnpos.le
    rwa [← div_eq_mul_one_div] at this
  · have h2 := hinv.2.1
    have h5 := hinv.2.2.2.2.1
    have h6 := hinv.2.2.2.2.2
    omega

theorem deviation_from_rectangular_average_bounded_witness :
    ∃ e0 e1 : TrueFloatingPointWeightedMovingAverage ℝ,
      construct doubleMetrics Real.exp 0 (fun _ => 0) 1024 10240 = Except.ok e0 ∧
        setWindowSize Real.exp e0 256 = Except.ok e1 ∧
        |((e1.setAverage 0).addInputs (fun i => if i % 2 = 0 then 1 else -1) 100000).getAverage -
          (∑ j in Finset.range e1.window.windowSamples_,
            (fun i => if i % 2 = 0 then (1 : ℝ) else -1) (100000 - 1 - j)) /
              (e1.window.windowSamples_ : ℝ)| ≤
          1 * ((e1.window.windowSamples_ : ℝ) * (1 - e1.history.emdFactor_)) := by
  obtain ⟨e0, e1, h0, h1⟩ := engine_exists doubleMetrics Real.exp 0 (fun _ => (0 : ℝ))
    1024 10240 256 (by decide) (by decide) (by norm_num) (by norm_num) (by norm_num)
  obtain ⟨hs, hn, -⟩ := inStep_of_configured h0 h1
  have hr : Reachable doubleMetrics Real.exp e1 :=
    Reachable.setWindowSize _ _ 256 (Reachable.construct 0 _ 1024 10240 e0 h0) h1
  exact ⟨e0, e1, h0, h1,
    (deviation_from_rectangular_average_bounded realExp_exact hr hs.2.1 0
      (fun i => if i % 2 = 0 then 1 else -1) 1
      (fun i => by
        show |if i % 2 = 0 then (1 : ℝ) else -1| ≤ 1
        split <;> simp) 100000 (by rw [hn]; norm_num)).1⟩

namespace TrueFloatingPointWeightedMovingAverage

/-- One more input `c` keeps an engine steady whose live ring and average are
`c`. -/
theorem steady_step {exp : S → S} (hexp : ExactExp exp)
    {e : TrueFloatingPointWeightedMovingAverage S} (hi : Invariant exp e) {c : S}
    (hfill : ∀ i, i ≤ e.history.historyEndPtr_ → e.history.history_ i = c)
    (havg : e.window.average_ = c) :
    (∀ i, i ≤ (e.addInput c).history.historyEndPtr_ → (e.addInput c).history.history_ i = c) ∧
      (e.addInput c).window.average_ = c := by
  constructor
  · intro i hi'
    show Function.update e.history.history_ e.history.writePtr_ c i = c
    by_cases h : i = e.history.writePtr_
    · rw [h, Function.update_same]
    · rw [Function.update_noteq h]
      exact hfill i hi'
  · show e.history.emdFactor_ * e.window.average_ + e.window.inputFactor_ * c -
      e.window.historyFactor_ * e.history.history_ e.window.readPtr_ = c
    rw [hfill _ hi.readPtr_le, havg]
    linear_combination c * hi.1.inputFactor_sub_historyFactor hexp

theorem steady_run {exp : S → S} (hexp : ExactExp exp)
    {e : TrueFloatingPointWeightedMovingAverage S} (hi : Invariant exp e) {c : S}
    (hfill : ∀ i, i ≤ e.history.historyEndPtr_ → e.history.history_ i = c)
    (havg : e.window.average_ = c) (k : ℕ) :
    Invariant exp (e.addInputs (fun _ => c) k) ∧
      (∀ i, i ≤ (e.addInputs (fun _ => c) k).history.historyEndPtr_ →
        (e.addInputs (fun _ => c) k).history.history_ i = c) ∧
      (e.addInputs (fun _ => c) k).window.average_ = c := by
  induction k with
  | zero => exact ⟨hi, hfill, havg⟩
  | succ k ih =>
    obtain ⟨i1, i2, i3⟩ := ih
    exact ⟨i1.addInput c, steady_step hexp i1 i2 i3⟩

end TrueFloatingPointWeightedMovingAverage

/-- C6: `setAverage(c)` seeds a steady state. In every state of the
single-window engine (so for every window size that was set) and for every
`c`, after `setAverage(c)` any number of calls `addInput(c)` leaves the average
exactly `c` in exact arithmetic, and
`inputFactor - historyFactor = 1 - emdFactor`. -/
theorem setAverage_seeds_steady_state {m : HelperForMovingAverageMetricsForInaccurateTypes}
    {exp : S → S} (hexp : ExactExp exp) {e : TrueFloatingPointWeightedMovingAverage S}
    (hr : Reachable m exp e) (c : S) (k : ℕ) :
    ((e.setAverage c).addInputs (fun _ => c) k).getAverage = c ∧
      e.window.inputFactor_ - e.window.historyFactor_ = 1 - e.history.emdFactor_ := by
  have hi := hr.invariant
  refine ⟨?_, hi.1.inputFactor_sub_historyFactor hexp⟩
  exact (steady_run hexp (hi.setAverage c)
    (fun i hi' => by
      have hi'' : i ≤ e.history.historyEndPtr_ := hi'
      show (e.history.fillWithAverage c).history_ i = c
      rw [fillWithAverage_history, if_pos hi'']) rfl k).2.2

theorem setAverage_seeds_steady_state_witness :
    ∃ e0 e1 : TrueFloatingPointWeightedMovingAverage ℝ,
      construct doubleMetrics Real.exp 0 (fun _ => 0) 1024 10240 = Except.ok e0 ∧
        setWindowSize Real.exp (e0.addInput 7) 256 = Except.ok e1 ∧
        (((e1.addInput 3).setAverage 5).addInputs (fun _ => 5) 1000).getAverage = 5 := by
  obtain ⟨e0, -, h0, -⟩ := engine_exists doubleMetrics Real.exp 0 (fun _ => (0 : ℝ))
    1024 10240 256 (by decide) (by decide) (by norm_num) (by norm_num) (by norm_num)
  have hi := (Reachable.addInput e0 7 (Reachable.construct 0 _ 1024 10240 e0 h0)).invariant
  have h1 := (setWindowSize_ok_iff Real.exp (e0.addInput 7) _ 256).mpr
    ⟨hi.1.1, by norm_num, by
      obtain ⟨-, -, -, rfl⟩ := (construct_ok_iff_engine doubleMetrics Real.exp 0 _ 1024 10240 e0).mp h0
      show 256 ≤ 1024 - 1 + 1
      norm_num, rfl⟩
  exact ⟨e0, _, h0, h1,
    (setAverage_seeds_steady_state realExp_exact
      (Reachable.addInput _ 3 (Reachable.setWindowSize _ _ 256
        (Reachable.addInput e0 7 (Reachable.construct 0 _ 1024 10240 e0 h0)) h1)) 5 1000).1⟩

/-- Two runs of the engine on the same inputs, started with averages that
differ by `δ` and with everything else equal. -/
theorem addInputs_of_shifted_average (e : TrueFloatingPointWeightedMovingAverage S) (δ : S)
    (x : ℕ → S) (k : ℕ) :
    (({ e with window := e.window.setAverage (e.window.average_ + δ) } :
          TrueFloatingPointWeightedMovingAverage S).addInputs x k) =
      { history := (e.addInputs x k).history
        window := (e.addInputs x k).window.setAverage
          ((e.addInputs x k).window.average_ + e.history.emdFactor_ ^ k * δ) } := by
  induction k with
  | zero =>
    show _ = TrueFloatingPointWeightedMovingAverage.mk e.history
      (e.window.setAverage (e.window.average_ + e.history.emdFactor_ ^ 0 * δ))
    rw [pow_zero, one_mul]
    rfl
  | succ k ih =>
    have hq : (e.addInputs x k).history.emdFactor_ = e.history.emdFactor_ := by
      rw [addInputs_eq_sampleRun]
      exact (sampleRun_fields (e.history, e.window) x k).1
    show (TrueFloatingPointWeightedMovingAverage.addInputs _ x k).addInput (x k) = _
    rw [ih]
    show TrueFloatingPointWeightedMovingAverage.mk ((e.addInputs x k).history.write (x k))
        (((e.addInputs x k).window.setAverage _).addInput (e.addInputs x k).history (x k)) =
      TrueFloatingPointWeightedMovingAverage.mk ((e.addInputs x k).history.write (x k))
        (((e.addInputs x k).window.addInput (e.addInputs x k).history (x k)).setAverage _)
    congr 1
    unfold WindowForTrueFloatingPointMovingAverage.addInput
      WindowForTrueFloatingPointMovingAverage.setAverage
      BaseHistoryAndEmdForTrueFloatingPointMovingAverage.emdFactor
    simp only [WindowForTrueFloatingPointMovingAverage.mk.injEq, true_and]
    have hnext : (e.addInputs x (k + 1)).window.average_ =
        (e.addInputs x k).history.emdFactor_ * (e.addInputs x k).window.average_ +
          (e.addInputs x k).window.inputFactor_ * x k -
          (e.addInputs x k).window.historyFactor_ *
            ((e.addInputs x k).history.getHistoryValue (e.addInputs x k).window.readPtr_).1 := rfl
    rw [hnext, hq, pow_succ]
    ring

/-- C5: an error injected into the running average is damped geometrically.
Take a state of the engine and a second engine in the same state but for an
average that is larger by `δ`. After `k` further calls of `addInput` with the
same inputs the averages differ by exactly `emdFactor ^ k * δ`, the histories
and the cursors are equal, and `0 < emdFactor < 1`. -/
theorem injected_error_is_damped {m : HelperForMovingAverageMetricsForInaccurateTypes}
    {exp : S → S} (hexp : ExactExp exp) {e : TrueFloatingPointWeightedMovingAverage S}
    (hr : Reachable m exp e) (δ : S) (x : ℕ → S) (k : ℕ) :
    (({ e with window := e.window.setAverage (e.window.average_ + δ) } :
          TrueFloatingPointWeightedMovingAverage S).addInputs x k).getAverage -
        (e.addInputs x k).getAverage = e.history.emdFactor_ ^ k * δ ∧
      (({ e with window := e.window.setAverage (e.window.average_ + δ) } :
          TrueFloatingPointWeightedMovingAverage S).addInputs x k).history =
        (e.addInputs x k).history ∧
      (({ e with window := e.window.setAverage (e.window.average_ + δ) } :
          TrueFloatingPointWeightedMovingAverage S).addInputs x k).getReadPtr =
        (e.addInputs x k).getReadPtr ∧
      0 < e.history.emdFactor_ ∧ e.history.emdFactor_ < 1 := by
  have hi := hr.invariant
  rw [addInputs_of_shifted_average]
  refine ⟨?_, rfl, rfl, hi.1.emdFactor_pos hexp, hi.1.emdFactor_lt_one hexp⟩
  show (e.addInputs x k).window.average_ + e.history.emdFactor_ ^ k * δ -
    (e.addInputs x k).window.average_ = _
  ring

theorem injected_error_is_damped_witness :
    ∃ e0 : TrueFloatingPointWeightedMovingAverage ℝ,
      construct doubleMetrics Real.exp 0 (fun _ => 0) 1024 10240 = Except.ok e0 ∧
        (({ e0 with window := e0.window.setAverage (e0.window.average_ + 1 / 1000) } :
          TrueFloatingPointWeightedMovingAverage ℝ).addInputs (fun i => (i : ℝ)) 50).getAverage -
          (e0.addInputs (fun i => (i : ℝ)) 50).getAverage =
            e0.history.emdFactor_ ^ 50 * (1 / 1000) := by
  obtain ⟨e0, -, h0, -⟩ := engine_exists doubleMetrics Real.exp 0 (fun _ => (0 : ℝ))
    1024 10240 256 (by decide) (by decide) (by norm_num) (by norm_num) (by norm_num)
  exact ⟨e0, h0,
    (injected_error_is_damped realExp_exact (Reachable.construct 0 _ 1024 10240 e0 h0)
      (1 / 1000) (fun i => (i : ℝ)) 50).1⟩

end EveryState

section LogicalLength

variable {S : Type} [LinearOrderedField S]

open BaseHistoryAndEmdForTrueFloatingPointMovingAverage TrueFloatingPointWeightedMovingAverage

/-- What `optimiseForMaximumWindowSamples` does: the new logical end is
`force_between(samples, 4, historyEndPtr_ + 1) - 1`, where the upper limit is the
current logical length, and the flag tells whether the end changed. Nothing
else changes. -/
theorem optimiseForMaximumWindowSamples_eq
    (h : BaseHistoryAndEmdForTrueFloatingPointMovingAverage S) (samples : ℕ) :
    (h.optimiseForMaximumWindowSamples samples).1 =
        { h with historyEndPtr_ := force_between samples 4 (h.historyEndPtr_ + 1) - 1 } ∧
      ((h.optimiseForMaximumWindowSamples samples).2 = true ↔
        (h.optimiseForMaximumWindowSamples samples).1.historyEndPtr_ ≠ h.historyEndPtr_) := by
  unfold optimiseForMaximumWindowSamples maxWindowSamples
  by_cases hc : force_between samples 4 (h.historyEndPtr_ + 1) - 1 = h.historyEndPtr_
  · simp [hc]
  · simp [hc]

/-- C10, the code at the failing input: a history built with
`historySamples = 64`, shrunk by `optimiseForMaximumWindowSamples(8)`. The call
`optimiseForMaximumWindowSamples(32)` then leaves `historyEndPtr_` at `7` and
returns `false`, while `clamp(32, 4, historySamples) - 1` is `31`. -/
theorem optimise_does_not_grow_back (exp : S → S) (memory : ℕ → S) :
    ∃ h : BaseHistoryAndEmdForTrueFloatingPointMovingAverage S,
      HistoryAndEmdForTrueFloatingPointMovingAverage.construct doubleMetrics exp memory 64 640 =
          Except.ok h ∧
        h.historySize = 64 ∧
        (h.optimiseForMaximumWindowSamples 8).1.historyEndPtr_ = 7 ∧
        ((h.optimiseForMaximumWindowSamples 8).1.optimiseForMaximumWindowSamples 32).1.historyEndPtr_
          = 7 ∧
        ((h.optimiseForMaximumWindowSamples 8).1.optimiseForMaximumWindowSamples 32).2 = false ∧
        force_between 32 4 (h.optimiseForMaximumWindowSamples 8).1.historySize - 1 = 31 := by
  refine ⟨_, (construct_ok_iff doubleMetrics exp memory 64 640 _).mpr
    ⟨by decide, by decide, by norm_num, rfl⟩, rfl, ?_, ?_, ?_, ?_⟩ <;>
  simp [optimiseForMaximumWindowSamples, maxWindowSamples, force_between, historySize,
    BaseHistoryAndEmdForTrueFloatingPointMovingAverage.construct]

namespace TrueFloatingPointWeightedMovingAverage

theorem construct_fields {m : HelperForMovingAverageMetricsForInaccurateTypes} {exp : S → S}
    {here : Addr} {memory : ℕ → S} {M E : ℕ} {e : TrueFloatingPointWeightedMovingAverage S}
    (h : construct m exp here memory M E = Except.ok e) :
    e.history.historySamples_ = M ∧ e.history.historyEndPtr_ = M - 1 ∧
      e.history.writePtr_ = 0 ∧ e.history.emdSamples_ = E ∧ e.history.history_ = memory ∧
      e.window.history_ = some here ∧ e.window.windowSamples_ = M ∧
      e.window.readPtr_ = (0 + M) % (M - 1 + 1) ∧ e.window.average_ = 0 := by
  obtain ⟨-, -, -, rfl⟩ := (construct_ok_iff_engine m exp here memory M E e).mp h
  exact ⟨rfl, rfl, rfl, rfl, rfl, rfl, rfl, rfl, rfl⟩

theorem setWindowSize_fields {exp : S → S} {e e' : TrueFloatingPointWeightedMovingAverage S}
    {n : ℕ} (h : setWindowSize exp e n = Except.ok e') :
    e'.history.historySamples_ = e.history.historySamples_ ∧
      e'.history.historyEndPtr_ = force_between n 4 (e.history.historyEndPtr_ + 1) - 1 ∧
      e'.history.writePtr_ = e.history.writePtr_ ∧
      e'.history.history_ = e.history.history_ ∧
      e'.window.windowSamples_ = n ∧
      e'.window.readPtr_ = (e.history.writePtr_ + n) %
        (force_between n 4 (e.history.historyEndPtr_ + 1) - 1 + 1) ∧
      e'.window.average_ = e.window.average_ := by
  obtain ⟨-, -, -, rfl⟩ := (setWindowSize_ok_iff exp e e' n).mp h
  exact ⟨rfl, rfl, rfl, rfl, rfl, rfl, rfl⟩

theorem setWindowSize_succeeds (exp : S → S) (e : TrueFloatingPointWeightedMovingAverage S)
    {n : ℕ} (hb : e.window.history_ ≠ none) (h1 : 1 ≤ n) (h2 : n ≤ e.history.historyEndPtr_ + 1) :
    ∃ e', setWindowSize exp e n = Except.ok e' :=
  ⟨_, (setWindowSize_ok_iff exp e _ n).mpr ⟨hb, h1, h2, rfl⟩⟩

theorem addInput_fields (e : TrueFloatingPointWeightedMovingAverage S) (x : S) :
    (e.addInput x).history.historyEndPtr_ = e.history.historyEndPtr_ ∧
      (e.addInput x).history.writePtr_ = e.history.setNextPtr e.history.writePtr_ ∧
      (e.addInput x).history.history_ =
        Function.update e.history.history_ e.history.writePtr_ x ∧
      (e.addInput x).window.readPtr_ = e.history.setNextPtr e.window.readPtr_ ∧
      (e.addInput x).window.history_ = e.window.history_ :=
  ⟨rfl, rfl, rfl, rfl, rfl⟩

/-- One input in a state whose write cursor is above the live ring: the live
ring is not written. -/
theorem addInput_above_ring (e : TrueFloatingPointWeightedMovingAverage S) (x : S)
    (hw : e.history.historyEndPtr_ < e.history.writePtr_) :
    (e.addInput x).history.historyEndPtr_ = e.history.historyEndPtr_ ∧
      (e.addInput x).history.writePtr_ = e.history.writePtr_ - 1 ∧
      (e.addInput x).history.history_ e.history.writePtr_ = x ∧
      (∀ i, i ≤ e.history.historyEndPtr_ →
        (e.addInput x).history.history_ i = e.history.history_ i) ∧
      (e.addInput x).window.readPtr_ = e.history.setNextPtr e.window.readPtr_ := by
  refine ⟨rfl, ?_, ?_, ?_, rfl⟩
  · show e.history.setNextPtr e.history.writePtr_ = _
    unfold setNextPtr
    rw [if_pos (by omega)]
  · show Function.update e.history.history_ e.history.writePtr_ x e.history.writePtr_ = x
    rw [Function.update_same]
  · intro i hi
    show Function.update e.history.history_ e.history.writePtr_ x i = _
    rw [Function.update_noteq (by omega)]

end TrueFloatingPointWeightedMovingAverage

theorem Holds.of_ring (h : BaseHistoryAndEmdForTrueFloatingPointMovingAverage S) (x : ℕ → S) :
    Holds h
      (fun i => if i < h.historyEndPtr_ + 1 then
          h.history_ (h.getRelative (h.historyEndPtr_ + 1 - i))
        else x (i - (h.historyEndPtr_ + 1)))
      (h.historyEndPtr_ + 1) := by
  refine ⟨le_rfl, fun d h1 h2 => ?_⟩
  show _ = if h.historyEndPtr_ + 1 - d < h.historyEndPtr_ + 1 then
      h.history_ (h.getRelative (h.historyEndPtr_ + 1 - (h.historyEndPtr_ + 1 - d)))
    else x (h.historyEndPtr_ + 1 - d - (h.historyEndPtr_ + 1))
  rw [if_pos (by omega), show h.historyEndPtr_ + 1 - (h.historyEndPtr_ + 1 - d) = d from by omega]

theorem Holds.run_holds {exp : S → S}
    {hw : BaseHistoryAndEmdForTrueFloatingPointMovingAverage S ×
      WindowForTrueFloatingPointMovingAverage S} {v : ℕ → S} {T : ℕ}
    (hs : InStep exp hw.1 hw.2) (hh : Holds hw.1 v T) (x : ℕ → S)
    (hx : ∀ i, v (T + i) = x i) (k : ℕ) : Holds (sampleRun hw x k).1 v (T + k) := by
  induction k with
  | zero => exact hh
  | succ k ih =>
    have := ih.write (hs.run_inStep x k).2.1
    rw [hx k] at this
    exact this

/-- Where the write cursor is inside the live ring, after `k ≥ windowSamples`
inputs the next `addInput` reads the input that was given `windowSamples`
calls earlier, `x (k - windowSamples)`. -/
theorem read_is_delayed_input {m : HelperForMovingAverageMetricsForInaccurateTypes}
    {exp : S → S} {e : TrueFloatingPointWeightedMovingAverage S}
    (hr : Reachable m exp e) (hw : e.history.writePtr_ ≤ e.history.historyEndPtr_)
    (x : ℕ → S) (k : ℕ) (hk : e.window.windowSamples_ ≤ k) :
    (e.addInputs x k).getNextHistoryValue = x (k - e.window.windowSamples_) := by
  have hs := hr.invariant.inStep hw
  have hn1 : 1 ≤ e.window.windowSamples_ := hs.1.2.2.2.1
  have hk' := @InStep.run_inStep S _ exp (e.history, e.window) hs x k
  have hh := @Holds.run_holds S _ exp (e.history, e.window) _ _ hs
    (Holds.of_ring e.history x) x
    (fun i => by
      show (if e.history.historyEndPtr_ + 1 + i < e.history.historyEndPtr_ + 1 then _ else _) = _
      rw [if_neg (by omega)]
      congr 1
      omega) k
  obtain ⟨-, -, f3, -, -, -, f7, -⟩ := sampleRun_fields (e.history, e.window) x k
  rw [addInputs_eq_sampleRun]
  show (sampleRun (e.history, e.window) x k).1.history_
    (sampleRun (e.history, e.window) x k).2.readPtr_ = _
  have hn : e.window.windowSamples_ ≤ e.history.historyEndPtr_ + 1 := hs.2.2.1
  rw [hk'.2.2.2, f7, hh.2 _ hn1 (by rw [f3]; exact hn)]
  show (if e.history.historyEndPtr_ + 1 + k - e.window.windowSamples_ < e.history.historyEndPtr_ + 1
    then _ else _) = _
  rw [if_neg (by omega)]
  congr 1
  omega

/-- C2, the code at the failing input: an engine built with
`maxWindowSize = 64`, seeded with `setAverage(0)`, given the input `9` and then
resized with `setWindowSize(4)`, which is accepted. The write cursor stays at
`63`, outside the live ring `0..3`. After the inputs `1, 2, 3, 4` the next
`addInput` reads the value `0` from the slot `3`, not the input `1` given four
calls earlier; that input was written to the slot `63`. -/
theorem read_after_shrink_is_stale (exp : S → S) (here : Addr) (memory : ℕ → S) :
    ∃ e0 e1 : TrueFloatingPointWeightedMovingAverage S,
      construct doubleMetrics exp here memory 64 640 = Except.ok e0 ∧
        setWindowSize exp ((e0.setAverage 0).addInput 9) 4 = Except.ok e1 ∧
        e1.history.historyEndPtr_ = 3 ∧ e1.getWritePtr = 63 ∧ e1.getReadPtr = 3 ∧
        (e1.addInputs (fun i => (i : S) + 1) 4).getNextHistoryValue = 0 ∧
        (e1.addInputs (fun i => (i : S) + 1) 4).getReadPtr = 3 ∧
        (e1.addInputs (fun i => (i : S) + 1) 4).getWritePtr = 59 ∧
        (e1.addInputs (fun i => (i : S) + 1) 4).history.history_ 63 = 1 := by
  obtain ⟨e0, -, h0, -⟩ := engine_exists doubleMetrics exp here memory 64 640 64
    (by decide) (by decide) (by norm_num) (by norm_num) (by norm_num)
  obtain ⟨-, c2, c3, -, -, c6, -⟩ := construct_fields h0
  have a1 : ((e0.setAverage 0).addInput 9).history.historyEndPtr_ = 63 := c2
  have a2 : ((e0.setAverage 0).addInput 9).history.writePtr_ = 63 := by
    show e0.history.setNextPtr e0.history.writePtr_ = 63
    rw [c3, setNextPtr, if_neg (by decide), c2]
  have a3 : ((e0.setAverage 0).addInput 9).history.history_ 3 = 0 := by
    show Function.update (e0.history.fillWithAverage 0).history_ e0.history.writePtr_ 9 3 = 0
    rw [c3, Function.update_noteq (by decide), fillWithAverage_history, c2, if_pos (by decide)]
  obtain ⟨e1, h1⟩ := setWindowSize_succeeds exp ((e0.setAverage 0).addInput 9)
    (by
      show e0.window.history_ ≠ none
      rw [c6]
      simp) (by norm_num : 1 ≤ 4) (by rw [a1]; norm_num)
  obtain ⟨-, d2, d3, d4, -, d6, -⟩ := setWindowSize_fields h1
  rw [a1] at d2 d6
  rw [a2] at d3 d6
  have hfb : force_between 4 4 (63 + 1) - 1 = 3 := by decide
  rw [hfb] at d2 d6
  have d6' : (63 + 4) % (3 + 1) = 3 := by decide
  rw [d6'] at d6
  refine ⟨e0, e1, h0, h1, d2, d3, d6, ?_⟩
  generalize hx : (fun i : ℕ => (i : S) + 1) = x
  have x0 : x 0 = 1 := by rw [← hx]; simp
  have d5 : e1.history.history_ 3 = 0 := by rw [d4]; exact a3
  have np : ∀ (h : BaseHistoryAndEmdForTrueFloatingPointMovingAverage S) (p : ℕ),
      h.setNextPtr (p + 1) = p := fun h p => by simp [setNextPtr]
  have nz : ∀ h : BaseHistoryAndEmdForTrueFloatingPointMovingAverage S,
      h.setNextPtr 0 = h.historyEndPtr_ := fun h => by simp [setNextPtr]
  -- first input
  obtain ⟨s1, s2, s3, s4, s5⟩ := addInput_above_ring e1 (x 0) (by omega)
  rw [d2] at s1 s4
  rw [d3] at s2 s3
  rw [d6, np _ 2] at s5
  have s2' : (e1.addInput (x 0)).history.writePtr_ = 62 := s2
  -- second input
  obtain ⟨t1, t2, -, t4, t5⟩ := addInput_above_ring (e1.addInput (x 0)) (x 1) (by omega)
  rw [s1] at t1 t4
  rw [s2'] at t2
  rw [s5, np _ 1] at t5
  have t2' : ((e1.addInput (x 0)).addInput (x 1)).history.writePtr_ = 61 := t2
  have t6 : ((e1.addInput (x 0)).addInput (x 1)).history.history_ 63 = x 0 := by
    show Function.update _ (e1.addInput (x 0)).history.writePtr_ _ 63 = _
    rw [s2', Function.update_noteq (by decide), s3]
  -- third input
  obtain ⟨u1, u2, -, u4, u5⟩ :=
    addInput_above_ring ((e1.addInput (x 0)).addInput (x 1)) (x 2) (by omega)
  rw [t1] at u1 u4
  rw [t2'] at u2
  rw [t5, np _ 0] at u5
  have u2' : (((e1.addInput (x 0)).addInput (x 1)).addInput (x 2)).history.writePtr_ = 60 := u2
  have u6 : (((e1.addInput (x 0)).addInput (x 1)).addInput (x 2)).history.history_ 63 = x 0 := by
    show Function.update _ ((e1.addInput (x 0)).addInput (x 1)).history.writePtr_ _ 63 = _
    rw [t2', Function.update_noteq (by decide), t6]
  -- fourth input
  obtain ⟨v1, v2, -, v4, v5⟩ :=
    addInput_above_ring (((e1.addInput (x 0)).addInput (x 1)).addInput (x 2)) (x 3) (by omega)
  rw [u1] at v4
  rw [u2'] at v2
  rw [u5, nz, u1] at v5
  have v6 : ((((e1.addInput (x 0)).addInput (x 1)).addInput (x 2)).addInput (x 3)).history.history_
      63 = x 0 := by
    show Function.update _ (((e1.addInput (x 0)).addInput (x 1)).addInput (x 2)).history.writePtr_
      _ 63 = _
    rw [u2', Function.update_noteq (by decide), u6]
  refine ⟨?_, v5, v2, ?_⟩
  · show (((((e1.addInput (x 0)).addInput (x 1)).addInput (x 2)).addInput (x 3)).history.history_
      ((((e1.addInput (x 0)).addInput (x 1)).addInput (x 2)).addInput (x 3)).window.readPtr_) = 0
    rw [v5, v4 3 (by decide), u4 3 (by decide), t4 3 (by decide), s4 3 (by decide), d5]
  · show ((((e1.addInput (x 0)).addInput (x 1)).addInput (x 2)).addInput (x 3)).history.history_ 63
      = 1
    rw [v6, x0]

end LogicalLength

/-! ## One input to the multi-window set -/

section SetInput

variable {S : Type} [LinearOrderedField S]

open BaseHistoryAndEmdForTrueFloatingPointMovingAverage

namespace TrueFloatingPointWeightedMovingAverageSet

/-- The window updates made in any order without repetition: the windows of
the order are updated from the history `h`, the others are unchanged. -/
theorem updateWindows_apply (h : BaseHistoryAndEmdForTrueFloatingPointMovingAverage S) (x : S)
    (order : List ℕ) (hnd : order.Nodup)
    (entry : ℕ → ScaledWindowForTrueFloatingPointMovingAverage S) (i : ℕ) :
    updateWindows h x order entry i =
      if i ∈ order then (entry i).addInput h x else entry i := by
  induction order generalizing entry with
  | nil => simp [updateWindows]
  | cons a rest ih =>
    obtain ⟨ha, hrest⟩ := List.nodup_cons.mp hnd
    show updateWindows h x rest (Function.update entry a ((entry a).addInput h x)) i = _
    rw [ih hrest]
    by_cases hi : i ∈ rest
    · have hia : i ≠ a := fun heq => ha (heq ▸ hi)
      rw [if_pos hi, if_pos (List.mem_cons_of_mem _ hi), Function.update_noteq hia]
    · by_cases hia : i = a
      · subst hia
        rw [if_neg hi, if_pos (List.mem_cons_self _ _), Function.update_same]
      · rw [if_neg hi, if_neg (by simp [hia, hi]), Function.update_noteq hia]

theorem addInput_eq_updateWindows (t : TrueFloatingPointWeightedMovingAverageSet S) (x : S) :
    t.addInput x =
      { t with
        entry_ := updateWindows t.history_ x (List.range t.usedWindows_) t.entry_
        history_ := t.history_.write x } := rfl

theorem addInput_entry (t : TrueFloatingPointWeightedMovingAverageSet S) (x : S) (i : ℕ) :
    (t.addInput x).entry_ i =
      if i < t.usedWindows_ then (t.entry_ i).addInput t.history_ x else t.entry_ i := by
  rw [addInput_eq_updateWindows]
  show updateWindows t.history_ x (List.range t.usedWindows_) t.entry_ i = _
  rw [updateWindows_apply _ _ _ (List.nodup_range _)]
  simp only [List.mem_range]

theorem stdMax_eq_max (a b : S) : stdMax a b = max b a := by
  unfold stdMax
  split
  · rw [max_eq_left (le_of_lt ‹a < b›)]
  · rw [max_eq_right (not_lt.mp ‹¬a < b›)]

theorem addInputGetMax_loop (h : BaseHistoryAndEmdForTrueFloatingPointMovingAverage S)
    (x floor : S) (entry : ℕ → ScaledWindowForTrueFloatingPointMovingAverage S) (n : ℕ) :
    forLoop n
        (fun i (acc : (ℕ → ScaledWindowForTrueFloatingPointMovingAverage S) × S) =>
          let w := (acc.1 i).addInput h x
          let v1 := w.getAverage
          (Function.update acc.1 i w, stdMax v1 acc.2))
        (entry, floor) =
      (updateWindows h x (List.range n) entry,
        (List.range n).foldl (fun acc i => max acc ((entry i).addInput h x).getAverage) floor) := by
  induction n with
  | zero => rfl
  | succ n ih =>
    rw [forLoop_succ, ih]
    have hn : updateWindows h x (List.range n) entry n = entry n := by
      rw [updateWindows_apply _ _ _ (List.nodup_range _), if_neg (by simp)]
    unfold updateWindows at hn
    simp only [stdMax_eq_max, List.range_succ, List.foldl_append, List.foldl_cons,
      List.foldl_nil, updateWindows]
    rw [hn]

end TrueFloatingPointWeightedMovingAverageSet

end SetInput

/-! ## Configuration of the multi-window set -/

section SetConfiguration

variable {S : Type} [LinearOrderedField S]

open BaseHistoryAndEmdForTrueFloatingPointMovingAverage

theorem forLoopM_succ {σ : Type} (n : ℕ) (body : ℕ → σ → Except Error σ) (s : σ) :
    forLoopM (n + 1) body s = (forLoopM n body s >>= body n) := by
  simp [forLoopM, List.range_succ, List.foldlM_append]

/-- A loop whose `i`-th pass replaces the element `i` of an array by `G i` and
does not throw. -/
theorem forLoopM_update_ok {W : Type} (n : ℕ) (body : ℕ → (ℕ → W) → Except Error (ℕ → W))
    (entry : ℕ → W) (G : ℕ → W)
    (hbody : ∀ i, i < n → ∀ e : ℕ → W, (∀ j, i ≤ j → e j = entry j) →
      body i e = Except.ok (Function.update e i (G i))) :
    forLoopM n body entry = Except.ok (fun j => if j < n then G j else entry j) := by
  induction n with
  | zero => simp [forLoopM, pure, Except.pure]
  | succ n ih =>
    rw [forLoopM_succ, ih (fun i hi => hbody i (Nat.lt_succ_of_lt hi))]
    show body n _ = _
    rw [hbody n (Nat.lt_succ_self n) _ (fun j hj => by rw [if_neg (by omega)])]
    congr 1
    funext j
    by_cases hj : j = n
    · subst hj
      simp
    · rw [Function.update_noteq hj]
      have : (j < n + 1) ↔ (j < n) := by omega
      simp [this]

theorem forLoop_update_apply {W : Type} (n : ℕ) (g : ℕ → W → W) (entry : ℕ → W) (j : ℕ) :
    forLoop n (fun i e => Function.update e i (g i (e i))) entry j =
      if j < n then g j (entry j) else entry j := by
  induction n with
  | zero => simp [forLoop_zero]
  | succ n ih =>
    rw [forLoop_succ]
    by_cases hj : j = n
    · subst hj
      rw [Function.update_same, ih, if_neg (lt_irrefl _), if_pos (Nat.lt_succ_self _)]
    · rw [Function.update_noteq hj, ih]
      have : (j < n + 1) ↔ (j < n) := by omega
      simp [this]

theorem foldl_max_nat (f : ℕ → ℕ) (n : ℕ) :
    (∀ i, i < n → f i ≤ forLoop n (fun i acc => max acc (f i)) 0) ∧
      (∀ L, (∀ i, i < n → f i ≤ L) → forLoop n (fun i acc => max acc (f i)) 0 ≤ L) := by
  induction n with
  | zero => simp [forLoop_zero]
  | succ n ih =>
    obtain ⟨h1, h2⟩ := ih
    rw [forLoop_succ]
    refine ⟨?_, ?_⟩
    · intro i hi
      rcases Nat.lt_succ_iff_lt_or_eq.mp hi with hlt | heq
      · exact le_trans (h1 i hlt) (le_max_left _ _)
      · rw [heq]
        exact le_max_right _ _
    · intro L hL
      exact max_le (h2 L fun i hi => hL i (Nat.lt_succ_of_lt hi)) (hL n (Nat.lt_succ_self n))

namespace ScaledWindowForTrueFloatingPointMovingAverage

theorem setScale_toWindow (w : ScaledWindowForTrueFloatingPointMovingAverage S) (scale : S) :
    (w.setScale scale).toWindowForTrueFloatingPointMovingAverage =
      w.toWindowForTrueFloatingPointMovingAverage := by
  unfold setScale
  split
  · rfl
  · split
    · rfl
    · split <;> rfl

theorem setScale_one (w : ScaledWindowForTrueFloatingPointMovingAverage S) :
    (w.setScale 1).scale_ = 1 := by
  unfold setScale
  have h1 : ¬ |(1 : S)| < 1 / 10 ^ 12 := by
    rw [abs_one, not_lt, div_le_iff₀ (by positivity)]
    rw [one_mul]
    exact one_le_pow₀ (by norm_num)
  have h2 : ¬ (1 : S) > 10 ^ 12 := by
    rw [gt_iff_lt, not_lt]
    exact one_le_pow₀ (by norm_num)
  have h3 : ¬ (1 : S) < -(10 ^ 12) := by
    rw [not_lt]
    have : (0 : S) ≤ 10 ^ 12 := by positivity
    linarith
  rw [if_neg h1, if_neg h2, if_neg h3]

theorem setWindowSamplesAndScale_ok_iff (exp : S → S)
    (w w' : ScaledWindowForTrueFloatingPointMovingAverage S)
    (h : BaseHistoryAndEmdForTrueFloatingPointMovingAverage S) (n : ℕ) (scale : S) :
    w.setWindowSamplesAndScale exp h n scale = Except.ok w' ↔
      w.history_ ≠ none ∧ 1 ≤ n ∧ n ≤ h.historyEndPtr_ + 1 ∧
        w' = setScale
          { w with
            toWindowForTrueFloatingPointMovingAverage :=
              { w.toWindowForTrueFloatingPointMovingAverage with
                windowSamples_ := n
                inputFactor_ := (1 - h.emdFactor_) / (1 - exp (-1 * (n : S) / (h.emdSamples_ : S)))
                historyFactor_ := (1 - h.emdFactor_) /
                  (1 - exp (-1 * (n : S) / (h.emdSamples_ : S))) *
                    exp (-1 * (n : S) / (h.emdSamples_ : S))
                readPtr_ := h.getRelative n } } scale := by
  unfold setWindowSamplesAndScale
  cases hsw : w.toWindowForTrueFloatingPointMovingAverage.setWindowSamples exp h n with
  | error err =>
    simp only [bind, Except.bind]
    constructor
    · intro hcontra
      cases hcontra
    · rintro ⟨a, b, c, -⟩
      have := (WindowForTrueFloatingPointMovingAverage.setWindowSamples_ok_iff exp _ _ h n).mpr
        ⟨a, b, c, rfl⟩
      rw [hsw] at this
      cases this
  | ok w1 =>
    obtain ⟨a, b, c, rfl⟩ :=
      (WindowForTrueFloatingPointMovingAverage.setWindowSamples_ok_iff exp _ _ h n).mp hsw
    simp only [bind, Except.bind, pure, Except.pure, Except.ok.injEq]
    constructor
    · intro heq
      exact ⟨a, b, c, heq.symm⟩
    · rintro ⟨-, -, -, heq⟩
      exact heq.symm

end ScaledWindowForTrueFloatingPointMovingAverage

namespace ScaledWindowForTrueFloatingPointMovingAverage

theorem setReadPtr_ok (w : ScaledWindowForTrueFloatingPointMovingAverage S)
    (h : BaseHistoryAndEmdForTrueFloatingPointMovingAverage S)
    (hn : w.windowSamples_ ≤ h.historyEndPtr_ + 1) :
    w.setReadPtr h = Except.ok
      { w with
        toWindowForTrueFloatingPointMovingAverage :=
          { w.toWindowForTrueFloatingPointMovingAverage with
            readPtr_ := h.getRelative w.windowSamples_ } } := by
  unfold setReadPtr
  rw [(WindowForTrueFloatingPointMovingAverage.setReadPtr_ok_iff _ _ h).mpr ⟨hn, rfl⟩]
  rfl

end ScaledWindowForTrueFloatingPointMovingAverage

namespace TrueFloatingPointWeightedMovingAverageSet

/-- On a set whose windows are in step, `optimiseForMaximumSamples` does not
throw and keeps the windows in step. -/
theorem optimiseForMaximumSamples_sized {exp : S → S}
    {t : TrueFloatingPointWeightedMovingAverageSet S} (hs : Sized exp t) :
    ∃ t', t.optimiseForMaximumSamples = Except.ok t' ∧ Sized exp t' ∧
      t'.history_.emdSamples_ = t.history_.emdSamples_ ∧
      t'.usedWindows_ = t.usedWindows_ ∧
      t'.history_.historySamples_ = t.history_.historySamples_ ∧
      ∀ j, (t'.entry_ j).windowSamples_ = (t.entry_ j).windowSamples_ ∧
        (t'.entry_ j).scale_ = (t.entry_ j).scale_ := by
  obtain ⟨hw, h4, hcap, hused, hwin⟩ := hs
  obtain ⟨m1, m2⟩ := foldl_max_nat (fun i => (t.entry_ i).windowSamples) t.usedWindows_
  obtain ⟨maxS, hmaxS⟩ : ∃ v,
      forLoop t.usedWindows_ (fun i acc => max acc (t.entry_ i).windowSamples) 0 = v := ⟨_, rfl⟩
  rw [hmaxS] at m1 m2
  have m1' : ∀ i, i < t.usedWindows_ → (t.entry_ i).windowSamples_ ≤ maxS := m1
  have hmaxL := m2 (t.history_.historyEndPtr_ + 1) (fun i hi => (hwin i hi).2.2.1)
  have f1 := force_between_ge hmaxL
  have f2 := TrueFloatingPointWeightedMovingAverage.force_between_le (n := maxS) h4
  have f3 := TrueFloatingPointWeightedMovingAverage.four_le_force_between maxS h4
  unfold optimiseForMaximumSamples optimiseForMaximumWindowSamples maxWindowSamples
  simp only [hmaxS]
  by_cases hchg : force_between maxS 4 (t.history_.historyEndPtr_ + 1) - 1 =
      t.history_.historyEndPtr_
  · simp only [hchg, ne_eq, not_true_eq_false, ite_false, Bool.false_eq_true]
    exact ⟨_, rfl, ⟨hw, h4, hcap, hused, hwin⟩, rfl, rfl, rfl, fun j => ⟨rfl, rfl⟩⟩
  · simp only [hchg, ne_eq, not_false_eq_true, ite_true]
    have hloop := forLoopM_update_ok t.usedWindows_
      (fun i entry => do
        let w ← (entry i).setReadPtr
          { t.history_ with
            historyEndPtr_ := force_between maxS 4 (t.history_.historyEndPtr_ + 1) - 1 }
        pure (Function.update entry i w)) t.entry_
      (fun i =>
        { t.entry_ i with
          toWindowForTrueFloatingPointMovingAverage :=
            { (t.entry_ i).toWindowForTrueFloatingPointMovingAverage with
              readPtr_ := (t.history_.writePtr_ + (t.entry_ i).windowSamples_) %
                (force_between maxS 4 (t.history_.historyEndPtr_ + 1) - 1 + 1) } })
      (fun i hi e he => by
        have hle : (t.entry_ i).windowSamples_ ≤
            force_between maxS 4 (t.history_.historyEndPtr_ + 1) - 1 + 1 := by
          have := m1' i hi
          omega
        dsimp only
        rw [he i le_rfl, ScaledWindowForTrueFloatingPointMovingAverage.setReadPtr_ok _ _ hle]
        rfl)
    rw [hloop]
    refine ⟨_, rfl, ⟨hw, ?_, ?_, hused, ?_⟩, rfl, rfl, rfl, ?_⟩
    rotate_left 3
    · intro j
      show ((if j < t.usedWindows_ then _ else t.entry_ j) :
          ScaledWindowForTrueFloatingPointMovingAverage S).windowSamples_ = _ ∧
        ((if j < t.usedWindows_ then _ else t.entry_ j) :
          ScaledWindowForTrueFloatingPointMovingAverage S).scale_ = _
      split <;> exact ⟨rfl, rfl⟩
    · show 4 ≤ force_between maxS 4 (t.history_.historyEndPtr_ + 1) - 1 + 1
      omega
    · show force_between maxS 4 (t.history_.historyEndPtr_ + 1) - 1 + 1 ≤
        t.history_.historySamples_
      omega
    · intro i hi
      have hi' : i < t.usedWindows_ := hi
      obtain ⟨hc, -, hn, -⟩ := hwin i hi'
      have hle : (t.entry_ i).windowSamples_ ≤
          force_between maxS 4 (t.history_.historyEndPtr_ + 1) - 1 + 1 := by
        have := m1' i hi'
        omega
      simp only [if_pos hi']
      exact ⟨hc, by rw [hw]; exact Nat.zero_le _, hle, rfl⟩

theorem Sized.update {exp : S → S} {t : TrueFloatingPointWeightedMovingAverageSet S}
    (hs : Sized exp t) {index n : ℕ} {scale : S}
    {w : ScaledWindowForTrueFloatingPointMovingAverage S}
    (hsw : (t.entry_ index).setWindowSamplesAndScale exp t.history_ n scale = Except.ok w) :
    Sized exp { t with entry_ := Function.update t.entry_ index w } ∧
      w.windowSamples_ = n ∧ w.scale_ = ((t.entry_ index).setScale scale).scale_ := by
  obtain ⟨hb, hn1, hn2, hwdef⟩ :=
    (ScaledWindowForTrueFloatingPointMovingAverage.setWindowSamplesAndScale_ok_iff exp _ _
      t.history_ n scale).mp hsw
  have hwbase := congrArg
    ScaledWindowForTrueFloatingPointMovingAverage.toWindowForTrueFloatingPointMovingAverage hwdef
  rw [ScaledWindowForTrueFloatingPointMovingAverage.setScale_toWindow] at hwbase
  obtain ⟨hw, h4, hcp, hused, hwin⟩ := hs
  refine ⟨⟨hw, h4, hcp, hused, ?_⟩, ?_, ?_⟩
  · intro i hi
    have hi' : i < t.usedWindows_ := hi
    by_cases hii : i = index
    · subst hii
      show InStep exp t.history_
        (Function.update t.entry_ i w i).toWindowForTrueFloatingPointMovingAverage
      rw [Function.update_same, hwbase]
      obtain ⟨hc, -, -, -⟩ := hwin i hi'
      exact ⟨⟨hb, hc.2.1, hc.2.2.1, hn1, rfl, rfl⟩, by rw [hw]; exact Nat.zero_le _, hn2, rfl⟩
    · show InStep exp t.history_
        (Function.update t.entry_ index w i).toWindowForTrueFloatingPointMovingAverage
      rw [Function.update_noteq hii]
      exact hwin i hi'
  · show w.toWindowForTrueFloatingPointMovingAverage.windowSamples_ = n
    rw [hwbase]
  · rw [hwdef]
    unfold ScaledWindowForTrueFloatingPointMovingAverage.setScale
    split
    · rfl
    · split
      · rfl
      · split <;> rfl

/-- A successful `setWindowSizeAndScale` keeps the windows in step, and sets
the size and the scale of the window `index`. -/
theorem setWindowSizeAndScale_sized {exp : S → S}
    {t t' : TrueFloatingPointWeightedMovingAverageSet S} (hs : Sized exp t)
    {index n : ℕ} {scale : S} (h : setWindowSizeAndScale exp t index n scale = Except.ok t') :
    Sized exp t' ∧ t'.history_.emdSamples_ = t.history_.emdSamples_ ∧
      t'.usedWindows_ = t.usedWindows_ ∧
      t'.history_.historySamples_ = t.history_.historySamples_ ∧
      (t'.entry_ index).windowSamples_ = n ∧
      (t'.entry_ index).scale_ = ((t.entry_ index).setScale scale).scale_ ∧
      ∀ j, j ≠ index → (t'.entry_ j).windowSamples_ = (t.entry_ j).windowSamples_ ∧
        (t'.entry_ j).scale_ = (t.entry_ j).scale_ := by
  unfold setWindowSizeAndScale at h
  by_cases hcap : n > t.getMaxWindowSamples
  · rw [if_pos hcap] at h
    cases h
  · rw [if_neg hcap] at h
    unfold checkWindowIndex getUsedWindows at h
    by_cases hidx : index < t.usedWindows_
    · rw [if_pos hidx] at h
      simp only [bind, Except.bind, pure, Except.pure] at h
      cases hsw : (t.entry_ index).setWindowSamplesAndScale exp t.history_ n scale with
      | error err =>
        rw [hsw] at h
        cases h
      | ok w =>
        rw [hsw] at h
        obtain ⟨hs2, hwn, hws⟩ := hs.update hsw
        obtain ⟨t2, ho, hs', he, hu, hcp', hf⟩ := optimiseForMaximumSamples_sized hs2
        have h2 : TrueFloatingPointWeightedMovingAverageSet.optimiseForMaximumSamples
            { t with entry_ := Function.update t.entry_ index w } = Except.ok t' := h
        rw [ho] at h2
        cases h2
        refine ⟨hs', he, hu, hcp', ?_, ?_, ?_⟩
        · rw [(hf index).1]
          show (Function.update t.entry_ index w index).windowSamples_ = n
          rw [Function.update_same, hwn]
        · rw [(hf index).2]
          show (Function.update t.entry_ index w index).scale_ = _
          rw [Function.update_same, hws]
        · intro j hj
          rw [(hf j).1, (hf j).2]
          show (Function.update t.entry_ index w j).windowSamples_ = _ ∧
            (Function.update t.entry_ index w j).scale_ = _
          rw [Function.update_noteq hj]
          exact ⟨rfl, rfl⟩
    · rw [if_neg hidx] at h
      cases h

/-- On a set whose windows are in step, `setWindowSizeAndScale` succeeds for
an active window and a size between one and the logical length. -/
theorem setWindowSizeAndScale_succeeds (exp : S → S)
    {t : TrueFloatingPointWeightedMovingAverageSet S} (hs : Sized exp t)
    {index n : ℕ} (scale : S) (hidx : index < t.usedWindows_) (hn1 : 1 ≤ n)
    (hn2 : n ≤ t.history_.historyEndPtr_ + 1) :
    ∃ t', setWindowSizeAndScale exp t index n scale = Except.ok t' := by
  have hcap : ¬ n > t.getMaxWindowSamples := by
    have := hs.2.2.1
    show ¬ n > t.history_.historySamples_
    omega
  have hsw := (ScaledWindowForTrueFloatingPointMovingAverage.setWindowSamplesAndScale_ok_iff exp
    (t.entry_ index) _ t.history_ n scale).mpr ⟨(hs.2.2.2.2 index hidx).1.1, hn1, hn2, rfl⟩
  obtain ⟨hs2, -, -⟩ := hs.update hsw
  obtain ⟨t2, ho, -⟩ := optimiseForMaximumSamples_sized hs2
  refine ⟨t2, ?_⟩
  unfold setWindowSizeAndScale
  rw [if_neg hcap]
  unfold checkWindowIndex getUsedWindows
  rw [if_pos hidx]
  simp only [bind, Except.bind, pure, Except.pure]
  rw [hsw]
  exact ho

theorem construct_sizes {M W : ℕ} (hM : 64 ≤ M) (hW : 1 ≤ W ∧ W ≤ 32) (i : ℕ) (hi : i < W) :
    1 ≤ (i + 1) * M / W ∧ (i + 1) * M / W ≤ M - 1 + 1 := by
  constructor
  · apply Nat.div_pos _ (by omega)
    calc W ≤ M := by omega
      _ ≤ (i + 1) * M := Nat.le_mul_of_pos_left M (Nat.succ_pos i)
  · have : (i + 1) * M / W ≤ M := by
      apply Nat.div_le_of_le_mul
      exact Nat.mul_le_mul_right M (by omega)
    omega

/-- The loop of the constructor: it does not throw, and it gives the window
`i` the size `(i + 1) * maxWindowSamples / entries_` and the scale one. -/
theorem construct_loop (exp : S → S) (here : Addr) (memory : ℕ → S) (M E W : ℕ) (a : S)
    (hM : 64 ≤ M) (hW : 1 ≤ W ∧ W ≤ 32) :
    forLoopM W
        (fun i entry => do
          let w ← (entry i).setOwner (some here)
          let w := w.setAverage 0
          let w ← w.setWindowSamplesAndScale exp
            ((BaseHistoryAndEmdForTrueFloatingPointMovingAverage.construct exp memory M
              E).fillWithAverage a) ((i + 1) * M / W) 1
          pure (Function.update entry i w))
        (fun _ => ScaledWindowForTrueFloatingPointMovingAverage.construct none) =
      Except.ok (fun j => if j < W then
        ScaledWindowForTrueFloatingPointMovingAverage.setScale
          { scale_ := 1
            toWindowForTrueFloatingPointMovingAverage :=
              { history_ := some here
                windowSamples_ := (j + 1) * M / W
                inputFactor_ := (1 - exp (-1 / (E : S))) /
                  (1 - exp (-1 * (((j + 1) * M / W : ℕ) : S) / (E : S)))
                historyFactor_ := (1 - exp (-1 / (E : S))) /
                  (1 - exp (-1 * (((j + 1) * M / W : ℕ) : S) / (E : S))) *
                    exp (-1 * (((j + 1) * M / W : ℕ) : S) / (E : S))
                readPtr_ := (0 + (j + 1) * M / W) % (M - 1 + 1)
                average_ := 0 } } 1
        else ScaledWindowForTrueFloatingPointMovingAverage.construct none) :=
  forLoopM_update_ok W _ _
    (fun i => ScaledWindowForTrueFloatingPointMovingAverage.setScale
      { scale_ := 1
        toWindowForTrueFloatingPointMovingAverage :=
          { history_ := some here
            windowSamples_ := (i + 1) * M / W
            inputFactor_ := (1 - exp (-1 / (E : S))) /
              (1 - exp (-1 * (((i + 1) * M / W : ℕ) : S) / (E : S)))
            historyFactor_ := (1 - exp (-1 / (E : S))) /
              (1 - exp (-1 * (((i + 1) * M / W : ℕ) : S) / (E : S))) *
                exp (-1 * (((i + 1) * M / W : ℕ) : S) / (E : S))
            readPtr_ := (0 + (i + 1) * M / W) % (M - 1 + 1)
            average_ := 0 } } 1)
    (fun i hi e he => by
      obtain ⟨s1, s2⟩ := construct_sizes hM hW i hi
      dsimp only
      rw [he i le_rfl]
      have hso : (ScaledWindowForTrueFloatingPointMovingAverage.construct none :
          ScaledWindowForTrueFloatingPointMovingAverage S).setOwner (some here) =
          Except.ok { scale_ := 1
                      toWindowForTrueFloatingPointMovingAverage :=
                        { history_ := some here
                          windowSamples_ := 1
                          inputFactor_ := 1
                          historyFactor_ := 1
                          readPtr_ := 1
                          average_ := 0 } } := rfl
      rw [hso]
      simp only [bind, Except.bind]
      rw [(ScaledWindowForTrueFloatingPointMovingAverage.setWindowSamplesAndScale_ok_iff exp _ _
        _ ((i + 1) * M / W) 1).mpr ⟨by simp [ScaledWindowForTrueFloatingPointMovingAverage.setAverage,
          WindowForTrueFloatingPointMovingAverage.setAverage], s1, s2, rfl⟩]
      rfl)

/-- What a successful construction of the multi-window set returns. -/
theorem construct_ok_iff_set (m : HelperForMovingAverageMetricsForInaccurateTypes) (exp : S → S)
    (here : Addr) (memory : ℕ → S) (M E W : ℕ) (a : S)
    (t : TrueFloatingPointWeightedMovingAverageSet S) :
    construct m exp here memory M E W a = Except.ok t ↔
      (1 ≤ W ∧ W ≤ 32) ∧ m.isValidErrorMitigatingDecaySamples E = true ∧
        m.isValidWindowSizeInSamples M = true ∧ M < E ∧
        t =
          { entries_ := W
            entry_ := fun j => if j < W then
              ScaledWindowForTrueFloatingPointMovingAverage.setScale
                { scale_ := 1
                  toWindowForTrueFloatingPointMovingAverage :=
                    { history_ := some here
                      windowSamples_ := (j + 1) * M / W
                      inputFactor_ := (1 - exp (-1 / (E : S))) /
                        (1 - exp (-1 * (((j + 1) * M / W : ℕ) : S) / (E : S)))
                      historyFactor_ := (1 - exp (-1 / (E : S))) /
                        (1 - exp (-1 * (((j + 1) * M / W : ℕ) : S) / (E : S))) *
                          exp (-1 * (((j + 1) * M / W : ℕ) : S) / (E : S))
                      readPtr_ := (0 + (j + 1) * M / W) % (M - 1 + 1)
                      average_ := 0 } } 1
              else ScaledWindowForTrueFloatingPointMovingAverage.construct none
            usedWindows_ := W
            history_ := (BaseHistoryAndEmdForTrueFloatingPointMovingAverage.construct exp memory
              M E).fillWithAverage a } := by
  unfold construct validMaxTimeConstants
  by_cases hW : is_between W MINIMUM_TIME_CONSTANTS MAXIMUM_TIME_CONSTANTS = true
  · rw [if_pos hW]
    have hW' : 1 ≤ W ∧ W ≤ 32 := by
      simpa [is_between, MINIMUM_TIME_CONSTANTS, MAXIMUM_TIME_CONSTANTS] using hW
    cases hc : HistoryAndEmdForTrueFloatingPointMovingAverage.construct m exp memory M E with
    | error err =>
      constructor
      · intro h
        cases h
      · rintro ⟨-, vE, vM, hME, -⟩
        have := (construct_ok_iff m exp memory M E _).mpr ⟨vE, vM, hME, rfl⟩
        rw [hc] at this
        cases this
    | ok hist =>
      obtain ⟨vE, vM, hME, rfl⟩ := (construct_ok_iff m exp memory M E hist).mp hc
      have hM : 64 ≤ M := by
        simp [HelperForMovingAverageMetricsForInaccurateTypes.isValidWindowSizeInSamples,
          is_between, HelperForMovingAverageMetricsForInaccurateTypes.MIN_MAX_WINDOW_SAMPLES] at vM
        exact vM.1
      have hloop := construct_loop exp here memory M E W a hM hW'
      constructor
      · intro h
        have h' : (forLoopM W
            (fun i entry => do
              let w ← (entry i).setOwner (some here)
              let w := w.setAverage 0
              let w ← w.setWindowSamplesAndScale exp
                ((BaseHistoryAndEmdForTrueFloatingPointMovingAverage.construct exp memory M
                  E).fillWithAverage a) ((i + 1) * M / W) 1
              pure (Function.update entry i w))
            (fun _ => ScaledWindowForTrueFloatingPointMovingAverage.construct none) >>=
            fun entry => (pure
              { entries_ := W
                entry_ := entry
                usedWindows_ := W
                history_ := (BaseHistoryAndEmdForTrueFloatingPointMovingAverage.construct exp memory
                  M E).fillWithAverage a } :
                Except Error (TrueFloatingPointWeightedMovingAverageSet S))) = Except.ok t := h
        rw [hloop] at h'
        cases h'
        exact ⟨hW', vE, vM, hME, rfl⟩
      · rintro ⟨-, -, -, -, rfl⟩
        show (forLoopM W
            (fun i entry => do
              let w ← (entry i).setOwner (some here)
              let w := w.setAverage 0
              let w ← w.setWindowSamplesAndScale exp
                ((BaseHistoryAndEmdForTrueFloatingPointMovingAverage.construct exp memory M
                  E).fillWithAverage a) ((i + 1) * M / W) 1
              pure (Function.update entry i w))
            (fun _ => ScaledWindowForTrueFloatingPointMovingAverage.construct none) >>=
            fun entry => (pure
              { entries_ := W
                entry_ := entry
                usedWindows_ := W
                history_ := (BaseHistoryAndEmdForTrueFloatingPointMovingAverage.construct exp memory
                  M E).fillWithAverage a } :
                Except Error (TrueFloatingPointWeightedMovingAverageSet S))) = _
        rw [hloop]
        rfl
  · rw [if_neg hW]
    constructor
    · intro h
      cases h
    · rintro ⟨hW', -⟩
      exfalso
      apply hW
      simp [is_between, MINIMUM_TIME_CONSTANTS, MAXIMUM_TIME_CONSTANTS, hW'.1, hW'.2]

theorem construct_sized {m : HelperForMovingAverageMetricsForInaccurateTypes} {exp : S → S}
    {here : Addr} {memory : ℕ → S} {M E W : ℕ} {a : S}
    {t : TrueFloatingPointWeightedMovingAverageSet S}
    (h : construct m exp here memory M E W a = Except.ok t) :
    Sized exp t ∧ t.history_.emdSamples_ = E := by
  obtain ⟨hW, -, vM, hME, rfl⟩ := (construct_ok_iff_set m exp here memory M E W a t).mp h
  have hM : 64 ≤ M := by
    simp [HelperForMovingAverageMetricsForInaccurateTypes.isValidWindowSizeInSamples,
      is_between, HelperForMovingAverageMetricsForInaccurateTypes.MIN_MAX_WINDOW_SAMPLES] at vM
    exact vM.1
  refine ⟨⟨rfl, ?_, ?_, rfl, ?_⟩, rfl⟩
  · show 4 ≤ M - 1 + 1
    omega
  · show M - 1 + 1 ≤ M
    omega
  · intro i hi
    have hi' : i < W := hi
    obtain ⟨s1, s2⟩ := construct_sizes hM hW i hi'
    simp only [if_pos hi']
    rw [ScaledWindowForTrueFloatingPointMovingAverage.setScale_toWindow]
    exact ⟨⟨by simp, by show 0 < E; omega, rfl, s1, rfl, rfl⟩, Nat.zero_le _, s2, rfl⟩

/-- Every set that was sized before the first input has its windows in step
with the history. -/
theorem ConfiguredBeforeInput.sized {m : HelperForMovingAverageMetricsForInaccurateTypes}
    {exp : S → S} {E : ℕ} {t : TrueFloatingPointWeightedMovingAverageSet S}
    (hc : ConfiguredBeforeInput m exp E t) : Sized exp t ∧ t.history_.emdSamples_ = E := by
  induction hc with
  | construct here memory M W a t h => exact construct_sized h
  | setWindowSizeAndScale t t' index n scale _ h' ih =>
    obtain ⟨hs, he, -⟩ := setWindowSizeAndScale_sized ih.1 h'
    exact ⟨hs, he.trans ih.2⟩

end TrueFloatingPointWeightedMovingAverageSet

end SetConfiguration

/-! ## A window of the set and the single-window engine -/

section SetAndEngine

variable {S : Type} [LinearOrderedField S]

open BaseHistoryAndEmdForTrueFloatingPointMovingAverage

namespace TrueFloatingPointWeightedMovingAverageSet

/-- The second loop of `setAverages` after `n` passes: it has filled the slots
below `n` while `n ≤ historyEndPtr_ + 1`; the pass for the first index above
`historyEndPtr_` throws, and the loop ends there. -/
theorem setAverages_loop (h : BaseHistoryAndEmdForTrueFloatingPointMovingAverage S) (a : S)
    (n : ℕ) :
    forLoop n
        (fun i (acc : BaseHistoryAndEmdForTrueFloatingPointMovingAverage S × Except Error Unit) =>
          match acc.2 with
          | Except.error _ => acc
          | Except.ok _ =>
            match acc.1.set i a with
            | Except.ok h' => (h', Except.ok ())
            | Except.error err => (acc.1, Except.error err))
        (h, Except.ok ()) =
      if n ≤ h.historyEndPtr_ + 1 then
        ({ h with history_ := fun i => if i < n then a else h.history_ i }, Except.ok ())
      else
        ({ h with history_ := fun i => if i ≤ h.historyEndPtr_ then a else h.history_ i },
          Except.error Error.out_of_range) := by
  induction n with
  | zero =>
    rw [forLoop_zero, if_pos (Nat.zero_le _)]
    simp
  | succ n ih =>
    rw [forLoop_succ, ih]
    by_cases h1 : n + 1 ≤ h.historyEndPtr_ + 1
    · rw [if_pos (by omega), if_pos h1]
      have hset : BaseHistoryAndEmdForTrueFloatingPointMovingAverage.set
          { h with history_ := fun i => if i < n then a else h.history_ i } n a =
          Except.ok { h with history_ := fun i => if i < n + 1 then a else h.history_ i } := by
        unfold BaseHistoryAndEmdForTrueFloatingPointMovingAverage.set IndexPolicy.NotGreater.method
        rw [if_pos (by show n ≤ h.historyEndPtr_; omega)]
        simp only [bind, Except.bind, pure, Except.pure, Except.ok.injEq,
          BaseHistoryAndEmdForTrueFloatingPointMovingAverage.mk.injEq, true_and, and_true]
        funext i
        by_cases hi : i = n
        · subst hi
          simp
        · rw [Function.update_noteq hi]
          have : (i < n + 1) ↔ (i < n) := by omega
          simp [this]
      simp only [hset]
    · by_cases h2 : n ≤ h.historyEndPtr_ + 1
      · rw [if_pos h2, if_neg h1]
        have hn : n = h.historyEndPtr_ + 1 := by omega
        have hset : BaseHistoryAndEmdForTrueFloatingPointMovingAverage.set
            { h with history_ := fun i => if i < n then a else h.history_ i } n a =
            Except.error Error.out_of_range := by
          unfold BaseHistoryAndEmdForTrueFloatingPointMovingAverage.set
            IndexPolicy.NotGreater.method
          rw [if_neg (by show ¬ n ≤ h.historyEndPtr_; omega)]
          rfl
        simp only [hset]
        congr 2
        funext i
        have : (i < n) ↔ (i ≤ h.historyEndPtr_) := by omega
        simp [this]
      · rw [if_neg h2, if_neg h1]

/-- The state that `setAverages` leaves, thrown or not: every window has the
average `a`, and the slots of the live ring that are allocated hold `a`. -/
theorem setAverages_state (t : TrueFloatingPointWeightedMovingAverageSet S) (a : S) :
    (t.setAverages a).1.entries_ = t.entries_ ∧
      (t.setAverages a).1.usedWindows_ = t.usedWindows_ ∧
      (∀ j, (t.setAverages a).1.entry_ j =
        if j < t.entries_ then (t.entry_ j).setAverage a else t.entry_ j) ∧
      (t.setAverages a).1.history_ =
        { t.history_ with
          history_ := fun i =>
            if i < t.history_.historySamples_ ∧ i ≤ t.history_.historyEndPtr_ then a
            else t.history_.history_ i } := by
  unfold setAverages
  refine ⟨rfl, rfl, ?_, ?_⟩
  · intro j
    exact forLoop_update_apply t.entries_ (fun _ w => w.setAverage a) t.entry_ j
  · show (forLoop t.history_.historySize _ (t.history_, Except.ok ())).1 = _
    rw [setAverages_loop]
    unfold BaseHistoryAndEmdForTrueFloatingPointMovingAverage.historySize
    split
    · simp only [BaseHistoryAndEmdForTrueFloatingPointMovingAverage.mk.injEq, true_and, and_true]
      funext i
      have : (i < t.history_.historySamples_ ∧ i ≤ t.history_.historyEndPtr_) ↔
          (i < t.history_.historySamples_) := by
        constructor
        · exact fun h => h.1
        · exact fun h => ⟨h, by omega⟩
      simp [this]
    · simp only [BaseHistoryAndEmdForTrueFloatingPointMovingAverage.mk.injEq, true_and, and_true]
      funext i
      have : (i < t.history_.historySamples_ ∧ i ≤ t.history_.historyEndPtr_) ↔
          (i ≤ t.history_.historyEndPtr_) := by
        constructor
        · exact fun h => h.2
        · exact fun h => ⟨by omega, h⟩
      simp [this]

/-- The outcome of `setAverages`: it throws exactly when the logical length is
below the allocated length. -/
theorem setAverages_outcome (t : TrueFloatingPointWeightedMovingAverageSet S) (a : S) :
    (t.setAverages a).2 =
      if t.history_.historySamples_ ≤ t.history_.historyEndPtr_ + 1 then Except.ok ()
      else Except.error Error.out_of_range := by
  unfold setAverages
  show (forLoop t.history_.historySize _ (t.history_, Except.ok ())).2 = _
  rw [setAverages_loop]
  unfold BaseHistoryAndEmdForTrueFloatingPointMovingAverage.historySize
  split <;> rfl

/-- A run of the set, seen from one active window. -/
theorem addInputs_window (t : TrueFloatingPointWeightedMovingAverageSet S) (x : ℕ → S)
    (k : ℕ) {i : ℕ} (hi : i < t.usedWindows_) :
    (t.addInputs x k).usedWindows_ = t.usedWindows_ ∧
      (t.addInputs x k).history_ =
        (sampleRun (t.history_, (t.entry_ i).toWindowForTrueFloatingPointMovingAverage) x k).1 ∧
      ((t.addInputs x k).entry_ i).toWindowForTrueFloatingPointMovingAverage =
        (sampleRun (t.history_, (t.entry_ i).toWindowForTrueFloatingPointMovingAverage) x k).2 ∧
      ((t.addInputs x k).entry_ i).scale_ = (t.entry_ i).scale_ := by
  induction k with
  | zero => exact ⟨rfl, rfl, rfl, rfl⟩
  | succ k ih =>
    obtain ⟨i1, i2, i3, i4⟩ := ih
    have he : ((t.addInputs x k).addInput (x k)).entry_ i =
        ((t.addInputs x k).entry_ i).addInput (t.addInputs x k).history_ (x k) := by
      rw [addInput_entry, if_pos (by rw [i1]; exact hi)]
    refine ⟨?_, ?_, ?_, ?_⟩
    · show (t.addInputs x k).usedWindows_ = _
      rw [i1]
    · show (t.addInputs x k).history_.write (x k) = _
      rw [i2]
      rfl
    · show (((t.addInputs x k).addInput (x k)).entry_ i).toWindowForTrueFloatingPointMovingAverage
        = _
      rw [he]
      show ((t.addInputs x k).entry_ i).toWindowForTrueFloatingPointMovingAverage.addInput
        (t.addInputs x k).history_ (x k) = _
      rw [i2, i3]
      rfl
    · show (((t.addInputs x k).addInput (x k)).entry_ i).scale_ = _
      rw [he]
      exact i4

end TrueFloatingPointWeightedMovingAverageSet

open TrueFloatingPointWeightedMovingAverage TrueFloatingPointWeightedMovingAverageSet

/-- C7: take a single-window engine whose window size `n` was set directly
after the construction, and a multi-window set built with the same
`emdSamples` whose windows were sized by any successful calls of
`setWindowSizeAndScale` before the first input, so that its active window `i`
has the size `n` and the scale one, whatever the sizes of the other windows.
Seed both with the same average `a` (`setAverage(a)` and `setAverages(a)`; the
state that `setAverages` leaves is taken whether or not it throws). Then for
every input stream, after every number `k` of inputs, `getAverage(i)` of the
set equals `getAverage()` of the engine in exact arithmetic. -/
theorem set_window_matches_single_engine
    {m : HelperForMovingAverageMetricsForInaccurateTypes} {exp : S → S} (hexp : ExactExp exp)
    {here : Addr} {memory : ℕ → S} {M E n : ℕ}
    {e0 e1 : TrueFloatingPointWeightedMovingAverage S}
    (h0 : TrueFloatingPointWeightedMovingAverage.construct m exp here memory M E = Except.ok e0)
    (h1 : setWindowSize exp e0 n = Except.ok e1)
    {t : TrueFloatingPointWeightedMovingAverageSet S} (ht : ConfiguredBeforeInput m exp E t)
    {i : ℕ} (hi : i < t.getUsedWindows) (hn : (t.entry_ i).windowSamples = n)
    (hscale : (t.entry_ i).scale = 1) (a : S) (x : ℕ → S) (k : ℕ) :
    ((t.setAverages a).1.addInputs x k).getAverage i =
      Except.ok ((e1.setAverage a).addInputs x k).getAverage := by
  obtain ⟨hsz, hE⟩ := ht.sized
  obtain ⟨-, s2, s3, s4⟩ := setAverages_state t a
  have hi0 : i < t.usedWindows_ := hi
  have hi' : i < (t.setAverages a).1.usedWindows_ := by rw [s2]; exact hi0
  obtain ⟨r1, -, r3, r4⟩ := addInputs_window (t.setAverages a).1 x k hi'
  have hin := hsz.2.2.2.2 i hi0
  have hent : (t.setAverages a).1.entry_ i = (t.entry_ i).setAverage a := by
    rw [s3, if_pos (hsz.2.2.2.1 ▸ hi0)]
  have hin' : InStep exp (t.setAverages a).1.history_
      ((t.setAverages a).1.entry_ i).toWindowForTrueFloatingPointMovingAverage := by
    rw [s4, hent]
    exact hin
  have hfill : ∀ j, j ≤ (t.setAverages a).1.history_.historyEndPtr_ →
      (t.setAverages a).1.history_.history_ j = a := by
    rw [s4]
    intro j hj
    have hj' : j ≤ t.history_.historyEndPtr_ := hj
    have hcap := hsz.2.2.1
    show (if j < t.history_.historySamples_ ∧ j ≤ t.history_.historyEndPtr_ then a
      else t.history_.history_ j) = a
    rw [if_pos ⟨by omega, hj'⟩]
  have havg : ((t.setAverages a).1.entry_ i).toWindowForTrueFloatingPointMovingAverage.average_
      = a := by
    rw [hent]
    rfl
  have hrun := seeded_run_average hexp hin' hfill havg x k
  -- the coefficients of the two windows are equal
  obtain ⟨hs, hn', hE', -⟩ := inStep_of_configured h0 h1
  have hq : (t.setAverages a).1.history_.emdFactor_ = e1.history.emdFactor_ := by
    rw [hin'.1.2.2.1, hs.1.2.2.1, hE']
    rw [s4]
    show exp (-1 / (t.history_.emdSamples_ : S)) = _
    rw [hE]
  have hws : ((t.setAverages a).1.entry_ i).windowSamples_ = n := by
    rw [hent]
    exact hn
  have hif : ((t.setAverages a).1.entry_ i).inputFactor_ = e1.window.inputFactor_ := by
    rw [hin'.1.inputFactor_eq hexp, hs.1.inputFactor_eq hexp, hq, hws, hn']
  have hsc : ((t.setAverages a).1.entry_ i).scale_ = 1 := by
    rw [hent]
    exact hscale
  rw [seeded_engine_average hexp h0 h1]
  unfold TrueFloatingPointWeightedMovingAverageSet.getAverage checkWindowIndex getUsedWindows
  rw [r1, if_pos hi']
  show Except.ok ((((t.setAverages a).1.addInputs x k).entry_ i).scale_ *
    (((t.setAverages a).1.addInputs x k).entry_
      i).toWindowForTrueFloatingPointMovingAverage.average_) = _
  rw [r4, r3, hrun, hsc, one_mul, hq, hif, hws]

/-- The sizes of the specification: a set with three windows of the sizes
64, 256 and 1024 on a history of 1024 samples; its window of size 256 and a
single-window engine of size 256 report the same average. -/
theorem set_window_matches_single_engine_witness :
    ∃ (e0 e1 : TrueFloatingPointWeightedMovingAverage ℝ)
      (t0 t1 t2 : TrueFloatingPointWeightedMovingAverageSet ℝ),
      TrueFloatingPointWeightedMovingAverage.construct doubleMetrics Real.exp 0 (fun _ => 0)
          1024 10240 = Except.ok e0 ∧
        setWindowSize Real.exp e0 256 = Except.ok e1 ∧
        TrueFloatingPointWeightedMovingAverageSet.construct doubleMetrics Real.exp 0 (fun _ => 0)
          1024 10240 3 0 = Except.ok t0 ∧
        setWindowSizeAndScale Real.exp t0 0 64 1 = Except.ok t1 ∧
        setWindowSizeAndScale Real.exp t1 1 256 1 = Except.ok t2 ∧
        (t2.setAverages 0).2 = Except.ok () ∧
        ((t2.setAverages 0).1.addInputs (fun i => (i : ℝ)) 1000).getAverage 1 =
          Except.ok ((e1.setAverage 0).addInputs (fun i => (i : ℝ)) 1000).getAverage := by
  obtain ⟨e0, e1, h0, h1⟩ := engine_exists doubleMetrics Real.exp 0 (fun _ => (0 : ℝ))
    1024 10240 256 (by decide) (by decide) (by norm_num) (by norm_num) (by norm_num)
  obtain ⟨t0, hc0, hu0, hL0, hcap0, hw2⟩ :
      ∃ t0 : TrueFloatingPointWeightedMovingAverageSet ℝ,
      TrueFloatingPointWeightedMovingAverageSet.construct doubleMetrics Real.exp 0 (fun _ => 0)
        1024 10240 3 0 = Except.ok t0 ∧ t0.usedWindows_ = 3 ∧
      t0.history_.historyEndPtr_ + 1 = 1024 ∧ t0.history_.historySamples_ = 1024 ∧
      (t0.entry_ 2).windowSamples_ = 1024 := by
    refine ⟨_, (construct_ok_iff_set doubleMetrics Real.exp 0 (fun _ => 0) 1024 10240 3 0 _).mpr
      ⟨⟨by norm_num, by norm_num⟩, by decide, by decide, by norm_num, rfl⟩, rfl, rfl, rfl, ?_⟩
    show ((if 2 < 3 then ScaledWindowForTrueFloatingPointMovingAverage.setScale _ 1
      else _ : ScaledWindowForTrueFloatingPointMovingAverage
        ℝ)).toWindowForTrueFloatingPointMovingAverage.windowSamples_ = 1024
    rw [if_pos (by norm_num), ScaledWindowForTrueFloatingPointMovingAverage.setScale_toWindow]
  have hs0 := (construct_sized hc0).1
  obtain ⟨t1, hc1⟩ := setWindowSizeAndScale_succeeds Real.exp hs0 1
    (by rw [hu0]; norm_num : 0 < t0.usedWindows_) (by norm_num : 1 ≤ 64)
    (by rw [hL0]; norm_num)
  obtain ⟨hs1, -, hu1, hcap1, -, -, hoth1⟩ := setWindowSizeAndScale_sized hs0 hc1
  have hw2' : (t1.entry_ 2).windowSamples_ = 1024 := by
    rw [(hoth1 2 (by norm_num)).1, hw2]
  have hL1 : 1024 ≤ t1.history_.historyEndPtr_ + 1 := by
    have := (hs1.2.2.2.2 2 (by rw [hu1, hu0]; norm_num)).2.2.1
    rw [← hw2']
    exact this
  obtain ⟨t2, hc2⟩ := setWindowSizeAndScale_succeeds Real.exp hs1 1
    (by rw [hu1, hu0]; norm_num : 1 < t1.usedWindows_) (by norm_num : 1 ≤ 256) (by omega)
  obtain ⟨hs2, -, hu2, hcap2, hn2, hsc2, hoth2⟩ := setWindowSizeAndScale_sized hs1 hc2
  have hw2'' : (t2.entry_ 2).windowSamples_ = 1024 := by
    rw [(hoth2 2 (by norm_num)).1, hw2']
  have hL2 : 1024 ≤ t2.history_.historyEndPtr_ + 1 := by
    have := (hs2.2.2.2.2 2 (by rw [hu2, hu1, hu0]; norm_num)).2.2.1
    rw [← hw2'']
    exact this
  have hok : (t2.setAverages 0).2 = Except.ok () := by
    rw [setAverages_outcome, if_pos (by rw [hcap2, hcap1, hcap0]; exact hL2)]
  have hconf : ConfiguredBeforeInput doubleMetrics Real.exp 10240 t2 :=
    ConfiguredBeforeInput.setWindowSizeAndScale _ _ 1 256 1
      (ConfiguredBeforeInput.setWindowSizeAndScale _ _ 0 64 1
        (ConfiguredBeforeInput.construct 0 _ 1024 3 0 t0 hc0) hc1) hc2
  have hi : 1 < t2.getUsedWindows := by
    show 1 < t2.usedWindows_
    rw [hu2, hu1, hu0]
    norm_num
  have hsc : (t2.entry_ 1).scale = 1 := by
    show (t2.entry_ 1).scale_ = 1
    rw [hsc2, ScaledWindowForTrueFloatingPointMovingAverage.setScale_one]
  exact ⟨e0, e1, t0, t1, t2, h0, h1, hc0, hc1, hc2, hok,
    set_window_matches_single_engine realExp_exact h0 h1 hconf hi hn2 hsc 0 _ 1000⟩

end SetAndEngine

/-! ## The bounds of the metrics and the validating constructors -/

section Metrics

variable {S : Type} [LinearOrderedField S]

namespace HelperForMovingAverageMetricsForInaccurateTypes

theorem minimum_eq_min (a b : ℕ) : minimum a b = min a b := by
  unfold minimum
  split
  · rw [min_eq_left ‹_›]
  · rw [min_eq_right (by omega)]

theorem floor_min (a b : ℚ) : ⌊min a b⌋₊ = min ⌊a⌋₊ ⌊b⌋₊ :=
  Monotone.map_min Nat.floor_mono

theorem isValidWindowSizeInSamples_iff (m : HelperForMovingAverageMetricsForInaccurateTypes)
    (n : ℕ) : m.isValidWindowSizeInSamples n = true ↔ 64 ≤ n ∧ n ≤ m.MAX_MAX_WINDOW_SAMPLES := by
  simp [isValidWindowSizeInSamples, is_between, MIN_MAX_WINDOW_SAMPLES]

theorem isValidErrorMitigatingDecaySamples_iff
    (m : HelperForMovingAverageMetricsForInaccurateTypes) (k : ℕ) :
    m.isValidErrorMitigatingDecaySamples k = true ↔
      m.MIN_ERROR_DECAY_TO_WINDOW_RATIO * 64 ≤ k ∧ k ≤ m.MAX_ERR_MITIGATING_DECAY_SAMPLES := by
  simp [isValidErrorMitigatingDecaySamples, is_between, MIN_ERR_MITIGATING_DECAY_SAMPLES,
    MIN_MAX_WINDOW_SAMPLES]

/-- The constant `MAX_ERR_MITIGATING_DECAY_SAMPLES` is `min(0.01 / epsilon,
SIZE_MAX)`, computed in the rationals and truncated. -/
theorem MAX_ERR_MITIGATING_DECAY_SAMPLES_eq
    (m : HelperForMovingAverageMetricsForInaccurateTypes) :
    m.MAX_ERR_MITIGATING_DECAY_SAMPLES =
      ⌊min ((1 / 100 : ℚ) / (1 / (m.epsilonInv : ℚ))) (SIZE_MAX : ℚ)⌋₊ := by
  unfold MAX_ERR_MITIGATING_DECAY_SAMPLES
  rw [minimum_eq_min, floor_min, Nat.floor_natCast]
  congr 1
  have h : (1 / 100 : ℚ) / (1 / (m.epsilonInv : ℚ)) = (m.epsilonInv : ℚ) / ((100 : ℕ) : ℚ) := by
    rw [div_div_eq_mul_div, div_one]
    push_cast
    ring
  rw [h, Nat.floor_div_eq_div]

/-- The constant `MAX_MAX_WINDOW_SAMPLES` is `min(1 / (2^SNR_BITS * epsilon),
MAX_ERR_MITIGATING_DECAY_SAMPLES / MIN_ERROR_DECAY_TO_WINDOW_RATIO)`, computed
in the rationals and truncated. -/
theorem MAX_MAX_WINDOW_SAMPLES_eq (m : HelperForMovingAverageMetricsForInaccurateTypes) :
    m.MAX_MAX_WINDOW_SAMPLES =
      ⌊min (1 / ((2 : ℚ) ^ m.SNR_BITS * (1 / (m.epsilonInv : ℚ))))
        ((m.MAX_ERR_MITIGATING_DECAY_SAMPLES : ℚ) /
          ( m.MIN_ERROR_DECAY_TO_WINDOW_RATIO : ℚ))⌋₊ := by
  unfold MAX_MAX_WINDOW_SAMPLES MAX_WINDOWS_SIZE_BOUNDARY
  rw [minimum_eq_min, floor_min, Nat.floor_div_eq_div]
  congr 1
  have h : 1 / ((2 : ℚ) ^ m.SNR_BITS * (1 / (m.epsilonInv : ℚ))) =
      (m.epsilonInv : ℚ) / ((2 ^ m.SNR_BITS : ℕ) : ℚ) := by
    push_cast
    rw [one_div, one_div, mul_inv, inv_inv]
    ring
  rw [h, Nat.floor_div_eq_div]

theorem doubleMetrics_MAX_ERR_MITIGATING_DECAY_SAMPLES :
    doubleMetrics.MAX_ERR_MITIGATING_DECAY_SAMPLES = 45035996273704 := by
  decide

theorem doubleMetrics_MAX_MAX_WINDOW_SAMPLES :
    doubleMetrics.MAX_MAX_WINDOW_SAMPLES = 2 ^ 32 := by
  decide

/-- C19: `isValidWindowSizeInSamples(n)` is true exactly when
`64 ≤ n ≤ MAX_MAX_WINDOW_SAMPLES`, where `MAX_MAX_WINDOW_SAMPLES` is
`min(1 / (2^SNR_BITS * epsilon), MAX_ERR_MITIGATING_DECAY_SAMPLES / MIN_RATIO)`
and `MAX_ERR_MITIGATING_DECAY_SAMPLES` is `min(0.01 / epsilon, SIZE_MAX)`, each
truncated to an integer; `isValidErrorMitigatingDecaySamples(k)` is true
exactly when `MIN_RATIO * 64 ≤ k ≤ MAX_ERR_MITIGATING_DECAY_SAMPLES`. For
`double` (`epsilon = 2^-52`), `SNR_BITS = 20` and `MIN_RATIO = 10` the two
closed intervals are `[64, 2^32]` and `[640, 45035996273704]`. -/
theorem valid_sizes_are_closed_intervals (m : HelperForMovingAverageMetricsForInaccurateTypes)
    (n k : ℕ) :
    (m.isValidWindowSizeInSamples n = true ↔ 64 ≤ n ∧ n ≤ m.MAX_MAX_WINDOW_SAMPLES) ∧
      m.MAX_MAX_WINDOW_SAMPLES =
        ⌊min (1 / ((2 : ℚ) ^ m.SNR_BITS * (1 / (m.epsilonInv : ℚ))))
          ((m.MAX_ERR_MITIGATING_DECAY_SAMPLES : ℚ) /
            ( m.MIN_ERROR_DECAY_TO_WINDOW_RATIO : ℚ))⌋₊ ∧
      m.MAX_ERR_MITIGATING_DECAY_SAMPLES =
        ⌊min ((1 / 100 : ℚ) / (1 / (m.epsilonInv : ℚ))) (SIZE_MAX : ℚ)⌋₊ ∧
      (m.isValidErrorMitigatingDecaySamples k = true ↔
        m.MIN_ERROR_DECAY_TO_WINDOW_RATIO * 64 ≤ k ∧
          k ≤ m.MAX_ERR_MITIGATING_DECAY_SAMPLES) ∧
      (1 / (doubleMetrics.epsilonInv : ℚ) = 1 / 2 ^ 52 ∧ doubleMetrics.SNR_BITS = 20 ∧
        doubleMetrics.MIN_ERROR_DECAY_TO_WINDOW_RATIO = 10) ∧
      (doubleMetrics.isValidWindowSizeInSamples n = true ↔ 64 ≤ n ∧ n ≤ 2 ^ 32) ∧
      (doubleMetrics.isValidErrorMitigatingDecaySamples k = true ↔
        640 ≤ k ∧ k ≤ 45035996273704) := by
  refine ⟨isValidWindowSizeInSamples_iff m n, MAX_MAX_WINDOW_SAMPLES_eq m,
    MAX_ERR_MITIGATING_DECAY_SAMPLES_eq m, isValidErrorMitigatingDecaySamples_iff m k,
    ⟨by norm_num [doubleMetrics], rfl, rfl⟩, ?_, ?_⟩
  · rw [isValidWindowSizeInSamples_iff, doubleMetrics_MAX_MAX_WINDOW_SAMPLES]
  · rw [isValidErrorMitigatingDecaySamples_iff, doubleMetrics_MAX_ERR_MITIGATING_DECAY_SAMPLES]
    have : doubleMetrics.MIN_ERROR_DECAY_TO_WINDOW_RATIO * 64 = 640 := rfl
    rw [this]

theorem validWindowSizeInSamples_eq (m : HelperForMovingAverageMetricsForInaccurateTypes)
    (n : ℕ) :
    m.validWindowSizeInSamples n =
      if m.isValidWindowSizeInSamples n = true then Except.ok n
      else Except.error Error.invalid_argument := rfl

theorem validErrorMitigatingDecaySamples_eq (m : HelperForMovingAverageMetricsForInaccurateTypes)
    (n : ℕ) :
    m.validErrorMitigatingDecaySamples n =
      if m.isValidErrorMitigatingDecaySamples n = true then Except.ok n
      else Except.error Error.invalid_argument := rfl

end HelperForMovingAverageMetricsForInaccurateTypes

open HelperForMovingAverageMetricsForInaccurateTypes

/-- The validating constructor of the history throws `std::invalid_argument`
whenever it throws. -/
theorem construct_error_kind (m : HelperForMovingAverageMetricsForInaccurateTypes) (exp : S → S)
    (memory : ℕ → S) (M E : ℕ) (err : Error)
    (h : HistoryAndEmdForTrueFloatingPointMovingAverage.construct m exp memory M E =
      Except.error err) : err = Error.invalid_argument := by
  unfold HistoryAndEmdForTrueFloatingPointMovingAverage.construct
    HistoryAndEmdForTrueFloatingPointMovingAverage.validWindowSize at h
  rw [validErrorMitigatingDecaySamples_eq, validWindowSizeInSamples_eq] at h
  by_cases h1 : m.isValidErrorMitigatingDecaySamples E = true
  · by_cases h2 : m.isValidWindowSizeInSamples M = true
    · by_cases h3 : M < E / MIN_MIN_ERROR_DECAY_TO_WINDOW_RATIO
      · simp [h1, h2, h3, bind, Except.bind, pure, Except.pure] at h
      · simp [h1, h2, h3, bind, Except.bind, pure, Except.pure, throw, throwThe,
          MonadExceptOf.throw] at h
        exact h.symm
    · simp [h1, h2, bind, Except.bind] at h
      exact h.symm
  · simp [h1, bind, Except.bind] at h
    exact h.symm

/-- C20: the construction of a history with `emdSamples` outside
`[MIN_ERR_MITIGATING_DECAY_SAMPLES, MAX_ERR_MITIGATING_DECAY_SAMPLES]` or with
`historySamples` outside `[64, MAX_MAX_WINDOW_SAMPLES]` throws
`std::invalid_argument`, and so does the construction of a single-window
engine and of a multi-window set with these sizes. The validated variants
`validErrorMitigatingDecaySamples` and `validWindowSizeInSamples` return their
argument when it is valid, and throw `std::invalid_argument` when it is not. -/
theorem construction_with_invalid_sizes_fails
    (m : HelperForMovingAverageMetricsForInaccurateTypes) (exp : S → S) (here : Addr)
    (memory : ℕ → S) (M E W : ℕ) (a : S)
    (hbad : ¬ (m.MIN_ERR_MITIGATING_DECAY_SAMPLES ≤ E ∧ E ≤ m.MAX_ERR_MITIGATING_DECAY_SAMPLES) ∨
      ¬ (64 ≤ M ∧ M ≤ m.MAX_MAX_WINDOW_SAMPLES)) :
    HistoryAndEmdForTrueFloatingPointMovingAverage.construct m exp memory M E =
        Except.error Error.invalid_argument ∧
      TrueFloatingPointWeightedMovingAverage.construct m exp here memory M E =
        Except.error Error.invalid_argument ∧
      TrueFloatingPointWeightedMovingAverageSet.construct m exp here memory M E W a =
        Except.error Error.invalid_argument ∧
      (∀ n r, m.validErrorMitigatingDecaySamples n = Except.ok r ↔
        (m.isValidErrorMitigatingDecaySamples n = true ∧ r = n)) ∧
      (∀ n, m.isValidErrorMitigatingDecaySamples n = false →
        m.validErrorMitigatingDecaySamples n = Except.error Error.invalid_argument) ∧
      (∀ n r, m.validWindowSizeInSamples n = Except.ok r ↔
        (m.isValidWindowSizeInSamples n = true ∧ r = n)) ∧
      (∀ n, m.isValidWindowSizeInSamples n = false →
        m.validWindowSizeInSamples n = Except.error Error.invalid_argument) := by
  have hh : HistoryAndEmdForTrueFloatingPointMovingAverage.construct m exp memory M E =
      Except.error Error.invalid_argument := by
    cases hc : HistoryAndEmdForTrueFloatingPointMovingAverage.construct m exp memory M E with
    | error err => rw [construct_error_kind m exp memory M E err hc]
    | ok h =>
      exfalso
      obtain ⟨vE, vM, -, -⟩ := (construct_ok_iff m exp memory M E h).mp hc
      rw [isValidErrorMitigatingDecaySamples_iff] at vE
      rw [isValidWindowSizeInSamples_iff] at vM
      rcases hbad with hb | hb
      · exact hb (by unfold MIN_ERR_MITIGATING_DECAY_SAMPLES MIN_MAX_WINDOW_SAMPLES; exact vE)
      · exact hb vM
  refine ⟨hh, ?_, ?_, ?_, ?_, ?_, ?_⟩
  · unfold TrueFloatingPointWeightedMovingAverage.construct
    rw [hh]
    rfl
  · unfold TrueFloatingPointWeightedMovingAverageSet.construct
      TrueFloatingPointWeightedMovingAverageSet.validMaxTimeConstants
    by_cases hW : is_between W TrueFloatingPointWeightedMovingAverageSet.MINIMUM_TIME_CONSTANTS
        TrueFloatingPointWeightedMovingAverageSet.MAXIMUM_TIME_CONSTANTS = true
    · rw [if_pos hW, hh]
      rfl
    · rw [if_neg hW]
      rfl
  · intro n r
    rw [validErrorMitigatingDecaySamples_eq]
    by_cases h1 : m.isValidErrorMitigatingDecaySamples n = true
    · simp [h1, eq_comm]
    · simp [h1]
  · intro n h1
    rw [validErrorMitigatingDecaySamples_eq, h1]
    rfl
  · intro n r
    rw [validWindowSizeInSamples_eq]
    by_cases h1 : m.isValidWindowSizeInSamples n = true
    · simp [h1, eq_comm]
    · simp [h1]
  · intro n h1
    rw [validWindowSizeInSamples_eq, h1]
    rfl

theorem construction_with_invalid_sizes_fails_witness :
    HistoryAndEmdForTrueFloatingPointMovingAverage.construct doubleMetrics Real.exp
        (fun _ => (0 : ℝ)) 63 10240 = Except.error Error.invalid_argument ∧
      TrueFloatingPointWeightedMovingAverage.construct doubleMetrics Real.exp 0
        (fun _ => (0 : ℝ)) 63 10240 = Except.error Error.invalid_argument ∧
      TrueFloatingPointWeightedMovingAverageSet.construct doubleMetrics Real.exp 0
        (fun _ => (0 : ℝ)) 63 10240 3 0 = Except.error Error.invalid_argument :=
  have h := construction_with_invalid_sizes_fails doubleMetrics Real.exp 0 (fun _ => (0 : ℝ))
    63 10240 3 0 (Or.inr (by norm_num))
  ⟨h.1, h.2.1, h.2.2.1⟩

end Metrics

/-! ## Configuration of the single-window engine -/

section EngineConfiguration

variable {S : Type} [LinearOrderedField S]

open BaseHistoryAndEmdForTrueFloatingPointMovingAverage TrueFloatingPointWeightedMovingAverage

theorem dropAtThrow_eq_ok_iff {σ : Type} (r : σ × Except Error Unit) (s : σ) :
    dropAtThrow r = Except.ok s ↔ r = (s, Except.ok ()) := by
  obtain ⟨a, b⟩ := r
  cases b with
  | error err => simp [dropAtThrow]
  | ok u => simp [dropAtThrow]

theorem dropAtThrow_eq_error_iff {σ : Type} (r : σ × Except Error Unit) (err : Error) :
    dropAtThrow r = Except.error err ↔ r.2 = Except.error err := by
  obtain ⟨a, b⟩ := r
  cases b with
  | error err' => simp [dropAtThrow]
  | ok u => simp [dropAtThrow]

theorem dropAtThrow_bind {σ τ : Type} (r : σ × Except Error Unit) (f : σ → Except Error τ) :
    (dropAtThrow r >>= f) =
      match r.2 with
      | Except.ok _ => f r.1
      | Except.error err => Except.error err := by
  obtain ⟨a, b⟩ := r
  cases b with
  | error err' => rfl
  | ok u => rfl

namespace WindowForTrueFloatingPointMovingAverage

theorem setReadPtr_eq_dropAtThrow (w : WindowForTrueFloatingPointMovingAverage S)
    (h : BaseHistoryAndEmdForTrueFloatingPointMovingAverage S) :
    w.setReadPtr h = dropAtThrow (w.setReadPtrTraced h) := by
  unfold setReadPtr setReadPtrTraced
  split <;> rfl

theorem setWindowSamples_eq_dropAtThrow (exp : S → S)
    (w : WindowForTrueFloatingPointMovingAverage S)
    (h : BaseHistoryAndEmdForTrueFloatingPointMovingAverage S) (n : ℕ) :
    w.setWindowSamples exp h n = dropAtThrow (w.setWindowSamplesTraced exp h n) := by
  unfold setWindowSamples setWindowSamplesTraced
  split
  · rfl
  · split
    · rfl
    · exact setReadPtr_eq_dropAtThrow _ _

/-- A rejected `setWindowSamples` throws `std::runtime_error` at one of its two
checks, before any assignment. -/
theorem setWindowSamplesTraced_rejected (exp : S → S)
    (w : WindowForTrueFloatingPointMovingAverage S)
    (h : BaseHistoryAndEmdForTrueFloatingPointMovingAverage S) (n : ℕ)
    (hn : ¬ (w.history_ ≠ none ∧ 1 ≤ n ∧ n ≤ h.historyEndPtr_ + 1)) :
    w.setWindowSamplesTraced exp h n = (w, Except.error Error.runtime_error) := by
  unfold setWindowSamplesTraced maxWindowSamples
  by_cases h0 : w.history_ = none
  · rw [if_pos h0]
  · rw [if_neg h0]
    have hb : is_between n 1 (h.historyEndPtr_ + 1) = false := by
      simp only [is_between, Bool.and_eq_false_imp, decide_eq_true_eq,
        decide_eq_false_iff_not]
      intro h1 h2
      exact hn ⟨h0, h1, h2⟩
    rw [hb]
    rfl

/-- An accepted `setWindowSamples`. -/
theorem setWindowSamplesTraced_accepted (exp : S → S)
    (w : WindowForTrueFloatingPointMovingAverage S)
    (h : BaseHistoryAndEmdForTrueFloatingPointMovingAverage S) (n : ℕ)
    (hn : w.history_ ≠ none ∧ 1 ≤ n ∧ n ≤ h.historyEndPtr_ + 1) :
    w.setWindowSamplesTraced exp h n =
      ({ w with
          windowSamples_ := n
          inputFactor_ := (1 - h.emdFactor_) / (1 - exp (-1 * (n : S) / (h.emdSamples_ : S)))
          historyFactor_ := (1 - h.emdFactor_) / (1 - exp (-1 * (n : S) / (h.emdSamples_ : S))) *
            exp (-1 * (n : S) / (h.emdSamples_ : S))
          readPtr_ := h.getRelative n }, Except.ok ()) := by
  have h1 := (setWindowSamples_ok_iff exp w _ h n).mpr ⟨hn.1, hn.2.1, hn.2.2, rfl⟩
  rw [setWindowSamples_eq_dropAtThrow, dropAtThrow_eq_ok_iff] at h1
  exact h1

end WindowForTrueFloatingPointMovingAverage

namespace TrueFloatingPointWeightedMovingAverage

theorem optimiseForMaximumSamples_eq_dropAtThrow (e : TrueFloatingPointWeightedMovingAverage S) :
    e.optimiseForMaximumSamples = dropAtThrow e.optimiseForMaximumSamplesTraced := by
  unfold optimiseForMaximumSamples optimiseForMaximumSamplesTraced
  dsimp only
  split
  · rw [WindowForTrueFloatingPointMovingAverage.setReadPtr_eq_dropAtThrow, dropAtThrow_bind]
    generalize e.window.setReadPtrTraced _ = r
    obtain ⟨a, b⟩ := r
    cases b <;> rfl
  · rfl

/-- The method `setWindowSize` and the same method with the object at the
throw have the same outcome, and the same object when they return. -/
theorem setWindowSize_eq_dropAtThrow (exp : S → S)
    (e : TrueFloatingPointWeightedMovingAverage S) (n : ℕ) :
    setWindowSize exp e n = dropAtThrow (setWindowSizeTraced exp e n) := by
  unfold setWindowSize setWindowSizeTraced
  rw [WindowForTrueFloatingPointMovingAverage.setWindowSamples_eq_dropAtThrow, dropAtThrow_bind]
  generalize e.window.setWindowSamplesTraced exp e.history n = r
  obtain ⟨a, b⟩ := r
  cases b with
  | error err => rfl
  | ok u => exact optimiseForMaximumSamples_eq_dropAtThrow _

/-- A rejected `setWindowSize` throws `std::runtime_error` and leaves the
engine as it was; `setWindowSize` is rejected exactly when the size is zero or
above the logical length (or the window is not bound). -/
theorem setWindowSizeTraced_rejected (exp : S → S)
    (e : TrueFloatingPointWeightedMovingAverage S) (n : ℕ)
    (hn : ¬ (e.window.history_ ≠ none ∧ 1 ≤ n ∧ n ≤ e.history.historyEndPtr_ + 1)) :
    setWindowSizeTraced exp e n = (e, Except.error Error.runtime_error) := by
  unfold setWindowSizeTraced
  rw [WindowForTrueFloatingPointMovingAverage.setWindowSamplesTraced_rejected exp _ _ n hn]

theorem setWindowSizeTraced_error (exp : S → S) (e : TrueFloatingPointWeightedMovingAverage S)
    (n : ℕ) (err : Error) (h : (setWindowSizeTraced exp e n).2 = Except.error err) :
    setWindowSizeTraced exp e n = (e, Except.error Error.runtime_error) := by
  by_cases hn : e.window.history_ ≠ none ∧ 1 ≤ n ∧ n ≤ e.history.historyEndPtr_ + 1
  · exfalso
    have h1 := (setWindowSize_ok_iff exp e _ n).mpr ⟨hn.1, hn.2.1, hn.2.2, rfl⟩
    rw [setWindowSize_eq_dropAtThrow, dropAtThrow_eq_ok_iff] at h1
    rw [h1] at h
    cases h
  · exact setWindowSizeTraced_rejected exp e n hn

theorem force_between_idem {n L : ℕ} (hn : n ≤ L) :
    force_between n 4 (force_between n 4 L - 1 + 1) = force_between n 4 L := by
  unfold force_between
  split_ifs <;> omega

/-- The counterexample to the error kind of C14: on the engine built with
`maxWindowSize = 64` and `emdSamples = 640`, `setWindowSize(0)` and
`setWindowSize(65)` throw `std::runtime_error`, which is not
`std::out_of_range`. -/
theorem setWindowSize_error_is_not_out_of_range :
    ∃ e0 : TrueFloatingPointWeightedMovingAverage ℝ,
      construct doubleMetrics Real.exp 0 (fun _ => 0) 64 640 = Except.ok e0 ∧
        e0.history.historySize = 64 ∧
        setWindowSize Real.exp e0 0 = Except.error Error.runtime_error ∧
        setWindowSize Real.exp e0 65 = Except.error Error.runtime_error ∧
        setWindowSize Real.exp e0 0 ≠ Except.error Error.out_of_range ∧
        setWindowSize Real.exp e0 65 ≠ Except.error Error.out_of_range := by
  obtain ⟨e0, -, h0, -⟩ := engine_exists doubleMetrics Real.exp 0 (fun _ => (0 : ℝ))
    64 640 64 (by decide) (by decide) (by norm_num) (by norm_num) (by norm_num)
  have hE : e0.history.historyEndPtr_ + 1 = 64 ∧ e0.history.historySize = 64 := by
    obtain ⟨-, -, -, rfl⟩ :=
      (construct_ok_iff_engine doubleMetrics Real.exp 0 _ 64 640 e0).mp h0
    exact ⟨rfl, rfl⟩
  have r0 := setWindowSizeTraced_rejected Real.exp e0 0 (fun h => absurd h.2.1 (by norm_num))
  have r65 := setWindowSizeTraced_rejected Real.exp e0 65 (fun h => absurd h.2.2 (by omega))
  refine ⟨e0, h0, hE.2, ?_, ?_, ?_, ?_⟩
  · rw [setWindowSize_eq_dropAtThrow, r0]
    rfl
  · rw [setWindowSize_eq_dropAtThrow, r65]
    rfl
  · rw [setWindowSize_eq_dropAtThrow, r0]
    intro h
    cases h
  · rw [setWindowSize_eq_dropAtThrow, r65]
    intro h
    cases h

/-- C14, amended: in every state of a single-window engine with the history
capacity `historySamples`, `setWindowSize(0)` and
`setWindowSize(historySamples + 1)` both throw `std::runtime_error` (not
`std::out_of_range`) and leave the engine as it was, with its `windowSamples`,
`inputFactor`, `historyFactor`, `readPtr` and `average`. -/
theorem setWindowSize_rejects_zero_and_above_capacity
    {m : HelperForMovingAverageMetricsForInaccurateTypes} {exp : S → S}
    {e : TrueFloatingPointWeightedMovingAverage S} (hr : Reachable m exp e) :
    setWindowSize exp e 0 = Except.error Error.runtime_error ∧
      setWindowSize exp e (e.history.historySize + 1) = Except.error Error.runtime_error ∧
      setWindowSizeTraced exp e 0 = (e, Except.error Error.runtime_error) ∧
      setWindowSizeTraced exp e (e.history.historySize + 1) =
        (e, Except.error Error.runtime_error) := by
  have hcap := hr.invariant.2.2.2.2.1
  have r0 := setWindowSizeTraced_rejected exp e 0 (fun h => absurd h.2.1 (by norm_num))
  have r1 := setWindowSizeTraced_rejected exp e (e.history.historySize + 1)
    (fun h => absurd h.2.2 (by
      show ¬ e.history.historySamples_ + 1 ≤ e.history.historyEndPtr_ + 1
      omega))
  refine ⟨?_, ?_, r0, r1⟩
  · rw [setWindowSize_eq_dropAtThrow, r0]
    rfl
  · rw [setWindowSize_eq_dropAtThrow, r1]
    rfl

theorem setWindowSize_rejects_zero_and_above_capacity_witness :
    ∃ e0 : TrueFloatingPointWeightedMovingAverage ℝ,
      construct doubleMetrics Real.exp 0 (fun _ => 0) 1024 10240 = Except.ok e0 ∧
        setWindowSizeTraced Real.exp (e0.addInput 7) 0 =
          (e0.addInput 7, Except.error Error.runtime_error) ∧
        setWindowSizeTraced Real.exp (e0.addInput 7) ((e0.addInput 7).history.historySize + 1) =
          (e0.addInput 7, Except.error Error.runtime_error) := by
  obtain ⟨e0, -, h0, -⟩ := engine_exists doubleMetrics Real.exp 0 (fun _ => (0 : ℝ))
    1024 10240 256 (by decide) (by decide) (by norm_num) (by norm_num) (by norm_num)
  have h := setWindowSize_rejects_zero_and_above_capacity
    (Reachable.addInput e0 7 (Reachable.construct 0 _ 1024 10240 e0 h0))
  exact ⟨e0, h0, h.2.2.1, h.2.2.2⟩

/-- C16: resize idempotence. In every state of the single-window engine
(reachable or not) and for every `n` that `setWindowSize` accepts, a second `setWindowSize(n)` made
directly after the first is accepted too, and it returns the state that the
first call returned: the same `inputFactor`, `historyFactor`, `readPtr`,
`windowSamples` and logical history length. -/
theorem setWindowSize_twice {exp : S → S}
    {e e1 : TrueFloatingPointWeightedMovingAverage S} {n : ℕ}
    (h1 : setWindowSize exp e n = Except.ok e1) :
    ∃ e2, setWindowSize exp e1 n = Except.ok e2 ∧
      e2.window.inputFactor_ = e1.window.inputFactor_ ∧
      e2.window.historyFactor_ = e1.window.historyFactor_ ∧
      e2.window.readPtr_ = e1.window.readPtr_ ∧
      e2.window.windowSamples_ = e1.window.windowSamples_ ∧
      e2.history.maxWindowSamples = e1.history.maxWindowSamples ∧ e2 = e1 := by
  obtain ⟨a, b, c, rfl⟩ := (setWindowSize_ok_iff exp e e1 n).mp h1
  have hge := force_between_ge c
  have hidem := force_between_idem c
  refine ⟨_, (setWindowSize_ok_iff exp _ _ n).mpr ⟨a, b, ?_, rfl⟩, ?_⟩
  · show n ≤ force_between n 4 (e.history.historyEndPtr_ + 1) - 1 + 1
    omega
  · simp only [hidem, maxWindowSamples, and_self]

theorem setWindowSize_twice_witness :
    ∃ e0 e1 : TrueFloatingPointWeightedMovingAverage ℝ,
      construct doubleMetrics Real.exp 0 (fun _ => 0) 1024 10240 = Except.ok e0 ∧
        setWindowSize Real.exp e0 256 = Except.ok e1 ∧
        setWindowSize Real.exp e1 256 = Except.ok e1 := by
  obtain ⟨e0, e1, h0, h1⟩ := engine_exists doubleMetrics Real.exp 0 (fun _ => (0 : ℝ))
    1024 10240 256 (by decide) (by decide) (by norm_num) (by norm_num) (by norm_num)
  obtain ⟨e2, h2, -, -, -, -, -, rfl⟩ :=
    setWindowSize_twice h1
  exact ⟨e0, e2, h0, h1, h2⟩

/-- C17: a successful `setWindowSize(n)` does not reset the estimate. It
changes only `windowSamples`, `inputFactor`, `historyFactor`, `readPtr` and
the logical history length; the running average, `writePtr` and every stored
history sample are as before, and so are the capacity, the decay constant and
the binding of the window. -/
theorem setWindowSize_frame {exp : S → S} {e e1 : TrueFloatingPointWeightedMovingAverage S}
    {n : ℕ} (h1 : setWindowSize exp e n = Except.ok e1) :
    e1.getAverage = e.getAverage ∧ e1.getWritePtr = e.getWritePtr ∧
      (∀ i, e1.history.history_ i = e.history.history_ i) ∧
      e1.history.historySamples_ = e.history.historySamples_ ∧
      e1.history.emdSamples_ = e.history.emdSamples_ ∧
      e1.history.emdFactor_ = e.history.emdFactor_ ∧
      e1.window.history_ = e.window.history_ ∧
      e1.window.windowSamples_ = n ∧
      e1.window.inputFactor_ = (1 - e.history.emdFactor_) /
        (1 - exp (-1 * (n : S) / (e.history.emdSamples_ : S))) ∧
      e1.window.historyFactor_ = e1.window.inputFactor_ *
        exp (-1 * (n : S) / (e.history.emdSamples_ : S)) ∧
      e1.history.maxWindowSamples = force_between n 4 e.history.maxWindowSamples ∧
      e1.window.readPtr_ = e1.history.getRelative n := by
  obtain ⟨-, -, c, rfl⟩ := (setWindowSize_ok_iff exp e e1 n).mp h1
  have hpos := force_between_pos n (by omega : 1 ≤ e.history.historyEndPtr_ + 1)
  refine ⟨rfl, rfl, fun _ => rfl, rfl, rfl, rfl, rfl, rfl, rfl, rfl, ?_, rfl⟩
  show force_between n 4 (e.history.historyEndPtr_ + 1) - 1 + 1 =
    force_between n 4 (e.history.historyEndPtr_ + 1)
  omega

theorem setWindowSize_frame_witness :
    ∃ e0 e1 : TrueFloatingPointWeightedMovingAverage ℝ,
      construct doubleMetrics Real.exp 0 (fun _ => 0) 1024 10240 = Except.ok e0 ∧
        setWindowSize Real.exp ((e0.addInput 7).addInput 8) 256 = Except.ok e1 ∧
        e1.getAverage = ((e0.addInput 7).addInput 8).getAverage ∧
        e1.getWritePtr = ((e0.addInput 7).addInput 8).getWritePtr := by
  obtain ⟨e0, -, h0, -⟩ := engine_exists doubleMetrics Real.exp 0 (fun _ => (0 : ℝ))
    1024 10240 256 (by decide) (by decide) (by norm_num) (by norm_num) (by norm_num)
  have hi := (Reachable.addInput _ 8
    (Reachable.addInput e0 7 (Reachable.construct 0 _ 1024 10240 e0 h0))).invariant
  have h1 := (setWindowSize_ok_iff Real.exp ((e0.addInput 7).addInput 8) _ 256).mpr
    ⟨hi.1.1, by norm_num, by
      obtain ⟨-, -, -, rfl⟩ :=
        (construct_ok_iff_engine doubleMetrics Real.exp 0 _ 1024 10240 e0).mp h0
      show 256 ≤ 1024 - 1 + 1
      norm_num, rfl⟩
  have h := setWindowSize_frame h1
  exact ⟨e0, _, h0, h1, h.1, h.2.1⟩

end TrueFloatingPointWeightedMovingAverage

end EngineConfiguration

/-! ## The ring of the history -/

section RingOfWrites

variable {S : Type} [LinearOrderedField S]

namespace BaseHistoryAndEmdForTrueFloatingPointMovingAverage

end BaseHistoryAndEmdForTrueFloatingPointMovingAverage

end RingOfWrites

/-! ## Configuration of the multi-window set in every state -/

section SetEveryState

variable {S : Type} [LinearOrderedField S]

open BaseHistoryAndEmdForTrueFloatingPointMovingAverage

namespace ScaledWindowForTrueFloatingPointMovingAverage

theorem setReadPtr_eq_dropAtThrow_scaled (w : ScaledWindowForTrueFloatingPointMovingAverage S)
    (h : BaseHistoryAndEmdForTrueFloatingPointMovingAverage S) :
    w.setReadPtr h = dropAtThrow (w.setReadPtrTraced h) := by
  unfold setReadPtr setReadPtrTraced
  rw [WindowForTrueFloatingPointMovingAverage.setReadPtr_eq_dropAtThrow, dropAtThrow_bind]
  generalize w.toWindowForTrueFloatingPointMovingAverage.setReadPtrTraced h = r
  obtain ⟨a, b⟩ := r
  cases b <;> rfl

theorem setWindowSamplesAndScale_eq_dropAtThrow (exp : S → S)
    (w : ScaledWindowForTrueFloatingPointMovingAverage S)
    (h : BaseHistoryAndEmdForTrueFloatingPointMovingAverage S) (n : ℕ) (scale : S) :
    w.setWindowSamplesAndScale exp h n scale =
      dropAtThrow (w.setWindowSamplesAndScaleTraced exp h n scale) := by
  unfold setWindowSamplesAndScale setWindowSamplesAndScaleTraced
  rw [WindowForTrueFloatingPointMovingAverage.setWindowSamples_eq_dropAtThrow, dropAtThrow_bind]
  generalize w.toWindowForTrueFloatingPointMovingAverage.setWindowSamplesTraced exp h n = r
  obtain ⟨a, b⟩ := r
  cases b <;> rfl

/-- A rejected `setWindowSamplesAndScale` throws `std::runtime_error` before
any assignment. -/
theorem setWindowSamplesAndScaleTraced_rejected (exp : S → S)
    (w : ScaledWindowForTrueFloatingPointMovingAverage S)
    (h : BaseHistoryAndEmdForTrueFloatingPointMovingAverage S) (n : ℕ) (scale : S)
    (hn : ¬ (w.history_ ≠ none ∧ 1 ≤ n ∧ n ≤ h.historyEndPtr_ + 1)) :
    w.setWindowSamplesAndScaleTraced exp h n scale = (w, Except.error Error.runtime_error) := by
  unfold setWindowSamplesAndScaleTraced
  rw [WindowForTrueFloatingPointMovingAverage.setWindowSamplesTraced_rejected exp _ h n hn]

end ScaledWindowForTrueFloatingPointMovingAverage

/-- The loop over the read cursors, with and without the object at the
throw. -/
theorem forLoopM_setReadPtr_eq_dropAtThrow
    (h : BaseHistoryAndEmdForTrueFloatingPointMovingAverage S) (n : ℕ)
    (entry : ℕ → ScaledWindowForTrueFloatingPointMovingAverage S) :
    forLoopM n
        (fun i entry => do
          let w ← (entry i).setReadPtr h
          pure (Function.update entry i w)) entry =
      dropAtThrow (forLoop n
        (fun i (acc : (ℕ → ScaledWindowForTrueFloatingPointMovingAverage S) ×
            Except Error Unit) =>
          match acc.2 with
          | Except.error _ => acc
          | Except.ok _ =>
            let w := (acc.1 i).setReadPtrTraced h
            (Function.update acc.1 i w.1, w.2))
        (entry, Except.ok ())) := by
  induction n with
  | zero => rfl
  | succ n ih =>
    rw [forLoopM_succ, forLoop_succ, ih, dropAtThrow_bind]
    generalize forLoop n _ (entry, (Except.ok () : Except Error Unit)) = acc
    obtain ⟨a, b⟩ := acc
    cases b with
    | error err => rfl
    | ok u =>
      dsimp only
      rw [ScaledWindowForTrueFloatingPointMovingAverage.setReadPtr_eq_dropAtThrow_scaled,
        dropAtThrow_bind]
      generalize (a n).setReadPtrTraced h = r
      obtain ⟨c, d⟩ := r
      cases d <;> rfl

theorem le_force_between_of_changed {M E : ℕ} (hchg : force_between M 4 (E + 1) - 1 ≠ E) :
    M ≤ force_between M 4 (E + 1) - 1 + 1 := by
  unfold force_between at hchg ⊢
  split_ifs at hchg ⊢ <;> omega

namespace TrueFloatingPointWeightedMovingAverageSet

theorem optimiseForMaximumSamples_eq_dropAtThrow_set
    (t : TrueFloatingPointWeightedMovingAverageSet S) :
    t.optimiseForMaximumSamples = dropAtThrow t.optimiseForMaximumSamplesTraced := by
  unfold optimiseForMaximumSamples optimiseForMaximumSamplesTraced
  dsimp only
  split
  · rw [forLoopM_setReadPtr_eq_dropAtThrow, dropAtThrow_bind]
    have hgen : ∀ (acc : (ℕ → ScaledWindowForTrueFloatingPointMovingAverage S) ×
        Except Error Unit)
        (f : (ℕ → ScaledWindowForTrueFloatingPointMovingAverage S) →
          TrueFloatingPointWeightedMovingAverageSet S),
        (match acc.2 with
          | Except.ok _ => pure (f acc.1)
          | Except.error err => Except.error err :
            Except Error (TrueFloatingPointWeightedMovingAverageSet S)) =
          dropAtThrow (f acc.1, acc.2) := by
      rintro ⟨a, b⟩ f
      cases b <;> rfl
    exact hgen _ (fun entry =>
      { t with
        entry_ := entry
        history_ := (t.history_.optimiseForMaximumWindowSamples
          (forLoop t.usedWindows_ (fun i acc => max acc (t.entry_ i).windowSamples) 0)).1 })
  · rfl

/-- The method `setUsedWindows` and the same method with the object at the
throw have the same outcome, and the same object when they return. -/
theorem setUsedWindows_eq_dropAtThrow (t : TrueFloatingPointWeightedMovingAverageSet S)
    (k : ℕ) : t.setUsedWindows k = dropAtThrow (t.setUsedWindowsTraced k) := by
  unfold setUsedWindows setUsedWindowsTraced
  split
  · exact optimiseForMaximumSamples_eq_dropAtThrow_set _
  · rfl

/-- The method `setWindowSizeAndScale` and the same method with the object at
the throw have the same outcome, and the same object when they return. -/
theorem setWindowSizeAndScale_eq_dropAtThrow (exp : S → S)
    (t : TrueFloatingPointWeightedMovingAverageSet S) (index n : ℕ) (scale : S) :
    setWindowSizeAndScale exp t index n scale =
      dropAtThrow (setWindowSizeAndScaleTraced exp t index n scale) := by
  unfold setWindowSizeAndScale setWindowSizeAndScaleTraced
  split
  · rfl
  · cases hci : t.checkWindowIndex index with
    | error err => rfl
    | ok i =>
      simp only [bind, Except.bind]
      rw [ScaledWindowForTrueFloatingPointMovingAverage.setWindowSamplesAndScale_eq_dropAtThrow]
      generalize (t.entry_ i).setWindowSamplesAndScaleTraced exp t.history_ n scale = r
      obtain ⟨a, b⟩ := r
      cases b with
      | error err => rfl
      | ok u => exact optimiseForMaximumSamples_eq_dropAtThrow_set _

/-- In every state `optimiseForMaximumSamples` returns, and it returns the
state `reoptimised`. -/
theorem optimiseForMaximumSamples_eq (t : TrueFloatingPointWeightedMovingAverageSet S) :
    t.optimiseForMaximumSamples = Except.ok t.reoptimised := by
  obtain ⟨m1, -⟩ := foldl_max_nat (fun i => (t.entry_ i).windowSamples) t.usedWindows_
  have m1' : ∀ i, i < t.usedWindows_ → (t.entry_ i).windowSamples_ ≤ t.maximumSamples := m1
  unfold optimiseForMaximumSamples optimiseForMaximumWindowSamples maxWindowSamples
  have hmax : forLoop t.usedWindows_ (fun i acc => max acc (t.entry_ i).windowSamples) 0 =
      t.maximumSamples := rfl
  simp only [hmax]
  by_cases hchg : force_between t.maximumSamples 4 (t.history_.historyEndPtr_ + 1) - 1 =
      t.history_.historyEndPtr_
  · simp only [hchg, ne_eq, not_true_eq_false, ite_false, Bool.false_eq_true]
    show Except.ok t = Except.ok t.reoptimised
    congr 1
    unfold reoptimised
    simp only [hchg, ne_eq, not_true_eq_false, false_and, ite_false]
  · simp only [hchg, ne_eq, not_false_eq_true, ite_true]
    have hge := le_force_between_of_changed hchg
    have hloop := forLoopM_update_ok t.usedWindows_
      (fun i entry => do
        let w ← (entry i).setReadPtr
          { t.history_ with
            historyEndPtr_ :=
              force_between t.maximumSamples 4 (t.history_.historyEndPtr_ + 1) - 1 }
        pure (Function.update entry i w)) t.entry_
      (fun i =>
        { t.entry_ i with
          toWindowForTrueFloatingPointMovingAverage :=
            { (t.entry_ i).toWindowForTrueFloatingPointMovingAverage with
              readPtr_ := (t.history_.writePtr_ + (t.entry_ i).windowSamples_) %
                (force_between t.maximumSamples 4 (t.history_.historyEndPtr_ + 1) - 1 + 1) } })
      (fun i hi e he => by
        have hle : (t.entry_ i).windowSamples_ ≤
            force_between t.maximumSamples 4 (t.history_.historyEndPtr_ + 1) - 1 + 1 :=
          le_trans (m1' i hi) hge
        dsimp only
        rw [he i le_rfl, ScaledWindowForTrueFloatingPointMovingAverage.setReadPtr_ok _ _ hle]
        rfl)
    rw [hloop]
    show Except.ok _ = Except.ok t.reoptimised
    congr 1
    unfold reoptimised
    simp only [hchg, ne_eq, not_false_eq_true, true_and]

theorem optimiseForMaximumSamplesTraced_eq (t : TrueFloatingPointWeightedMovingAverageSet S) :
    t.optimiseForMaximumSamplesTraced = (t.reoptimised, Except.ok ()) := by
  have h := optimiseForMaximumSamples_eq t
  rw [optimiseForMaximumSamples_eq_dropAtThrow_set, dropAtThrow_eq_ok_iff] at h
  exact h

/-- What `optimiseForMaximumSamples` keeps, and what it does to the logical
length and to the read cursors. -/
theorem reoptimised_fields (t : TrueFloatingPointWeightedMovingAverageSet S) :
    t.reoptimised.entries_ = t.entries_ ∧ t.reoptimised.usedWindows_ = t.usedWindows_ ∧
      t.reoptimised.history_.historySamples_ = t.history_.historySamples_ ∧
      t.reoptimised.history_.history_ = t.history_.history_ ∧
      t.reoptimised.history_.emdSamples_ = t.history_.emdSamples_ ∧
      t.reoptimised.history_.emdFactor_ = t.history_.emdFactor_ ∧
      t.reoptimised.history_.writePtr_ = t.history_.writePtr_ ∧
      t.reoptimised.history_.historyEndPtr_ =
        force_between t.maximumSamples 4 (t.history_.historyEndPtr_ + 1) - 1 ∧
      ∀ j, (t.reoptimised.entry_ j).history_ = (t.entry_ j).history_ ∧
        (t.reoptimised.entry_ j).windowSamples_ = (t.entry_ j).windowSamples_ ∧
        (t.reoptimised.entry_ j).inputFactor_ = (t.entry_ j).inputFactor_ ∧
        (t.reoptimised.entry_ j).historyFactor_ = (t.entry_ j).historyFactor_ ∧
        (t.reoptimised.entry_ j).average_ = (t.entry_ j).average_ ∧
        (t.reoptimised.entry_ j).scale_ = (t.entry_ j).scale_ ∧
        (t.reoptimised.entry_ j).readPtr_ =
          if force_between t.maximumSamples 4 (t.history_.historyEndPtr_ + 1) - 1 ≠
              t.history_.historyEndPtr_ ∧ j < t.usedWindows_ then
            (t.history_.writePtr_ + (t.entry_ j).windowSamples_) %
              (force_between t.maximumSamples 4 (t.history_.historyEndPtr_ + 1) - 1 + 1)
          else (t.entry_ j).readPtr_ := by
  refine ⟨rfl, rfl, rfl, rfl, rfl, rfl, rfl, rfl, ?_⟩
  intro j
  unfold reoptimised
  dsimp only
  split <;> exact ⟨rfl, rfl, rfl, rfl, rfl, rfl, rfl⟩

/-- The outcome of `setUsedWindows` in every state. -/
theorem setUsedWindows_eq (t : TrueFloatingPointWeightedMovingAverageSet S) (k : ℕ) :
    t.setUsedWindows k =
      if 0 < k ∧ k ≤ t.entries_ then
        Except.ok (reoptimised { t with usedWindows_ := k })
      else Except.error Error.out_of_range := by
  unfold setUsedWindows getMaxWindows
  split
  · exact optimiseForMaximumSamples_eq _
  · rfl

/-- The outcome of a successful `setWindowSizeAndScale` in every state. -/
theorem setWindowSizeAndScale_ok_iff (exp : S → S)
    (t t' : TrueFloatingPointWeightedMovingAverageSet S) (index n : ℕ) (scale : S) :
    setWindowSizeAndScale exp t index n scale = Except.ok t' ↔
      n ≤ t.history_.historySamples_ ∧ index < t.usedWindows_ ∧
        (t.entry_ index).history_ ≠ none ∧ 1 ≤ n ∧ n ≤ t.history_.historyEndPtr_ + 1 ∧
        t' = reoptimised
          { t with
            entry_ := Function.update t.entry_ index
              (ScaledWindowForTrueFloatingPointMovingAverage.setScale
                { t.entry_ index with
                  toWindowForTrueFloatingPointMovingAverage :=
                    { (t.entry_ index).toWindowForTrueFloatingPointMovingAverage with
                      windowSamples_ := n
                      inputFactor_ := (1 - t.history_.emdFactor_) /
                        (1 - exp (-1 * (n : S) / (t.history_.emdSamples_ : S)))
                      historyFactor_ := (1 - t.history_.emdFactor_) /
                        (1 - exp (-1 * (n : S) / (t.history_.emdSamples_ : S))) *
                          exp (-1 * (n : S) / (t.history_.emdSamples_ : S))
                      readPtr_ := t.history_.getRelative n } } scale) } := by
  unfold setWindowSizeAndScale getMaxWindowSamples historySize
  by_cases hcap : n > t.history_.historySamples_
  · rw [if_pos hcap]
    constructor
    · intro h
      cases h
    · rintro ⟨h1, -⟩
      omega
  · rw [if_neg hcap]
    unfold checkWindowIndex getUsedWindows
    by_cases hidx : index < t.usedWindows_
    · rw [if_pos hidx]
      simp only [bind, Except.bind, pure, Except.pure]
      cases hsw : (t.entry_ index).setWindowSamplesAndScale exp t.history_ n scale with
      | error err =>
        constructor
        · intro h
          cases h
        · rintro ⟨-, -, a, b, c, -⟩
          have := (ScaledWindowForTrueFloatingPointMovingAverage.setWindowSamplesAndScale_ok_iff
            exp (t.entry_ index) _ t.history_ n scale).mpr ⟨a, b, c, rfl⟩
          rw [hsw] at this
          cases this
      | ok w =>
        obtain ⟨a, b, c, hw⟩ :=
          (ScaledWindowForTrueFloatingPointMovingAverage.setWindowSamplesAndScale_ok_iff
            exp (t.entry_ index) _ t.history_ n scale).mp hsw
        show TrueFloatingPointWeightedMovingAverageSet.optimiseForMaximumSamples
            { t with entry_ := Function.update t.entry_ index w } = Except.ok t' ↔ _
        rw [optimiseForMaximumSamples_eq, hw]
        constructor
        · intro h
          cases h
          exact ⟨by omega, hidx, a, b, c, rfl⟩
        · rintro ⟨-, -, -, -, -, h⟩
          rw [h]
    · rw [if_neg hidx]
      constructor
      · intro h
        cases h
      · rintro ⟨-, h1, -⟩
        exact absurd h1 hidx

end TrueFloatingPointWeightedMovingAverageSet

end SetEveryState

/-! ## Every state of the multi-window set -/

section SetReachable

variable {S : Type} [LinearOrderedField S]

open BaseHistoryAndEmdForTrueFloatingPointMovingAverage

namespace ScaledWindowForTrueFloatingPointMovingAverage

theorem setScale_scale_eq (w w' : ScaledWindowForTrueFloatingPointMovingAverage S) (scale : S) :
    (w.setScale scale).scale_ = (w'.setScale scale).scale_ := by
  unfold setScale
  split
  · rfl
  · split
    · rfl
    · split <;> rfl

end ScaledWindowForTrueFloatingPointMovingAverage

namespace TrueFloatingPointWeightedMovingAverageSet

theorem reoptimised_of_unchanged (t : TrueFloatingPointWeightedMovingAverageSet S)
    (h : force_between t.maximumSamples 4 (t.history_.historyEndPtr_ + 1) - 1 =
      t.history_.historyEndPtr_) : t.reoptimised = t := by
  unfold reoptimised
  simp only [h, ne_eq, not_true_eq_false, false_and, ite_false]

theorem Invariant.of_reoptimised {t : TrueFloatingPointWeightedMovingAverageSet S}
    (hi : Invariant t) : Invariant t.reoptimised := by
  obtain ⟨h1, h2, h3, h4, h5, h6⟩ := hi
  obtain ⟨f1, f2, f3, -, -, -, f7, f8, f9⟩ := reoptimised_fields t
  have b1 := TrueFloatingPointWeightedMovingAverage.force_between_le (n := t.maximumSamples) h3
  have b2 := TrueFloatingPointWeightedMovingAverage.four_le_force_between t.maximumSamples h3
  refine ⟨by rw [f2]; exact h1, by rw [f2, f1]; exact h2, by rw [f8]; omega,
    by rw [f8, f3]; omega, by rw [f7, f3]; exact h5, ?_⟩
  intro j hj
  rw [f1] at hj
  obtain ⟨g1, g2, -, -, -, -, g7⟩ := f9 j
  obtain ⟨k1, k2, k3, k4⟩ := h6 j hj
  refine ⟨by rw [g1]; exact k1, by rw [g2]; exact k2, by rw [g2, f3]; exact k3, ?_⟩
  rw [g7, f3]
  split
  · have := Nat.mod_lt (t.history_.writePtr_ + (t.entry_ j).windowSamples_)
      (Nat.succ_pos (force_between t.maximumSamples 4 (t.history_.historyEndPtr_ + 1) - 1))
    have hs : (force_between t.maximumSamples 4 (t.history_.historyEndPtr_ + 1) - 1).succ =
        force_between t.maximumSamples 4 (t.history_.historyEndPtr_ + 1) - 1 + 1 := rfl
    rw [hs] at this
    omega
  · exact k4

theorem Invariant.of_setUsedWindows {t t' : TrueFloatingPointWeightedMovingAverageSet S}
    (hi : Invariant t) {k : ℕ} (h : t.setUsedWindows k = Except.ok t') : Invariant t' := by
  rw [setUsedWindows_eq] at h
  by_cases hk : 0 < k ∧ k ≤ t.entries_
  · rw [if_pos hk] at h
    cases h
    obtain ⟨-, -, h3, h4, h5, h6⟩ := hi
    exact Invariant.of_reoptimised ⟨hk.1, hk.2, h3, h4, h5, h6⟩
  · rw [if_neg hk] at h
    cases h

/-- A successful `setWindowSizeAndScale`: the new window `index` and the
state. -/
theorem setWindowSizeAndScale_ok_elim {exp : S → S}
    {t t' : TrueFloatingPointWeightedMovingAverageSet S} {index n : ℕ} {scale : S}
    (h : setWindowSizeAndScale exp t index n scale = Except.ok t') :
    ∃ w : ScaledWindowForTrueFloatingPointMovingAverage S,
      (n ≤ t.history_.historySamples_ ∧ index < t.usedWindows_ ∧
        (t.entry_ index).history_ ≠ none ∧ 1 ≤ n ∧ n ≤ t.history_.historyEndPtr_ + 1) ∧
      (w.history_ = (t.entry_ index).history_ ∧ w.windowSamples_ = n ∧
        w.readPtr_ = t.history_.getRelative n ∧ w.average_ = (t.entry_ index).average_ ∧
        w.scale_ = ((t.entry_ index).setScale scale).scale_ ∧
        w.inputFactor_ = (1 - t.history_.emdFactor_) /
          (1 - exp (-1 * (n : S) / (t.history_.emdSamples_ : S))) ∧
        w.historyFactor_ = (1 - t.history_.emdFactor_) /
          (1 - exp (-1 * (n : S) / (t.history_.emdSamples_ : S))) *
            exp (-1 * (n : S) / (t.history_.emdSamples_ : S))) ∧
      t' = reoptimised { t with entry_ := Function.update t.entry_ index w } := by
  obtain ⟨a, b, c, d, e, rfl⟩ := (setWindowSizeAndScale_ok_iff exp t t' index n scale).mp h
  refine ⟨_, ⟨a, b, c, d, e⟩, ?_, rfl⟩
  have hw := ScaledWindowForTrueFloatingPointMovingAverage.setScale_toWindow
    ({ t.entry_ index with
        toWindowForTrueFloatingPointMovingAverage :=
          { (t.entry_ index).toWindowForTrueFloatingPointMovingAverage with
            windowSamples_ := n
            inputFactor_ := (1 - t.history_.emdFactor_) /
              (1 - exp (-1 * (n : S) / (t.history_.emdSamples_ : S)))
            historyFactor_ := (1 - t.history_.emdFactor_) /
              (1 - exp (-1 * (n : S) / (t.history_.emdSamples_ : S))) *
                exp (-1 * (n : S) / (t.history_.emdSamples_ : S))
            readPtr_ := t.history_.getRelative n } } :
      ScaledWindowForTrueFloatingPointMovingAverage S) scale
  refine ⟨?_, ?_, ?_, ?_, ScaledWindowForTrueFloatingPointMovingAverage.setScale_scale_eq _ _ _,
    ?_, ?_⟩ <;> rw [hw]

theorem Invariant.of_setWindowSizeAndScale {exp : S → S}
    {t t' : TrueFloatingPointWeightedMovingAverageSet S} (hi : Invariant t) {index n : ℕ}
    {scale : S} (h : setWindowSizeAndScale exp t index n scale = Except.ok t') :
    Invariant t' := by
  obtain ⟨w, ⟨hcap, -, hb, hn1, hn2⟩, ⟨w1, w2, w3, -⟩, rfl⟩ := setWindowSizeAndScale_ok_elim h
  obtain ⟨h1, h2, h3, h4, h5, h6⟩ := hi
  refine Invariant.of_reoptimised ⟨h1, h2, h3, h4, h5, ?_⟩
  intro j hj
  have hj' : j < t.entries_ := hj
  show (Function.update t.entry_ index w j).history_ ≠ none ∧
    1 ≤ (Function.update t.entry_ index w j).windowSamples_ ∧
    (Function.update t.entry_ index w j).windowSamples_ ≤ t.history_.historySamples_ ∧
    (Function.update t.entry_ index w j).readPtr_ < t.history_.historySamples_
  by_cases hji : j = index
  · subst hji
    rw [Function.update_same, w1, w2, w3]
    refine ⟨hb, hn1, hcap, ?_⟩
    have := getRelative_le t.history_ n
    omega
  · rw [Function.update_noteq hji]
    exact h6 j hj'

theorem Invariant.of_setAverages {t : TrueFloatingPointWeightedMovingAverageSet S}
    (hi : Invariant t) (a : S) : Invariant (t.setAverages a).1 := by
  obtain ⟨s1, s2, s3, s4⟩ := setAverages_state t a
  obtain ⟨h1, h2, h3, h4, h5, h6⟩ := hi
  refine ⟨by rw [s2]; exact h1, by rw [s2, s1]; exact h2, by rw [s4]; exact h3,
    by rw [s4]; exact h4, by rw [s4]; exact h5, ?_⟩
  intro j hj
  rw [s1] at hj
  rw [s3 j, if_pos hj, s4]
  exact h6 j hj

theorem Invariant.of_addInput {t : TrueFloatingPointWeightedMovingAverageSet S}
    (hi : Invariant t) (x : S) : Invariant (t.addInput x) := by
  obtain ⟨h1, h2, h3, h4, h5, h6⟩ := hi
  have hnext : ∀ p, p < t.history_.historySamples_ →
      t.history_.setNextPtr p < t.history_.historySamples_ := by
    intro p hp
    unfold setNextPtr
    split <;> omega
  refine ⟨h1, h2, h3, h4, hnext _ h5, ?_⟩
  intro j hj
  have hj' : j < t.entries_ := hj
  obtain ⟨k1, k2, k3, k4⟩ := h6 j hj'
  rw [addInput_entry]
  split
  · exact ⟨k1, k2, k3, hnext _ k4⟩
  · exact ⟨k1, k2, k3, k4⟩

theorem addInputGetMax_state (t : TrueFloatingPointWeightedMovingAverageSet S) (x floor : S) :
    (t.addInputGetMax x floor).1 = t.addInput x := by
  unfold addInputGetMax getUsedWindows
  simp only [addInputGetMax_loop]
  rfl

theorem Invariant.of_construct {m : HelperForMovingAverageMetricsForInaccurateTypes} {exp : S → S}
    {here : Addr} {memory : ℕ → S} {M E W : ℕ} {a : S}
    {t : TrueFloatingPointWeightedMovingAverageSet S}
    (h : construct m exp here memory M E W a = Except.ok t) : Invariant t := by
  obtain ⟨hW, -, vM, -, rfl⟩ := (construct_ok_iff_set m exp here memory M E W a t).mp h
  have hM : 64 ≤ M := by
    simp [HelperForMovingAverageMetricsForInaccurateTypes.isValidWindowSizeInSamples,
      is_between, HelperForMovingAverageMetricsForInaccurateTypes.MIN_MAX_WINDOW_SAMPLES] at vM
    exact vM.1
  refine ⟨hW.1, le_rfl, ?_, ?_, ?_, ?_⟩
  · show 4 ≤ M - 1 + 1
    omega
  · show M - 1 + 1 ≤ M
    omega
  · show 0 < M
    omega
  · intro j hj
    have hj' : j < W := hj
    obtain ⟨s1, s2⟩ := construct_sizes hM hW j hj'
    show ((if j < W then ScaledWindowForTrueFloatingPointMovingAverage.setScale _ 1
        else _ : ScaledWindowForTrueFloatingPointMovingAverage
          S)).toWindowForTrueFloatingPointMovingAverage.history_ ≠ none ∧
      1 ≤ ((if j < W then ScaledWindowForTrueFloatingPointMovingAverage.setScale _ 1
        else _ : ScaledWindowForTrueFloatingPointMovingAverage
          S)).toWindowForTrueFloatingPointMovingAverage.windowSamples_ ∧
      ((if j < W then ScaledWindowForTrueFloatingPointMovingAverage.setScale _ 1
        else _ : ScaledWindowForTrueFloatingPointMovingAverage
          S)).toWindowForTrueFloatingPointMovingAverage.windowSamples_ ≤ M ∧
      ((if j < W then ScaledWindowForTrueFloatingPointMovingAverage.setScale _ 1
        else _ : ScaledWindowForTrueFloatingPointMovingAverage
          S)).toWindowForTrueFloatingPointMovingAverage.readPtr_ < M
    rw [if_pos hj', ScaledWindowForTrueFloatingPointMovingAverage.setScale_toWindow]
    refine ⟨by simp, s1, ?_, ?_⟩
    · show (j + 1) * M / W ≤ M
      omega
    · show (0 + (j + 1) * M / W) % (M - 1 + 1) < M
      have := Nat.mod_lt (0 + (j + 1) * M / W) (by omega : M - 1 + 1 > 0)
      omega

/-- The invariant holds in every state of the multi-window set. -/
theorem Reachable.set_invariant {m : HelperForMovingAverageMetricsForInaccurateTypes}
    {exp : S → S} {t : TrueFloatingPointWeightedMovingAverageSet S} (hr : Reachable m exp t) :
    Invariant t := by
  induction hr with
  | construct here memory M E W a t h => exact Invariant.of_construct h
  | setUsedWindows t t' k _ h' ih => exact ih.of_setUsedWindows h'
  | setWindowSizeAndScale t t' index n scale _ h' ih => exact ih.of_setWindowSizeAndScale h'
  | setAverages t a _ ih => exact ih.of_setAverages a
  | addInput t x _ ih => exact ih.of_addInput x
  | addInputGetMax t x floor _ ih =>
    rw [addInputGetMax_state]
    exact ih.of_addInput x

/-- C13: in every state of a multi-window set, `setWindowSizeAndScale(i, n, s)`
succeeds exactly when `i < usedWindows` and
`1 ≤ n ≤ history.maxWindowSamples()`. On success `getWindowSize(i)` is `n` and
`getWindowScale(i)` is the scale that `setScale(s)` stores, while the averages
of all windows and the size and the scale of every other window are as
before. -/
theorem setWindowSizeAndScale_contract {m : HelperForMovingAverageMetricsForInaccurateTypes}
    {exp : S → S} {t : TrueFloatingPointWeightedMovingAverageSet S} (hr : Reachable m exp t)
    (i n : ℕ) (s : S) :
    ((∃ t', setWindowSizeAndScale exp t i n s = Except.ok t') ↔
        (i < t.getUsedWindows ∧ 1 ≤ n ∧ n ≤ t.history_.maxWindowSamples)) ∧
      ∀ t', setWindowSizeAndScale exp t i n s = Except.ok t' →
        t'.getWindowSize i = Except.ok n ∧
        t'.getWindowScale i = Except.ok ((t.entry_ i).setScale s).scale ∧
        t'.getUsedWindows = t.getUsedWindows ∧
        (∀ j, (t'.entry_ j).average_ = (t.entry_ j).average_) ∧
        (∀ j, j ≠ i → (t'.entry_ j).windowSamples = (t.entry_ j).windowSamples ∧
          (t'.entry_ j).scale = (t.entry_ j).scale ∧
          (t'.entry_ j).getAverage = (t.entry_ j).getAverage) := by
  obtain ⟨-, h2, -, h4, -, h6⟩ := hr.set_invariant
  constructor
  · constructor
    · rintro ⟨t', h⟩
      obtain ⟨-, a, -, b, c, -⟩ := (setWindowSizeAndScale_ok_iff exp t t' i n s).mp h
      exact ⟨a, b, c⟩
    · rintro ⟨a, b, c⟩
      have a' : i < t.usedWindows_ := a
      have c' : n ≤ t.history_.historyEndPtr_ + 1 := c
      exact ⟨_, (setWindowSizeAndScale_ok_iff exp t _ i n s).mpr
        ⟨by omega, a', (h6 i (by omega)).1, b, c', rfl⟩⟩
  · intro t' h
    obtain ⟨w, ⟨-, a, -, -, -⟩, ⟨-, w2, -, w4, w5, -⟩, rfl⟩ := setWindowSizeAndScale_ok_elim h
    obtain ⟨-, f2, -, -, -, -, -, -, f9⟩ := reoptimised_fields
      ({ t with entry_ := Function.update t.entry_ i w } :
        TrueFloatingPointWeightedMovingAverageSet S)
    have hused : i < (reoptimised ({ t with entry_ := Function.update t.entry_ i w } :
        TrueFloatingPointWeightedMovingAverageSet S)).usedWindows_ := by
      rw [f2]
      exact a
    have g : ∀ j, ((reoptimised ({ t with entry_ := Function.update t.entry_ i w } :
          TrueFloatingPointWeightedMovingAverageSet S)).entry_ j).windowSamples_ =
          (Function.update t.entry_ i w j).windowSamples_ ∧
        ((reoptimised ({ t with entry_ := Function.update t.entry_ i w } :
          TrueFloatingPointWeightedMovingAverageSet S)).entry_ j).average_ =
          (Function.update t.entry_ i w j).average_ ∧
        ((reoptimised ({ t with entry_ := Function.update t.entry_ i w } :
          TrueFloatingPointWeightedMovingAverageSet S)).entry_ j).scale_ =
          (Function.update t.entry_ i w j).scale_ :=
      fun j => ⟨(f9 j).2.1, (f9 j).2.2.2.2.1, (f9 j).2.2.2.2.2.1⟩
    refine ⟨?_, ?_, f2, ?_, ?_⟩
    · unfold getWindowSize checkWindowIndex getUsedWindows
      rw [if_pos hused]
      show Except.ok _ = Except.ok n
      congr 1
      show WindowForTrueFloatingPointMovingAverage.windowSamples_ _ = n
      rw [(g i).1, Function.update_same, w2]
    · unfold getWindowScale checkWindowIndex getUsedWindows
      rw [if_pos hused]
      show Except.ok _ = Except.ok _
      congr 1
      show ScaledWindowForTrueFloatingPointMovingAverage.scale_ _ = _
      rw [(g i).2.2, Function.update_same, w5]
      rfl
    · intro j
      rw [(g j).2.1]
      by_cases hji : j = i
      · subst hji
        rw [Function.update_same, w4]
      · rw [Function.update_noteq hji]
    · intro j hji
      have e1 := (g j).1
      have e2 := (g j).2.1
      have e3 := (g j).2.2
      rw [Function.update_noteq hji] at e1 e2 e3
      refine ⟨e1, e3, ?_⟩
      show ScaledWindowForTrueFloatingPointMovingAverage.scale_ _ *
        WindowForTrueFloatingPointMovingAverage.average_ _ = (t.entry_ j).scale_ *
          (t.entry_ j).average_
      rw [e2, e3]

theorem setWindowSizeAndScale_contract_witness :
    ∃ t0 t1 : TrueFloatingPointWeightedMovingAverageSet ℝ,
      construct doubleMetrics Real.exp 0 (fun _ => 0) 1024 10240 3 0 = Except.ok t0 ∧
        setWindowSizeAndScale Real.exp (t0.addInput 7) 1 256 2 = Except.ok t1 ∧
        t1.getWindowSize 1 = Except.ok 256 := by
  obtain ⟨t0, hc0, hu0, hL0⟩ :
      ∃ t0 : TrueFloatingPointWeightedMovingAverageSet ℝ,
      construct doubleMetrics Real.exp 0 (fun _ => 0) 1024 10240 3 0 = Except.ok t0 ∧
        t0.usedWindows_ = 3 ∧ t0.history_.historyEndPtr_ + 1 = 1024 :=
    ⟨_, (construct_ok_iff_set doubleMetrics Real.exp 0 (fun _ => 0) 1024 10240 3 0 _).mpr
      ⟨⟨by norm_num, by norm_num⟩, by decide, by decide, by norm_num, rfl⟩, rfl, rfl⟩
  have hr : Reachable doubleMetrics Real.exp (t0.addInput 7) :=
    Reachable.addInput t0 7 (Reachable.construct 0 _ 1024 10240 3 0 t0 hc0)
  have hc := setWindowSizeAndScale_contract hr 1 256 2
  obtain ⟨t1, h1⟩ := hc.1.mpr ⟨by
    show 1 < t0.usedWindows_
    omega, by norm_num, by
    show 256 ≤ t0.history_.historyEndPtr_ + 1
    omega⟩
  exact ⟨t0, t1, hc0, h1, (hc.2 t1 h1).1⟩

end TrueFloatingPointWeightedMovingAverageSet

end SetReachable

/-! ## Rejected calls, and `setUsedWindows` -/

section SetUsedWindows

variable {S : Type} [LinearOrderedField S]

open BaseHistoryAndEmdForTrueFloatingPointMovingAverage

namespace TrueFloatingPointWeightedMovingAverageSet

/-- A rejected `setUsedWindows` throws `std::out_of_range` before any
assignment. -/
theorem setUsedWindowsTraced_error (t : TrueFloatingPointWeightedMovingAverageSet S) (k : ℕ)
    (err : Error) (h : (t.setUsedWindowsTraced k).2 = Except.error err) :
    t.setUsedWindowsTraced k = (t, Except.error Error.out_of_range) := by
  unfold setUsedWindowsTraced at h ⊢
  by_cases hk : k > 0 ∧ k ≤ t.getMaxWindows
  · rw [if_pos hk, optimiseForMaximumSamplesTraced_eq] at h
    cases h
  · rw [if_neg hk]

/-- A rejected `setWindowSizeAndScale` throws before any assignment:
`std::out_of_range` at its own two checks, `std::runtime_error` at the checks of
`setWindowSamples`. -/
theorem setWindowSizeAndScaleTraced_error (exp : S → S)
    (t : TrueFloatingPointWeightedMovingAverageSet S) (index n : ℕ) (scale : S) (err : Error)
    (h : (setWindowSizeAndScaleTraced exp t index n scale).2 = Except.error err) :
    setWindowSizeAndScaleTraced exp t index n scale =
      (t, Except.error
        (if n > t.getMaxWindowSamples ∨ ¬ index < t.getUsedWindows then Error.out_of_range
          else Error.runtime_error)) := by
  unfold setWindowSizeAndScaleTraced at h ⊢
  by_cases hcap : n > t.getMaxWindowSamples
  · rw [if_pos hcap, if_pos (Or.inl hcap)]
  · rw [if_neg hcap] at h ⊢
    unfold checkWindowIndex at h ⊢
    by_cases hidx : index < t.getUsedWindows
    · rw [if_pos hidx] at h ⊢
      rw [if_neg (by tauto)]
      by_cases hn : (t.entry_ index).history_ ≠ none ∧ 1 ≤ n ∧
          n ≤ t.history_.historyEndPtr_ + 1
      · exfalso
        have h1 := (ScaledWindowForTrueFloatingPointMovingAverage.setWindowSamplesAndScale_ok_iff
          exp (t.entry_ index) _ t.history_ n scale).mpr ⟨hn.1, hn.2.1, hn.2.2, rfl⟩
        rw [ScaledWindowForTrueFloatingPointMovingAverage.setWindowSamplesAndScale_eq_dropAtThrow,
          dropAtThrow_eq_ok_iff] at h1
        simp only [pure, Except.pure] at h
        rw [h1] at h
        simp only [optimiseForMaximumSamplesTraced_eq] at h
        cases h
      · simp only [pure, Except.pure]
        rw [ScaledWindowForTrueFloatingPointMovingAverage.setWindowSamplesAndScaleTraced_rejected
          exp _ _ n scale hn]
        simp only [Function.update_eq_self]
    · rw [if_neg hidx, if_pos (Or.inr hidx)]

/-- C15: a configuration call that is rejected leaves the complete state as it
was. For `setWindowSize` of the single-window engine, and for `setUsedWindows`
and `setWindowSizeAndScale` of the multi-window set, the method with the object
at the throw has the outcome of the method, and whenever it throws, the object
at the throw is the object before the call: `usedWindows`, the size, the scale,
the coefficients, the `readPtr` and the average of every window, and the
contents, the `writePtr` and the logical length of the history. -/
theorem rejected_configuration_call_leaves_state (exp : S → S)
    (e : TrueFloatingPointWeightedMovingAverage S)
    (t : TrueFloatingPointWeightedMovingAverageSet S) (n k i : ℕ) (s : S) :
    (TrueFloatingPointWeightedMovingAverage.setWindowSize exp e n =
        dropAtThrow (TrueFloatingPointWeightedMovingAverage.setWindowSizeTraced exp e n) ∧
      ∀ err, (TrueFloatingPointWeightedMovingAverage.setWindowSizeTraced exp e n).2 =
          Except.error err →
        (TrueFloatingPointWeightedMovingAverage.setWindowSizeTraced exp e n).1 = e) ∧
      (t.setUsedWindows k = dropAtThrow (t.setUsedWindowsTraced k) ∧
        ∀ err, (t.setUsedWindowsTraced k).2 = Except.error err →
          (t.setUsedWindowsTraced k).1 = t) ∧
      (setWindowSizeAndScale exp t i n s =
          dropAtThrow (setWindowSizeAndScaleTraced exp t i n s) ∧
        ∀ err, (setWindowSizeAndScaleTraced exp t i n s).2 = Except.error err →
          (setWindowSizeAndScaleTraced exp t i n s).1 = t) := by
  refine ⟨⟨TrueFloatingPointWeightedMovingAverage.setWindowSize_eq_dropAtThrow exp e n, ?_⟩,
    ⟨setUsedWindows_eq_dropAtThrow t k, ?_⟩,
    ⟨setWindowSizeAndScale_eq_dropAtThrow exp t i n s, ?_⟩⟩
  · intro err h
    rw [TrueFloatingPointWeightedMovingAverage.setWindowSizeTraced_error exp e n err h]
  · intro err h
    rw [setUsedWindowsTraced_error t k err h]
  · intro err h
    rw [setWindowSizeAndScaleTraced_error exp t i n s err h]

theorem setUsedWindows_ok (t : TrueFloatingPointWeightedMovingAverageSet S) {k : ℕ}
    (h1 : 0 < k) (h2 : k ≤ t.entries_) :
    t.setUsedWindows k = Except.ok (reoptimised { t with usedWindows_ := k }) := by
  rw [setUsedWindows_eq, if_pos ⟨h1, h2⟩]

theorem maximumSamples_one (t : TrueFloatingPointWeightedMovingAverageSet S)
    (h : t.usedWindows_ = 1) : t.maximumSamples = max 0 (t.entry_ 0).windowSamples_ := by
  unfold maximumSamples
  rw [h]
  rfl

theorem maximumSamples_two (t : TrueFloatingPointWeightedMovingAverageSet S)
    (h : t.usedWindows_ = 2) :
    t.maximumSamples = max (max 0 (t.entry_ 0).windowSamples_) (t.entry_ 1).windowSamples_ := by
  unfold maximumSamples
  rw [h]
  rfl

/-- The set with two windows on a history of 64 samples: its windows have the
sizes 32 and 64. -/
theorem construct_two_windows :
    ∃ t0 : TrueFloatingPointWeightedMovingAverageSet ℝ,
      construct doubleMetrics Real.exp 0 (fun _ => 0) 64 640 2 0 = Except.ok t0 ∧
        t0.entries_ = 2 ∧ t0.usedWindows_ = 2 ∧ t0.history_.historyEndPtr_ = 63 ∧
        t0.history_.historySamples_ = 64 ∧ t0.history_.writePtr_ = 0 ∧
        (t0.entry_ 0).windowSamples_ = 32 ∧ (t0.entry_ 1).windowSamples_ = 64 ∧
        (t0.entry_ 1).readPtr_ = 0 ∧ (t0.entry_ 0).history_ ≠ none := by
  refine ⟨_, (construct_ok_iff_set doubleMetrics Real.exp 0 (fun _ => 0) 64 640 2 0 _).mpr
    ⟨⟨by norm_num, by norm_num⟩, by decide, by decide, by norm_num, rfl⟩, rfl, rfl, rfl, rfl, rfl,
    ?_, ?_, ?_, ?_⟩
  · show ((if 0 < 2 then ScaledWindowForTrueFloatingPointMovingAverage.setScale _ 1
      else _ : ScaledWindowForTrueFloatingPointMovingAverage
        ℝ)).toWindowForTrueFloatingPointMovingAverage.windowSamples_ = 32
    rw [if_pos (by norm_num), ScaledWindowForTrueFloatingPointMovingAverage.setScale_toWindow]
  · show ((if 1 < 2 then ScaledWindowForTrueFloatingPointMovingAverage.setScale _ 1
      else _ : ScaledWindowForTrueFloatingPointMovingAverage
        ℝ)).toWindowForTrueFloatingPointMovingAverage.windowSamples_ = 64
    rw [if_pos (by norm_num), ScaledWindowForTrueFloatingPointMovingAverage.setScale_toWindow]
  · show ((if 1 < 2 then ScaledWindowForTrueFloatingPointMovingAverage.setScale _ 1
      else _ : ScaledWindowForTrueFloatingPointMovingAverage
        ℝ)).toWindowForTrueFloatingPointMovingAverage.readPtr_ = 0
    rw [if_pos (by norm_num), ScaledWindowForTrueFloatingPointMovingAverage.setScale_toWindow]
  · show ((if 0 < 2 then ScaledWindowForTrueFloatingPointMovingAverage.setScale _ 1
      else _ : ScaledWindowForTrueFloatingPointMovingAverage
        ℝ)).toWindowForTrueFloatingPointMovingAverage.history_ ≠ none
    rw [if_pos (by norm_num), ScaledWindowForTrueFloatingPointMovingAverage.setScale_toWindow]
    simp

/-- What `setUsedWindows(k)` does in every state: `usedWindows` becomes `k`,
and the logical length becomes the largest size among the first `k` windows,
forced between four and the logical length before the call. -/
theorem setUsedWindows_length {t t' : TrueFloatingPointWeightedMovingAverageSet S} {k : ℕ}
    (h : t.setUsedWindows k = Except.ok t') :
    t'.getUsedWindows = k ∧
      t'.history_.maxWindowSamples =
        force_between (forLoop k (fun i acc => max acc (t.entry_ i).windowSamples_) 0) 4
          t.history_.maxWindowSamples := by
  rw [setUsedWindows_eq] at h
  by_cases hk : 0 < k ∧ k ≤ t.entries_
  · rw [if_pos hk] at h
    cases h
    refine ⟨rfl, ?_⟩
    have hpos := force_between_pos
      (forLoop k (fun i acc => max acc (t.entry_ i).windowSamples_) 0)
      (by omega : 1 ≤ t.history_.historyEndPtr_ + 1)
    show force_between (forLoop k (fun i acc => max acc (t.entry_ i).windowSamples_) 0) 4
      (t.history_.historyEndPtr_ + 1) - 1 + 1 = force_between
        (forLoop k (fun i acc => max acc (t.entry_ i).windowSamples_) 0) 4
        (t.history_.historyEndPtr_ + 1)
    omega
  · rw [if_neg hk] at h
    cases h

/-- C11 fails on the code: on the set with two windows of the sizes 32 and 64,
`setUsedWindows(1)` shrinks the logical length to 32, and the successful
`setUsedWindows(2)` that follows leaves it at 32, while the largest size among
the first two windows is 64. -/
theorem setUsedWindows_does_not_grow_back :
    ∃ t0 t1 t2 : TrueFloatingPointWeightedMovingAverageSet ℝ,
      construct doubleMetrics Real.exp 0 (fun _ => 0) 64 640 2 0 = Except.ok t0 ∧
        t0.setUsedWindows 1 = Except.ok t1 ∧ t1.setUsedWindows 2 = Except.ok t2 ∧
        t2.getUsedWindows = 2 ∧ t2.getWindowSize 0 = Except.ok 32 ∧
        t2.getWindowSize 1 = Except.ok 64 ∧ t2.history_.maxWindowSamples = 32 := by
  obtain ⟨t0, hc0, he0, -, hE0, -, -, hw0, hw1, -, -⟩ := construct_two_windows
  have h1 := setUsedWindows_ok t0 (by norm_num : 0 < 1) (by omega)
  obtain ⟨t1, ht1⟩ : ∃ t1, t1 = reoptimised { t0 with usedWindows_ := 1 } := ⟨_, rfl⟩
  rw [← ht1] at h1
  obtain ⟨f1, -, -, -, -, -, -, f8, f9⟩ := reoptimised_fields { t0 with usedWindows_ := 1 }
  rw [← ht1] at f1 f8 f9
  have hm1 := maximumSamples_one { t0 with usedWindows_ := 1 } rfl
  rw [hm1] at f8
  have hE1 : t1.history_.historyEndPtr_ = 31 := by
    rw [f8]
    show force_between (max 0 (t0.entry_ 0).windowSamples_) 4 (t0.history_.historyEndPtr_ + 1) - 1 =
      31
    rw [hw0, hE0]
    decide
  have hw0' : (t1.entry_ 0).windowSamples_ = 32 := by
    rw [(f9 0).2.1]
    exact hw0
  have hw1' : (t1.entry_ 1).windowSamples_ = 64 := by
    rw [(f9 1).2.1]
    exact hw1
  have h2 := setUsedWindows_ok t1 (by norm_num : 0 < 2) (by rw [f1]; show 2 ≤ t0.entries_; omega)
  obtain ⟨t2, ht2⟩ : ∃ t2, t2 = reoptimised { t1 with usedWindows_ := 2 } := ⟨_, rfl⟩
  rw [← ht2] at h2
  obtain ⟨-, g2, -, -, -, -, -, g8, g9⟩ := reoptimised_fields { t1 with usedWindows_ := 2 }
  rw [← ht2] at g2 g8 g9
  have hm2 := maximumSamples_two { t1 with usedWindows_ := 2 } rfl
  rw [hm2] at g8
  have hE2 : t2.history_.historyEndPtr_ = 31 := by
    rw [g8]
    show force_between (max (max 0 (t1.entry_ 0).windowSamples_) (t1.entry_ 1).windowSamples_) 4
      (t1.history_.historyEndPtr_ + 1) - 1 = 31
    rw [hw0', hw1', hE1]
    decide
  have hu2 : t2.usedWindows_ = 2 := g2
  refine ⟨t0, t1, t2, hc0, h1, h2, hu2, ?_, ?_, ?_⟩
  · unfold getWindowSize checkWindowIndex getUsedWindows
    rw [hu2, if_pos (by norm_num)]
    show Except.ok (t2.entry_ 0).windowSamples_ = Except.ok 32
    rw [(g9 0).2.1]
    show Except.ok (t1.entry_ 0).windowSamples_ = Except.ok 32
    rw [hw0']
  · unfold getWindowSize checkWindowIndex getUsedWindows
    rw [hu2, if_pos (by norm_num)]
    show Except.ok (t2.entry_ 1).windowSamples_ = Except.ok 64
    rw [(g9 1).2.1]
    show Except.ok (t1.entry_ 1).windowSamples_ = Except.ok 64
    rw [hw1']
  · show t2.history_.historyEndPtr_ + 1 = 32
    rw [hE2]

end TrueFloatingPointWeightedMovingAverageSet

end SetUsedWindows

/-! ## The read cursor of a window that is activated again -/

section Reactivated

open BaseHistoryAndEmdForTrueFloatingPointMovingAverage

namespace TrueFloatingPointWeightedMovingAverageSet

/-- C12 fails on the code: `optimiseForMaximumSamples` sets the read cursors
anew only when the logical length has changed. On the set with two windows on
a history of 64 samples, give window 0 the size 64 (window 1 has it already),
deactivate window 1 with `setUsedWindows(1)`, add one input and activate window
1 again with `setUsedWindows(2)`: the logical length is 64 throughout, so the
read cursor of window 1 is still the 0 of the construction, while
`getRelative(windowSamples_1)` is `(63 + 64) mod 64 = 63`; the slot 0 that the
next `addInput` reads for window 1 holds the latest input, not the sample that
was written 64 writes before. -/
theorem setUsedWindows_leaves_stale_readPtr :
    ∃ t0 t1 t2 t3 : TrueFloatingPointWeightedMovingAverageSet ℝ,
      construct doubleMetrics Real.exp 0 (fun _ => 0) 64 640 2 0 = Except.ok t0 ∧
        setWindowSizeAndScale Real.exp t0 0 64 1 = Except.ok t1 ∧
        t1.setUsedWindows 1 = Except.ok t2 ∧
        (t2.addInput 5).setUsedWindows 2 = Except.ok t3 ∧
        t3.getUsedWindows = 2 ∧ (t3.entry_ 1).windowSamples = 64 ∧
        t3.history_.maxWindowSamples = 64 ∧ t3.history_.writePtr = 63 ∧
        (t3.entry_ 1).getReadPtr = 0 ∧
        t3.history_.getRelative (t3.entry_ 1).windowSamples = 63 ∧
        t3.history_.history_ (t3.entry_ 1).getReadPtr = 5 := by
  obtain ⟨t0, hc0, he0, hu0, hE0, hs0, hwp0, -, hw1, hr1, hb0⟩ := construct_two_windows
  -- window 0 gets the size 64
  obtain ⟨t1, h1⟩ : ∃ t1, setWindowSizeAndScale Real.exp t0 0 64 1 = Except.ok t1 :=
    ⟨_, (setWindowSizeAndScale_ok_iff Real.exp t0 _ 0 64 1).mpr
      ⟨by omega, by omega, hb0, by norm_num, by omega, rfl⟩⟩
  obtain ⟨w, -, ⟨-, w2, -⟩, ht1⟩ := setWindowSizeAndScale_ok_elim h1
  have hm1 := maximumSamples_two
    ({ t0 with entry_ := Function.update t0.entry_ 0 w } :
      TrueFloatingPointWeightedMovingAverageSet ℝ) hu0
  have hu1 := reoptimised_of_unchanged
    ({ t0 with entry_ := Function.update t0.entry_ 0 w } :
      TrueFloatingPointWeightedMovingAverageSet ℝ) (by
      rw [hm1]
      show force_between (max (max 0 (Function.update t0.entry_ 0 w 0).windowSamples_)
        (Function.update t0.entry_ 0 w 1).windowSamples_) 4 (t0.history_.historyEndPtr_ + 1) - 1 =
          t0.history_.historyEndPtr_
      rw [Function.update_same, Function.update_noteq (by norm_num), w2, hw1, hE0]
      decide)
  rw [hu1] at ht1
  have a1 : t1.entries_ = 2 := by rw [ht1]; exact he0
  have a2 : t1.history_.historyEndPtr_ = 63 := by rw [ht1]; exact hE0
  have a3 : t1.history_.writePtr_ = 0 := by rw [ht1]; exact hwp0
  have a4 : (t1.entry_ 0).windowSamples_ = 64 := by
    rw [ht1]
    show (Function.update t0.entry_ 0 w 0).windowSamples_ = 64
    rw [Function.update_same, w2]
  have a5 : t1.entry_ 1 = t0.entry_ 1 := by
    rw [ht1]
    show Function.update t0.entry_ 0 w 1 = t0.entry_ 1
    rw [Function.update_noteq (by norm_num)]
  -- window 1 is deactivated
  have h2 := setUsedWindows_ok t1 (by norm_num : 0 < 1) (by omega)
  have hu2 := reoptimised_of_unchanged
    ({ t1 with usedWindows_ := 1 } : TrueFloatingPointWeightedMovingAverageSet ℝ) (by
      rw [maximumSamples_one _ rfl]
      show force_between (max 0 (t1.entry_ 0).windowSamples_) 4 (t1.history_.historyEndPtr_ + 1) -
        1 = t1.history_.historyEndPtr_
      rw [a4, a2]
      decide)
  rw [hu2] at h2
  -- one input
  obtain ⟨t2, ht2⟩ : ∃ t2 : TrueFloatingPointWeightedMovingAverageSet ℝ,
      t2 = { t1 with usedWindows_ := 1 } := ⟨_, rfl⟩
  rw [← ht2] at h2
  have b0 : t2.usedWindows_ = 1 := by rw [ht2]
  have b1 : (t2.addInput 5).entries_ = 2 := by rw [ht2]; exact a1
  have b2 : (t2.addInput 5).history_.historyEndPtr_ = 63 := by rw [ht2]; exact a2
  have b3 : (t2.addInput 5).history_.writePtr_ = 63 := by
    show t2.history_.setNextPtr t2.history_.writePtr_ = 63
    rw [ht2]
    show t1.history_.setNextPtr t1.history_.writePtr_ = 63
    unfold setNextPtr
    rw [a3, a2]
    rfl
  have b4 : ((t2.addInput 5).entry_ 0).windowSamples_ = 64 := by
    rw [addInput_entry, if_pos (by omega), ht2]
    exact a4
  have b5 : (t2.addInput 5).entry_ 1 = t0.entry_ 1 := by
    rw [addInput_entry, if_neg (by omega), ht2]
    exact a5
  have b6 : (t2.addInput 5).history_.history_ 0 = 5 := by
    show Function.update t2.history_.history_ t2.history_.writePtr_ 5 0 = 5
    rw [ht2]
    show Function.update t1.history_.history_ t1.history_.writePtr_ 5 0 = 5
    rw [a3, Function.update_same]
  -- window 1 is activated again
  have h3 := setUsedWindows_ok (t2.addInput 5) (by norm_num : 0 < 2) (by omega)
  have hu3 := reoptimised_of_unchanged
    ({ t2.addInput 5 with usedWindows_ := 2 } : TrueFloatingPointWeightedMovingAverageSet ℝ) (by
      rw [maximumSamples_two _ rfl]
      show force_between (max (max 0 ((t2.addInput 5).entry_ 0).windowSamples_)
        ((t2.addInput 5).entry_ 1).windowSamples_) 4 ((t2.addInput 5).history_.historyEndPtr_ + 1) -
          1 = (t2.addInput 5).history_.historyEndPtr_
      rw [b4, b5, hw1, b2]
      decide)
  rw [hu3] at h3
  refine ⟨t0, t1, t2, _, hc0, h1, h2, h3, rfl, ?_, ?_, b3, ?_, ?_, ?_⟩
  · show ((t2.addInput 5).entry_ 1).windowSamples_ = 64
    rw [b5, hw1]
  · show (t2.addInput 5).history_.historyEndPtr_ + 1 = 64
    rw [b2]
  · show ((t2.addInput 5).entry_ 1).readPtr_ = 0
    rw [b5, hr1]
  · show ((t2.addInput 5).history_.writePtr_ + ((t2.addInput 5).entry_ 1).windowSamples_) %
      ((t2.addInput 5).history_.historyEndPtr_ + 1) = 63
    rw [b3, b5, hw1, b2]
  · show (t2.addInput 5).history_.history_ ((t2.addInput 5).entry_ 1).readPtr_ = 5
    rw [b5, hr1, b6]

end TrueFloatingPointWeightedMovingAverageSet

end Reactivated

/-! ## Construction, scale and binding -/

section ConstructionScaleBinding

variable {S : Type} [LinearOrderedField S]

open BaseHistoryAndEmdForTrueFloatingPointMovingAverage HelperForMovingAverageMetricsForInaccurateTypes

/-- What the validating constructor of the history enforces between the two
sizes: `historySamples < emdSamples`, whatever the ratio of the template is. -/
theorem construct_historySamples_lt (m : HelperForMovingAverageMetricsForInaccurateTypes)
    (exp : S → S) (memory : ℕ → S) (M E : ℕ)
    (h : BaseHistoryAndEmdForTrueFloatingPointMovingAverage S)
    (hc : HistoryAndEmdForTrueFloatingPointMovingAverage.construct m exp memory M E =
      Except.ok h) :
    h.historySize = M ∧ h.emdSamples = E ∧ h.historySize < h.emdSamples := by
  obtain ⟨-, -, hME, rfl⟩ := (construct_ok_iff m exp memory M E h).mp hc
  exact ⟨rfl, rfl, hME⟩

/-- C21 fails on the code: with the ratio 10 of the default template
arguments, the history with `historySamples = 128` and `emdSamples = 640` is
constructed, although `640 < 10 * 128`. -/
theorem construct_does_not_enforce_ratio :
    ∃ h : BaseHistoryAndEmdForTrueFloatingPointMovingAverage ℝ,
      HistoryAndEmdForTrueFloatingPointMovingAverage.construct doubleMetrics Real.exp
          (fun _ => 0) 128 640 = Except.ok h ∧
        h.historySize = 128 ∧ h.emdSamples = 640 ∧
        doubleMetrics.MIN_ERROR_DECAY_TO_WINDOW_RATIO = 10 ∧
        ¬ (h.emdSamples ≥ doubleMetrics.MIN_ERROR_DECAY_TO_WINDOW_RATIO * h.historySize) := by
  refine ⟨_, (construct_ok_iff doubleMetrics Real.exp (fun _ => (0 : ℝ)) 128 640 _).mpr
    ⟨by decide, by decide, by norm_num, rfl⟩, rfl, rfl, rfl, ?_⟩
  show ¬ (640 ≥ 10 * 128)
  norm_num

namespace ScaledWindowForTrueFloatingPointMovingAverage

/-- The scale that `setScale` stores. -/
theorem setScale_scale (w : ScaledWindowForTrueFloatingPointMovingAverage S) (s : S) :
    (w.setScale s).scale =
      if |s| < 1 / 10 ^ 12 then 0 else if s < -(10 ^ 12) then -(10 ^ 12) else s := by
  unfold setScale scale
  by_cases h1 : |s| < 1 / 10 ^ 12
  · rw [if_pos h1, if_pos h1]
  · rw [if_neg h1, if_neg h1]
    by_cases h2 : s > 10 ^ 12
    · have h3 : ¬ s < -(10 ^ 12) := by
        have : (0 : S) < 10 ^ 12 := by positivity
        intro h
        linarith
      rw [if_pos h2, if_neg h3]
    · rw [if_neg h2]
      by_cases h3 : s < -(10 ^ 12)
      · rw [if_pos h3, if_pos h3]
      · rw [if_neg h3, if_neg h3]

/-- C22 fails on the code: `setScale(2e12)` stores `2e12`, whose magnitude is
above `1e12`, while `setScale(-2e12)` stores the clamped `-1e12`. -/
theorem setScale_does_not_clamp_above :
    ((construct none : ScaledWindowForTrueFloatingPointMovingAverage ℝ).setScale
        (2 * 10 ^ 12)).scale = 2 * 10 ^ 12 ∧
      ¬ |((construct none : ScaledWindowForTrueFloatingPointMovingAverage ℝ).setScale
        (2 * 10 ^ 12)).scale| ≤ 10 ^ 12 ∧
      ((construct none : ScaledWindowForTrueFloatingPointMovingAverage ℝ).setScale
        (-(2 * 10 ^ 12))).scale = -(10 ^ 12) := by
  have h1 : ¬ |(2 * 10 ^ 12 : ℝ)| < 1 / 10 ^ 12 := by
    rw [abs_of_pos (by positivity)]
    norm_num
  have h2 : ¬ (2 * 10 ^ 12 : ℝ) < -(10 ^ 12) := by norm_num
  have h3 : ¬ |(-(2 * 10 ^ 12) : ℝ)| < 1 / 10 ^ 12 := by
    rw [abs_neg, abs_of_pos (by positivity)]
    norm_num
  have h4 : (-(2 * 10 ^ 12) : ℝ) < -(10 ^ 12) := by norm_num
  rw [setScale_scale, setScale_scale, if_neg h1, if_neg h2, if_neg h3, if_pos h4]
  refine ⟨rfl, ?_, rfl⟩
  rw [abs_of_pos (by positivity)]
  norm_num

/-- C23: the scale round trip. For every scaled window whose stored scale is not
zero and for every `y`, `setOutput(y)` followed by `getAverage()` returns `y` in
exact arithmetic, and `setOutput` changes nothing but the internal average. -/
theorem setOutput_round_trip (w : ScaledWindowForTrueFloatingPointMovingAverage S) (y : S)
    (hs : w.scale ≠ 0) :
    (w.setOutput y).getAverage = y ∧ (w.setOutput y).scale = w.scale ∧
      (w.setOutput y).history_ = w.history_ ∧
      (w.setOutput y).windowSamples_ = w.windowSamples_ ∧
      (w.setOutput y).inputFactor_ = w.inputFactor_ ∧
      (w.setOutput y).historyFactor_ = w.historyFactor_ ∧
      (w.setOutput y).readPtr_ = w.readPtr_ ∧
      (w.setOutput y).average_ = y / w.scale := by
  have hs' : w.scale_ ≠ 0 := hs
  refine ⟨?_, rfl, rfl, rfl, rfl, rfl, rfl, ?_⟩
  · show w.scale_ * (if w.scale_ ≠ 0 then y / w.scale_ else y) = y
    rw [if_pos hs', mul_div_cancel₀ y hs']
  · show (if w.scale_ ≠ 0 then y / w.scale_ else y) = y / w.scale_
    rw [if_pos hs']

theorem setOutput_round_trip_witness :
    (((construct none : ScaledWindowForTrueFloatingPointMovingAverage ℝ).setScale 4).setOutput
      3).getAverage = 3 :=
  (setOutput_round_trip _ 3 (by
    rw [setScale_scale]
    have h1 : ¬ |(4 : ℝ)| < 1 / 10 ^ 12 := by
      rw [abs_of_pos (by positivity)]
      norm_num
    have h2 : ¬ (4 : ℝ) < -(10 ^ 12) := by norm_num
    rw [if_neg h1, if_neg h2]
    norm_num)).1

end ScaledWindowForTrueFloatingPointMovingAverage

namespace WindowForTrueFloatingPointMovingAverage

/-- C27: binding. `setOwner(h)` on an unbound window binds it to `h` and changes
nothing else; `setOwner` on a window that is bound to a history throws
(`std::runtime_error`) before any assignment, so that the binding and all other
state of the window are as before. -/
theorem setOwner_contract (w : WindowForTrueFloatingPointMovingAverage S)
    (history : Option Addr) :
    w.setOwner history = dropAtThrow (w.setOwnerTraced history) ∧
      (w.history_ = none →
        w.setOwner history = Except.ok { w with history_ := history } ∧
        isOwnedBy ({ w with history_ := history } :
          WindowForTrueFloatingPointMovingAverage S) history = true) ∧
      (w.history_ ≠ none →
        w.setOwner history = Except.error Error.runtime_error ∧
        w.setOwnerTraced history = (w, Except.error Error.runtime_error)) := by
  refine ⟨?_, ?_, ?_⟩
  · unfold setOwner setOwnerTraced
    split <;> rfl
  · intro h
    refine ⟨?_, ?_⟩
    · unfold setOwner
      rw [if_pos h]
      rfl
    · simp [isOwnedBy]
  · intro h
    refine ⟨?_, ?_⟩
    · unfold setOwner
      rw [if_neg h]
      rfl
    · unfold setOwnerTraced
      rw [if_neg h]

end WindowForTrueFloatingPointMovingAverage

namespace TrueFloatingPointWeightedMovingAverageSet

theorem construct_sizes_increasing {M W : ℕ} (hM : 64 ≤ M) (hW : 1 ≤ W ∧ W ≤ 32) {i j : ℕ}
    (hij : i < j) : (i + 1) * M / W < (j + 1) * M / W := by
  have h1 : (i + 1) * M + W ≤ (j + 1) * M := by
    have : (i + 1) * M + M ≤ (j + 1) * M := by
      have h2 : i + 2 ≤ j + 1 := by omega
      calc (i + 1) * M + M = (i + 2) * M := by ring
        _ ≤ (j + 1) * M := Nat.mul_le_mul_right M h2
    omega
  have h3 : ((i + 1) * M + W) / W = (i + 1) * M / W + 1 := Nat.add_div_right _ (by omega)
  have h4 := Nat.div_le_div_right (c := W) h1
  omega

/-- C24: with sizes that the constructor of the history accepts (each in its
interval, and `historySamples < emdSamples`), the construction of a
multi-window set succeeds exactly when `1 ≤ maxWindows ≤ 32`, and otherwise
throws `std::invalid_argument`. On success `getMaxWindows()` and
`getUsedWindows()` are `maxWindows`, and every window `i` has the scale one and
the size `(i + 1) * maxWindowSamples / maxWindows`, which lies between one and
`maxWindowSamples`, is strictly increasing in `i`, and is `maxWindowSamples` for
the last window. -/
theorem construct_set_contract (m : HelperForMovingAverageMetricsForInaccurateTypes)
    (exp : S → S) (here : Addr) (memory : ℕ → S) (M E W : ℕ) (a : S)
    (vE : m.isValidErrorMitigatingDecaySamples E = true)
    (vM : m.isValidWindowSizeInSamples M = true) (hME : M < E) :
    ((∃ t, construct m exp here memory M E W a = Except.ok t) ↔ (1 ≤ W ∧ W ≤ 32)) ∧
      (¬ (1 ≤ W ∧ W ≤ 32) →
        construct m exp here memory M E W a = Except.error Error.invalid_argument) ∧
      ∀ t, construct m exp here memory M E W a = Except.ok t →
        t.getMaxWindows = W ∧ t.getUsedWindows = W ∧
        (∀ i, i < W → t.getWindowScale i = Except.ok 1 ∧
          t.getWindowSize i = Except.ok ((i + 1) * M / W) ∧
          1 ≤ (i + 1) * M / W ∧ (i + 1) * M / W ≤ M ∧
          ∀ j, i < j → j < W → (i + 1) * M / W < (j + 1) * M / W) ∧
        t.getWindowSize (W - 1) = Except.ok M := by
  have hM : 64 ≤ M := ((isValidWindowSizeInSamples_iff m M).mp vM).1
  refine ⟨⟨?_, ?_⟩, ?_, ?_⟩
  · rintro ⟨t, h⟩
    exact ((construct_ok_iff_set m exp here memory M E W a t).mp h).1
  · intro hW
    exact ⟨_, (construct_ok_iff_set m exp here memory M E W a _).mpr ⟨hW, vE, vM, hME, rfl⟩⟩
  · intro hW
    unfold construct validMaxTimeConstants
    have hb : ¬ is_between W MINIMUM_TIME_CONSTANTS MAXIMUM_TIME_CONSTANTS = true := by
      intro hb
      apply hW
      simpa [is_between, MINIMUM_TIME_CONSTANTS, MAXIMUM_TIME_CONSTANTS] using hb
    rw [if_neg hb]
    rfl
  · intro t h
    obtain ⟨hW, -, -, -, rfl⟩ := (construct_ok_iff_set m exp here memory M E W a t).mp h
    have hentry : ∀ i, i < W →
        ((if i < W then
          ScaledWindowForTrueFloatingPointMovingAverage.setScale
            { scale_ := 1
              toWindowForTrueFloatingPointMovingAverage :=
                { history_ := some here
                  windowSamples_ := (i + 1) * M / W
                  inputFactor_ := (1 - exp (-1 / (E : S))) /
                    (1 - exp (-1 * (((i + 1) * M / W : ℕ) : S) / (E : S)))
                  historyFactor_ := (1 - exp (-1 / (E : S))) /
                    (1 - exp (-1 * (((i + 1) * M / W : ℕ) : S) / (E : S))) *
                      exp (-1 * (((i + 1) * M / W : ℕ) : S) / (E : S))
                  readPtr_ := (0 + (i + 1) * M / W) % (M - 1 + 1)
                  average_ := 0 } } 1
          else ScaledWindowForTrueFloatingPointMovingAverage.construct none :
            ScaledWindowForTrueFloatingPointMovingAverage S)).scale_ = 1 ∧
        ((if i < W then
          ScaledWindowForTrueFloatingPointMovingAverage.setScale
            { scale_ := 1
              toWindowForTrueFloatingPointMovingAverage :=
                { history_ := some here
                  windowSamples_ := (i + 1) * M / W
                  inputFactor_ := (1 - exp (-1 / (E : S))) /
                    (1 - exp (-1 * (((i + 1) * M / W : ℕ) : S) / (E : S)))
                  historyFactor_ := (1 - exp (-1 / (E : S))) /
                    (1 - exp (-1 * (((i + 1) * M / W : ℕ) : S) / (E : S))) *
                      exp (-1 * (((i + 1) * M / W : ℕ) : S) / (E : S))
                  readPtr_ := (0 + (i + 1) * M / W) % (M - 1 + 1)
                  average_ := 0 } } 1
          else ScaledWindowForTrueFloatingPointMovingAverage.construct none :
            ScaledWindowForTrueFloatingPointMovingAverage S)).windowSamples_ =
          (i + 1) * M / W := by
      intro i hi
      rw [if_pos hi]
      refine ⟨ScaledWindowForTrueFloatingPointMovingAverage.setScale_one _, ?_⟩
      show (ScaledWindowForTrueFloatingPointMovingAverage.setScale _
        1).toWindowForTrueFloatingPointMovingAverage.windowSamples_ = _
      rw [ScaledWindowForTrueFloatingPointMovingAverage.setScale_toWindow]
    refine ⟨rfl, rfl, ?_, ?_⟩
    · intro i hi
      obtain ⟨s1, s2⟩ := construct_sizes hM hW i hi
      refine ⟨?_, ?_, s1, by omega, fun j hij _ => construct_sizes_increasing hM hW hij⟩
      · unfold getWindowScale checkWindowIndex getUsedWindows
        rw [if_pos hi]
        show Except.ok _ = Except.ok 1
        congr 1
        exact (hentry i hi).1
      · unfold getWindowSize checkWindowIndex getUsedWindows
        rw [if_pos hi]
        show Except.ok _ = Except.ok ((i + 1) * M / W)
        congr 1
        exact (hentry i hi).2
    · have hi : W - 1 < W := by omega
      unfold getWindowSize checkWindowIndex getUsedWindows
      rw [if_pos hi]
      show Except.ok _ = Except.ok M
      congr 1
      refine ((hentry (W - 1) hi).2).trans ?_
      have : W - 1 + 1 = W := by omega
      rw [this, Nat.mul_div_cancel_left M (by omega : 0 < W)]

theorem construct_set_contract_witness :
    ∃ t : TrueFloatingPointWeightedMovingAverageSet ℝ,
      construct doubleMetrics Real.exp 0 (fun _ => 0) 1024 10240 3 0 = Except.ok t ∧
        t.getUsedWindows = 3 ∧ t.getWindowSize 0 = Except.ok 341 ∧
        t.getWindowSize 1 = Except.ok 682 ∧ t.getWindowSize 2 = Except.ok 1024 := by
  have hc := construct_set_contract doubleMetrics Real.exp 0 (fun _ => (0 : ℝ)) 1024 10240 3 0
    (by decide) (by decide) (by norm_num)
  obtain ⟨t, ht⟩ := hc.1.mpr ⟨by norm_num, by norm_num⟩
  obtain ⟨-, h2, h3, -⟩ := hc.2.2 t ht
  exact ⟨t, ht, h2, (h3 0 (by norm_num)).2.1, (h3 1 (by norm_num)).2.1,
    (h3 2 (by norm_num)).2.1⟩

/-- C25: `setUsedWindows(k)` succeeds exactly when `1 ≤ k ≤ getMaxWindows()`,
and then `getUsedWindows()` is `k`; otherwise it throws `std::out_of_range`
before any assignment, so that `usedWindows` (and the whole set) is as
before. -/
theorem setUsedWindows_contract (t : TrueFloatingPointWeightedMovingAverageSet S) (k : ℕ) :
    ((∃ t', t.setUsedWindows k = Except.ok t') ↔ (1 ≤ k ∧ k ≤ t.getMaxWindows)) ∧
      (∀ t', t.setUsedWindows k = Except.ok t' → t'.getUsedWindows = k) ∧
      (¬ (1 ≤ k ∧ k ≤ t.getMaxWindows) →
        t.setUsedWindows k = Except.error Error.out_of_range ∧
        t.setUsedWindowsTraced k = (t, Except.error Error.out_of_range)) := by
  have heq := setUsedWindows_eq t k
  refine ⟨⟨?_, ?_⟩, ?_, ?_⟩
  · rintro ⟨t', h⟩
    rw [heq] at h
    by_cases hk : 0 < k ∧ k ≤ t.entries_
    · exact ⟨hk.1, hk.2⟩
    · rw [if_neg hk] at h
      cases h
  · intro hk
    have hk' : 0 < k ∧ k ≤ t.entries_ := ⟨hk.1, hk.2⟩
    exact ⟨_, by rw [heq, if_pos hk']⟩
  · intro t' h
    exact (setUsedWindows_length h).1
  · intro hk
    have hk' : ¬ (0 < k ∧ k ≤ t.entries_) := fun h => hk ⟨h.1, h.2⟩
    have h1 : t.setUsedWindows k = Except.error Error.out_of_range := by
      rw [heq, if_neg hk']
    refine ⟨h1, ?_⟩
    rw [setUsedWindows_eq_dropAtThrow, dropAtThrow_eq_error_iff] at h1
    exact setUsedWindowsTraced_error t k _ h1

/-- C26: `getAverage(i)`, `getWindowSize(i)` and `getWindowScale(i)` succeed
exactly when `i < getUsedWindows()`, and otherwise throw `std::out_of_range`;
on success `getAverage(i)` is `scale_i * average_i`, `getWindowSize(i)` the
size and `getWindowScale(i)` the scale of window `i`. The three methods are
`const`: they return a value and no new state. -/
theorem getters_contract (t : TrueFloatingPointWeightedMovingAverageSet S) (i : ℕ) :
    (i < t.getUsedWindows →
        t.getAverage i = Except.ok ((t.entry_ i).scale_ * (t.entry_ i).average_) ∧
        t.getWindowSize i = Except.ok (t.entry_ i).windowSamples_ ∧
        t.getWindowScale i = Except.ok (t.entry_ i).scale_) ∧
      (¬ i < t.getUsedWindows →
        t.getAverage i = Except.error Error.out_of_range ∧
        t.getWindowSize i = Except.error Error.out_of_range ∧
        t.getWindowScale i = Except.error Error.out_of_range) ∧
      ((∃ v, t.getAverage i = Except.ok v) ↔ i < t.getUsedWindows) ∧
      ((∃ n, t.getWindowSize i = Except.ok n) ↔ i < t.getUsedWindows) ∧
      ((∃ s, t.getWindowScale i = Except.ok s) ↔ i < t.getUsedWindows) := by
  unfold getAverage getWindowSize getWindowScale checkWindowIndex
  by_cases hi : i < t.getUsedWindows
  · simp only [if_pos hi]
    refine ⟨fun _ => ⟨rfl, rfl, rfl⟩, fun h => absurd hi h, ?_, ?_, ?_⟩ <;>
      exact ⟨fun _ => hi, fun _ => ⟨_, rfl⟩⟩
  · simp only [if_neg hi]
    refine ⟨fun h => absurd h hi, fun _ => ⟨rfl, rfl, rfl⟩, ?_, ?_, ?_⟩ <;>
      exact ⟨fun ⟨_, h⟩ => (by cases h), fun h => absurd h hi⟩

end TrueFloatingPointWeightedMovingAverageSet

end ConstructionScaleBinding

/-! ## Cursors and sizes stay inside the allocated buffer -/

section InBounds

variable {S : Type} [LinearOrderedField S]

open BaseHistoryAndEmdForTrueFloatingPointMovingAverage

namespace TrueFloatingPointWeightedMovingAverage

/-- In every state of the single-window engine the write cursor is below the
allocated size. -/
theorem Reachable.writePtr_lt {m : HelperForMovingAverageMetricsForInaccurateTypes}
    {exp : S → S} {e : TrueFloatingPointWeightedMovingAverage S} (hr : Reachable m exp e) :
    e.history.writePtr_ < e.history.historySamples_ := by
  induction hr with
  | construct here memory M E e h =>
    obtain ⟨-, vM, -, rfl⟩ := (construct_ok_iff_engine m exp here memory M E e).mp h
    have hM : 64 ≤ M :=
      ((HelperForMovingAverageMetricsForInaccurateTypes.isValidWindowSizeInSamples_iff m
        M).mp vM).1
    show 0 < M
    omega
  | setAverage e a _ ih => exact ih
  | setWindowSize e e' n _ h' ih =>
    obtain ⟨f1, -, f3, -⟩ := setWindowSize_fields h'
    rw [f1, f3]
    exact ih
  | addInput e x hr' ih =>
    have hcap := hr'.invariant.2.2.2.2.1
    show e.history.setNextPtr e.history.writePtr_ < e.history.historySamples_
    unfold setNextPtr
    split <;> omega

/-- C28: `addInput` has no error path. In every state of a single-window engine
and of a multi-window set, the write cursor and the read cursor of every window
are below the allocated size `historySamples`; these are the indices at which
`addInput` and `addInputGetMax` read and write the buffer, so that every access
is in bounds. -/
theorem cursors_below_capacity {m : HelperForMovingAverageMetricsForInaccurateTypes}
    {exp : S → S} {e : TrueFloatingPointWeightedMovingAverage S}
    {t : TrueFloatingPointWeightedMovingAverageSet S} (he : Reachable m exp e)
    (ht : TrueFloatingPointWeightedMovingAverageSet.Reachable m exp t) (x floor : S) :
    (e.getWritePtr < e.history.historySize ∧ e.getReadPtr < e.history.historySize ∧
        (e.addInput x).window.average_ = e.history.emdFactor * e.window.average_ +
          e.window.inputFactor_ * x - e.window.historyFactor_ * e.history.history_ e.getReadPtr ∧
        (e.addInput x).history.history_ =
          Function.update e.history.history_ e.getWritePtr x) ∧
      (t.history_.writePtr < t.history_.historySize ∧
        (∀ i, i < t.getMaxWindows → (t.entry_ i).getReadPtr < t.history_.historySize) ∧
        (∀ i, i < t.getUsedWindows →
          ((t.addInput x).entry_ i).average_ = t.history_.emdFactor * (t.entry_ i).average_ +
            (t.entry_ i).inputFactor_ * x -
              (t.entry_ i).historyFactor_ * t.history_.history_ (t.entry_ i).getReadPtr) ∧
        (t.addInput x).history_.history_ =
          Function.update t.history_.history_ t.history_.writePtr x ∧
        (t.addInputGetMax x floor).1 = t.addInput x) := by
  have hi := he.invariant
  have hrp := hi.readPtr_le
  obtain ⟨-, -, -, h4, h5, h6⟩ := ht.set_invariant
  refine ⟨⟨he.writePtr_lt, ?_, rfl, rfl⟩, h5, fun i hi' => (h6 i hi').2.2.2, ?_, rfl,
    TrueFloatingPointWeightedMovingAverageSet.addInputGetMax_state t x floor⟩
  · have hcap := hi.2.2.2.2.1
    show e.window.readPtr_ < e.history.historySamples_
    omega
  · intro i hi'
    have hi'' : i < t.usedWindows_ := hi'
    rw [TrueFloatingPointWeightedMovingAverageSet.addInput_entry, if_pos hi'']
    rfl

theorem cursors_below_capacity_witness :
    ∃ (e0 : TrueFloatingPointWeightedMovingAverage ℝ)
      (t0 : TrueFloatingPointWeightedMovingAverageSet ℝ),
      construct doubleMetrics Real.exp 0 (fun _ => 0) 1024 10240 = Except.ok e0 ∧
        TrueFloatingPointWeightedMovingAverageSet.construct doubleMetrics Real.exp 0
          (fun _ => 0) 64 640 2 0 = Except.ok t0 ∧
        (e0.addInput 7).getWritePtr < (e0.addInput 7).history.historySize ∧
        (t0.addInput 7).history_.writePtr < (t0.addInput 7).history_.historySize := by
  obtain ⟨e0, -, h0, -⟩ := engine_exists doubleMetrics Real.exp 0 (fun _ => (0 : ℝ))
    1024 10240 256 (by decide) (by decide) (by norm_num) (by norm_num) (by norm_num)
  obtain ⟨t0, hc0, -⟩ := TrueFloatingPointWeightedMovingAverageSet.construct_two_windows
  have h := cursors_below_capacity
    (Reachable.addInput e0 7 (Reachable.construct 0 _ 1024 10240 e0 h0))
    (TrueFloatingPointWeightedMovingAverageSet.Reachable.addInput t0 7
      (TrueFloatingPointWeightedMovingAverageSet.Reachable.construct 0 _ 64 640 2 0 t0 hc0))
    (1 : ℝ) 0
  exact ⟨e0, t0, h0, hc0, h.1.1, h.2.1⟩

/-- C29: in every state of a single-window engine and of a multi-window set, the
history capacity `historySamples` that was fixed at the construction is at least
the `windowSamples` of every window: of the window of the engine, and of every
window of the array of the set, active or not. -/
theorem capacity_covers_every_window {m : HelperForMovingAverageMetricsForInaccurateTypes}
    {exp : S → S} {e : TrueFloatingPointWeightedMovingAverage S}
    {t : TrueFloatingPointWeightedMovingAverageSet S} (he : Reachable m exp e)
    (ht : TrueFloatingPointWeightedMovingAverageSet.Reachable m exp t) :
    e.window.windowSamples ≤ e.history.historySize ∧
      (∀ i, i < t.getMaxWindows → (t.entry_ i).windowSamples ≤ t.getMaxWindowSamples) ∧
      (∀ L, (∀ i, i < t.getUsedWindows → (t.entry_ i).windowSamples ≤ L) →
        t.maximumSamples ≤ L) ∧
      t.maximumSamples ≤ t.getMaxWindowSamples := by
  have hi := he.invariant
  obtain ⟨-, h2, -, -, -, h6⟩ := ht.set_invariant
  have hmax := (foldl_max_nat (fun i => (t.entry_ i).windowSamples) t.usedWindows_).2
  refine ⟨?_, fun i hi' => (h6 i hi').2.2.1, hmax, ?_⟩
  · have h1 := hi.2.1
    have h2 := hi.2.2.2.2.1
    show e.window.windowSamples_ ≤ e.history.historySamples_
    omega
  · exact hmax _ (fun i hi' => (h6 i (lt_of_lt_of_le hi' h2)).2.2.1)

theorem capacity_covers_every_window_witness :
    ∃ (e0 e1 : TrueFloatingPointWeightedMovingAverage ℝ)
      (t0 : TrueFloatingPointWeightedMovingAverageSet ℝ),
      construct doubleMetrics Real.exp 0 (fun _ => 0) 1024 10240 = Except.ok e0 ∧
        setWindowSize Real.exp e0 256 = Except.ok e1 ∧
        TrueFloatingPointWeightedMovingAverageSet.construct doubleMetrics Real.exp 0
          (fun _ => 0) 64 640 2 0 = Except.ok t0 ∧
        e1.window.windowSamples ≤ e1.history.historySize ∧
        ((t0.addInput 7).entry_ 1).windowSamples ≤ (t0.addInput 7).getMaxWindowSamples := by
  obtain ⟨e0, e1, h0, h1⟩ := engine_exists doubleMetrics Real.exp 0 (fun _ => (0 : ℝ))
    1024 10240 256 (by decide) (by decide) (by norm_num) (by norm_num) (by norm_num)
  obtain ⟨t0, hc0, he0, -⟩ := TrueFloatingPointWeightedMovingAverageSet.construct_two_windows
  have h := capacity_covers_every_window
    (Reachable.setWindowSize e0 e1 256 (Reachable.construct 0 _ 1024 10240 e0 h0) h1)
    (TrueFloatingPointWeightedMovingAverageSet.Reachable.addInput t0 7
      (TrueFloatingPointWeightedMovingAverageSet.Reachable.construct 0 _ 64 640 2 0 t0 hc0))
  exact ⟨e0, e1, t0, h0, h1, hc0, h.1, h.2.1 1 (by
    show 1 < t0.entries_
    omega)⟩

end TrueFloatingPointWeightedMovingAverage

end InBounds

/-! ## The logical length over sequences of operations, and the seeded states -/

section Sequences

variable {S : Type} [LinearOrderedField S]

open BaseHistoryAndEmdForTrueFloatingPointMovingAverage

namespace BaseHistoryAndEmdForTrueFloatingPointMovingAverage

/-- One operation on a history with at least four live slots does not make the
logical length larger, and leaves at least four live slots. -/
theorem Step.maxWindowSamples_le {h h' : BaseHistoryAndEmdForTrueFloatingPointMovingAverage S}
    (hs : Step h h') (h4 : 4 ≤ h.maxWindowSamples) :
    h'.maxWindowSamples ≤ h.maxWindowSamples ∧ 4 ≤ h'.maxWindowSamples := by
  have h4' : 4 ≤ h.historyEndPtr_ + 1 := h4
  rcases hs with ⟨v, rfl⟩ | ⟨a, rfl⟩ | ⟨i, v, hset⟩ | ⟨n, rfl⟩
  · exact ⟨le_rfl, h4⟩
  · exact ⟨le_rfl, h4⟩
  · unfold set IndexPolicy.NotGreater.method at hset
    by_cases hi : i ≤ h.historyEndPtr_
    · rw [if_pos hi] at hset
      cases hset
      exact ⟨le_rfl, h4⟩
    · rw [if_neg hi] at hset
      cases hset
  · rw [(optimiseForMaximumWindowSamples_eq h n).1]
    have b1 := TrueFloatingPointWeightedMovingAverage.force_between_le (n := n) h4'
    have b2 := TrueFloatingPointWeightedMovingAverage.four_le_force_between n h4'
    constructor
    · show force_between n 4 (h.historyEndPtr_ + 1) - 1 + 1 ≤ h.historyEndPtr_ + 1
      omega
    · show 4 ≤ force_between n 4 (h.historyEndPtr_ + 1) - 1 + 1
      omega

theorem maxWindowSamples_le_of_steps {h h' : BaseHistoryAndEmdForTrueFloatingPointMovingAverage S}
    (hs : Relation.ReflTransGen Step h h') (h4 : 4 ≤ h.maxWindowSamples) :
    h'.maxWindowSamples ≤ h.maxWindowSamples ∧ 4 ≤ h'.maxWindowSamples := by
  induction hs with
  | refl => exact ⟨le_rfl, h4⟩
  | tail _ hstep ih =>
    obtain ⟨h1, h2⟩ := hstep.maxWindowSamples_le ih.2
    exact ⟨le_trans h1 ih.1, h2⟩

end BaseHistoryAndEmdForTrueFloatingPointMovingAverage

namespace TrueFloatingPointWeightedMovingAverage

theorem Step.reachable {m : HelperForMovingAverageMetricsForInaccurateTypes} {exp : S → S}
    {e e' : TrueFloatingPointWeightedMovingAverage S} (hs : Step exp e e')
    (hr : Reachable m exp e) :
    Reachable m exp e' ∧ e'.history.maxWindowSamples ≤ e.history.maxWindowSamples := by
  rcases hs with ⟨a, rfl⟩ | ⟨n, hn⟩ | ⟨x, rfl⟩
  · exact ⟨Reachable.setAverage e a hr, le_rfl⟩
  · cases hout : (setWindowSizeTraced exp e n).2 with
    | error err =>
      rw [setWindowSizeTraced_error exp e n err hout] at hn
      rw [hn]
      exact ⟨hr, le_rfl⟩
    | ok u =>
    have hn : setWindowSize exp e n = Except.ok e' := by
      rw [setWindowSize_eq_dropAtThrow, dropAtThrow_eq_ok_iff, hn, ← hout]
    refine ⟨Reachable.setWindowSize e e' n hr hn, ?_⟩
    obtain ⟨-, f2, -⟩ := setWindowSize_fields hn
    have h4 := hr.invariant.2.2.2.1
    have b1 := force_between_le (n := n) h4
    have b2 := four_le_force_between n h4
    show e'.history.historyEndPtr_ + 1 ≤ e.history.historyEndPtr_ + 1
    rw [f2]
    omega
  · exact ⟨Reachable.addInput e x hr, le_rfl⟩

theorem maxWindowSamples_le_of_steps_engine
    {m : HelperForMovingAverageMetricsForInaccurateTypes} {exp : S → S}
    {e e' : TrueFloatingPointWeightedMovingAverage S}
    (hs : Relation.ReflTransGen (Step exp) e e') (hr : Reachable m exp e) :
    Reachable m exp e' ∧ e'.history.maxWindowSamples ≤ e.history.maxWindowSamples := by
  induction hs with
  | refl => exact ⟨hr, le_rfl⟩
  | tail _ hstep ih =>
    obtain ⟨h1, h2⟩ := hstep.reachable ih.1
    exact ⟨h1, le_trans h2 ih.2⟩

end TrueFloatingPointWeightedMovingAverage

namespace TrueFloatingPointWeightedMovingAverageSet

theorem reoptimised_maxWindowSamples_le {t : TrueFloatingPointWeightedMovingAverageSet S}
    (h4 : 4 ≤ t.history_.historyEndPtr_ + 1) :
    t.reoptimised.history_.maxWindowSamples ≤ t.history_.maxWindowSamples := by
  have b1 := TrueFloatingPointWeightedMovingAverage.force_between_le (n := t.maximumSamples) h4
  have b2 := TrueFloatingPointWeightedMovingAverage.four_le_force_between t.maximumSamples h4
  show force_between t.maximumSamples 4 (t.history_.historyEndPtr_ + 1) - 1 + 1 ≤
    t.history_.historyEndPtr_ + 1
  omega

theorem Step.reachable_set {m : HelperForMovingAverageMetricsForInaccurateTypes} {exp : S → S}
    {t t' : TrueFloatingPointWeightedMovingAverageSet S} (hs : Step exp t t')
    (hr : Reachable m exp t) :
    Reachable m exp t' ∧ t'.history_.maxWindowSamples ≤ t.history_.maxWindowSamples := by
  have h4 := hr.set_invariant.2.2.1
  rcases hs with ⟨k, hk⟩ | ⟨i, n, s, hn⟩ | ⟨a, rfl⟩ | ⟨x, rfl⟩ | ⟨x, floor, rfl⟩
  · cases hout : (t.setUsedWindowsTraced k).2 with
    | error err =>
      rw [setUsedWindowsTraced_error t k err hout] at hk
      rw [hk]
      exact ⟨hr, le_rfl⟩
    | ok u =>
    have hk : t.setUsedWindows k = Except.ok t' := by
      rw [setUsedWindows_eq_dropAtThrow, dropAtThrow_eq_ok_iff, hk, ← hout]
    refine ⟨Reachable.setUsedWindows t t' k hr hk, ?_⟩
    rw [setUsedWindows_eq] at hk
    by_cases hk' : 0 < k ∧ k ≤ t.entries_
    · rw [if_pos hk'] at hk
      cases hk
      exact reoptimised_maxWindowSamples_le (t := { t with usedWindows_ := k }) h4
    · rw [if_neg hk'] at hk
      cases hk
  · cases hout : (setWindowSizeAndScaleTraced exp t i n s).2 with
    | error err =>
      rw [setWindowSizeAndScaleTraced_error exp t i n s err hout] at hn
      rw [hn]
      exact ⟨hr, le_rfl⟩
    | ok u =>
    have hn : setWindowSizeAndScale exp t i n s = Except.ok t' := by
      rw [setWindowSizeAndScale_eq_dropAtThrow, dropAtThrow_eq_ok_iff, hn, ← hout]
    refine ⟨Reachable.setWindowSizeAndScale t t' i n s hr hn, ?_⟩
    obtain ⟨w, -, -, rfl⟩ := setWindowSizeAndScale_ok_elim hn
    exact reoptimised_maxWindowSamples_le
      (t := { t with entry_ := Function.update t.entry_ i w }) h4
  · refine ⟨Reachable.setAverages t a hr, ?_⟩
    rw [(setAverages_state t a).2.2.2]
    exact le_rfl
  · exact ⟨Reachable.addInput t x hr, le_rfl⟩
  · refine ⟨Reachable.addInputGetMax t x floor hr, ?_⟩
    rw [addInputGetMax_state]
    exact le_rfl

theorem maxWindowSamples_le_of_steps_set
    {m : HelperForMovingAverageMetricsForInaccurateTypes} {exp : S → S}
    {t t' : TrueFloatingPointWeightedMovingAverageSet S}
    (hs : Relation.ReflTransGen (Step exp) t t') (hr : Reachable m exp t) :
    Reachable m exp t' ∧ t'.history_.maxWindowSamples ≤ t.history_.maxWindowSamples := by
  induction hs with
  | refl => exact ⟨hr, le_rfl⟩
  | tail _ hstep ih =>
    obtain ⟨h1, h2⟩ := hstep.reachable_set ih.1
    exact ⟨h1, le_trans h2 ih.2⟩

end TrueFloatingPointWeightedMovingAverageSet

namespace TrueFloatingPointWeightedMovingAverage

/-- C38: the logical history length never increases. Over every sequence of
operations (calls that return and calls that throw) on a history (built by its
validating constructor, or with at least four live slots), on a single-window
engine and on a multi-window set, `history.maxWindowSamples()` does not become
larger. So, after a successful
`setWindowSize(n₁)` on a single-window engine, every later `setWindowSize(n)`
with `n > max(n₁, 4)` is rejected (it throws and leaves the engine as it is),
also when `n` is at most the `maxWindowSize` of the construction. -/
theorem logical_length_never_increases (m : HelperForMovingAverageMetricsForInaccurateTypes)
    (exp : S → S) :
    (∀ (memory : ℕ → S) (M E : ℕ) (h0 : BaseHistoryAndEmdForTrueFloatingPointMovingAverage S),
        HistoryAndEmdForTrueFloatingPointMovingAverage.construct m exp memory M E =
          Except.ok h0 → 4 ≤ h0.maxWindowSamples) ∧
      (∀ h h' : BaseHistoryAndEmdForTrueFloatingPointMovingAverage S,
        4 ≤ h.maxWindowSamples →
        Relation.ReflTransGen BaseHistoryAndEmdForTrueFloatingPointMovingAverage.Step h h' →
        h'.maxWindowSamples ≤ h.maxWindowSamples ∧ 4 ≤ h'.maxWindowSamples) ∧
      (∀ e e' : TrueFloatingPointWeightedMovingAverage S, Reachable m exp e →
        Relation.ReflTransGen (Step exp) e e' →
        e'.history.maxWindowSamples ≤ e.history.maxWindowSamples) ∧
      (∀ t t' : TrueFloatingPointWeightedMovingAverageSet S,
        TrueFloatingPointWeightedMovingAverageSet.Reachable m exp t →
        Relation.ReflTransGen (TrueFloatingPointWeightedMovingAverageSet.Step exp) t t' →
        t'.history_.maxWindowSamples ≤ t.history_.maxWindowSamples) ∧
      (∀ (e e1 e2 : TrueFloatingPointWeightedMovingAverage S) (n₁ n : ℕ), Reachable m exp e →
        setWindowSize exp e n₁ = Except.ok e1 → Relation.ReflTransGen (Step exp) e1 e2 →
        max n₁ 4 < n →
        e1.history.maxWindowSamples = max n₁ 4 ∧
        setWindowSize exp e2 n = Except.error Error.runtime_error ∧
        setWindowSizeTraced exp e2 n = (e2, Except.error Error.runtime_error)) := by
  refine ⟨?_, ?_, ?_, ?_, ?_⟩
  · intro memory M E h0 hc
    obtain ⟨-, vM, -, rfl⟩ := (construct_ok_iff m exp memory M E h0).mp hc
    have hM : 64 ≤ M :=
      ((HelperForMovingAverageMetricsForInaccurateTypes.isValidWindowSizeInSamples_iff m
        M).mp vM).1
    show 4 ≤ M - 1 + 1
    omega
  · intro h h' h4 hs
    exact maxWindowSamples_le_of_steps hs h4
  · intro e e' hr hs
    exact (maxWindowSamples_le_of_steps_engine hs hr).2
  · intro t t' hr hs
    exact (TrueFloatingPointWeightedMovingAverageSet.maxWindowSamples_le_of_steps_set hs hr).2
  · intro e e1 e2 n₁ n hr h1 hs hn
    obtain ⟨-, hn1, hn2, -⟩ := (setWindowSize_ok_iff exp e e1 n₁).mp h1
    obtain ⟨-, f2, -⟩ := setWindowSize_fields h1
    have h4 := hr.invariant.2.2.2.1
    have hL1 : e1.history.maxWindowSamples = max n₁ 4 := by
      show e1.history.historyEndPtr_ + 1 = max n₁ 4
      rw [f2]
      unfold force_between
      split_ifs <;> omega
    have hle := (maxWindowSamples_le_of_steps_engine hs
      (Reachable.setWindowSize e e1 n₁ hr h1)).2
    have hrej := setWindowSizeTraced_rejected exp e2 n (fun h => by
      have h3 : n ≤ e2.history.maxWindowSamples := h.2.2
      omega)
    refine ⟨hL1, ?_, hrej⟩
    rw [setWindowSize_eq_dropAtThrow, hrej]
    rfl

theorem logical_length_never_increases_witness :
    ∃ e0 e1 : TrueFloatingPointWeightedMovingAverage ℝ,
      construct doubleMetrics Real.exp 0 (fun _ => 0) 1024 10240 = Except.ok e0 ∧
        setWindowSize Real.exp e0 256 = Except.ok e1 ∧
        setWindowSize Real.exp ((e1.addInput 7).setAverage 0) 512 =
          Except.error Error.runtime_error := by
  obtain ⟨e0, e1, h0, h1⟩ := engine_exists doubleMetrics Real.exp 0 (fun _ => (0 : ℝ))
    1024 10240 256 (by decide) (by decide) (by norm_num) (by norm_num) (by norm_num)
  have hs : Relation.ReflTransGen (Step Real.exp) e1 ((e1.addInput 7).setAverage 0) :=
    Relation.ReflTransGen.tail
      (Relation.ReflTransGen.single (Or.inr (Or.inr ⟨7, rfl⟩))) (Or.inl ⟨0, rfl⟩)
  exact ⟨e0, e1, h0, h1,
    ((logical_length_never_increases doubleMetrics Real.exp).2.2.2.2 e0 e1 _ 256 512
      (Reachable.construct 0 _ 1024 10240 e0 h0) h1 hs (by norm_num)).2.1⟩

/-- C37 fails on the code: on the engine built with `maxWindowSize = 64`, one
input moves the write cursor to 63, and the successful `setWindowSize(4)` that
follows shrinks the live ring to the slots 0..3 and leaves the write cursor at
63, outside the ring. -/
theorem writePtr_outside_ring_after_shrink :
    ∃ e0 e1 : TrueFloatingPointWeightedMovingAverage ℝ,
      construct doubleMetrics Real.exp 0 (fun _ => 0) 64 640 = Except.ok e0 ∧
        setWindowSize Real.exp (e0.addInput 9) 4 = Except.ok e1 ∧
        e1.getWritePtr = 63 ∧ e1.history.historyEndPtr_ = 3 ∧
        ¬ e1.getWritePtr ≤ e1.history.historyEndPtr_ := by
  obtain ⟨e0, -, h0, -⟩ := engine_exists doubleMetrics Real.exp 0 (fun _ => (0 : ℝ)) 64 640 64
    (by decide) (by decide) (by norm_num) (by norm_num) (by norm_num)
  obtain ⟨-, c2, c3, -, -, c6, -⟩ := construct_fields h0
  have a1 : (e0.addInput 9).history.historyEndPtr_ = 63 := c2
  have a2 : (e0.addInput 9).history.writePtr_ = 63 := by
    show e0.history.setNextPtr e0.history.writePtr_ = 63
    rw [c3, setNextPtr, if_neg (by decide), c2]
  obtain ⟨e1, h1⟩ := setWindowSize_succeeds Real.exp (e0.addInput 9)
    (by
      show e0.window.history_ ≠ none
      rw [c6]
      simp) (by norm_num : 1 ≤ 4) (by rw [a1]; norm_num)
  obtain ⟨-, d2, d3, -⟩ := setWindowSize_fields h1
  rw [a1] at d2
  rw [a2] at d3
  have hfb : force_between 4 4 (63 + 1) - 1 = 3 := by decide
  rw [hfb] at d2
  have hw : e1.getWritePtr = 63 := d3
  refine ⟨e0, e1, h0, h1, hw, d2, ?_⟩
  rw [hw, d2]
  norm_num

/-- C40: in exact arithmetic, for a single-window engine whose window size `n` is
set directly after the construction and which is then seeded with
`setAverage(0)`, once at least `n` inputs were given the average is a convex
combination of the latest `n` inputs: the weights `inputFactor * emdFactor ^ j`
are positive and add up to one. So the average lies between every lower and
every upper bound of the latest `n` inputs, in particular between their
minimum and their maximum. -/
theorem average_is_convex_combination {m : HelperForMovingAverageMetricsForInaccurateTypes}
    {exp : S → S} (hexp : ExactExp exp) {here : Addr} {memory : ℕ → S} {M E n : ℕ}
    {e0 e1 : TrueFloatingPointWeightedMovingAverage S}
    (h0 : construct m exp here memory M E = Except.ok e0)
    (h1 : setWindowSize exp e0 n = Except.ok e1) (x : ℕ → S) (k : ℕ) (hk : n ≤ k) :
    ((e1.setAverage 0).addInputs x k).getAverage =
        ∑ j in Finset.range n,
          (e1.window.inputFactor_ * e1.history.emdFactor_ ^ j) * x (k - 1 - j) ∧
      (∀ j, 0 < e1.window.inputFactor_ * e1.history.emdFactor_ ^ j) ∧
      ∑ j in Finset.range n, e1.window.inputFactor_ * e1.history.emdFactor_ ^ j = 1 ∧
      (∀ lo hi : S, (∀ j, j < n → lo ≤ x (k - 1 - j) ∧ x (k - 1 - j) ≤ hi) →
        lo ≤ ((e1.setAverage 0).addInputs x k).getAverage ∧
          ((e1.setAverage 0).addInputs x k).getAverage ≤ hi) ∧
      (∀ hne : (Finset.range n).Nonempty,
        (Finset.range n).inf' hne (fun j => x (k - 1 - j)) ≤
            ((e1.setAverage 0).addInputs x k).getAverage ∧
          ((e1.setAverage 0).addInputs x k).getAverage ≤
            (Finset.range n).sup' hne (fun j => x (k - 1 - j))) := by
  obtain ⟨hs, hn, -, -⟩ := inStep_of_configured h0 h1
  have hc := hs.1
  have hcpos := hc.inputFactor_pos hexp
  have hqpos := hc.emdFactor_pos hexp
  have hsum := hc.weights_sum hexp
  rw [hn] at hsum
  have havg : ((e1.setAverage 0).addInputs x k).getAverage =
      e1.window.inputFactor_ *
        ∑ j in Finset.range n, e1.history.emdFactor_ ^ j * x (k - 1 - j) := by
    rw [seeded_engine_average hexp h0 h1, decayingAverage_zero, min_eq_right hk]
  have hbound : ∀ lo hi : S, (∀ j, j < n → lo ≤ x (k - 1 - j) ∧ x (k - 1 - j) ≤ hi) →
      lo ≤ ((e1.setAverage 0).addInputs x k).getAverage ∧
        ((e1.setAverage 0).addInputs x k).getAverage ≤ hi := by
    intro lo hi hb
    have hlo : lo = e1.window.inputFactor_ *
        ∑ j in Finset.range n, e1.history.emdFactor_ ^ j * lo := by
      rw [← Finset.sum_mul, ← mul_assoc, hsum, one_mul]
    have hhi : hi = e1.window.inputFactor_ *
        ∑ j in Finset.range n, e1.history.emdFactor_ ^ j * hi := by
      rw [← Finset.sum_mul, ← mul_assoc, hsum, one_mul]
    rw [havg]
    constructor
    · rw [hlo]
      apply mul_le_mul_of_nonneg_left _ hcpos.le
      apply Finset.sum_le_sum
      intro j hj
      exact mul_le_mul_of_nonneg_left (hb j (Finset.mem_range.mp hj)).1 (pow_pos hqpos j).le
    · rw [hhi]
      apply mul_le_mul_of_nonneg_left _ hcpos.le
      apply Finset.sum_le_sum
      intro j hj
      exact mul_le_mul_of_nonneg_left (hb j (Finset.mem_range.mp hj)).2 (pow_pos hqpos j).le
  refine ⟨?_, fun j => mul_pos hcpos (pow_pos hqpos j), ?_, hbound, ?_⟩
  · rw [havg, Finset.mul_sum]
    apply Finset.sum_congr rfl
    intro j _
    rw [mul_assoc]
  · rw [← Finset.mul_sum]
    exact hsum
  · intro hne
    exact hbound _ _ (fun j hj =>
      ⟨Finset.inf'_le (fun j => x (k - 1 - j)) (Finset.mem_range.mpr hj),
        Finset.le_sup' (fun j => x (k - 1 - j)) (Finset.mem_range.mpr hj)⟩)

theorem average_is_convex_combination_witness :
    ∃ e0 e1 : TrueFloatingPointWeightedMovingAverage ℝ,
      construct doubleMetrics Real.exp 0 (fun _ => 0) 1024 10240 = Except.ok e0 ∧
        setWindowSize Real.exp e0 256 = Except.ok e1 ∧
        (0 : ℝ) ≤ ((e1.setAverage 0).addInputs (fun i => (i : ℝ)) 300).getAverage ∧
        ((e1.setAverage 0).addInputs (fun i => (i : ℝ)) 300).getAverage ≤ 299 := by
  obtain ⟨e0, e1, h0, h1⟩ := engine_exists doubleMetrics Real.exp 0 (fun _ => (0 : ℝ))
    1024 10240 256 (by decide) (by decide) (by norm_num) (by norm_num) (by norm_num)
  have h := (average_is_convex_combination realExp_exact h0 h1 (fun i => (i : ℝ)) 300
    (by norm_num)).2.2.2.1 0 299 (fun j _ => by
      constructor
      · exact Nat.cast_nonneg _
      · have : 300 - 1 - j ≤ 299 := by omega
        exact_mod_cast this)
  exact ⟨e0, e1, h0, h1, h.1, h.2⟩

end TrueFloatingPointWeightedMovingAverage

namespace TrueFloatingPointWeightedMovingAverageSet

/-- C36 fails on the code: the set constructed with the initial average 5 holds
5 in every slot of its history, but the constructor gives its windows the
average 0, so that `getAverage(i)` is 0 and not 5. -/
theorem construct_does_not_seed_windows :
    ∃ t : TrueFloatingPointWeightedMovingAverageSet ℝ,
      construct doubleMetrics Real.exp 0 (fun _ => 0) 64 640 2 5 = Except.ok t ∧
        (∀ i, i ≤ t.history_.historyEndPtr_ → t.history_.history_ i = 5) ∧
        t.getAverage 0 = Except.ok 0 ∧ t.getAverage 1 = Except.ok 0 := by
  refine ⟨_, (construct_ok_iff_set doubleMetrics Real.exp 0 (fun _ => 0) 64 640 2 5 _).mpr
    ⟨⟨by norm_num, by norm_num⟩, by decide, by decide, by norm_num, rfl⟩, ?_, ?_, ?_⟩
  · intro i hi
    have hi' : i ≤ 64 - 1 := hi
    show ((BaseHistoryAndEmdForTrueFloatingPointMovingAverage.construct Real.exp (fun _ => 0) 64
      640).fillWithAverage 5).history_ i = 5
    rw [fillWithAverage_history]
    exact if_pos hi'
  · unfold getAverage checkWindowIndex getUsedWindows
    rw [if_pos (by show 0 < 2; norm_num)]
    show Except.ok (ScaledWindowForTrueFloatingPointMovingAverage.getAverage
      (if 0 < 2 then ScaledWindowForTrueFloatingPointMovingAverage.setScale _ 1 else _)) =
        Except.ok 0
    rw [if_pos (by norm_num)]
    unfold ScaledWindowForTrueFloatingPointMovingAverage.getAverage
    rw [ScaledWindowForTrueFloatingPointMovingAverage.setScale_toWindow]
    show Except.ok (_ * (0 : ℝ)) = Except.ok 0
    rw [mul_zero]
  · unfold getAverage checkWindowIndex getUsedWindows
    rw [if_pos (by show 1 < 2; norm_num)]
    show Except.ok (ScaledWindowForTrueFloatingPointMovingAverage.getAverage
      (if 1 < 2 then ScaledWindowForTrueFloatingPointMovingAverage.setScale _ 1 else _)) =
        Except.ok 0
    rw [if_pos (by norm_num)]
    unfold ScaledWindowForTrueFloatingPointMovingAverage.getAverage
    rw [ScaledWindowForTrueFloatingPointMovingAverage.setScale_toWindow]
    show Except.ok (_ * (0 : ℝ)) = Except.ok 0
    rw [mul_zero]

/-- C39 fails on the code: on the set with two windows of the sizes 32 and 64,
`setUsedWindows(1)` shrinks the logical length to 32, and `setAverages(5)` then
throws `std::out_of_range`: its second loop calls the checked `set` for every
index below the allocated size 64. -/
theorem setAverages_throws_after_shrink :
    ∃ t0 t1 : TrueFloatingPointWeightedMovingAverageSet ℝ,
      construct doubleMetrics Real.exp 0 (fun _ => 0) 64 640 2 0 = Except.ok t0 ∧
        t0.setUsedWindows 1 = Except.ok t1 ∧ t1.history_.maxWindowSamples = 32 ∧
        t1.getMaxWindowSamples = 64 ∧
        (t1.setAverages 5).2 = Except.error Error.out_of_range := by
  obtain ⟨t0, hc0, he0, -, hE0, hs0, -, hw0, -, -, -⟩ := construct_two_windows
  have h1 := setUsedWindows_ok t0 (by norm_num : 0 < 1) (by omega)
  obtain ⟨t1, ht1⟩ : ∃ t1, t1 = reoptimised { t0 with usedWindows_ := 1 } := ⟨_, rfl⟩
  rw [← ht1] at h1
  obtain ⟨-, -, f3, -, -, -, -, f8, -⟩ := reoptimised_fields { t0 with usedWindows_ := 1 }
  rw [← ht1] at f3 f8
  rw [maximumSamples_one { t0 with usedWindows_ := 1 } rfl] at f8
  have hE1 : t1.history_.historyEndPtr_ = 31 := by
    rw [f8]
    show force_between (max 0 (t0.entry_ 0).windowSamples_) 4 (t0.history_.historyEndPtr_ + 1) - 1 =
      31
    rw [hw0, hE0]
    decide
  have hs1 : t1.history_.historySamples_ = 64 := by
    rw [f3]
    exact hs0
  refine ⟨t0, t1, hc0, h1, ?_, hs1, ?_⟩
  · show t1.history_.historyEndPtr_ + 1 = 32
    rw [hE1]
  · rw [setAverages_outcome, hs1, hE1, if_neg (by norm_num)]

end TrueFloatingPointWeightedMovingAverageSet

end Sequences

/-! ## Inputs after a shrink that left the write cursor above the live ring -/

section AboveRing

variable {S : Type} [LinearOrderedField S]

open BaseHistoryAndEmdForTrueFloatingPointMovingAverage

namespace TrueFloatingPointWeightedMovingAverage

/-- A run of `k` inputs in a state whose write cursor is at least `k` slots
above the live ring, and whose live ring holds zero: the inputs are written
above the ring, every read gives zero, and nothing is subtracted from the
average. -/
theorem addInputs_above_ring (e : TrueFloatingPointWeightedMovingAverage S) (x : ℕ → S) (k : ℕ)
    (hring : ∀ i, i ≤ e.history.historyEndPtr_ → e.history.history_ i = 0)
    (hread : e.window.readPtr_ ≤ e.history.historyEndPtr_)
    (hw : e.history.historyEndPtr_ + k ≤ e.history.writePtr_) :
    (e.addInputs x k).history.historyEndPtr_ = e.history.historyEndPtr_ ∧
      (e.addInputs x k).history.writePtr_ = e.history.writePtr_ - k ∧
      (∀ i, i ≤ e.history.historyEndPtr_ → (e.addInputs x k).history.history_ i = 0) ∧
      (e.addInputs x k).window.readPtr_ ≤ e.history.historyEndPtr_ ∧
      (e.addInputs x k).history.emdFactor_ = e.history.emdFactor_ ∧
      (e.addInputs x k).window.inputFactor_ = e.window.inputFactor_ ∧
      (e.addInputs x k).getAverage = e.history.emdFactor_ ^ k * e.window.average_ +
        e.window.inputFactor_ *
          ∑ j in Finset.range k, e.history.emdFactor_ ^ j * x (k - 1 - j) := by
  induction k with
  | zero =>
    refine ⟨rfl, rfl, hring, hread, rfl, rfl, ?_⟩
    show e.window.average_ = _
    simp
  | succ k ih =>
    obtain ⟨i1, i2, i3, i4, i5, i6, i7⟩ := ih (by omega)
    obtain ⟨s1, s2, -, s4, s5⟩ := addInput_above_ring (e.addInputs x k) (x k)
      (by rw [i1, i2]; omega)
    have hstep : e.addInputs x (k + 1) = (e.addInputs x k).addInput (x k) := rfl
    rw [hstep]
    refine ⟨s1.trans i1, ?_, ?_, ?_, i5, i6, ?_⟩
    · rw [s2, i2]
      omega
    · intro i hi
      rw [s4 i (by rw [i1]; exact hi)]
      exact i3 i hi
    · rw [s5, ← i1]
      exact setNextPtr_le _ (by rw [i1]; exact i4)
    · have hread0 : (e.addInputs x k).history.history_ (e.addInputs x k).window.readPtr_ = 0 :=
        i3 _ i4
      have havg : ((e.addInputs x k).addInput (x k)).getAverage =
          (e.addInputs x k).history.emdFactor_ * (e.addInputs x k).getAverage +
            (e.addInputs x k).window.inputFactor_ * x k -
            (e.addInputs x k).window.historyFactor_ *
              (e.addInputs x k).history.history_ (e.addInputs x k).window.readPtr_ := rfl
      rw [havg, hread0, i5, i6, i7, Finset.sum_range_succ', mul_zero, sub_zero]
      have hsum : ∑ j in Finset.range k, e.history.emdFactor_ ^ (j + 1) * x (k + 1 - 1 - (j + 1)) =
          e.history.emdFactor_ *
            ∑ j in Finset.range k, e.history.emdFactor_ ^ j * x (k - 1 - j) := by
        rw [Finset.mul_sum]
        refine Finset.sum_congr rfl fun j _ => ?_
        rw [show k + 1 - 1 - (j + 1) = k - 1 - j from by omega, pow_succ]
        ring
      rw [hsum]
      simp only [pow_zero, Nat.add_sub_cancel, Nat.sub_zero, one_mul]
      ring

/-- The engine built with `maxWindowSize = 64` and `emdSamples = 640`, given
one input `u` and then resized with `setWindowSize(4)`, which is accepted: the
live ring is `0..3`, the write cursor is `63` and the read cursor is `3`. -/
theorem shrunk_engine (exp : S → S) (here : Addr) (memory : ℕ → S) (u : S) :
    ∃ e0 e1 : TrueFloatingPointWeightedMovingAverage S,
      construct doubleMetrics exp here memory 64 640 = Except.ok e0 ∧
        setWindowSize exp (e0.addInput u) 4 = Except.ok e1 ∧
        Reachable doubleMetrics exp e1 ∧
        e1.history.historyEndPtr_ = 3 ∧ e1.history.writePtr_ = 63 ∧ e1.window.readPtr_ = 3 ∧
        e1.window.windowSamples_ = 4 ∧ e1.history.emdSamples_ = 640 := by
  obtain ⟨e0, -, h0, -⟩ := engine_exists doubleMetrics exp here memory 64 640 64
    (by decide) (by decide) (by norm_num) (by norm_num) (by norm_num)
  obtain ⟨-, c2, c3, c4, -, c6, -⟩ := construct_fields h0
  have a1 : (e0.addInput u).history.historyEndPtr_ = 63 := c2
  have a2 : (e0.addInput u).history.writePtr_ = 63 := by
    show e0.history.setNextPtr e0.history.writePtr_ = 63
    rw [c3, setNextPtr, if_neg (by decide), c2]
  obtain ⟨e1, h1⟩ := setWindowSize_succeeds exp (e0.addInput u)
    (by
      show e0.window.history_ ≠ none
      rw [c6]
      simp) (by norm_num : 1 ≤ 4) (by rw [a1]; norm_num)
  obtain ⟨-, d2, d3, -, d5, d6, -⟩ := setWindowSize_fields h1
  rw [a1] at d2 d6
  rw [a2] at d3 d6
  have hfb : force_between 4 4 (63 + 1) - 1 = 3 := by decide
  rw [hfb] at d2 d6
  have d6' : (63 + 4) % (3 + 1) = 3 := by decide
  rw [d6'] at d6
  have hE : e1.history.emdSamples_ = 640 := by
    obtain ⟨-, -, -, rfl⟩ := (setWindowSize_ok_iff exp _ e1 4).mp h1
    exact c4
  exact ⟨e0, e1, h0, h1,
    Reachable.setWindowSize _ _ 4
      (Reachable.addInput _ u (Reachable.construct here memory 64 640 e0 h0)) h1,
    d2, d3, d6, d5, hE⟩

/-- The average of the shrunk engine, seeded with `setAverage(0)`, after
`k ≤ 60` inputs: the weighted sum of all `k` inputs, not only of the latest
four. -/
theorem shrunk_engine_average {e1 : TrueFloatingPointWeightedMovingAverage S}
    (hE : e1.history.historyEndPtr_ = 3) (hW : e1.history.writePtr_ = 63)
    (hR : e1.window.readPtr_ = 3) (x : ℕ → S) (k : ℕ) (hk : k ≤ 60) :
    ((e1.setAverage 0).addInputs x k).getAverage =
      e1.window.inputFactor_ *
        ∑ j in Finset.range k, e1.history.emdFactor_ ^ j * x (k - 1 - j) := by
  have hE' : (e1.setAverage 0).history.historyEndPtr_ = 3 := hE
  have hW' : (e1.setAverage 0).history.writePtr_ = 63 := hW
  have hR' : (e1.setAverage 0).window.readPtr_ = 3 := hR
  have h := (addInputs_above_ring (e1.setAverage 0) x k
    (fun i hi => by
      rw [hE'] at hi
      show (e1.history.fillWithAverage 0).history_ i = 0
      rw [fillWithAverage_history, hE, if_pos hi])
    (by rw [hR', hE'])
    (by rw [hE', hW']; omega)).2.2.2.2.2.2
  rw [h]
  show e1.history.emdFactor_ ^ k * 0 + _ = _
  rw [mul_zero, zero_add]
  rfl

/-- Bounds for the coefficients of a configured window of four samples with
`emdSamples = 640`. -/
theorem four_sample_coefficients {exp : S → S} (hexp : ExactExp exp)
    {h : BaseHistoryAndEmdForTrueFloatingPointMovingAverage S}
    {w : WindowForTrueFloatingPointMovingAverage S} (hc : Configured exp h w)
    (hn : w.windowSamples_ = 4) (hE : h.emdSamples_ = 640) :
    1 / 4 ≤ w.inputFactor_ ∧ 0 < h.emdFactor_ ∧ h.emdFactor_ < 1 ∧
      ∀ k : ℕ, 1 - (k : S) / 640 ≤ h.emdFactor_ ^ k := by
  have hq0 := hc.emdFactor_pos hexp
  have hq1 := hc.emdFactor_lt_one hexp
  have hw0 := hc.inputFactor_pos hexp
  have hsum := hc.weights_sum hexp
  rw [hn] at hsum
  refine ⟨?_, hq0, hq1, ?_⟩
  · have hup : ∑ j in Finset.range 4, h.emdFactor_ ^ j ≤ 4 := by
      have := Finset.sum_le_sum (s := Finset.range 4) (f := fun j => h.emdFactor_ ^ j)
        (g := fun _ => (1 : S)) (fun j _ => pow_le_one₀ hq0.le hq1.le)
      simpa using this
    have := mul_le_mul_of_nonneg_left hup hw0.le
    rw [hsum] at this
    linarith
  · intro k
    have hd := hexp.decay_eq_pow k 640
    have hone := hexp.one_add_le (-1 * (k : S) / ((640 : ℕ) : S))
    rw [hd] at hone
    have hq : h.emdFactor_ = exp (-1 / ((640 : ℕ) : S)) := by
      rw [hc.2.2.1, hE]
    rw [hq]
    have hcast : ((640 : ℕ) : S) = 640 := by norm_num
    rw [hcast] at hone ⊢
    have : 1 + -1 * (k : S) / 640 = 1 - (k : S) / 640 := by ring
    rw [this] at hone
    exact hone

/-- C3 fails on the code: on the engine built with `maxWindowSize = 64` and
`emdSamples = 640`, given one input and resized with `setWindowSize(4)`, then
seeded with `setAverage(0)` and fed the constant `1`, the average is exactly
`1` after four inputs (`windowSamples`), but it does not stay `1`: after the
fifth input it is `1 + historyFactor`, more than `6 / 5`, because the read
cursor reads the slot `3` of the live ring while the inputs were written to the
slots `63..60`. -/
theorem constant_input_after_shrink_leaves_c :
    ∃ e0 e1 : TrueFloatingPointWeightedMovingAverage ℝ,
      construct doubleMetrics Real.exp 0 (fun _ => 0) 64 640 = Except.ok e0 ∧
        setWindowSize Real.exp (e0.addInput 9) 4 = Except.ok e1 ∧
        e1.window.windowSamples_ = 4 ∧
        ((e1.setAverage 0).addInputs (fun _ => 1) 4).getAverage = 1 ∧
        ((e1.setAverage 0).addInputs (fun _ => 1) 5).getAverage = 1 + e1.window.historyFactor_ ∧
        6 / 5 < ((e1.setAverage 0).addInputs (fun _ => 1) 5).getAverage := by
  obtain ⟨e0, e1, h0, h1, hr, hE, hW, hR, hn, hemd⟩ :=
    shrunk_engine Real.exp 0 (fun _ => (0 : ℝ)) 9
  have hc := hr.invariant.1
  obtain ⟨b1, b2, b3, b4⟩ := four_sample_coefficients realExp_exact hc hn hemd
  have hsum := hc.weights_sum realExp_exact
  rw [hn] at hsum
  have hhf := hc.historyFactor_eq realExp_exact
  rw [hn] at hhf
  have h4 : ((e1.setAverage 0).addInputs (fun _ => 1) 4).getAverage = 1 := by
    rw [shrunk_engine_average hE hW hR _ 4 (by norm_num)]
    simp only [mul_one]
    exact hsum
  have h5 : ((e1.setAverage 0).addInputs (fun _ => 1) 5).getAverage =
      1 + e1.window.historyFactor_ := by
    rw [shrunk_engine_average hE hW hR _ 5 (by norm_num)]
    simp only [mul_one]
    rw [Finset.sum_range_succ, mul_add, hsum, hhf]
  refine ⟨e0, e1, h0, h1, hn, h4, h5, ?_⟩
  rw [h5, hhf]
  have hq4 := b4 4
  have hq4' : (159 : ℝ) / 160 ≤ e1.history.emdFactor_ ^ 4 := by
    have : (1 : ℝ) - ((4 : ℕ) : ℝ) / 640 = 159 / 160 := by norm_num
    rw [this] at hq4
    exact hq4
  have hprod : (1 / 4 : ℝ) * (159 / 160) ≤ e1.window.inputFactor_ * e1.history.emdFactor_ ^ 4 :=
    mul_le_mul b1 hq4' (by norm_num) (le_trans (by norm_num) b1)
  linarith

/-- C4 fails on the code: on the engine built with `maxWindowSize = 64` and
`emdSamples = 640`, given the input `1` and resized with `setWindowSize(4)`,
then seeded with `setAverage(0)` and fed inputs `1` (every input has the
magnitude one), the rectangular average of the latest four inputs is `1`, but
the average grows with every one of the first 60 inputs, and after 60 inputs it
is more than `12` above the rectangular average. -/
theorem deviation_after_shrink_grows :
    ∃ e0 e1 : TrueFloatingPointWeightedMovingAverage ℝ,
      construct doubleMetrics Real.exp 0 (fun _ => 0) 64 640 = Except.ok e0 ∧
        setWindowSize Real.exp (e0.addInput 1) 4 = Except.ok e1 ∧
        e1.window.windowSamples_ = 4 ∧
        (∑ j in Finset.range e1.window.windowSamples_, (fun _ : ℕ => (1 : ℝ)) (60 - 1 - j)) /
          (e1.window.windowSamples_ : ℝ) = 1 ∧
        (∀ k, k < 60 → ((e1.setAverage 0).addInputs (fun _ => 1) k).getAverage <
          ((e1.setAverage 0).addInputs (fun _ => 1) (k + 1)).getAverage) ∧
        12 < ((e1.setAverage 0).addInputs (fun _ => 1) 60).getAverage -
          (∑ j in Finset.range e1.window.windowSamples_, (fun _ : ℕ => (1 : ℝ)) (60 - 1 - j)) /
            (e1.window.windowSamples_ : ℝ) := by
  obtain ⟨e0, e1, h0, h1, hr, hE, hW, hR, hn, hemd⟩ :=
    shrunk_engine Real.exp 0 (fun _ => (0 : ℝ)) 1
  have hc := hr.invariant.1
  obtain ⟨b1, b2, b3, b4⟩ := four_sample_coefficients realExp_exact hc hn hemd
  have hw0 := hc.inputFactor_pos realExp_exact
  have hrect : (∑ j in Finset.range e1.window.windowSamples_,
      (fun _ : ℕ => (1 : ℝ)) (60 - 1 - j)) / (e1.window.windowSamples_ : ℝ) = 1 := by
    rw [hn]
    norm_num
  refine ⟨e0, e1, h0, h1, hn, hrect, ?_, ?_⟩
  · intro k hk
    rw [shrunk_engine_average hE hW hR _ k (by omega),
      shrunk_engine_average hE hW hR _ (k + 1) (by omega)]
    simp only [mul_one]
    rw [Finset.sum_range_succ, mul_add]
    have := mul_pos hw0 (pow_pos b2 k)
    linarith
  · rw [hrect, shrunk_engine_average hE hW hR _ 60 (by norm_num)]
    simp only [mul_one]
    have hq60 := b4 60
    have hq60' : (29 : ℝ) / 32 ≤ e1.history.emdFactor_ ^ 60 := by
      have : (1 : ℝ) - ((60 : ℕ) : ℝ) / 640 = 29 / 32 := by norm_num
      rw [this] at hq60
      exact hq60
    have hlo : (60 : ℝ) * e1.history.emdFactor_ ^ 60 ≤
        ∑ j in Finset.range 60, e1.history.emdFactor_ ^ j := by
      have := Finset.sum_le_sum (s := Finset.range 60)
        (f := fun _ => e1.history.emdFactor_ ^ 60) (g := fun j => e1.history.emdFactor_ ^ j)
        (fun j hj => pow_le_pow_of_le_one b2.le b3.le (Finset.mem_range.mp hj).le)
      simpa using this
    have hsum60 : (60 : ℝ) * (29 / 32) ≤ ∑ j in Finset.range 60, e1.history.emdFactor_ ^ j :=
      le_trans (mul_le_mul_of_nonneg_left hq60' (by norm_num)) hlo
    have hprod : (1 / 4 : ℝ) * (60 * (29 / 32)) ≤
        e1.window.inputFactor_ * ∑ j in Finset.range 60, e1.history.emdFactor_ ^ j :=
      mul_le_mul b1 hsum60 (by norm_num) (le_trans (by norm_num) b1)
    linarith

end TrueFloatingPointWeightedMovingAverage

end AboveRing

end average

/-! ## The next power of two -/

section NextPowerOfTwo

/-- One step of the bit fill: if `f` has a bit exactly where `x` has one among
the next `w` positions, then `f | (f >> w)` has a bit exactly where `x` has one
among the next `2 * w` positions. -/
theorem testBit_fill_step (f x w : ℕ)
    (h : ∀ i, f.testBit i = true ↔ ∃ j, i ≤ j ∧ j < i + w ∧ x.testBit j = true) (i : ℕ) :
    (f ||| (f >>> w)).testBit i = true ↔ ∃ j, i ≤ j ∧ j < i + w * 2 ∧ x.testBit j = true := by
  rw [Nat.testBit_or, Nat.testBit_shiftRight, Bool.or_eq_true, h, h]
  constructor
  · rintro (⟨j, h1, h2, h3⟩ | ⟨j, h1, h2, h3⟩)
    · exact ⟨j, h1, by omega, h3⟩
    · exact ⟨j, by omega, by omega, h3⟩
  · rintro ⟨j, h1, h2, h3⟩
    by_cases hj : j < i + w
    · exact Or.inl ⟨j, h1, hj, h3⟩
    · exact Or.inr ⟨j, by omega, by omega, h3⟩

namespace Power2

theorem fillN_two_pow (k x : ℕ) (i : ℕ) :
    (constant.fillN (2 ^ k) x).testBit i = true ↔
      ∃ j, i ≤ j ∧ j < i + 2 ^ k ∧ x.testBit j = true := by
  induction k generalizing i with
  | zero =>
    rw [constant.fillN, if_pos (by norm_num)]
    constructor
    · intro h
      exact ⟨i, le_rfl, by norm_num, h⟩
    · rintro ⟨j, h1, h2, h3⟩
      have : j = i := by
        rw [pow_zero] at h2
        omega
      rw [← this]
      exact h3
  | succ k ih =>
    have h2 : ¬ 2 ^ (k + 1) < 2 := by
      have : 1 ≤ 2 ^ k := Nat.one_le_two_pow
      rw [pow_succ]
      omega
    have hd : 2 ^ (k + 1) / 2 = 2 ^ k := by
      rw [pow_succ, Nat.mul_div_cancel _ (by norm_num)]
    rw [constant.fillN, if_neg h2, hd, testBit_fill_step _ x (2 ^ k) ih i, pow_succ]

theorem fillFrom_two_pow (K d k f x : ℕ) (hk : k + d = K)
    (h : ∀ i, f.testBit i = true ↔ ∃ j, i ≤ j ∧ j < i + 2 ^ k ∧ x.testBit j = true) (i : ℕ) :
    (fillFrom (2 ^ K) (2 ^ k) f).testBit i = true ↔
      ∃ j, i ≤ j ∧ j < i + 2 ^ K ∧ x.testBit j = true := by
  induction d generalizing k f with
  | zero =>
    have hkK : k = K := by omega
    subst hkK
    rw [fillFrom, if_neg (by omega)]
    exact h i
  | succ d ih =>
    have hlt : 2 ^ k < 2 ^ K := Nat.pow_lt_pow_right (by norm_num) (by omega)
    have hpos : 0 < 2 ^ k := Nat.two_pow_pos k
    rw [fillFrom, if_pos ⟨hlt, hpos⟩, ← pow_succ]
    exact ih (k + 1) _ (by omega) (fun i' => by
      rw [testBit_fill_step _ x (2 ^ k) h i', pow_succ])

/-- The bits of `constant::fill(x)`: a bit is set exactly where `x` has a bit at
one of the next 64 positions. -/
theorem constant_fill_testBit (x i : ℕ) :
    (constant.fill x).testBit i = true ↔ ∃ j, i ≤ j ∧ j < i + 2 ^ 6 ∧ x.testBit j = true :=
  fillN_two_pow 6 x i

/-- The bits of the branchless `fill(x)`. -/
theorem fill_testBit (x i : ℕ) :
    (fill x).testBit i = true ↔ ∃ j, i ≤ j ∧ j < i + 2 ^ 6 ∧ x.testBit j = true := by
  have h := fillFrom_two_pow 6 6 0 x x (by norm_num) (fun i' => by
    constructor
    · intro h
      exact ⟨i', le_rfl, by norm_num, h⟩
    · rintro ⟨j, h1, h2, h3⟩
      have : j = i' := by
        rw [pow_zero] at h2
        omega
      rw [← this]
      exact h3) i
  exact h

/-- The two variants of `fill` agree. -/
theorem fill_eq_constant_fill (x : ℕ) : fill x = constant.fill x := by
  apply Nat.eq_of_testBit_eq
  intro i
  have h1 := fill_testBit x i
  have h2 := constant_fill_testBit x i
  rw [Bool.eq_iff_iff]
  exact h1.trans h2.symm

/-- A value below `2 ^ 64` has a bit at or above the position `i` exactly when
`i` is below `⌈log₂ (x + 1)⌉`, the number of its binary digits. -/
theorem exists_testBit_iff_lt_clog (x i : ℕ) :
    (∃ j, i ≤ j ∧ x.testBit j = true) ↔ i < Nat.clog 2 (x + 1) := by
  have hc : ∀ y, x + 1 ≤ 2 ^ y ↔ Nat.clog 2 (x + 1) ≤ y :=
    fun y => Nat.le_pow_iff_clog_le (by norm_num)
  constructor
  · rintro ⟨j, h1, h2⟩
    have hge := Nat.testBit_implies_ge h2
    by_contra hlt
    have h3 := (hc i).mpr (by omega)
    have h4 : 2 ^ i ≤ 2 ^ j := Nat.pow_le_pow_right (by norm_num) h1
    omega
  · intro hlt
    have h3 : ¬ x + 1 ≤ 2 ^ i := fun h => by
      have := (hc i).mp h
      omega
    obtain ⟨j, h4, h5⟩ := Nat.ge_two_pow_implies_high_bit_true (by omega : x ≥ 2 ^ i)
    exact ⟨j, h4, h5⟩

/-- On a value below `2 ^ 64`, `fill` sets every bit below the highest bit of
the value. -/
theorem fill_eq (x : ℕ) (hx : x < 2 ^ 64) : fill x = 2 ^ Nat.clog 2 (x + 1) - 1 := by
  apply Nat.eq_of_testBit_eq
  intro i
  rw [Nat.testBit_two_pow_sub_one]
  have h1 := fill_testBit x i
  have h2 := exists_testBit_iff_lt_clog x i
  have h3 : (∃ j, i ≤ j ∧ j < i + 2 ^ 6 ∧ x.testBit j = true) ↔
      ∃ j, i ≤ j ∧ x.testBit j = true := by
    constructor
    · rintro ⟨j, a, -, c⟩
      exact ⟨j, a, c⟩
    · rintro ⟨j, a, c⟩
      refine ⟨j, a, ?_, c⟩
      have hge := Nat.testBit_implies_ge c
      have hj : j < 64 := by
        by_contra hj
        have : 2 ^ 64 ≤ 2 ^ j := Nat.pow_le_pow_right (by norm_num) (by omega)
        omega
      omega
  rw [h3, h2] at h1
  cases hf : (fill x).testBit i
  · rw [hf] at h1
    simp only [Bool.false_eq_true, false_iff, not_lt] at h1
    symm
    simpa using h1
  · rw [hf] at h1
    symm
    simpa using h1

/-- The value of `next` in closed form. -/
theorem next_eq (v : ℕ) (hv : v < 2 ^ 64) :
    next v = if v = 0 ∨ 2 ^ 63 < v then 0 else 2 ^ Nat.clog 2 v := by
  have hc : ∀ x y, x ≤ 2 ^ y ↔ Nat.clog 2 x ≤ y :=
    fun x y => Nat.le_pow_iff_clog_le (by norm_num)
  unfold next
  by_cases h0 : v = 0
  · subst h0
    rw [if_pos (Or.inl rfl), fill_eq _ (by norm_num)]
    have h64 : Nat.clog 2 ((0 + 2 ^ 64 - 1) % 2 ^ 64 + 1) = 64 := by
      have e : (0 + 2 ^ 64 - 1) % 2 ^ 64 + 1 = 2 ^ 64 := by norm_num
      rw [e]
      exact Nat.clog_pow 2 64 (by norm_num)
    rw [h64]
    norm_num
  · have hx : (v + 2 ^ 64 - 1) % 2 ^ 64 = v - 1 := by
      have e : v + 2 ^ 64 - 1 = v - 1 + 2 ^ 64 := by omega
      rw [e, Nat.add_mod_right, Nat.mod_eq_of_lt (by omega)]
    rw [hx, fill_eq _ (by omega)]
    have e1 : v - 1 + 1 = v := by omega
    rw [e1]
    have hpos : 1 ≤ 2 ^ Nat.clog 2 v := Nat.one_le_two_pow
    have e2 : 2 ^ Nat.clog 2 v - 1 + 1 = 2 ^ Nat.clog 2 v := by omega
    rw [e2]
    by_cases hbig : 2 ^ 63 < v
    · rw [if_pos (Or.inr hbig)]
      have h64 : Nat.clog 2 v = 64 := by
        apply le_antisymm
        · exact (hc v 64).mp (by omega)
        · by_contra hlt
          have := (hc v 63).mpr (by omega)
          omega
      rw [h64, Nat.mod_self]
    · rw [if_neg (fun h => h.elim h0 hbig)]
      have h63 : Nat.clog 2 v ≤ 63 := (hc v 63).mp (by omega)
      have hle : 2 ^ Nat.clog 2 v ≤ 2 ^ 63 := Nat.pow_le_pow_right (by norm_num) h63
      exact Nat.mod_eq_of_lt (lt_of_le_of_lt hle (by norm_num))

theorem next_constant_eq (v : ℕ) : constant.next v = next v := by
  unfold constant.next next
  rw [fill_eq_constant_fill]

end Power2

end NextPowerOfTwo

/-! ## The reference of the test and the two variants of `next` -/

section NextReference

theorem Count.max_one : Count.max 1 = 2 ^ 64 - 1 := by
  unfold Count.max SIZE_MAX
  rw [Nat.div_one]

/-- The loop of the reference, entered with `test = 2 ^ k` where every smaller
power of two is below `size`: it ends, with the smallest power of two that is
at least `size`, or with zero when that power is `2 ^ 64`. -/
theorem nextPowerOfTwoReference.loop_eq (v : ℕ) (hv1 : 1 ≤ v) (hv : v < 2 ^ 64) (j : ℕ) :
    ∀ k prev fuel, k + j = 63 → prev < 2 ^ k → j + 2 ≤ fuel → (k = 0 ∨ 2 ^ (k - 1) < v) →
      nextPowerOfTwoReference.loop (2 ^ 64 - 1) v fuel prev (2 ^ k) =
        some (if 2 ^ 63 < v then 0 else 2 ^ Nat.clog 2 v) := by
  have hc : ∀ x y, x ≤ 2 ^ y ↔ Nat.clog 2 x ≤ y :=
    fun x y => Nat.le_pow_iff_clog_le (by norm_num)
  induction j with
  | zero =>
    intro k prev fuel hk hprev hfuel hbelow
    have hk63 : k = 63 := by omega
    subst hk63
    obtain ⟨f, rfl⟩ : ∃ f, fuel = f + 1 + 1 := ⟨fuel - 2, by omega⟩
    by_cases hle : v ≤ 2 ^ 63
    · rw [nextPowerOfTwoReference.loop, if_neg (fun h => absurd h.2.1 (not_lt.mpr hle)),
        if_neg (not_lt.mpr hle)]
      congr 2
      apply le_antisymm
      · rcases hbelow with h0 | h0
        · omega
        · by_contra hlt
          have := (hc v 62).mpr (by omega)
          have e : 2 ^ (63 - 1) = 2 ^ 62 := rfl
          omega
      · exact (hc v 63).mp hle
    · have hgt : 2 ^ 63 < v := not_le.mp hle
      have hm : (2 : ℕ) ^ 63 < 2 ^ 64 - 1 := by norm_num
      have hw : (2 : ℕ) ^ 63 * 2 % 2 ^ 64 = 0 := by norm_num
      rw [nextPowerOfTwoReference.loop, if_pos ⟨hm, hgt, hprev⟩, hw,
        nextPowerOfTwoReference.loop, if_neg (fun h => absurd h.2.2 (by norm_num)),
        if_pos hgt]
  | succ j ih =>
    intro k prev fuel hk hprev hfuel hbelow
    obtain ⟨f, rfl⟩ : ∃ f, fuel = f + 1 := ⟨fuel - 1, by omega⟩
    have hk62 : k ≤ 62 := by omega
    have hp63 : 2 ^ k ≤ 2 ^ 62 := Nat.pow_le_pow_right (by norm_num) hk62
    by_cases hle : v ≤ 2 ^ k
    · have h63 : ¬ 2 ^ 63 < v := by
        have : (2 : ℕ) ^ 62 < 2 ^ 63 := by norm_num
        omega
      rw [nextPowerOfTwoReference.loop, if_neg (fun h => absurd h.2.1 (not_lt.mpr hle)),
        if_neg h63]
      congr 2
      apply le_antisymm
      · rcases hbelow with h0 | h0
        · omega
        · by_contra hlt
          have := (hc v (k - 1)).mpr (by omega)
          omega
      · exact (hc v k).mp hle
    · have hgt : 2 ^ k < v := not_le.mp hle
      have hm : 2 ^ k < 2 ^ 64 - 1 := by
        have : (2 : ℕ) ^ 62 < 2 ^ 64 - 1 := by norm_num
        omega
      have hw : 2 ^ k * 2 % 2 ^ 64 = 2 ^ (k + 1) := by
        rw [← pow_succ]
        apply Nat.mod_eq_of_lt
        exact Nat.pow_lt_pow_right (by norm_num) (by omega)
      rw [nextPowerOfTwoReference.loop, if_pos ⟨hm, hgt, hprev⟩, hw]
      exact ih (k + 1) (2 ^ k) f (by omega)
        (Nat.pow_lt_pow_right (by norm_num) (by omega)) (by omega)
        (Or.inr (by rw [Nat.add_sub_cancel]; exact hgt))

/-- The reference, with enough fuel for its loop, in closed form. -/
theorem nextPowerOfTwoReference_eq (v : ℕ) (hv : v < 2 ^ 64) (fuel : ℕ) (hfuel : 65 ≤ fuel) :
    nextPowerOfTwoReference fuel v =
      some (if v = 0 ∨ 2 ^ 63 < v then 0 else 2 ^ Nat.clog 2 v) := by
  unfold nextPowerOfTwoReference
  rw [Count.max_one]
  by_cases h0 : v = 0
  · simp only [h0, true_or, if_true]
  · have hgt : ¬ (v = 0 ∨ v > 2 ^ 64 - 1) := fun h => h.elim h0 (fun h' => by omega)
    simp only [if_neg hgt]
    have h := nextPowerOfTwoReference.loop_eq v (by omega) hv 63 0 0 fuel (by norm_num)
      (by norm_num) (by omega) (Or.inl rfl)
    rw [pow_zero] at h
    rw [h]
    by_cases hbig : 2 ^ 63 < v
    · rw [if_pos hbig, if_pos (Or.inr hbig)]
    · rw [if_neg hbig, if_neg (fun h => h.elim h0 hbig)]

/-- C30: for every 64 bit `size_t` value `v`, the compile-time
`Power2::constant::next(v)` and the branchless `Power2::next(v)` both equal the
reference `nextPowerOfTwoReference(v)` of the test, whose loop ends (within 65
tests of its condition); in particular the two variants agree. The value is the
smallest power of two that is at least `v` when `1 ≤ v ≤ 2 ^ 63`, and zero when
`v = 0` or `v > 2 ^ 63`. -/
theorem next_equals_reference (v : ℕ) (hv : v < 2 ^ 64) (fuel : ℕ) (hfuel : 65 ≤ fuel) :
    nextPowerOfTwoReference fuel v = some (Power2.next v) ∧
      nextPowerOfTwoReference fuel v = some (Power2.constant.next v) ∧
      Power2.constant.next v = Power2.next v ∧
      (1 ≤ v ∧ v ≤ 2 ^ 63 →
        ∃ k, Power2.next v = 2 ^ k ∧ v ≤ 2 ^ k ∧ ∀ j, v ≤ 2 ^ j → 2 ^ k ≤ 2 ^ j) ∧
      (v = 0 ∨ 2 ^ 63 < v → Power2.next v = 0) := by
  have hc : ∀ x y, x ≤ 2 ^ y ↔ Nat.clog 2 x ≤ y :=
    fun x y => Nat.le_pow_iff_clog_le (by norm_num)
  have hn := Power2.next_eq v hv
  have hr := nextPowerOfTwoReference_eq v hv fuel hfuel
  refine ⟨by rw [hr, hn], by rw [hr, Power2.next_constant_eq, hn], Power2.next_constant_eq v,
    ?_, ?_⟩
  · rintro ⟨h1, h2⟩
    rw [hn, if_neg (fun h => h.elim (by omega) (by omega))]
    exact ⟨Nat.clog 2 v, rfl, (hc v _).mpr le_rfl,
      fun j hj => Nat.pow_le_pow_right (by norm_num) ((hc v j).mp hj)⟩
  · intro h
    rw [hn, if_pos h]

theorem next_equals_reference_witness :
    nextPowerOfTwoReference 65 1000 = some (Power2.next 1000) ∧
      Power2.constant.next 1000 = Power2.next 1000 ∧
      nextPowerOfTwoReference 65 (2 ^ 63 + 1) = some (Power2.next (2 ^ 63 + 1)) ∧
      Power2.next (2 ^ 63 + 1) = 0 :=
  ⟨(next_equals_reference 1000 (by norm_num) 65 le_rfl).1,
    (next_equals_reference 1000 (by norm_num) 65 le_rfl).2.2.1,
    (next_equals_reference (2 ^ 63 + 1) (by norm_num) 65 le_rfl).1,
    (next_equals_reference (2 ^ 63 + 1) (by norm_num) 65 le_rfl).2.2.2.2
      (Or.inr (by norm_num))⟩

end NextReference

/-! ## The previous power of two -/

section PreviousPowerOfTwo

namespace Power2

theorem previous_constant_eq (v : ℕ) : constant.previous v = previous v := by
  unfold constant.previous previous
  exact next_constant_eq _

/-- The value of `previous` in closed form: `2 ^ k`, where `k` is the number of
binary digits of `v / 2`. -/
theorem previous_eq (v : ℕ) (hv : v < 2 ^ 64) : previous v = 2 ^ Nat.clog 2 (v / 2 + 1) := by
  unfold previous
  have h1 : v / 2 + 1 ≤ 2 ^ 63 := by omega
  rw [next_eq _ (by omega), if_neg (fun h => h.elim (by omega) (by omega))]

/-- The power `2 ^ clog₂ (v / 2 + 1)` is the largest power of two that is at
most `v`. -/
theorem two_pow_clog_half (v : ℕ) (hv1 : 1 ≤ v) :
    2 ^ Nat.clog 2 (v / 2 + 1) ≤ v ∧ ∀ j, 2 ^ j ≤ v → j ≤ Nat.clog 2 (v / 2 + 1) := by
  have hc : ∀ x y, x ≤ 2 ^ y ↔ Nat.clog 2 x ≤ y :=
    fun x y => Nat.le_pow_iff_clog_le (by norm_num)
  obtain ⟨k, hk⟩ : ∃ k, Nat.clog 2 (v / 2 + 1) = k := ⟨_, rfl⟩
  rw [hk]
  have hup : v / 2 + 1 ≤ 2 ^ k := (hc _ k).mpr (le_of_eq hk)
  constructor
  · rcases Nat.eq_zero_or_pos k with h0 | hpos
    · rw [h0, pow_zero]
      exact hv1
    · have hlow : ¬ v / 2 + 1 ≤ 2 ^ (k - 1) := fun h => by
        have := (hc _ (k - 1)).mp h
        omega
      have e : 2 ^ k = 2 ^ (k - 1) * 2 := by
        rw [← pow_succ]
        congr 1
        omega
      omega
  · intro j hj
    by_contra hlt
    have h1 : 2 ^ (k + 1) ≤ 2 ^ j := Nat.pow_le_pow_right (by norm_num) (by omega)
    have e : 2 ^ (k + 1) = 2 ^ k * 2 := pow_succ 2 k
    omega

end Power2

/-- The loop of `previousPowerOfTwoReference`, entered with a power of two that
is at least the largest power of two `2 ^ k ≤ size`: it returns `2 ^ k`. -/
theorem previousPowerOfTwoReference.loop_halves (v k : ℕ) (hk : 2 ^ k ≤ v)
    (hmax : ∀ j, 2 ^ j ≤ v → j ≤ k) (d : ℕ) :
    ∀ i, i = k + d → previousPowerOfTwoReference.loop v (2 ^ i) = 2 ^ k := by
  induction d with
  | zero =>
    intro i hi
    rw [Nat.add_zero] at hi
    subst hi
    rw [previousPowerOfTwoReference.loop, if_neg (by omega)]
  | succ d ih =>
    intro i hi
    have hgt : 2 ^ i > v := by
      by_contra hle
      have := hmax i (by omega)
      omega
    have hd : 2 ^ i / 2 = 2 ^ (k + d) := by
      rw [hi, ← Nat.add_assoc, pow_succ, Nat.mul_div_cancel _ (by norm_num)]
    rw [previousPowerOfTwoReference.loop, if_pos hgt, hd]
    exact ih (k + d) rfl

/-- C31: for every `size_t` value `v ≥ 1`, the compile-time and the branchless
`Power2::previous(v)` both return the largest power of two that is at most `v`
(`v` itself when `v` is a power of two), and this is what
`previousPowerOfTwoReference(v)` computes. -/
theorem previous_is_largest_power_of_two (v : ℕ) (hv1 : 1 ≤ v) (hv : v < 2 ^ 64) (fuel : ℕ)
    (hfuel : 65 ≤ fuel) :
    previousPowerOfTwoReference fuel v = some (Power2.previous v) ∧
      Power2.constant.previous v = Power2.previous v ∧
      (∃ k, Power2.previous v = 2 ^ k ∧ 2 ^ k ≤ v ∧ ∀ j, 2 ^ j ≤ v → 2 ^ j ≤ 2 ^ k) ∧
      ((∃ k, v = 2 ^ k) → Power2.previous v = v) := by
  have hc : ∀ x y, x ≤ 2 ^ y ↔ Nat.clog 2 x ≤ y :=
    fun x y => Nat.le_pow_iff_clog_le (by norm_num)
  have hp := Power2.previous_eq v hv
  obtain ⟨h1, h2⟩ := Power2.two_pow_clog_half v hv1
  have hk63 : Nat.clog 2 (v / 2 + 1) ≤ 63 := (hc _ 63).mp (by omega)
  refine ⟨?_, Power2.previous_constant_eq v, ⟨_, hp, h1,
    fun j hj => Nat.pow_le_pow_right (by norm_num) (h2 j hj)⟩, ?_⟩
  · unfold previousPowerOfTwoReference
    rw [Count.max_one]
    have hgt : ¬ (v = 0 ∨ v > 2 ^ 64 - 1) := fun h => h.elim (by omega) (fun h' => by omega)
    simp only [if_neg hgt]
    have hhalf : (2 ^ 64 - 1) / 2 = 2 ^ 63 - 1 := by norm_num
    have hn := nextPowerOfTwoReference_eq (2 ^ 63 - 1) (by norm_num) fuel hfuel
    have h63 : Nat.clog 2 (2 ^ 63 - 1) = 63 := by
      apply le_antisymm
      · exact (hc _ 63).mp (by norm_num)
      · by_contra hlt
        have := (hc (2 ^ 63 - 1) 62).mpr (by omega)
        norm_num at this
    rw [if_neg (fun h => h.elim (by norm_num) (by norm_num)), h63] at hn
    rw [hhalf, hn]
    show some (previousPowerOfTwoReference.loop v (2 ^ 63)) = some (Power2.previous v)
    rw [hp, previousPowerOfTwoReference.loop_halves v _ h1 h2 (63 - Nat.clog 2 (v / 2 + 1)) 63
      (by omega)]
  · rintro ⟨k, rfl⟩
    rw [hp]
    have := h2 k le_rfl
    have hle : 2 ^ k ≤ 2 ^ Nat.clog 2 (2 ^ k / 2 + 1) := Nat.pow_le_pow_right (by norm_num) this
    omega

theorem previous_is_largest_power_of_two_witness :
    previousPowerOfTwoReference 65 1000 = some (Power2.previous 1000) ∧
      Power2.constant.previous 1000 = Power2.previous 1000 ∧
      Power2.previous (2 ^ 10) = 2 ^ 10 :=
  ⟨(previous_is_largest_power_of_two 1000 (by norm_num) (by norm_num) 65 le_rfl).1,
    (previous_is_largest_power_of_two 1000 (by norm_num) (by norm_num) 65 le_rfl).2.1,
    (previous_is_largest_power_of_two (2 ^ 10) (by norm_num) (by norm_num) 65 le_rfl).2.2.2
      ⟨10, rfl⟩⟩

end PreviousPowerOfTwo

/-! ## `within`, `is`, `aligned_with` and `Count::product` -/

section BitFunctions

namespace Power2

theorem sub_one_wrap {p : ℕ} (h1 : 1 ≤ p) (hp : p < 2 ^ 64) :
    (p + 2 ^ 64 - 1) % 2 ^ 64 = p - 1 := by
  have e : p + 2 ^ 64 - 1 = p - 1 + 2 ^ 64 := by omega
  rw [e, Nat.add_mod_right, Nat.mod_eq_of_lt (by omega)]

theorem fill_zero : fill 0 = 0 := by
  rw [fill_eq 0 (by norm_num)]
  norm_num

theorem testBit_lt_of_lt_two_pow {v j : ℕ} (hv : v < 2 ^ 64) (h : v.testBit j = true) :
    j < 64 := by
  have hge := Nat.testBit_implies_ge h
  by_contra hj
  have : 2 ^ 64 ≤ 2 ^ j := Nat.pow_le_pow_right (by norm_num) (by omega)
  omega

/-- The value of `within` for a power of two. -/
theorem within_eq (v k : ℕ) (hv : v < 2 ^ 64) (hk : k ≤ 63) :
    within v (2 ^ k) = if v < 2 ^ k then v else 2 ^ k - 1 := by
  have hp1 : 1 ≤ 2 ^ k := Nat.one_le_two_pow
  have hp : 2 ^ k < 2 ^ 64 := Nat.pow_lt_pow_right (by norm_num) (by omega)
  have hbit : ∀ j, (v &&& ((2 ^ k - 1) ^^^ (2 ^ 64 - 1))).testBit j =
      (v.testBit j && decide (k ≤ j)) := by
    intro j
    rw [Nat.testBit_and, Nat.testBit_xor, Nat.testBit_two_pow_sub_one,
      Nat.testBit_two_pow_sub_one]
    cases hvj : v.testBit j
    · rfl
    · have hj := testBit_lt_of_lt_two_pow hv hvj
      by_cases hkj : k ≤ j
      · simp [hkj, hj, not_lt.mpr hkj]
      · have : j < k := not_le.mp hkj
        simp [hkj, hj, this]
  unfold within
  rw [sub_one_wrap hp1 hp]
  by_cases hlt : v < 2 ^ k
  · rw [if_pos hlt]
    have hzero : v &&& ((2 ^ k - 1) ^^^ (2 ^ 64 - 1)) = 0 := by
      apply Nat.eq_of_testBit_eq
      intro j
      rw [hbit, Nat.zero_testBit]
      cases hvj : v.testBit j
      · rfl
      · have hge := Nat.testBit_implies_ge hvj
        have hjk : ¬ k ≤ j := fun hkj => by
          have : 2 ^ k ≤ 2 ^ j := Nat.pow_le_pow_right (by norm_num) hkj
          omega
        simp [hjk]
    rw [hzero, fill_zero, Nat.zero_or, Nat.and_pow_two_sub_one_eq_mod, Nat.mod_eq_of_lt hlt]
  · rw [if_neg hlt]
    obtain ⟨j, hj1, hj2⟩ := Nat.ge_two_pow_implies_high_bit_true (not_lt.mp hlt)
    have hj64 := testBit_lt_of_lt_two_pow hv hj2
    apply Nat.eq_of_testBit_eq
    intro i
    rw [Nat.testBit_and, Nat.testBit_or, Nat.testBit_two_pow_sub_one]
    by_cases hik : i < k
    · have hf : (fill (v &&& ((2 ^ k - 1) ^^^ (2 ^ 64 - 1)))).testBit i = true := by
        rw [fill_testBit]
        refine ⟨j, by omega, by norm_num; omega, ?_⟩
        rw [hbit, hj2]
        simp [hj1]
      rw [hf]
      simp [hik]
    · simp [hik]

theorem within_constant_eq (v p : ℕ) : constant.within v p = within v p := by
  unfold constant.within within
  rw [fill_eq_constant_fill]

/-- C32: for every power of two `p` (`1`, `2`, `4`, ..., `2 ^ 63`) and every
`size_t` value `v`, `Power2::within(v, p)` (and its compile-time variant)
returns `v` when `v < p` and `p - 1` when `v ≥ p`, that is `min(v, p - 1)`. -/
theorem within_is_min (v k : ℕ) (hv : v < 2 ^ 64) (hk : k ≤ 63) :
    within v (2 ^ k) = min v (2 ^ k - 1) ∧ constant.within v (2 ^ k) = within v (2 ^ k) ∧
      (v < 2 ^ k → within v (2 ^ k) = v) ∧ (2 ^ k ≤ v → within v (2 ^ k) = 2 ^ k - 1) := by
  have hp1 : 1 ≤ 2 ^ k := Nat.one_le_two_pow
  have h := within_eq v k hv hk
  refine ⟨?_, within_constant_eq v _, ?_, ?_⟩
  · rw [h]
    by_cases hlt : v < 2 ^ k
    · rw [if_pos hlt, min_eq_left (by omega)]
    · rw [if_neg hlt, min_eq_right (by omega)]
  · intro hlt
    rw [h, if_pos hlt]
  · intro hge
    rw [h, if_neg (by omega)]

theorem within_is_min_witness :
    within 5 (2 ^ 3) = 5 ∧ within 1000 (2 ^ 3) = 2 ^ 3 - 1 ∧ within 1000 (2 ^ 0) = 2 ^ 0 - 1 :=
  ⟨(within_is_min 5 3 (by norm_num) (by norm_num)).2.2.1 (by norm_num),
    (within_is_min 1000 3 (by norm_num) (by norm_num)).2.2.2 (by norm_num),
    (within_is_min 1000 0 (by norm_num) (by norm_num)).2.2.2 (by norm_num)⟩

theorem is_constant_eq (v : ℕ) : constant.is v = is v := by
  unfold constant.is is constant.minus_one minus_one
  rw [fill_eq_constant_fill]

theorem is_one : is 1 = false := by
  unfold is
  rw [if_neg (by norm_num)]

/-- What `is` decides: a power of two that is at least two. -/
theorem is_eq_true_iff (v : ℕ) (hv : v < 2 ^ 64) : is v = true ↔ ∃ k, 1 ≤ k ∧ v = 2 ^ k := by
  have hc : ∀ x y, x ≤ 2 ^ y ↔ Nat.clog 2 x ≤ y :=
    fun x y => Nat.le_pow_iff_clog_le (by norm_num)
  unfold is minus_one
  by_cases h2 : v ≥ 2
  · rw [if_pos h2, decide_eq_true_iff, fill_eq _ (by omega)]
    have e1 : v - 1 + 1 = v := by omega
    rw [e1]
    have hpos : 1 ≤ 2 ^ Nat.clog 2 v := Nat.one_le_two_pow
    constructor
    · intro h
      have hv' : v = 2 ^ Nat.clog 2 v := by omega
      refine ⟨Nat.clog 2 v, ?_, hv'⟩
      by_contra h0
      have : Nat.clog 2 v = 0 := by omega
      rw [this, pow_zero] at hv'
      omega
    · rintro ⟨k, -, rfl⟩
      rw [Nat.clog_pow 2 k (by norm_num)]
  · rw [if_neg h2]
    constructor
    · intro h
      cases h
    · rintro ⟨k, hk, rfl⟩
      exfalso
      have : 2 ^ 1 ≤ 2 ^ k := Nat.pow_le_pow_right (by norm_num) hk
      omega

/-- The counterexample to C34: the value 1, which is `2 ^ 0`, is not a power of
two for `is`. -/
theorem is_one_false :
    is 1 = false ∧ constant.is 1 = false ∧ (1 : ℕ) = 2 ^ 0 ∧ ¬ (is 1 = true ↔ ∃ k, 1 = 2 ^ k) := by
  refine ⟨is_one, by rw [is_constant_eq, is_one], rfl, ?_⟩
  rw [is_one]
  intro h
  have := h.mpr ⟨0, rfl⟩
  cases this

/-- C34, amended: for every `size_t` value `v`, `Power2::is(v)` (and
`Power2::constant::is(v)`) returns true exactly when `v` is a power of two that
is at least two: the guard `value >= 2` excludes `1 = 2 ^ 0`. -/
theorem is_iff_power_of_two_ge_two (v : ℕ) (hv : v < 2 ^ 64) :
    (is v = true ↔ ∃ k, 1 ≤ k ∧ v = 2 ^ k) ∧ constant.is v = is v :=
  ⟨is_eq_true_iff v hv, is_constant_eq v⟩

theorem is_iff_power_of_two_ge_two_witness : is (2 ^ 10) = true ∧ is 1000 = false := by
  refine ⟨(is_iff_power_of_two_ge_two (2 ^ 10) (by norm_num)).1.mpr ⟨10, by norm_num, rfl⟩, ?_⟩
  cases h : is 1000
  · rfl
  · exfalso
    obtain ⟨k, -, hk⟩ := (is_iff_power_of_two_ge_two 1000 (by norm_num)).1.mp h
    have h9 : k ≤ 9 ∨ 10 ≤ k := by omega
    rcases h9 with h9 | h9
    · have : 2 ^ k ≤ 2 ^ 9 := Nat.pow_le_pow_right (by norm_num) h9
      omega
    · have : 2 ^ 10 ≤ 2 ^ k := Nat.pow_le_pow_right (by norm_num) h9
      omega

/-- The bits of `value | (2 ^ k - 1)`: the value with its `k` lowest bits set. -/
theorem or_two_pow_sub_one (v k : ℕ) : v ||| (2 ^ k - 1) = 2 ^ k * (v / 2 ^ k) + (2 ^ k - 1) := by
  have hp1 : 1 ≤ 2 ^ k := Nat.one_le_two_pow
  apply Nat.eq_of_testBit_eq
  intro j
  rw [Nat.testBit_or, Nat.testBit_two_pow_sub_one,
    Nat.testBit_mul_pow_two_add _ (by omega : 2 ^ k - 1 < 2 ^ k), Nat.testBit_two_pow_sub_one]
  by_cases hjk : j < k
  · simp [hjk]
  · have e : k + (j - k) = j := by omega
    rw [if_neg hjk, ← Nat.shiftRight_eq_div_pow, Nat.testBit_shiftRight, e]
    simp [hjk]

/-- The value of `unchecked_aligned` for a power of two: the first multiple of
the power that is above the value, also when the value is a multiple itself. -/
theorem unchecked_aligned_eq (v k : ℕ) (hk : k ≤ 63) :
    unchecked_aligned v (2 ^ k) = (2 ^ k * (v / 2 ^ k + 1)) % 2 ^ 64 := by
  have hp1 : 1 ≤ 2 ^ k := Nat.one_le_two_pow
  have hp : 2 ^ k < 2 ^ 64 := Nat.pow_lt_pow_right (by norm_num) (by omega)
  unfold unchecked_aligned
  rw [sub_one_wrap hp1 hp, or_two_pow_sub_one]
  congr 1
  rw [Nat.mul_add, Nat.mul_one]
  omega

theorem aligned_with_constant_eq (v p : ℕ) : constant.aligned_with v p = aligned_with v p := by
  unfold constant.aligned_with aligned_with
  rw [is_constant_eq]
  rfl

/-- The counterexample to C35: `aligned_with(5, 1)` is zero although `1 = 2 ^ 0`
divides 5, `aligned_with(8, 4)` is 12 although 8 is a multiple of 4, and
`aligned_with(2 ^ 64 - 1, 4)` is zero, the first higher multiple of 4 being
`2 ^ 64`. -/
theorem aligned_with_counterexample :
    aligned_with 5 1 = 0 ∧ (1 : ℕ) = 2 ^ 0 ∧ aligned_with 8 4 = 12 ∧ 4 ∣ 8 ∧
      aligned_with (2 ^ 64 - 1) 4 = 0 := by
  have h4 : is 4 = true := (is_eq_true_iff 4 (by norm_num)).mpr ⟨2, by norm_num, rfl⟩
  refine ⟨?_, rfl, ?_, by norm_num, ?_⟩
  · unfold aligned_with
    rw [is_one]
    rfl
  · unfold aligned_with
    rw [h4, if_pos rfl]
    have e := unchecked_aligned_eq 8 2 (by norm_num)
    have e4 : (2 : ℕ) ^ 2 = 4 := by norm_num
    rw [e4] at e
    rw [e]
    norm_num
  · unfold aligned_with
    rw [h4, if_pos rfl]
    have e := unchecked_aligned_eq (2 ^ 64 - 1) 2 (by norm_num)
    have e4 : (2 : ℕ) ^ 2 = 4 := by norm_num
    rw [e4] at e
    rw [e]
    norm_num

/-- C35, amended: for every value and every `power_of_two` that is a power of
two of at least two, `Power2::aligned_with(value, power_of_two)` returns, for a
value that is not a multiple of `power_of_two`, the first higher value that is a
multiple of `power_of_two` (when that is below `2 ^ 64`); and it returns zero if
`power_of_two` is not a power of two of at least two, so also for
`power_of_two = 1`. -/
theorem aligned_with_contract (v p : ℕ) (hp : p < 2 ^ 64) :
    (¬ (∃ k, 1 ≤ k ∧ p = 2 ^ k) → aligned_with v p = 0) ∧
      ((∃ k, 1 ≤ k ∧ p = 2 ^ k) → ¬ p ∣ v → p * (v / p + 1) < 2 ^ 64 →
        p ∣ aligned_with v p ∧ v < aligned_with v p ∧
          ∀ u, v ≤ u → p ∣ u → aligned_with v p ≤ u) ∧
      constant.aligned_with v p = aligned_with v p := by
  have hi := is_eq_true_iff p hp
  refine ⟨?_, ?_, aligned_with_constant_eq v p⟩
  · intro hn
    unfold aligned_with
    have : is p = false := by
      cases h : is p
      · rfl
      · exact absurd (hi.mp h) hn
    rw [this]
    rfl
  · rintro ⟨k, hk1, rfl⟩ hnd hfit
    have hk : k ≤ 63 := by
      by_contra hlt
      have : 2 ^ 64 ≤ 2 ^ k := Nat.pow_le_pow_right (by norm_num) (by omega)
      omega
    have hval : aligned_with v (2 ^ k) = 2 ^ k * (v / 2 ^ k + 1) := by
      unfold aligned_with
      rw [hi.mpr ⟨k, hk1, rfl⟩, if_pos rfl, unchecked_aligned_eq v k hk, Nat.mod_eq_of_lt hfit]
    have hpos : 0 < 2 ^ k := Nat.two_pow_pos k
    rw [hval]
    refine ⟨Dvd.intro _ rfl, ?_, ?_⟩
    · have := Nat.lt_mul_div_succ v hpos
      exact this
    · rintro u hvu ⟨c, rfl⟩
      apply Nat.mul_le_mul_left
      have h1 : v / 2 ^ k ≤ c := by
        rw [Nat.div_le_iff_le_mul_add_pred hpos]
        calc v ≤ 2 ^ k * c := hvu
          _ ≤ 2 ^ k * c + (2 ^ k - 1) := Nat.le_add_right _ _
      rcases Nat.eq_or_lt_of_le h1 with heq | hlt
      · exfalso
        apply hnd
        have hle : 2 ^ k * c ≤ v := by
          rw [← heq]
          exact Nat.mul_div_le v (2 ^ k)
        have : v = 2 ^ k * c := le_antisymm hvu hle
        exact ⟨c, this⟩
      · exact hlt

theorem aligned_with_contract_witness :
    4 ∣ aligned_with 5 4 ∧ 5 < aligned_with 5 4 ∧ aligned_with 5 3 = 0 :=
  have h := aligned_with_contract 5 4 (by norm_num)
  have h' := h.2.1 ⟨2, by norm_num, by norm_num⟩ (by norm_num) (by norm_num)
  ⟨h'.1, h'.2.1, (aligned_with_contract 5 3 (by norm_num)).1 (by
    rintro ⟨k, hk, h3⟩
    have h1 : k = 1 ∨ 2 ≤ k := by omega
    rcases h1 with h1 | h1
    · rw [h1] at h3
      norm_num at h3
    · have : 2 ^ 2 ≤ 2 ^ k := Nat.pow_le_pow_right (by norm_num) h1
      omega)⟩

end Power2

namespace Count

/-- The value of `product` where its first test passes: the product when it is
at most `max()`, and zero otherwise. -/
theorem product_eq (SIZEOF cnt1 cnt2 : ℕ) (h : cnt1 * cnt1 % 2 ^ 64 > 0) :
    product SIZEOF cnt1 cnt2 = if cnt1 * cnt2 ≤ max SIZEOF then cnt1 * cnt2 else 0 := by
  have hpos : 0 < cnt1 := by
    rcases Nat.eq_zero_or_pos cnt1 with h0 | h0
    · rw [h0] at h
      norm_num at h
    · exact h0
  have hmax : max SIZEOF < 2 ^ 64 := by
    unfold max SIZE_MAX
    exact lt_of_le_of_lt (Nat.div_le_self _ _) (by norm_num)
  have hiff : max SIZEOF / cnt1 ≥ cnt2 ↔ cnt1 * cnt2 ≤ max SIZEOF := by
    rw [ge_iff_le, Nat.le_div_iff_mul_le hpos, Nat.mul_comm]
  unfold product
  by_cases hle : cnt1 * cnt2 ≤ max SIZEOF
  · rw [if_pos ⟨h, hiff.mpr hle⟩, if_pos hle, Nat.mod_eq_of_lt (by omega)]
  · rw [if_neg (fun hh => hle (hiff.mp hh.2)), if_neg hle]

/-- C33 fails on the code: for elements of size one, `product(2 ^ 32, 1)` is
zero, although the product `2 ^ 32` is at most `max()`: the first test of
`product` is `cnt1 * cnt1 > 0`, and `2 ^ 32 * 2 ^ 32` is zero in `size_t`. -/
theorem product_of_two_pow_32 :
    product 1 (2 ^ 32) 1 = 0 ∧ 2 ^ 32 * 1 ≤ max 1 ∧ max 1 = 2 ^ 64 - 1 := by
  refine ⟨?_, ?_, max_one⟩
  · unfold product
    rw [if_neg (fun h => absurd h.1 (by norm_num))]
  · rw [max_one]
    norm_num

end Count

end BitFunctions

end tdap
